import Mathlib

/-!
# TriggerFlow (AgentEra/Agently-Go): a shallow embedding

Source files embedded here: `agently/triggerflow/{types,chunk,blueprint,execution,process,
triggerflow}.go` and the part of `agently/utils/runtime_data.go` they call.

Modelling conventions.

* Go `any` values are the inductive `Val`; `emptyMarker` (the unexported pointer
  `&struct{}{}`) is the constructor `Val.marker`, which no user value is, and
  `RuntimeStreamStop` is `Val.streamStop`.
* A Go `map[string]any` is an association list with pairwise distinct keys.  Go leaves the
  iteration order of a map unspecified; where the source ranges over a map and the order
  is observable, the model takes the order from an oracle (`World.seeds`), and theorems
  quantify over every oracle.
* Mutable state that the source keeps in package variables, in closures and behind
  pointers (the ID counter, `GlobalBlockData`, the `BlockData` scopes, the closure state
  of `Batch` and `When`, the executions of the flow) is the explicit record `World`.
* `EmitWithMarks` starts one goroutine per handler and waits for all of them.  The model
  runs the handlers of one dispatch one after the other, in an order chosen by the oracle.
  Nested dispatch can loop (a handler may emit the signal it listens to), so dispatch
  takes a fuel argument bounding the nesting depth.
* `World.trace` is a ghost record of every `EmitWithMarks` call (the source writes the same
  record to the trigger log); the model never reads it.
-/

set_option linter.dupNamespace false

namespace TriggerFlow

/-! ## Values -/

/-- The three signal kinds of `types.go`. -/
inductive TriggerType where
  | event
  | flow_data
  | runtime_data
  deriving DecidableEq, Repr

/-- The string a `TriggerType` is in Go (`type TriggerType string`). -/
def TriggerType.toString : TriggerType → String
  | .event => "event"
  | .flow_data => "flow_data"
  | .runtime_data => "runtime_data"

/-- Go values of static type `any` that flow through the engine. -/
inductive Val where
  | nil
  | bool (b : Bool)
  | int (n : Int)
  | str (s : String)
  | trig (t : TriggerType)
  | list (xs : List Val)
  | map (kvs : List (String × Val))
  | joinMap (m : List (TriggerType × List (String × Val)))
  | marker
  | streamStop
  deriving Inhabited

/-- A Go `map[string]any`. -/
abbrev GoMap := List (String × Val)

mutual
/-- Equality of two values as terms: the same constructors on the same arguments, the
entries of a map in the same order. -/
def Val.beq : Val → Val → Bool
  | .nil, .nil => true
  | .bool a, .bool b => a == b
  | .int a, .int b => a == b
  | .str a, .str b => a == b
  | .trig a, .trig b => a == b
  | .list xs, .list ys => Val.beqList xs ys
  | .map xs, .map ys => Val.beqMap xs ys
  | .joinMap xs, .joinMap ys => Val.beqJoin xs ys
  | .marker, .marker => true
  | .streamStop, .streamStop => true
  | _, _ => false
/-- Pointwise `Val.beq` on slices. -/
def Val.beqList : List Val → List Val → Bool
  | [], [] => true
  | x :: xs, y :: ys => Val.beq x y && Val.beqList xs ys
  | _, _ => false
/-- Pointwise `Val.beq` on association lists. -/
def Val.beqMap : List (String × Val) → List (String × Val) → Bool
  | [], [] => true
  | (k, x) :: xs, (l, y) :: ys => k == l && Val.beq x y && Val.beqMap xs ys
  | _, _ => false
/-- Pointwise `Val.beq` on join maps. -/
def Val.beqJoin : List (TriggerType × List (String × Val)) →
    List (TriggerType × List (String × Val)) → Bool
  | [], [] => true
  | (k, x) :: xs, (l, y) :: ys => k == l && Val.beqMap x y && Val.beqJoin xs ys
  | _, _ => false
end

/-- The test `value == emptyMarker` (pointer comparison against the package sentinel). -/
def Val.isMarker : Val → Bool
  | .marker => true
  | _ => false

/-- Go `==` on two interface values: `none` is the run-time panic Go raises when both
operands have the same uncomparable dynamic type (slice or map). -/
def goEq : Val → Val → Option Bool
  | .nil, .nil => some true
  | .bool a, .bool b => some (a == b)
  | .int a, .int b => some (a == b)
  | .str a, .str b => some (a == b)
  | .trig a, .trig b => some (a == b)
  | .marker, .marker => some true
  | .streamStop, .streamStop => some true
  | .list _, .list _ => none
  | .map _, .map _ => none
  | .joinMap _, .joinMap _ => none
  | _, _ => some false

/-- Pointwise comparison of two lists with a test that may give up (`none`). -/
def listEqb {α : Type} (f : α → α → Option Bool) : List α → List α → Option Bool
  | [], [] => some true
  | x :: xs, y :: ys =>
    match f x y with
    | none => none
    | some false => some false
    | some true => listEqb f xs ys
  | _, _ => some false

/-- Comparison of two keyed entries: the keys, then the values with `f`. -/
def pairEqb {κ α : Type} [DecidableEq κ] (f : α → α → Option Bool) (a b : κ × α) : Option Bool :=
  if a.1 = b.1 then f a.2 b.2 else some false

/-- Equality test on values to nesting depth `n`; `none` when the values are nested deeper. -/
def Val.eqb : Nat → Val → Val → Option Bool
  | 0, _, _ => none
  | n + 1, a, b =>
    match a, b with
    | .nil, .nil => some true
    | .bool x, .bool y => some (decide (x = y))
    | .int x, .int y => some (decide (x = y))
    | .str x, .str y => some (decide (x = y))
    | .trig x, .trig y => some (decide (x = y))
    | .marker, .marker => some true
    | .streamStop, .streamStop => some true
    | .list xs, .list ys => listEqb (Val.eqb n) xs ys
    | .map xs, .map ys => listEqb (pairEqb (Val.eqb n)) xs ys
    | .joinMap xs, .joinMap ys => listEqb (pairEqb (listEqb (pairEqb (Val.eqb n)))) xs ys
    | _, _ => some false

/-- The type assertion `v.(map[string]any)`, with the zero map when it fails. -/
def Val.asMap : Val → GoMap
  | .map kvs => kvs
  | _ => []

/-- The type assertion `v.([]any)`. -/
def Val.asList : Val → Option (List Val)
  | .list xs => some xs
  | _ => none

/-! ## Go maps -/

/-- The lookup `m[k]`. -/
def mapGet {β : Type} (m : List (String × β)) (k : String) : Option β :=
  match m with
  | [] => none
  | (a, b) :: rest => if a = k then some b else mapGet rest k

/-- The assignment `m[k] = v`. -/
def mapSet {β : Type} (m : List (String × β)) (k : String) (v : β) : List (String × β) :=
  match m with
  | [] => [(k, v)]
  | (a, b) :: rest => if a = k then (a, v) :: rest else (a, b) :: mapSet rest k v

/-- The statement `delete(m, k)`. -/
def mapDel {β : Type} (m : List (String × β)) (k : String) : List (String × β) :=
  match m with
  | [] => []
  | (a, b) :: rest => if a = k then rest else (a, b) :: mapDel rest k

/-! ## Iteration order of a Go map -/

/-- Inserts `x` at position `n` of `xs` (at the end when `xs` is shorter). -/
def insertAt {α : Type} (x : α) : Nat → List α → List α
  | 0, xs => x :: xs
  | _ + 1, [] => [x]
  | n + 1, y :: ys => y :: insertAt x n ys

/-- The permutation of `xs` coded by `seed` (factorial number system); seed `0` is the
identity. -/
def shuffle {α : Type} : Nat → List α → List α
  | _, [] => []
  | _, [x] => [x]
  | seed, x :: y :: xs =>
    insertAt x (seed % (xs.length + 2)) (shuffle (seed / (xs.length + 2)) (y :: xs))

/-! ## `utils/runtime_data.go`

Every `RuntimeData` the engine creates has a nil parent, so `Data(inherit)` is the own
data and a `RuntimeData` is its `data` map.  `deepCopyAny` is the identity on immutable
values. -/

/-- The predicate `unicode.IsSpace`. -/
def isSpace (c : Char) : Bool :=
  let n := c.toNat
  (9 ≤ n && n ≤ 13) || n == 32 || n == 133 || n == 160 || n == 5760 ||
    (8192 ≤ n && n ≤ 8202) || n == 8232 || n == 8233 || n == 8239 || n == 8287 || n == 12288

/-- The test `strings.TrimSpace(path) == ""`. -/
def isBlank (path : String) : Bool := path.data.all isSpace

/-- The call `strings.Split(s, ".")` on the characters of `s`. -/
def splitDotChars : List Char → List (List Char)
  | [] => [[]]
  | c :: cs =>
    if c = '.' then [] :: splitDotChars cs
    else
      match splitDotChars cs with
      | [] => [[c]]
      | p :: ps => (c :: p) :: ps

/-- The call `strings.Split(path, ".")`. -/
def splitDot (path : String) : List String := (splitDotChars path.data).map String.mk

mutual
/-- The call `reflect.DeepEqual(a, b)` on two values: scalars and sentinels are compared as
by `==`, slices element by element, and maps key by key, whatever the order in which the
entries are listed. -/
def Val.deepEqual : Val → Val → Bool
  | .nil, .nil => true
  | .bool a, .bool b => a == b
  | .int a, .int b => a == b
  | .str a, .str b => a == b
  | .trig a, .trig b => a == b
  | .list xs, .list ys => Val.deepEqualList xs ys
  | .map xs, .map ys => xs.length == ys.length && Val.deepEqualMap xs ys
  | .joinMap xs, .joinMap ys => xs.length == ys.length && Val.deepEqualJoin xs ys
  | .marker, .marker => true
  | .streamStop, .streamStop => true
  | _, _ => false
/-- Pointwise `Val.deepEqual` on slices of the same length. -/
def Val.deepEqualList : List Val → List Val → Bool
  | [], [] => true
  | x :: xs, y :: ys => Val.deepEqual x y && Val.deepEqualList xs ys
  | _, _ => false
/-- Every entry of the first map has a deeply equal entry under the same key in the second. -/
def Val.deepEqualMap : List (String × Val) → List (String × Val) → Bool
  | [], _ => true
  | (k, x) :: xs, ys =>
    (match mapGet ys k with
      | some y => Val.deepEqual x y
      | none => false) && Val.deepEqualMap xs ys
/-- Every entry of the first join map has a deeply equal map under the same trigger type in
the second. -/
def Val.deepEqualJoin : List (TriggerType × List (String × Val)) →
    List (TriggerType × List (String × Val)) → Bool
  | [], _ => true
  | (t, m) :: xs, ys =>
    (match ys.lookup t with
      | some n => m.length == n.length && Val.deepEqualMap m n
      | none => false) && Val.deepEqualJoin xs ys
end

/-- The call `containsAny(slice, target)`. -/
def containsAny (slice : List Val) (target : Val) : Bool :=
  slice.any (fun it => Val.deepEqual it target)

/-- The call `appendUniqueAny(base, incoming)`. -/
def appendUniqueAny (base : List Val) : List Val → List Val
  | [] => base
  | it :: rest =>
    if containsAny base it then appendUniqueAny base rest else appendUniqueAny (base ++ [it]) rest

mutual
/-- The call `mergeValue(existing, incoming)`. -/
def mergeValue (existing : Val) : Val → Val
  | .map inc =>
    match existing with
    | .map ex => .map (mergeMaps ex inc)
    | .list ex => .list (appendUniqueAny ex [.map inc])
    | _ => .map inc
  | .list inc =>
    match existing with
    | .list ex => .list (appendUniqueAny ex inc)
    | _ => .list inc
  | incoming =>
    match existing with
    | .list ex => .list (appendUniqueAny ex [incoming])
    | _ => incoming
/-- The call `mergeMaps(base, override)`: the loop over `override`, accumulating in the copy
of `base`. -/
def mergeMaps (base : GoMap) : GoMap → GoMap
  | [] => base
  | (k, v) :: rest =>
    match mapGet base k with
    | some existing => mergeMaps (mapSet base k (mergeValue existing v)) rest
    | none => mergeMaps (mapSet base k v) rest
end

/-- The loop of `getByDotPath` over the parts of the path. -/
def getParts : Val → List String → Option Val
  | cur, [] => some cur
  | .map m, p :: ps =>
    match mapGet m p with
    | none => none
    | some v => getParts v ps
  | _, _ :: _ => none

/-- The call `getByDotPath(data, path)`; `none` is `ok == false`. -/
def getByDotPath (data : GoMap) (path : String) : Option Val :=
  if isBlank path then some (.map data) else getParts (.map data) (splitDot path)

/-- The loop of `setByDotPath` over the parts of the path, on the map `current`. -/
def setParts (current : GoMap) : List String → Val → Bool → GoMap
  | [], _, _ => current
  | [part], value, cover =>
    if !cover then
      match mapGet current part with
      | some old => mapSet current part (mergeValue old value)
      | none => mapSet current part value
    else mapSet current part value
  | part :: p :: ps, value, cover =>
    match mapGet current part with
    | some (.map child) => mapSet current part (.map (setParts child (p :: ps) value cover))
    | _ => mapSet current part (.map (setParts [] (p :: ps) value cover))

/-- The call `setByDotPath(&root, path, value, cover)`. -/
def setByDotPath (root : GoMap) (path : String) (value : Val) (cover : Bool) : GoMap :=
  if isBlank path then
    match value with
    | .map m => m
    | _ => root
  else setParts root (splitDot path) value cover

/-- The loop of `deleteByDotPath` over the parts of the path. -/
def deleteParts (current : GoMap) : List String → GoMap
  | [] => current
  | [part] => mapDel current part
  | part :: p :: ps =>
    match mapGet current part with
    | some (.map child) => mapSet current part (.map (deleteParts child (p :: ps)))
    | _ => current

/-- The call `deleteByDotPath(&root, path)`. -/
def deleteByDotPath (root : GoMap) (path : String) : GoMap :=
  if isBlank path then [] else deleteParts root (splitDot path)

/-- The method `RuntimeData.Get(path, defaultValue, inherit)`. -/
def RuntimeData.Get (r : GoMap) (path : String) (defaultValue : Val) : Val :=
  if isBlank path then .map r
  else
    match getByDotPath r path with
    | some v => v
    | none => defaultValue

/-- The method `RuntimeData.Has(path, inherit)`. -/
def RuntimeData.Has (r : GoMap) (path : String) : Bool := (getByDotPath r path).isSome

/-- The method `RuntimeData.Set(path, value)`: a merging write (`cover == false`). -/
def RuntimeData.Set (r : GoMap) (path : String) (value : Val) : GoMap :=
  setByDotPath r path value false

/-- The method `RuntimeData.Delete(path)`. -/
def RuntimeData.Delete (r : GoMap) (path : String) : GoMap := deleteByDotPath r path

/-- The method `RuntimeData.Append(path, value)`. -/
def RuntimeData.Append (r : GoMap) (path : String) (value : Val) : GoMap :=
  match getByDotPath r path with
  | none => setByDotPath r path (.list [value]) true
  | some .nil => setByDotPath r path (.list [value]) true
  | some (.list typed) => setByDotPath r path (.list (typed ++ [value])) true
  | some cur => setByDotPath r path (.list [cur, value]) true

/-- The call `strings.Trim(path, ".")` on characters: leading dots. -/
def dropDots : List Char → List Char
  | [] => []
  | c :: cs => if c = '.' then dropDots cs else c :: cs

/-- The call `strings.Trim(path, ".")`. -/
def trimDots (path : String) : String :=
  String.mk (dropDots (dropDots path.data).reverse).reverse

/-- The method `RuntimeDataNamespace.full(path)` of the namespace `ns`. -/
def nsFull (ns : String) (path : String) : String :=
  let path := trimDots path
  if path = "" then ns else if ns = "" then path else ns ++ "." ++ path



/-! ## State -/

/-- Go `error` values: an error returned by a handler, and the error of
`GetResultWithContext` when the context ends before a result is set. -/
inductive GoError where
  | handler (msg : String)
  | resultTimeout
  deriving DecidableEq, Repr

/-- Ways a run of the model stops without returning: the fuel bounding nested dispatch is
used up, a goroutine blocks for ever (on a permit that no running handler can release, or on
a send to a full channel that nothing receives from), or Go panics. -/
inductive Stuck where
  | outOfFuel
  | deadlock
  | panic
  deriving DecidableEq, Repr

/-- Outcome of a run of the model. -/
abbrev Run (α : Type) := Except Stuck α

/-- The struct `EventData` of `execution.go` (`Event` and `Type` always equal `TriggerEvent`
and `TriggerType`; `execution` is named by `ExecutionID`). -/
structure EventData where
  TriggerEvent : String
  TriggerType : TriggerType
  Value : Val
  ExecutionID : String
  layerMarks : List String

/-- A `Case` condition: a literal compared with `==`, or a `Condition` function. -/
inductive CaseCond where
  | literal (v : Val)
  | predicate (f : EventData → Bool)

/-- The struct `BlockData` of `types.go`, with the keys the builder stores in `Data` as
fields (`none` is an absent key); `Outer` is the address of the parent scope. -/
structure BlockData where
  Outer : Option Nat
  for_each_id : Option String
  match_id : Option String
  cases : List (String × CaseCond)
  branch_ends : List String
  is_first_case : Option Bool
  has_else : Option Bool

/-- The variables a `Batch` call shares with its `waitAllChunks` closure. -/
structure BatchState where
  results : GoMap
  triggersToWait : List (String × Bool)
  triggerToChunkName : List (String × String)

/-- The mutable fields of the struct `Execution` (`semaphore` is the capacity of the permit
channel, `0` for nil; `permits` counts the permits held). -/
structure Execution where
  ID : String
  runtimeData : GoMap
  systemRuntimeData : GoMap
  skipExceptions : Bool
  semaphore : Nat
  permits : Nat
  started : Bool
  runtimeQueue : List Val
  result : Val
  resultSet : Bool

/-- One `EmitWithMarks` call, as written to the trigger log. -/
structure Signal where
  triggerType : TriggerType
  triggerEvent : String
  value : Val
  marks : List String

/-- The mutable state of the program. -/
structure World where
  uidCounter : Nat
  seeds : Nat → Nat
  tick : Nat
  GlobalBlockData : GoMap
  blocks : List BlockData
  batches : List (String × BatchState)
  joins : List (String × List (TriggerType × GoMap))
  semaphores : List (String × Nat)
  flowData : GoMap
  executions : List (String × Execution)
  trace : List Signal

/-- The state of a program that has just started, with the iteration oracle `seeds`. -/
def World.init (seeds : Nat → Nat) : World :=
  { uidCounter := 0, seeds := seeds, tick := 0, GlobalBlockData := [], blocks := [],
    batches := [], joins := [], semaphores := [], flowData := [], executions := [],
    trace := [] }

/-- Result of a handler: the state, the `layerMarks` the handler left in its `EventData`,
and the returned pair `(any, error)`. -/
structure HandlerOut where
  world : World
  marks : List String
  value : Val
  err : Option GoError

/-- The method `EmitWithMarks` of one execution, as handlers see it. -/
abbrev Emit := String → Val → List String → TriggerType → World → Run (World × Option GoError)

/-- The type `Handler` of `types.go`; the first argument is `data.execution.EmitWithMarks`. -/
abbrev Handler := Emit → EventData → World → Run HandlerOut

/-- One registration `handlers[triggerType][target][id] = handler`. -/
structure Entry where
  triggerType : TriggerType
  target : String
  id : String
  handler : Handler

/-- The type `AllHandlers` of `types.go`, as the list of its registrations. -/
abbrev AllHandlers := List Entry

/-- The function `nextID` of `types.go` (`uidCounter` is a `uint64`). -/
def nextID (pfx : String) (w : World) : String × World :=
  let id := (w.uidCounter + 1) % 2 ^ 64
  ((if pfx = "" then "id" else pfx) ++ "-" ++ toString id, { w with uidCounter := id })

/-- The execution with the given ID, if the flow has one. -/
def World.execution (w : World) (eid : String) : Option Execution := mapGet w.executions eid

/-- Applies `f` to the execution with the given ID. -/
def World.updExecution (w : World) (eid : String) (f : Execution → Execution) : World :=
  match mapGet w.executions eid with
  | some e => { w with executions := mapSet w.executions eid (f e) }
  | none => w

/-- An order in which Go may range over `xs`, chosen by the oracle. -/
def World.rangeOrder {α : Type} (w : World) (xs : List α) : List α × World :=
  (shuffle (w.seeds w.tick) xs, { w with tick := w.tick + 1 })

/-- The send `sem <- struct{}{}` on the permit channel `key` of capacity `cap`: `none` when
the channel is full. -/
def acquire (key : String) (cap : Nat) (w : World) : Option World :=
  let held := (mapGet w.semaphores key).getD 0
  if held < cap then some { w with semaphores := mapSet w.semaphores key (held + 1) } else none

/-- The receive `<-sem` on the permit channel `key`. -/
def release (key : String) (w : World) : World :=
  { w with semaphores := mapSet w.semaphores key ((mapGet w.semaphores key).getD 0 - 1) }

/-! ## `execution.go`: dispatch -/

/-- The handlers `e.handlers[triggerType][triggerEvent]`. -/
def targetHandlers (handlers : AllHandlers) (triggerType : TriggerType) (triggerEvent : String) :
    List Entry :=
  handlers.filter (fun h => decide (h.triggerType = triggerType) && decide (h.target = triggerEvent))

/-- The send `e.semaphore <- struct{}{}`: `none` when every permit is held. -/
def Execution.acquire (eid : String) (w : World) : Option World :=
  match w.execution eid with
  | none => some w
  | some e =>
    if e.semaphore = 0 then some w
    else if e.permits < e.semaphore then
      some (w.updExecution eid (fun e => { e with permits := e.permits + 1 }))
    else none

/-- The deferred receive `<-e.semaphore`. -/
def Execution.release (eid : String) (w : World) : World :=
  w.updExecution eid (fun e => if e.semaphore = 0 then e else { e with permits := e.permits - 1 })

/-- The body of one goroutine of `EmitWithMarks`: take a permit, build the `EventData`, call
the handler, give the permit back. The result is the error the goroutine sends to `errCh`. -/
def runHandler (emit : Emit) (eid : String) (triggerEvent : String) (value : Val)
    (marks : List String) (triggerType : TriggerType) (h : Entry) (w : World) :
    Run (World × Option GoError) :=
  match Execution.acquire eid w with
  | none => .error .deadlock
  | some w1 =>
    match h.handler emit
        { TriggerEvent := triggerEvent, TriggerType := triggerType, Value := value,
          ExecutionID := eid, layerMarks := marks } w1 with
    | .ok out => .ok (Execution.release eid out.world, out.err)
    | .error s => .error s

/-- The goroutines of one `EmitWithMarks` call, run in the given order; the result lists,
for every goroutine in the order of completion, the handler ID and the error (or nil) its
handler returned. -/
def runHandlers (emit : Emit) (eid : String) (triggerEvent : String) (value : Val)
    (marks : List String) (triggerType : TriggerType) :
    List Entry → World → Run (World × List (String × Option GoError))
  | [], w => .ok (w, [])
  | h :: hs, w =>
    match runHandler emit eid triggerEvent value marks triggerType h w with
    | .error s => .error s
    | .ok (w1, err) =>
      match runHandlers emit eid triggerEvent value marks triggerType hs w1 with
      | .error s => .error s
      | .ok (w2, outcomes) => .ok (w2, (h.id, err) :: outcomes)

/-- The content of `errCh` after `wg.Wait()`: the non-nil errors, in the order sent. -/
def errCh (outcomes : List (String × Option GoError)) : List GoError :=
  outcomes.filterMap (fun o => o.2)

/-- The method `Execution.EmitWithMarks` of the execution `eid` with handler table
`handlers`; the first argument bounds the depth of nested dispatch. -/
def Execution.EmitWithMarks (handlers : AllHandlers) (eid : String) : Nat → Emit
  | 0 => fun _ _ _ _ _ => .error .outOfFuel
  | fuel + 1 => fun triggerEvent value marks triggerType w =>
    let w1 := (w.updExecution eid (fun e => { e with started := true }))
    let w2 := { w1 with trace := w1.trace ++ [⟨triggerType, triggerEvent, value, marks⟩] }
    let targets := targetHandlers handlers triggerType triggerEvent
    if targets.isEmpty then .ok (w2, none)
    else
      let (order, w3) := w2.rangeOrder targets
      match runHandlers (Execution.EmitWithMarks handlers eid fuel) eid triggerEvent value marks
          triggerType order w3 with
      | .error s => .error s
      | .ok (w4, outcomes) =>
        match w4.execution eid with
        | some e => if e.skipExceptions then .ok (w4, none) else .ok (w4, (errCh outcomes).head?)
        | none => .ok (w4, (errCh outcomes).head?)

/-- The execution `eid` has no concurrency limit. -/
def Unlimited (eid : String) (w : World) : Prop :=
  ∀ e, w.execution eid = some e → e.semaphore = 0

/-- The method `Execution.SetResult`. -/
def Execution.SetResult (eid : String) (result : Val) (w : World) : World :=
  w.updExecution eid (fun e =>
    if !e.resultSet then { e with result := result, resultSet := true } else e)

/-- The method `Execution.GetResultWithContext` with a context that has a deadline, called
when no dispatch is running: the result if one is set, and otherwise (nothing is left that
could set one) the timeout error once the deadline has passed. -/
def Execution.GetResult (eid : String) (w : World) : Val × Option GoError :=
  match w.execution eid with
  | some e => if e.resultSet then (e.result, none) else (.nil, some .resultTimeout)
  | none => (.nil, some .resultTimeout)

/-- The methods `EventData.LayerMark` and `EventData.UpperLayerMark` on a mark stack. -/
def LayerMark (marks : List String) : String := marks.getLast?.getD ""

/-- The method `EventData.UpperLayerMark` on a mark stack. -/
def UpperLayerMark (marks : List String) : String := marks.dropLast.getLast?.getD ""

/-- The method `EventData.LayerIn` on a mark stack. -/
def LayerIn (marks : List String) (w : World) : List String × World :=
  let (id, w1) := nextID "layer" w
  (marks ++ [id], w1)

/-- The method `EventData.LayerOut` on a mark stack. -/
def LayerOut (marks : List String) : List String := marks.dropLast

/-! ## `chunk.go` -/

/-- The struct `Chunk`. -/
structure Chunk where
  ID : String
  Name : String
  Trigger : String
  handler : Handler

/-- The function `NewChunk`; `none` is a nil handler. -/
def NewChunk (handler : Option Handler) (name : String) (w : World) : Chunk × World :=
  let (name1, w1) := if name = "" then nextID "chunk" w else (name, w)
  let h : Handler := match handler with
    | some h => h
    | none => fun _ data w => .ok { world := w, marks := data.layerMarks, value := data.Value,
                                    err := none }
  let (id, w2) := nextID "chunk" w1
  ({ ID := id, Name := name1, Trigger := "Chunk[" ++ name1 ++ "]-" ++ id, handler := h }, w2)

/-- The method `Chunk.Call`. -/
def Chunk.Call (c : Chunk) : Handler := fun emit data w =>
  match c.handler emit data w with
  | .error s => .error s
  | .ok out =>
    match out.err with
    | some err => .ok { world := out.world, marks := out.marks, value := .nil, err := some err }
    | none =>
      match emit c.Trigger out.value out.marks .event out.world with
      | .error s => .error s
      | .ok (w1, _) => .ok { world := w1, marks := out.marks, value := out.value, err := none }

/-! ## `blueprint.go` and `triggerflow.go`: the flow under construction -/

/-- The struct `BluePrint`. -/
structure BluePrint where
  Name : String
  handlers : AllHandlers
  Chunks : List (String × Chunk)

/-- The struct `Process` (`flowChunk`, `bluePrint` are those of the flow in `Sys`;
`blockData` is the address of the scope in `World.blocks`). -/
structure Process where
  triggerEvent : String
  triggerType : TriggerType
  blockData : Nat

/-- The struct `TriggerFlow` (its `flowData` and `executions` are in `World`). -/
structure TriggerFlow where
  Name : String
  bluePrint : BluePrint
  skipExceptions : Bool
  startProcess : Process

/-- A flow under construction together with the program state. -/
structure Sys where
  flow : TriggerFlow
  world : World

/-- A value passed where the source takes `any` for a chunk: a name, a `*Chunk`, a `Handler`,
a `NamedChunk`, or a value of another type. -/
inductive Target where
  | name (s : String)
  | chunk (c : Chunk)
  | handler (h : Handler)
  | named (name : String) (h : Handler)
  | other

/-- The struct `ToOptions`. -/
structure ToOptions where
  SideBranch : Bool := false
  Name : String := ""

/-- The assignment `handlers[triggerType][target][id] = handler`. -/
def insertEntry (hs : AllHandlers) (e : Entry) : AllHandlers :=
  match hs with
  | [] => [e]
  | h :: rest =>
    if h.triggerType = e.triggerType ∧ h.target = e.target ∧ h.id = e.id then e :: rest
    else h :: insertEntry rest e

/-- The function `NewBluePrint`. -/
def NewBluePrint (name : String) (w : World) : BluePrint × World :=
  let (name1, w1) := if name = "" then nextID "blueprint" w else (name, w)
  ({ Name := name1, handlers := [], Chunks := [] }, w1)

/-- The method `BluePrint.AddHandler`. -/
def BluePrint.AddHandler (b : BluePrint) (triggerType : TriggerType) (target : String)
    (handler : Handler) (id : String) (w : World) : String × BluePrint × World :=
  let (id1, w1) := if id = "" then nextID "handler" w else (id, w)
  (id1, { b with handlers := insertEntry b.handlers ⟨triggerType, target, id1, handler⟩ }, w1)

/-- The method `BluePrint.RemoveAll`. -/
def BluePrint.RemoveAll (b : BluePrint) (triggerType : TriggerType) (target : String) : BluePrint :=
  let kept := b.handlers.filter
    (fun h => !(decide (h.triggerType = triggerType) && decide (h.target = target)))
  { b with handlers := kept }

/-- The method `BluePrint.SnapshotHandlers`. -/
def BluePrint.SnapshotHandlers (b : BluePrint) : AllHandlers := b.handlers

/-- The method `BluePrint.Copy`. -/
def BluePrint.Copy (b : BluePrint) (name : String) : BluePrint :=
  { Name := if name = "" then b.Name ++ "-copy" else name, handlers := b.SnapshotHandlers,
    Chunks := b.Chunks }

/-- A scope with no parent and empty data. -/
def emptyBlock : BlockData :=
  { Outer := none, for_each_id := none, match_id := none, cases := [], branch_ends := [],
    is_first_case := none, has_else := none }

/-- The function `NewBlockData` with empty data: allocates a scope and returns its address. -/
def NewBlockData (outer : Option Nat) (w : World) : Nat × World :=
  (w.blocks.length, { w with blocks := w.blocks ++ [{ emptyBlock with Outer := outer }] })

/-- The function `New` of `triggerflow.go`; `none` is a nil blueprint. -/
def New (bluePrint : Option BluePrint) (name : String) (skipExceptions : Bool) (w : World) : Sys :=
  let (name1, w1) := if name = "" then nextID "triggerflow" w else (name, w)
  let (bp, w2) := match bluePrint with
    | some bp => (bp, w1)
    | none => NewBluePrint "" w1
  let (block, w3) := NewBlockData none w2
  { flow := { Name := name1, bluePrint := bp, skipExceptions := skipExceptions,
              startProcess := ⟨"START", .event, block⟩ },
    world := w3 }

/-- The assignment `f.bluePrint.Chunks[name] = chunk`, with the new program state. -/
def Sys.setChunk (s : Sys) (name : String) (chunk : Chunk) (w : World) : Sys :=
  let bp : BluePrint := { s.flow.bluePrint with Chunks := mapSet s.flow.bluePrint.Chunks name chunk }
  { flow := { s.flow with bluePrint := bp }, world := w }

/-- The method `TriggerFlow.Chunk`. -/
def TriggerFlow.Chunk (handlerOrName : Target) (s : Sys) : Chunk × Sys :=
  match handlerOrName with
  | .name name =>
    let (chunk, w1) := NewChunk none name s.world
    (chunk, s.setChunk name chunk w1)
  | .named name h =>
    let (chunk, w1) := NewChunk (some h) name s.world
    (chunk, s.setChunk name chunk w1)
  | .handler h =>
    let (name, w1) := nextID "chunk_handler" s.world
    let (chunk, w2) := NewChunk (some h) name w1
    (chunk, s.setChunk name chunk w2)
  | _ =>
    let (name, w1) := nextID "chunk" s.world
    let (chunk, w2) := NewChunk none name w1
    (chunk, s.setChunk chunk.Name chunk w2)

/-- The method `Process.clone` with a non-nil scope. -/
def Process.clone (_p : Process) (triggerEvent : String) (triggerType : TriggerType)
    (blockData : Nat) : Process :=
  ⟨triggerEvent, triggerType, blockData⟩

/-- The method `Process.To`. -/
def Process.To (p : Process) (target : Target) (config : ToOptions) (s : Sys) : Process × Sys :=
  let found : Option Chunk × Sys := match target with
    | .name typed => (mapGet s.flow.bluePrint.Chunks typed, s)
    | .chunk typed => (some typed, s)
    | .handler typed =>
      let (c, s1) := TriggerFlow.Chunk (.named config.Name typed) s
      (some c, s1)
    | .named name h =>
      let (c, s1) := TriggerFlow.Chunk (.named name h) s
      (some c, s1)
    | .other => (none, s)
  match found with
  | (none, s1) => (p, s1)
  | (some chunk, s1) =>
    let (_, bp, w1) :=
      s1.flow.bluePrint.AddHandler p.triggerType p.triggerEvent chunk.Call "" s1.world
    let s2 : Sys := { flow := { s1.flow with bluePrint := bp }, world := w1 }
    if config.SideBranch then (p.clone p.triggerEvent p.triggerType p.blockData, s2)
    else (p.clone chunk.Trigger p.triggerType p.blockData, s2)

/-- The method `Process.SideBranch`. -/
def Process.SideBranch (p : Process) (target : Target) (name : String) (s : Sys) : Process × Sys :=
  p.To target { SideBranch := true, Name := name } s

/-- The closure `setDefaultResult` of `Process.End`. -/
def setDefaultResult : Handler := fun _ data w =>
  let resultSet := match w.execution data.ExecutionID with
    | some e => e.resultSet
    | none => false
  let w1 := if !resultSet then Execution.SetResult data.ExecutionID data.Value w else w
  .ok { world := w1, marks := data.layerMarks, value := .nil, err := none }

/-- The method `Process.End`. -/
def Process.End (p : Process) (s : Sys) : Process × Sys :=
  p.To (.handler setDefaultResult) { Name := "end" } s

/-- A value passed to `When`: a `*Chunk`, a string, a join spec `map[TriggerType][]string`
(listed in the order the source ranges over it), or a value of another type. -/
inductive Trigger where
  | chunk (c : Chunk)
  | key (s : String)
  | join (spec : List (TriggerType × List String))
  | other

/-- The closure `waitTrigger` of `Process.When`; the captured map `values` is
`World.joins[whenTrigger]`. -/
def waitTrigger (mode : String) (whenTrigger : String) : Handler := fun emit data w =>
  if mode = "or" ∨ mode = "simple_or" then
    let value := if mode = "or" then
        Val.map [("trigger_type", .trig data.TriggerType), ("trigger_event", .str data.TriggerEvent),
          ("value", data.Value)]
      else data.Value
    match emit whenTrigger value data.layerMarks .event w with
    | .error s => .error s
    | .ok (w1, err) => .ok { world := w1, marks := data.layerMarks, value := .nil, err := err }
  else
    let values := (mapGet w.joins whenTrigger).getD []
    let values1 := values.map (fun (tm : TriggerType × GoMap) =>
      if tm.1 = data.TriggerType then
        match mapGet tm.2 data.TriggerEvent with
        | some _ => (tm.1, mapSet tm.2 data.TriggerEvent data.Value)
        | none => tm
      else tm)
    let w1 := { w with joins := mapSet w.joins whenTrigger values1 }
    if values1.any (fun tm => tm.2.any (fun kv => kv.2.isMarker)) then
      .ok { world := w1, marks := data.layerMarks, value := .nil, err := none }
    else
      match emit whenTrigger (.joinMap values1) data.layerMarks .event w1 with
      | .error s => .error s
      | .ok (w2, err) => .ok { world := w2, marks := data.layerMarks, value := .nil, err := err }

/-- The first loop of the join case of `Process.When` over the events of one trigger type:
fills `values[t]`, counts the listed events and remembers the last one. -/
def whenCollect (chunks : List (String × Chunk)) (t : TriggerType) :
    List String → GoMap × Nat × String → GoMap × Nat × String
  | [], acc => acc
  | event :: rest, (m, count, _) =>
    let event1 := if t = .event then
        match mapGet chunks event with
        | some chunk => chunk.Trigger
        | none => event
      else event
    whenCollect chunks t rest (mapSet m event1 .marker, count + 1, event1)

/-- The first loop of the join case of `Process.When` over the trigger types. -/
def whenValues (chunks : List (String × Chunk)) :
    List (TriggerType × List String) →
    List (TriggerType × GoMap) × Nat × TriggerType × String →
    List (TriggerType × GoMap) × Nat × TriggerType × String
  | [], acc => acc
  | (t, events) :: rest, (values, count, curType, curEvent) =>
    let old := (values.find? (fun tm => tm.1 = t)).map (fun tm => tm.2)
    let (m, count1, curEvent1) := whenCollect chunks t events (old.getD [], count, curEvent)
    let values1 := match old with
      | some _ => values.map (fun tm => if tm.1 = t then (t, m) else tm)
      | none => values ++ [(t, m)]
    whenValues chunks rest (values1, count1, if events.isEmpty then curType else t, curEvent1)

/-- The second loop of the join case of `Process.When`: registers `waitTrigger` on every
signal of `values`. -/
def whenRegister (h : Handler) : List (TriggerType × String) → BluePrint → World → BluePrint × World
  | [], bp, w => (bp, w)
  | (t, event) :: rest, bp, w =>
    let (_, bp1, w1) := bp.AddHandler t event h "" w
    whenRegister h rest bp1 w1

/-- The method `Process.When`. -/
def Process.When (p : Process) (trigger : Trigger) (mode : String) (s : Sys) : Process × Sys :=
  let mode1 := if mode = "" then "and" else mode
  match trigger with
  | .chunk typed =>
    let (block, w1) := NewBlockData none s.world
    (p.clone typed.Trigger .event block, { s with world := w1 })
  | .key typed =>
    let (block, w1) := NewBlockData none s.world
    match mapGet s.flow.bluePrint.Chunks typed with
    | some chunk => (p.clone chunk.Trigger .event block, { s with world := w1 })
    | none => (p.clone typed .event block, { s with world := w1 })
  | .join typed =>
    let (values, triggerCount, currentType, currentEvent) :=
      whenValues s.flow.bluePrint.Chunks typed ([], 0, .event, "")
    if triggerCount = 1 then
      let (block, w1) := NewBlockData none s.world
      (p.clone currentEvent currentType block, { s with world := w1 })
    else
      let (whenTrigger, w1) := nextID "when" s.world
      let w2 := { w1 with joins := mapSet w1.joins whenTrigger values }
      let signals := values.flatMap (fun tm => tm.2.map (fun kv => (tm.1, kv.1)))
      let (bp, w3) := whenRegister (waitTrigger mode1 whenTrigger) signals s.flow.bluePrint w2
      let (block, w4) := NewBlockData none w3
      (p.clone whenTrigger .event block, { flow := { s.flow with bluePrint := bp }, world := w4 })
  | .other => (p, s)

/-! ## `process.go`: `Batch` and `Collect` -/

/-- The wrapper `Batch` puts around a target when a concurrency bound is given: take a
permit of the channel `key`, call the target, give the permit back. -/
def withPermit (key : String) (cap : Nat) (h : Handler) : Handler := fun emit data w =>
  match acquire key cap w with
  | none => .error .deadlock
  | some w1 =>
    match h emit data w1 with
    | .error s => .error s
    | .ok out => .ok { out with world := release key out.world }

/-- The closure `waitAllChunks` of `Process.Batch`; the captured maps are
`World.batches[batchTrigger]`. -/
def waitAllChunks (batchTrigger : String) : Handler := fun emit data w =>
  let st := (mapGet w.batches batchTrigger).getD ⟨[], [], []⟩
  let st1 : BatchState := match mapGet st.triggersToWait data.TriggerEvent with
    | some _ =>
      let name := (mapGet st.triggerToChunkName data.TriggerEvent).getD ""
      { st with results := mapSet st.results name data.Value,
                triggersToWait := mapSet st.triggersToWait data.TriggerEvent true }
    | none => st
  let allDone := st1.triggersToWait.all (fun kv => kv.2)
  let w1 := { w with batches := mapSet w.batches batchTrigger st1 }
  if !allDone then .ok { world := w1, marks := data.layerMarks, value := .nil, err := none }
  else
    match emit batchTrigger (.map st1.results) data.layerMarks .event w1 with
    | .error s => .error s
    | .ok (w2, err) => .ok { world := w2, marks := data.layerMarks, value := .nil, err := err }

/-- The struct `BatchOptions`. -/
structure BatchOptions where
  SideBranch : Bool := false
  Concurrency : Int := 0

/-- The loop of `Process.Batch` over the targets. -/
def batchRegister (p : Process) (batchTrigger : String) (concurrency : Int) :
    List Target → Sys → Sys
  | [], s => s
  | target :: rest, s =>
    let found : Option Chunk × Sys := match target with
      | .chunk typed => (some typed, s)
      | .handler typed =>
        let (c, s1) := TriggerFlow.Chunk (.handler typed) s
        (some c, s1)
      | .named name h =>
        let (c, s1) := TriggerFlow.Chunk (.named name h) s
        (some c, s1)
      | _ => (none, s)
    match found with
    | (none, s1) => batchRegister p batchTrigger concurrency rest s1
    | (some chunk, s1) =>
      let st := (mapGet s1.world.batches batchTrigger).getD ⟨[], [], []⟩
      let st1 : BatchState :=
        { results := mapSet st.results chunk.Name .nil,
          triggersToWait := mapSet st.triggersToWait chunk.Trigger false,
          triggerToChunkName := mapSet st.triggerToChunkName chunk.Trigger chunk.Name }
      let w1 := { s1.world with batches := mapSet s1.world.batches batchTrigger st1 }
      let handler : Handler :=
        if concurrency > 0 then withPermit batchTrigger concurrency.toNat chunk.Call
        else chunk.Call
      let (_, bp1, w2) := s1.flow.bluePrint.AddHandler p.triggerType p.triggerEvent handler "" w1
      let (_, bp2, w3) := bp1.AddHandler .event chunk.Trigger (waitAllChunks batchTrigger) "" w2
      batchRegister p batchTrigger concurrency rest
        { flow := { s1.flow with bluePrint := bp2 }, world := w3 }

/-- The method `Process.Batch`. -/
def Process.Batch (p : Process) (chunks : List Target) (config : BatchOptions) (s : Sys) :
    Process × Sys :=
  let (batchTrigger, w1) := nextID "batch" s.world
  let w2 := { w1 with batches := mapSet w1.batches batchTrigger ⟨[], [], []⟩ }
  let s1 := batchRegister p batchTrigger config.Concurrency chunks { s with world := w2 }
  if config.SideBranch then (p.clone p.triggerEvent p.triggerType p.blockData, s1)
  else (p.clone batchTrigger .event p.blockData, s1)

/-- The path `fmt.Sprintf("collections.%s.%s", collectionName, branchID)`. -/
def branchPath (collectionName branchID : String) : String :=
  "collections." ++ collectionName ++ "." ++ branchID

/-- The closure `collectBranches` of `Process.Collect`. -/
def collectBranches (collectionName branchID mode collectTrigger : String) : Handler :=
  fun emit data w =>
  let g1 := RuntimeData.Set w.GlobalBlockData (branchPath collectionName branchID) data.Value
  let w1 := { w with GlobalBlockData := g1 }
  let items := (RuntimeData.Get g1 ("collections." ++ collectionName) (.map [])).asMap
  if items.any (fun kv => kv.2.isMarker) then
    .ok { world := w1, marks := data.layerMarks, value := .nil, err := none }
  else
    match emit collectTrigger (.map items) data.layerMarks .event w1 with
    | .error s => .error s
    | .ok (w2, some err) =>
      .ok { world := w2, marks := data.layerMarks, value := .nil, err := some err }
    | .ok (w2, none) =>
      let g2 := RuntimeData.Delete w2.GlobalBlockData ("collections." ++ collectionName)
      let w3 := if mode = "filled_then_empty" then { w2 with GlobalBlockData := g2 } else w2
      .ok { world := w3, marks := data.layerMarks, value := .nil, err := none }

/-- The method `Process.Collect`. -/
def Process.Collect (p : Process) (collectionName branchID mode : String) (s : Sys) :
    Process × Sys :=
  let (branchID1, w1) := if branchID = "" then nextID "branch" s.world else (branchID, s.world)
  let mode1 := if mode = "" then "filled_and_update" else mode
  let collectTrigger := "Collect-" ++ collectionName
  let g1 := RuntimeData.Set w1.GlobalBlockData (branchPath collectionName branchID1) .marker
  let w2 := { w1 with GlobalBlockData := g1 }
  let (_, s1) := p.To (.handler (collectBranches collectionName branchID1 mode1 collectTrigger))
    { Name := "collect" } { s with world := w2 }
  (p.clone collectTrigger .event p.blockData, s1)

/-! ## `process.go`: `ForEach` and `EndForEach` -/

/-- The field `data.execution.systemRuntimeData`. -/
def World.systemData (w : World) (eid : String) : GoMap :=
  match w.execution eid with
  | some e => e.systemRuntimeData
  | none => []

/-- Assigns `data.execution.systemRuntimeData`. -/
def World.setSystemData (w : World) (eid : String) (d : GoMap) : World :=
  w.updExecution eid (fun e => { e with systemRuntimeData := d })

/-- One round of the loop of `sendItems`: `prepare(item)` followed by `emitItem`; `marks`
is the mark stack of `data` after the first `LayerIn`. -/
def sendItem (emit : Emit) (eid : String) (forEachID sendItemTrigger : String)
    (concurrency : Int) (marks : List String) (item : Val) (w : World) :
    Run (World × Option GoError) :=
  let (itemMarks, w1) := LayerIn marks w
  let itemID := LayerMark itemMarks
  let path := "for_each_results." ++ LayerMark marks ++ "." ++ itemID
  let w2 := w1.setSystemData eid (RuntimeData.Set (w1.systemData eid) path .marker)
  if concurrency > 0 then
    match acquire forEachID concurrency.toNat w2 with
    | none => .error .deadlock
    | some w3 =>
      match emit sendItemTrigger item itemMarks .event w3 with
      | .error s => .error s
      | .ok (w4, err) => .ok (release forEachID w4, err)
  else emit sendItemTrigger item itemMarks .event w2

/-- The loop of `sendItems` over the list payload; it returns at the first error. -/
def sendList (emit : Emit) (eid : String) (forEachID sendItemTrigger : String)
    (concurrency : Int) (marks : List String) : List Val → World → Run (World × Option GoError)
  | [], w => .ok (w, none)
  | item :: rest, w =>
    match sendItem emit eid forEachID sendItemTrigger concurrency marks item w with
    | .error s => .error s
    | .ok (w1, some err) => .ok (w1, some err)
    | .ok (w1, none) => sendList emit eid forEachID sendItemTrigger concurrency marks rest w1

/-- The closure `sendItems` of `Process.ForEach`. -/
def sendItems (forEachID sendItemTrigger : String) (concurrency : Int) : Handler :=
  fun emit data w =>
  let (marks, w1) := LayerIn data.layerMarks w
  let run := match data.Value with
    | .list list =>
      sendList emit data.ExecutionID forEachID sendItemTrigger concurrency marks list w1
    | value => sendItem emit data.ExecutionID forEachID sendItemTrigger concurrency marks value w1
  match run with
  | .error s => .error s
  | .ok (w2, err) => .ok { world := w2, marks := marks, value := .nil, err := err }

/-- The function `NewBlockData(outer, {"for_each_id": forEachID})`. -/
def NewForEachBlock (outer : Nat) (forEachID : String) (w : World) : Nat × World :=
  let block : BlockData := { emptyBlock with Outer := some outer, for_each_id := some forEachID }
  (w.blocks.length, { w with blocks := w.blocks ++ [block] })

/-- The method `Process.ForEach`. -/
def Process.ForEach (p : Process) (concurrency : Int) (s : Sys) : Process × Sys :=
  let (forEachID, w1) := nextID "foreach" s.world
  let (forEachBlock, w2) := NewForEachBlock p.blockData forEachID w1
  let sendItemTrigger := "ForEach-" ++ forEachID ++ "-Send"
  let (_, s1) := p.To (.handler (sendItems forEachID sendItemTrigger concurrency))
    { Name := "for_each_send" } { s with world := w2 }
  (p.clone sendItemTrigger .event forEachBlock, s1)

/-- The closure `collectResults` of `Process.EndForEach`. -/
def collectResults (endTrigger : String) : Handler := fun emit data w =>
  let forEachInstanceID := UpperLayerMark data.layerMarks
  let itemID := LayerMark data.layerMarks
  let eid := data.ExecutionID
  let sys := w.systemData eid
  let quiet : HandlerOut := { world := w, marks := data.layerMarks, value := .nil, err := none }
  if !RuntimeData.Has sys (nsFull "for_each_results" forEachInstanceID) then .ok quiet
  else if !RuntimeData.Has sys (nsFull "for_each_results" (forEachInstanceID ++ "." ++ itemID))
  then .ok quiet
  else
    let sys1 := RuntimeData.Set sys
      (nsFull "for_each_results" (forEachInstanceID ++ "." ++ itemID)) data.Value
    let w1 := w.setSystemData eid sys1
    let values :=
      (RuntimeData.Get sys1 (nsFull "for_each_results" forEachInstanceID) (.map [])).asMap
    if values.any (fun kv => kv.2.isMarker) then
      .ok { world := w1, marks := data.layerMarks, value := .nil, err := none }
    else
      let marks := LayerOut (LayerOut data.layerMarks)
      let (order, w2) := w1.rangeOrder values
      let ordered := order.map (fun kv => kv.2)
      match emit endTrigger (.list ordered) marks .event w2 with
      | .error s => .error s
      | .ok (w3, some err) => .ok { world := w3, marks := marks, value := .nil, err := some err }
      | .ok (w3, none) =>
        let sys3 := RuntimeData.Delete (w3.systemData eid)
          (nsFull "for_each_results" forEachInstanceID)
        .ok { world := w3.setSystemData eid sys3, marks := marks, value := .nil, err := none }

/-- The scope at address `a`, or an empty scope. -/
def World.block (w : World) (a : Nat) : BlockData :=
  (w.blocks.get? a).getD emptyBlock

/-- Applies `f` to the scope at address `a`. -/
def World.updBlock (w : World) (a : Nat) (f : BlockData → BlockData) : World :=
  { w with blocks := w.blocks.modify f a }

/-- The scope a closing operator returns to: `p.blockData.Outer`, or a new scope. -/
def outerBlock (p : Process) (w : World) : Nat × World :=
  match (w.block p.blockData).Outer with
  | some block => (block, w)
  | none => NewBlockData none w

/-- The method `Process.EndForEach`. -/
def Process.EndForEach (p : Process) (s : Sys) : Process × Sys :=
  let forEachID := ((s.world.block p.blockData).for_each_id).getD ""
  if forEachID = "" then (p, s)
  else
    let endTrigger := "ForEach-" ++ forEachID ++ "-End"
    let (_, s1) := p.To (.handler (collectResults endTrigger)) { Name := "for_each_collect" } s
    let (block, w1) := outerBlock p s1.world
    (p.clone endTrigger .event block, { s1 with world := w1 })

/-! ## `process.go`: `Match`, `Case`, `CaseElse`, `EndMatch`

The scope of a match keeps `cases` as a map from case ID to condition.  `Case` reads the
map, adds the new case and writes the map back with the merging `Set`; merging a condition
with itself gives the condition back, so the write is the insertion modelled here. -/

/-- The function `stringsHasPrefix` of `process.go`. -/
def stringsHasPrefix (s pfx : String) : Bool := pfx.data.isPrefixOf s.data

/-- The value of `judgement` for one case: `none` is the panic of `==` on two values of the
same uncomparable type. -/
def judgement (cond : CaseCond) (data : EventData) : Option Bool :=
  match cond with
  | .predicate f => some (f data)
  | .literal v => goEq v data.Value

/-- The loop of `matchCase` over the cases, in the order given; `marks` is the mark stack
after the first `LayerIn`. The result holds `matchedCount`, or the pair that the `hit_first`
branch returns from inside the loop. -/
def matchLoop (emit : Emit) (mode matchID : String) (data : EventData) (marks : List String) :
    List (String × CaseCond) → Nat → World → Run (World × Nat × Option (Option GoError))
  | [], matchedCount, w => .ok (w, matchedCount, none)
  | (caseID, cond) :: rest, matchedCount, w =>
    match judgement cond { data with layerMarks := marks } with
    | none => .error .panic
    | some false => matchLoop emit mode matchID data marks rest matchedCount w
    | some true =>
      let caseTrigger := "Match-" ++ matchID ++ "-Case-" ++ caseID
      if mode = "hit_first" then
        match emit caseTrigger data.Value marks .event w with
        | .error s => .error s
        | .ok (w1, err) => .ok (w1, matchedCount, some err)
      else if mode = "hit_all" then
        let (inner, w1) := LayerIn marks w
        let path := "match_results." ++ UpperLayerMark inner ++ "." ++ LayerMark inner
        let eid := data.ExecutionID
        let w2 := w1.setSystemData eid (RuntimeData.Set (w1.systemData eid) path .marker)
        match emit caseTrigger data.Value inner .event w2 with
        | .error s => .error s
        | .ok (w3, _) => matchLoop emit mode matchID data marks rest (matchedCount + 1) w3
      else matchLoop emit mode matchID data marks rest matchedCount w

/-- The closure `matchCase` of `Process.Match`; `matchBlock` is the address of the scope. -/
def matchCase (mode matchID : String) (matchBlock : Nat) : Handler := fun emit data w =>
  let (marks, w1) := LayerIn data.layerMarks w
  let (cases, w2) := w1.rangeOrder (w1.block matchBlock).cases
  match matchLoop emit mode matchID data marks cases 0 w2 with
  | .error s => .error s
  | .ok (w3, _, some err) => .ok { world := w3, marks := marks, value := .nil, err := err }
  | .ok (w3, matchedCount, none) =>
    if matchedCount = 0 then
      let key := if (w3.block matchBlock).has_else = some true then "Match-" ++ matchID ++ "-Else"
        else "Match-" ++ matchID ++ "-Result"
      match emit key data.Value marks .event w3 with
      | .error s => .error s
      | .ok (w4, err) => .ok { world := w4, marks := marks, value := .nil, err := err }
    else .ok { world := w3, marks := marks, value := .nil, err := none }

/-- The method `Process.Match`. -/
def Process.Match (p : Process) (mode : String) (s : Sys) : Process × Sys :=
  let mode1 := if mode = "" then "hit_first" else mode
  let (matchID, w1) := nextID "match" s.world
  let (matchBlock, w2) := NewBlockData (some p.blockData) w1
  let w3 := w2.updBlock matchBlock (fun b =>
    { b with match_id := some matchID, cases := [], branch_ends := [],
             is_first_case := some true, has_else := some false })
  let (_, s1) := p.To (.handler (matchCase mode1 matchID matchBlock)) { Name := "match" }
    { s with world := w3 }
  (p.clone p.triggerEvent p.triggerType matchBlock, s1)

/-- The method `Process.Case`. -/
def Process.Case (p : Process) (condition : CaseCond) (s : Sys) : Process × Sys :=
  let matchID := ((s.world.block p.blockData).match_id).getD ""
  if matchID = "" then (p, s)
  else
    let (caseID, w1) := nextID "case" s.world
    let w2 := w1.updBlock p.blockData (fun b => { b with cases := mapSet b.cases caseID condition })
    let isFirst := ((w2.block p.blockData).is_first_case).getD true
    let w3 :=
      if isFirst then w2.updBlock p.blockData (fun b => { b with is_first_case := some false })
      else if !stringsHasPrefix p.triggerEvent ("Match-" ++ matchID) then
        w2.updBlock p.blockData (fun b => { b with branch_ends := b.branch_ends ++ [p.triggerEvent] })
      else w2
    (p.clone ("Match-" ++ matchID ++ "-Case-" ++ caseID) .event p.blockData, { s with world := w3 })

/-- The method `Process.CaseElse`. -/
def Process.CaseElse (p : Process) (s : Sys) : Process × Sys :=
  let matchID := ((s.world.block p.blockData).match_id).getD ""
  if matchID = "" then (p, s)
  else if ((s.world.block p.blockData).is_first_case).getD true then (p, s)
  else
    let w1 := s.world.updBlock p.blockData (fun b => { b with has_else := some true })
    let w2 :=
      if !stringsHasPrefix p.triggerEvent ("Match-" ++ matchID) then
        w1.updBlock p.blockData (fun b => { b with branch_ends := b.branch_ends ++ [p.triggerEvent] })
      else w1
    (p.clone ("Match-" ++ matchID ++ "-Else") .event p.blockData, { s with world := w2 })

/-- The closure `collectBranchResult` of `Process.EndMatch`. -/
def collectBranchResult (matchID : String) : Handler := fun emit data w =>
  let eid := data.ExecutionID
  let matchKey := "match_results." ++ UpperLayerMark data.layerMarks
  let resultTrigger := "Match-" ++ matchID ++ "-Result"
  let matchResults := (RuntimeData.Get (w.systemData eid) matchKey (.map [])).asMap
  if matchResults.length > 0 then
    let matchResults1 := match mapGet matchResults (LayerMark data.layerMarks) with
      | some _ => mapSet matchResults (LayerMark data.layerMarks) data.Value
      | none => matchResults
    if matchResults1.any (fun kv => kv.2.isMarker) then
      let sys1 := RuntimeData.Set (w.systemData eid) matchKey (.map matchResults1)
      .ok { world := w.setSystemData eid sys1, marks := data.layerMarks, value := .nil,
            err := none }
    else
      let marks := LayerOut data.layerMarks
      let (order, w1) := w.rangeOrder matchResults1
      let resultList := order.map (fun kv => kv.2)
      match emit resultTrigger (.list resultList) marks .event w1 with
      | .error s => .error s
      | .ok (w2, some err) => .ok { world := w2, marks := marks, value := .nil, err := some err }
      | .ok (w2, none) =>
        let sys2 := RuntimeData.Delete (w2.systemData eid) matchKey
        .ok { world := w2.setSystemData eid sys2, marks := marks, value := .nil, err := none }
  else
    let marks := LayerOut data.layerMarks
    match emit resultTrigger data.Value marks .event w with
    | .error s => .error s
    | .ok (w1, err) => .ok { world := w1, marks := marks, value := .nil, err := err }

/-- The loop of `Process.EndMatch` over `branchEnds`. -/
def endMatchRegister (p : Process) (matchID : String) : List String → Sys → Sys
  | [], s => s
  | trigger :: rest, s =>
    let (q, s1) := p.When (.key trigger) "" s
    let (_, s2) := q.To (.handler (collectBranchResult matchID)) { Name := "match_collect" } s1
    endMatchRegister p matchID rest s2

/-- The method `Process.EndMatch`. -/
def Process.EndMatch (p : Process) (s : Sys) : Process × Sys :=
  let matchID := ((s.world.block p.blockData).match_id).getD ""
  if matchID = "" then (p, s)
  else
    let w1 :=
      if !stringsHasPrefix p.triggerEvent ("Match-" ++ matchID) then
        s.world.updBlock p.blockData (fun b => { b with branch_ends := b.branch_ends ++ [p.triggerEvent] })
      else s.world
    let branchEnds := (w1.block p.blockData).branch_ends
    let s1 := endMatchRegister p matchID branchEnds { s with world := w1 }
    let (block, w2) := outerBlock p s1.world
    (p.clone ("Match-" ++ matchID ++ "-Result") .event block, { s1 with world := w2 })

/-! ## `triggerflow.go` and `execution.go`: running a flow -/

/-- The function `NewExecution`. -/
def NewExecution (id : String) (skipExceptions : Bool) (concurrency : Int) (w : World) :
    Execution × World :=
  let (id1, w1) := if id = "" then nextID "execution" w else (id, w)
  ({ ID := id1, runtimeData := [],
     systemRuntimeData := RuntimeData.Set [] "result" .streamStop,
     skipExceptions := skipExceptions,
     semaphore := if concurrency > 0 then concurrency.toNat else 0, permits := 0,
     started := false, runtimeQueue := [], result := .nil, resultSet := false }, w1)

/-- An execution as the caller holds it: its ID and its private handler table. -/
structure ExecRef where
  ID : String
  handlers : AllHandlers

/-- The method `TriggerFlow.CreateExecution`; the options are `none` when not given. -/
def TriggerFlow.CreateExecution (f : TriggerFlow) (skipExceptions : Option Bool)
    (concurrency : Option Int) (w : World) : ExecRef × World :=
  let (executionID, w1) := nextID "execution" w
  let skip := skipExceptions.getD f.skipExceptions
  let cc := concurrency.getD 0
  let handlers := f.bluePrint.SnapshotHandlers
  let (execution, w2) := NewExecution executionID skip cc w1
  (⟨executionID, handlers⟩, { w2 with executions := mapSet w2.executions executionID execution })

/-- The method `Execution.Start`, with a positive timeout. -/
def Execution.Start (e : ExecRef) (fuel : Nat) (initialValue : Val) (waitForResult : Bool)
    (w : World) : Run (World × Val × Option GoError) :=
  match Execution.EmitWithMarks e.handlers e.ID fuel "START" initialValue [] .event w with
  | .error s => .error s
  | .ok (w1, some err) => .ok (w1, .nil, some err)
  | .ok (w1, none) =>
    if waitForResult then .ok (w1, Execution.GetResult e.ID w1) else .ok (w1, .nil, none)

/-- The method `TriggerFlow.Start`, with a positive timeout; `concurrency` is the option
`WithRunConcurrency`. -/
def TriggerFlow.Start (f : TriggerFlow) (fuel : Nat) (initialValue : Val)
    (waitForResult : Bool) (concurrency : Option Int) (w : World) :
    Run (World × Val × Option GoError) :=
  let (execution, w1) := f.CreateExecution none concurrency w
  match Execution.Start execution fuel initialValue false w1 with
  | .error s => .error s
  | .ok (w2, _, some err) => .ok (w2, .nil, some err)
  | .ok (w2, result, none) =>
    if waitForResult then .ok (w2, Execution.GetResult execution.ID w2) else .ok (w2, result, none)

/-! ## `execution.go` and `triggerflow.go`: runtime data and flow data -/

/-- The method `Execution.changeRuntimeData` of the execution `eid`; `emit` is its
`EmitWithMarks`. -/
def Execution.changeRuntimeData (emit : TriggerFlow.Emit) (eid : String) (op key : String) (value : Val)
    (emitFlag : Bool) (w : World) : Run (World × Option GoError) :=
  let w1 := w.updExecution eid (fun e =>
    if op = "set" then { e with runtimeData := RuntimeData.Set e.runtimeData key value }
    else if op = "append" then { e with runtimeData := RuntimeData.Append e.runtimeData key value }
    else if op = "del" then { e with runtimeData := RuntimeData.Delete e.runtimeData key }
    else e)
  if emitFlag then
    let cur := match w1.execution eid with
      | some e => RuntimeData.Get e.runtimeData key .nil
      | none => .nil
    emit key cur [] .runtime_data w1
  else .ok (w1, none)

/-- The method `EventData.GetRuntimeData` on an `EventData` of the execution `eid`. -/
def EventData.GetRuntimeData (eid : String) (path : String) (defaultValue : Val) (w : World) : Val :=
  match w.execution eid with
  | some e => RuntimeData.Get e.runtimeData path defaultValue
  | none => defaultValue

/-- The method `Execution.SetRuntimeData`. -/
def Execution.SetRuntimeData (e : ExecRef) (fuel : Nat) (key : String) (value : Val)
    (emitFlag : Bool) (w : World) : Run (World × Option GoError) :=
  Execution.changeRuntimeData (Execution.EmitWithMarks e.handlers e.ID fuel) e.ID "set" key value
    emitFlag w

/-- The method `Execution.AppendRuntimeData`. -/
def Execution.AppendRuntimeData (e : ExecRef) (fuel : Nat) (key : String) (value : Val)
    (emitFlag : Bool) (w : World) : Run (World × Option GoError) :=
  Execution.changeRuntimeData (Execution.EmitWithMarks e.handlers e.ID fuel) e.ID "append" key
    value emitFlag w

/-- The method `Execution.DelRuntimeData`. -/
def Execution.DelRuntimeData (e : ExecRef) (fuel : Nat) (key : String) (emitFlag : Bool)
    (w : World) : Run (World × Option GoError) :=
  Execution.changeRuntimeData (Execution.EmitWithMarks e.handlers e.ID fuel) e.ID "del" key .nil
    emitFlag w

/-- The test `handlers[key]` of `changeFlowData`: the table has a `flow_data` target `key`.
(A target whose handlers were all removed is an absent target here; the dispatch the source
starts for it runs no handler.) -/
def hasFlowDataTarget (handlers : AllHandlers) (key : String) : Bool :=
  handlers.any (fun h => decide (h.triggerType = .flow_data) && decide (h.target = key))

/-- The second loop of `TriggerFlow.changeFlowData`, over the executions collected from
`f.executions`. -/
def notifyExecutions (fuel : Nat) (caller : Option String) (key : String) (value : Val) :
    List ExecRef → World → Run (World × Option GoError)
  | [], w => .ok (w, none)
  | execution :: rest, w =>
    if caller = some execution.ID then notifyExecutions fuel caller key value rest w
    else if hasFlowDataTarget execution.handlers key then
      match Execution.EmitWithMarks execution.handlers execution.ID fuel key value []
          .flow_data w with
      | .error s => .error s
      | .ok (w1, some err) => .ok (w1, some err)
      | .ok (w1, none) => notifyExecutions fuel caller key value rest w1
    else notifyExecutions fuel caller key value rest w

/-- The method `TriggerFlow.changeFlowData`, called from outside any handler; `execs` is the
map `f.executions` (every registered execution with its handler table), `caller` the ID of
the calling execution (`none` for nil). -/
def TriggerFlow.changeFlowData (execs : List ExecRef) (fuel : Nat) (caller : Option String)
    (op key : String) (value : Val) (emitFlag : Bool) (w : World) : Run (World × Option GoError) :=
  let changed : GoMap × Val :=
    if op = "set" then
      let d := RuntimeData.Set w.flowData key value
      (d, RuntimeData.Get d key .nil)
    else if op = "append" then
      let d := RuntimeData.Append w.flowData key value
      (d, RuntimeData.Get d key .nil)
    else if op = "del" then (RuntimeData.Delete w.flowData key, .nil)
    else (w.flowData, value)
  let w1 := { w with flowData := changed.1 }
  if !emitFlag then .ok (w1, none)
  else
    let (executions, w2) := w1.rangeOrder execs
    notifyExecutions fuel caller key changed.2 executions w2

/-- The method `TriggerFlow.SetFlowData`. -/
def TriggerFlow.SetFlowData (execs : List ExecRef) (fuel : Nat) (path : String) (value : Val)
    (emitFlag : Bool) (w : World) : Run (World × Option GoError) :=
  TriggerFlow.changeFlowData execs fuel none "set" path value emitFlag w

/-- The method `TriggerFlow.AppendFlowData`. -/
def TriggerFlow.AppendFlowData (execs : List ExecRef) (fuel : Nat) (path : String) (value : Val)
    (emitFlag : Bool) (w : World) : Run (World × Option GoError) :=
  TriggerFlow.changeFlowData execs fuel none "append" path value emitFlag w

/-- The method `TriggerFlow.DelFlowData`. -/
def TriggerFlow.DelFlowData (execs : List ExecRef) (fuel : Nat) (path : String)
    (emitFlag : Bool) (w : World) : Run (World × Option GoError) :=
  TriggerFlow.changeFlowData execs fuel none "del" path .nil emitFlag w

/-- The method `Execution.SetFlowData` of the execution `e`. -/
def Execution.SetFlowData (execs : List ExecRef) (e : ExecRef) (fuel : Nat) (path : String)
    (value : Val) (emitFlag : Bool) (w : World) : Run (World × Option GoError) :=
  TriggerFlow.changeFlowData execs fuel (some e.ID) "set" path value emitFlag w

/-- The method `Execution.AppendFlowData` of the execution `e`. -/
def Execution.AppendFlowData (execs : List ExecRef) (e : ExecRef) (fuel : Nat) (path : String)
    (value : Val) (emitFlag : Bool) (w : World) : Run (World × Option GoError) :=
  TriggerFlow.changeFlowData execs fuel (some e.ID) "append" path value emitFlag w

/-- The method `Execution.DelFlowData` of the execution `e`. -/
def Execution.DelFlowData (execs : List ExecRef) (e : ExecRef) (fuel : Nat) (path : String)
    (emitFlag : Bool) (w : World) : Run (World × Option GoError) :=
  TriggerFlow.changeFlowData execs fuel (some e.ID) "del" path .nil emitFlag w

/-! ## Flows of the claims -/

/-- A handler that returns `f data.Value` with a nil error and does nothing else. -/
def pureHandler (f : Val → Val) : Handler := fun _ data w =>
  .ok { world := w, marks := data.layerMarks, value := f data.Value, err := none }

/-- A handler that returns the error `errors.New(msg)`. -/
def failingHandler (msg : String) : Handler := fun _ data w =>
  .ok { world := w, marks := data.layerMarks, value := .nil, err := some (.handler msg) }

/-- The handler of the tests that calls `data.SetResult(data.Value)` and returns the value. -/
def captureHandler : Handler := fun _ data w =>
  .ok { world := Execution.SetResult data.ExecutionID data.Value w, marks := data.layerMarks,
        value := data.Value, err := none }

/-- A handler that calls `data.SetResult(a)` and returns `b`. -/
def setResultHandler (a b : Val) : Handler := fun _ data w =>
  .ok { world := Execution.SetResult data.ExecutionID a w, marks := data.layerMarks,
        value := b, err := none }

/-- The flow `flow.When("START", "").To(h1).To(h2).End()` on a new flow. -/
def chainFlow (skipExceptions : Bool) (h1 h2 : Handler) (w : World) : Sys :=
  let s0 := New none "chain" skipExceptions w
  let (p0, s1) := s0.flow.startProcess.When (.key "START") "" s0
  let (p1, s2) := p0.To (.handler h1) {} s1
  let (p2, s3) := p1.To (.handler h2) {} s2
  (p2.End s3).2

/-- The flow `flow.When("START", "").To(h).End()` on a new flow. -/
def singleFlow (skipExceptions : Bool) (h : Handler) (w : World) : Sys :=
  let s0 := New none "single" skipExceptions w
  let (p0, s1) := s0.flow.startProcess.When (.key "START") "" s0
  let (p1, s2) := p0.To (.handler h) {} s1
  (p1.End s2).2

/-- What `Start` returns: the pair `(result, error)`. -/
def returned (r : Run (World × Val × Option GoError)) : Run (Val × Option GoError) :=
  r.map (fun x => x.2)

/-- The trigger log after a run. -/
def traceOf (r : Run (World × Val × Option GoError)) : Run (List Signal) :=
  r.map (fun x => x.1.trace)

/-- The payloads of the signals of the trigger log emitted under `key`. -/
def payloads (key : String) (trace : List Signal) : List Val :=
  (trace.filter (fun sig => decide (sig.triggerEvent = key))).map (fun sig => sig.value)

/-- Starts the flow of `s` with `v1`, and after that run has returned starts it again with
`v2`; the result is that of the second `Start`, with the trigger log of the second run only. -/
def startTwice (s : Sys) (fuel : Nat) (v1 v2 : Val) : Run (World × Val × Option GoError) :=
  match s.flow.Start fuel v1 true none s.world with
  | .error e => .error e
  | .ok (w1, _, _) => s.flow.Start fuel v2 true none { w1 with trace := [] }

/-- The target handler of the batch example: `fmt.Sprintf("%v-<name>", data.Value)` on a
string value. -/
def tagWith (name : String) : Val → Val
  | .str s => .str (s ++ "-" ++ name)
  | v => v

/-- The flow `flow.When("START", "").Batch(targets).To(capture)` on a new flow, with one
`NamedChunk` target per name, returning the start value tagged with the name. -/
def batchFlow (names : List String) (w : World) : Sys :=
  let s0 := New none "batch" false w
  let (p0, s1) := s0.flow.startProcess.When (.key "START") "" s0
  let (p1, s2) := p0.Batch (names.map (fun n => .named n (pureHandler (tagWith n)))) {} s1
  (p1.To (.handler captureHandler) { Name := "batch-result" } s2).2

/-- The flow `flow.When("START", "").ForEach(c).To(h).EndForEach().To(capture)`. -/
def forEachFlow (c : Int) (h : Val → Val) (w : World) : Sys :=
  let s0 := New none "for-each" false w
  let (p0, s1) := s0.flow.startProcess.When (.key "START") "" s0
  let (p1, s2) := p0.ForEach c s1
  let (p2, s3) := p1.To (.handler (pureHandler h)) {} s2
  let (p3, s4) := p2.EndForEach s3
  (p3.To (.handler captureHandler) { Name := "foreach-result" } s4).2

/-- The handler `double(x) = x * 2` of the for-each example. -/
def double : Val → Val
  | .int n => .int (n * 2)
  | v => v

/-- The condition `v >= 2` of the `hit_all` example. -/
def geTwo : CaseCond := .predicate (fun data =>
  match data.Value with
  | .int n => decide (n ≥ 2)
  | _ => false)

/-- The condition `v % 2 == 0` of the `hit_all` example. -/
def isEven : CaseCond := .predicate (fun data =>
  match data.Value with
  | .int n => decide (n % 2 = 0)
  | _ => false)

/-- The flow `Match(mode).Case(c1).To(h1).Case(c2).To(h2).EndMatch().To(capture)` on START. -/
def matchTwoFlow (mode : String) (c1 c2 : CaseCond) (h1 h2 : Val → Val) (w : World) : Sys :=
  let s0 := New none "match" false w
  let (p0, s1) := s0.flow.startProcess.When (.key "START") "" s0
  let (p1, s2) := p0.Match mode s1
  let (p2, s3) := p1.Case c1 s2
  let (p3, s4) := p2.To (.handler (pureHandler h1)) {} s3
  let (p4, s5) := p3.Case c2 s4
  let (p5, s6) := p4.To (.handler (pureHandler h2)) {} s5
  let (p6, s7) := p5.EndMatch s6
  (p6.To (.handler captureHandler) { Name := "match-result" } s7).2

/-- The wiring of the test `collect_filled_then_empty`: two branches off START, each a handler
returning a constant followed by `Collect(name, branch, mode)`, and a capturing handler on
the collect signal. -/
def collectFlow (name mode : String) (b1 b2 : String) (v1 v2 : Val) (w : World) : Sys :=
  let s0 := New none "collect" false w
  let (start, s1) := s0.flow.startProcess.When (.key "START") "" s0
  let (p1, s2) := start.To (.handler (pureHandler (fun _ => v1))) { Name := b1 } s1
  let (_, s3) := p1.Collect name b1 mode s2
  let (p3, s4) := start.To (.handler (pureHandler (fun _ => v2))) { Name := b2 } s3
  let (p4, s5) := p3.Collect name b2 mode s4
  (p4.To (.handler captureHandler) { Name := "collect-result" } s5).2

/-- The method `Execution.Emit`. -/
def Execution.Emit (e : ExecRef) (fuel : Nat) (triggerEvent : String) (value : Val) (w : World) :
    Run (World × Option GoError) :=
  Execution.EmitWithMarks e.handlers e.ID fuel triggerEvent value [] .event w

/-- Calls `Execution.Emit` for each signal of the list, one after the other. -/
def emitAll (e : ExecRef) (fuel : Nat) : List (String × Val) → World → Run World
  | [], w => .ok w
  | (key, value) :: rest, w =>
    match Execution.Emit e fuel key value w with
    | .error s => .error s
    | .ok (w1, _) => emitAll e fuel rest w1

/-- The wiring `flow.When("L", "").Collect(name, b1, mode)` and
`flow.When("R", "").Collect(name, b2, mode)` on a new flow, and an execution of it: the
branch `b1` fires on the event `L`, the branch `b2` on the event `R`. -/
def collectPair (name mode b1 b2 : String) (w : World) : ExecRef × World :=
  let s0 := New none "collect-pair" false w
  let (pl, s1) := s0.flow.startProcess.When (.key "L") "" s0
  let (_, s2) := pl.Collect name b1 mode s1
  let (pr, s3) := s2.flow.startProcess.When (.key "R") "" s2
  let (_, s4) := pr.Collect name b2 mode s3
  s4.flow.CreateExecution none none s4.world

/-- The trigger log after the signals `signals` were emitted, one after the other, on the
execution of `collectPair`. -/
def collectPairTrace (name mode b1 b2 : String) (signals : List (String × Val)) :
    Run (List Signal) :=
  let (e, w) := collectPair name mode b1 b2 (World.init (fun _ => 0))
  (emitAll e 16 signals w).map (fun w1 => w1.trace)

/-- An `EmitWithMarks` of an execution with an empty handler table: it writes the trigger
log and returns nil. -/
def logEmit (eid : String) : Emit := Execution.EmitWithMarks [] eid 1

/-- The registration step of `Process.Collect` on `GlobalBlockData`, for each branch ID of
the list in turn. -/
def registerBranches (collectionName : String) : List String → GoMap → GoMap
  | [], g => g
  | b :: rest, g =>
    registerBranches collectionName rest (RuntimeData.Set g (branchPath collectionName b) .marker)

/-- Firings of branches of the collection, one after the other: each pair `(b, v)` is a call
of the closure `collectBranches` that `Collect` registered for branch `b`, with payload `v`,
emitting through `logEmit`. -/
def fireAll (collectionName mode eid : String) : List (String × Val) → World → Run World
  | [], w => .ok w
  | (b, v) :: rest, w =>
    match collectBranches collectionName b mode ("Collect-" ++ collectionName) (logEmit eid)
        { TriggerEvent := b, TriggerType := .event, Value := v, ExecutionID := eid,
          layerMarks := [] } w with
    | .error s => .error s
    | .ok out => fireAll collectionName mode eid rest out.world

/-- The value the merging `Set` leaves in a slot that held `init`, after the firings `fs`:
the values fired at `b`, merged in order into `init`. -/
def storedFrom (init : Val) (fs : List (String × Val)) (b : String) : Val :=
  (fs.filter (fun x => decide (x.1 = b))).foldl (fun acc x => mergeValue acc x.2) init

/-- A value that is a `[]any` or a `map[string]any`. -/
def Val.isContainer : Val → Bool
  | .list _ => true
  | .map _ => true
  | _ => false

/-- The last value fired at branch `b`. -/
def lastFired (fs : List (String × Val)) (b : String) : Option Val :=
  ((fs.filter (fun x => decide (x.1 = b))).getLast?).map (fun x => x.2)

/-- The iteration oracle that ranges over every map in insertion order. -/
def inOrder : Nat → Nat := fun _ => 0

/-! ## Flows of the claims on data changes and single signals -/

/-- The flow `flow.When("START", "").SideBranch(side, "side").To(h).End()` on a new flow. -/
def sideFlow (skipExceptions : Bool) (side h : Handler) (w : World) : Sys :=
  let s0 := New none "side-branch" skipExceptions w
  let (p0, s1) := s0.flow.startProcess.When (.key "START") "" s0
  let (p1, s2) := p0.SideBranch (.handler side) "side" s1
  let (p2, s3) := p1.To (.handler h) {} s2
  (p2.End s3).2

/-- The key `When` listens on for the entry `event` of type `t` of a join spec: for an
`event` entry that names a chunk of the directory the trigger of that chunk, otherwise
`event` itself (the first statements of the inner loop of `Process.When`). -/
def joinKey (chunks : List (String × Chunk)) (t : TriggerType) (event : String) : String :=
  if t = .event then
    match mapGet chunks event with
    | some chunk => chunk.Trigger
    | none => event
  else event

/-- The flow `flow.When({t: ["flag"]}, "").To(capture)` on a new flow, and an execution of
it. -/
def flagListener (t : TriggerType) (w : World) : ExecRef × World :=
  let s0 := New none "flag" false w
  let (p0, s1) := s0.flow.startProcess.When (.join [(t, ["flag"])]) "" s0
  let (_, s2) := p0.To (.handler captureHandler) { Name := "capture" } s1
  s2.flow.CreateExecution none none s2.world

/-- The flow `flow.When({t: [key]}, "").To(h1).To(h2)` on a new flow. -/
def typedChainFlow (t : TriggerType) (key : String) (h1 h2 : Handler) (w : World) : Sys :=
  let s0 := New none "typed-chain" false w
  let (p0, s1) := s0.flow.startProcess.When (.join [(t, [key])]) "" s0
  let (p1, s2) := p0.To (.handler h1) {} s1
  (p1.To (.handler h2) {} s2).2

/-- A handler that stores its input under the runtime-data key `seen` and returns it. -/
def recordHandler : Handler := fun emit data w =>
  match Execution.changeRuntimeData emit data.ExecutionID "set" "seen" data.Value false w with
  | .error s => .error s
  | .ok (w1, err) => .ok { world := w1, marks := data.layerMarks, value := data.Value, err := err }

/-- A handler that stores its input under the runtime-data key `seen` and returns the error
`errors.New(msg)`. -/
def recordThenFail (msg : String) : Handler := fun emit data w =>
  match Execution.changeRuntimeData emit data.ExecutionID "set" "seen" data.Value false w with
  | .error s => .error s
  | .ok (w1, _) =>
    .ok { world := w1, marks := data.layerMarks, value := .nil, err := some (.handler msg) }

/-- The flow `flow.When({flow_data: ["shared"]}, "").To(h)` on a new flow with
`skipExceptions = false`, and three executions of it. -/
def fanoutFlow (h : Handler) (w : World) : List ExecRef × World :=
  let s0 := New none "flow-data-fanout" false w
  let (p0, s1) := s0.flow.startProcess.When (.join [(.flow_data, ["shared"])]) "" s0
  let (_, s2) := p0.To (.handler h) { Name := "flow-listener" } s1
  let (a, w1) := s2.flow.CreateExecution none none s2.world
  let (b, w2) := s2.flow.CreateExecution none none w1
  let (c, w3) := s2.flow.CreateExecution none none w2
  ([a, b, c], w3)

/-- What each execution holds under the runtime-data key `seen` after a run, with the error
the run returned. -/
def seenBy (r : Run (World × Option GoError)) : Run (List (String × Val) × Option GoError) :=
  r.map (fun x => (x.1.executions.map (fun e => (e.1, RuntimeData.Get e.2.runtimeData "seen" .nil)),
    x.2))

/-- The property `p` holds of what the run returns, if it returns. -/
def holdsAfter {α : Type} (r : Run α) (p : α → Prop) : Prop :=
  match r with
  | .ok x => p x
  | .error _ => True

/-- An `EmitWithMarks` that leaves the execution `b` as it is. -/
def EmitKeeps (b : String) (emit : Emit) : Prop :=
  ∀ key value marks ty w r, emit key value marks ty w = .ok r → r.1.execution b = w.execution b

/-- A handler that, called on an `EventData` of another execution, leaves the execution `b`
as it is whenever the `EmitWithMarks` it is given does. -/
def HandlerKeeps (b : String) (h : Handler) : Prop :=
  ∀ emit data w out, data.ExecutionID ≠ b → EmitKeeps b emit → h emit data w = .ok out →
    out.world.execution b = w.execution b

/-- The flow `flow.When({runtime_data: ["value"]}, "").To(record)` on a new flow, and two
executions of it. -/
def isolationFlow (w : World) : ExecRef × ExecRef × World :=
  let s0 := New none "runtime-isolation" false w
  let (p0, s1) := s0.flow.startProcess.When (.join [(.runtime_data, ["value"])]) "" s0
  let (_, s2) := p0.To (.handler recordHandler) { Name := "isolation" } s1
  let (a, w1) := s2.flow.CreateExecution none none s2.world
  let (b, w2) := s2.flow.CreateExecution none none w1
  (a, b, w2)

/-- What each execution holds under the runtime-data keys `value` and `seen`. -/
def storesOf (r : Run (World × Option GoError)) : Run (List (String × Val × Val)) :=
  r.map (fun x => x.1.executions.map (fun e =>
    (e.1, RuntimeData.Get e.2.runtimeData "value" .nil, RuntimeData.Get e.2.runtimeData "seen" .nil)))

/-- The signals a join spec lists, every key resolved with `joinKey`. -/
def joinSignals (chunks : List (String × Chunk)) (spec : List (TriggerType × List String)) :
    List (TriggerType × List String) :=
  spec.map (fun te => (te.1, te.2.map (joinKey chunks te.1)))

/-- The value last fired for the signal `(t, k)` among the firings `fs` (type, key, value),
and `init` when it has not fired. -/
def lastOf (fs : List (TriggerType × String × Val)) (t : TriggerType) (k : String) (init : Val) :
    Val :=
  fs.foldl (fun acc f => if f.1 = t ∧ f.2.1 = k then f.2.2 else acc) init

/-- The map of a join after the firings `fs`: every listed signal with the value last fired
for it, and the sentinel where it has not fired. -/
def joinState (signals : List (TriggerType × List String))
    (fs : List (TriggerType × String × Val)) : List (TriggerType × GoMap) :=
  signals.map (fun te => (te.1, te.2.map (fun k => (k, lastOf fs te.1 k .marker))))

/-- Firings of listed signals, one after the other: each triple `(t, k, v)` is a call of the
closure `waitTrigger` that `When` registered, on an `EventData` of the execution `eid` for
the signal `(t, k)` with payload `v`, emitting through `logEmit`. -/
def fireJoin (mode whenTrigger eid : String) :
    List (TriggerType × String × Val) → World → Run World
  | [], w => .ok w
  | (t, k, v) :: rest, w =>
    match waitTrigger mode whenTrigger (logEmit eid)
        { TriggerEvent := k, TriggerType := t, Value := v, ExecutionID := eid,
          layerMarks := [] } w with
    | .error s => .error s
    | .ok out => fireJoin mode whenTrigger eid rest out.world

/-- The flow `flow.When({runtime_data: ["ready"], event: ["TRIGGER_A"]}, mode).To(capture)`
on a new flow, and an execution of it. -/
def joinFlow (mode : String) (w : World) : ExecRef × World :=
  let s0 := New none "when-join" false w
  let (p0, s1) := s0.flow.startProcess.When
    (.join [(.runtime_data, ["ready"]), (.event, ["TRIGGER_A"])]) mode s0
  let (_, s2) := p0.To (.handler captureHandler) { Name := "capture" } s1
  s2.flow.CreateExecution none none s2.world

/-- On the execution of `joinFlow`: `SetRuntimeData("ready", v1, emit)` followed by
`Emit("TRIGGER_A", v2)`. -/
def joinRun (mode : String) (w : World) (fuel : Nat) (v1 v2 : Val) :
    Run (World × Option GoError) :=
  match Execution.SetRuntimeData (joinFlow mode w).1 fuel "ready" v1 true (joinFlow mode w).2 with
  | .error s => .error s
  | .ok (w1, _) => Execution.Emit (joinFlow mode w).1 fuel "TRIGGER_A" v2 w1

/-! ## `blueprint.go` on a heap

The definitions above hold a handler table as a value. Whether two tables share storage
cannot be said of values, so this section keeps the three levels of Go maps of a table as
objects of a heap: `AllHandlers` objects (trigger type to the address of a `Handlers`
object; a `TriggerType` is its string), `Handlers` objects (target to the address of a
`map[string]Handler` object) and `map[string]Handler` objects. An assignment to a map
updates the object at its address; a map literal takes the next free address. The range
loops of `SnapshotHandlers` visit the entries of a map in the order they are stored: each
key is written once, into a map made for it, so the order does not show in the result. -/

/-- The heap of map objects of handler tables, with the ID counter. -/
structure Tables where
  tops : Nat → List (String × Nat)
  mids : Nat → List (String × Nat)
  inners : Nat → List (String × Handler)
  next : Nat
  uidCounter : Nat

/-- The lookup `table[t][target][id]` in the `AllHandlers` object at `top`. -/
def Tables.lookup (h : Tables) (top : Nat) (t : TriggerType) (target id : String) :
    Option Handler :=
  (mapGet (h.tops top) t.toString).bind (fun m =>
    (mapGet (h.mids m) target).bind (fun i => mapGet (h.inners i) id))

/-- The map literal `AllHandlers{}` with the given content. -/
def Tables.newTop (h : Tables) (content : List (String × Nat)) : Nat × Tables :=
  (h.next, { h with tops := Function.update h.tops h.next content, next := h.next + 1 })

/-- The map literal `Handlers{}`. -/
def Tables.newMid (h : Tables) : Nat × Tables :=
  (h.next, { h with mids := Function.update h.mids h.next [], next := h.next + 1 })

/-- The map literal `map[string]Handler{}`. -/
def Tables.newInner (h : Tables) : Nat × Tables :=
  (h.next, { h with inners := Function.update h.inners h.next [], next := h.next + 1 })

/-- The function `nextID` on the counter of the heap. -/
def Tables.nextID (pfx : String) (h : Tables) : String × Tables :=
  let id := (h.uidCounter + 1) % 2 ^ 64
  ((if pfx = "" then "id" else pfx) ++ "-" ++ toString id, { h with uidCounter := id })

/-- The statements `handlers := b.handlers[triggerType]; if handlers == nil { ... }` of
`AddHandler`, on the `AllHandlers` object at `b`: the address of the `Handlers` object of the
trigger type, made and stored when there is none. -/
def Tables.handlersOf (b : Nat) (t : String) (h : Tables) : Nat × Tables :=
  match mapGet (h.tops b) t with
  | some m => (m, h)
  | none =>
    (h.next, { h.newMid.2 with
      tops := Function.update h.newMid.2.tops b (mapSet (h.newMid.2.tops b) t h.next) })

/-- The statement `if _, ok := handlers[target]; !ok { handlers[target] = ... }` of
`AddHandler`, on the `Handlers` object at `m`: the address of the `map[string]Handler` of the
target, made and stored when there is none. -/
def Tables.targetOf (m : Nat) (target : String) (h : Tables) : Nat × Tables :=
  match mapGet (h.mids m) target with
  | some i => (i, h)
  | none =>
    (h.next, { h.newInner.2 with
      mids := Function.update h.newInner.2.mids m (mapSet (h.newInner.2.mids m) target h.next) })

/-- The method `BluePrint.AddHandler` on the blueprint whose `handlers` field is the
`AllHandlers` object at `b`. -/
def Tables.AddHandler (b : Nat) (triggerType : TriggerType) (target : String)
    (handler : Handler) (id : String) (h : Tables) : String × Tables :=
  let (id1, h1) := if id = "" then h.nextID "handler" else (id, h)
  let (m, h2) := h1.handlersOf b triggerType.toString
  let (i, h3) := h2.targetOf m target
  (id1, { h3 with inners := Function.update h3.inners i (mapSet (h3.inners i) id1 handler) })

/-- The loop of `RemoveHandler` for a `Handler` argument: the first ID whose handler has the
code pointer of the argument (`same`). -/
def findSame (same : Handler → Bool) : List (String × Handler) → Option String
  | [] => none
  | (id, h) :: rest => if same h then some id else findSame same rest

/-- The method `BluePrint.RemoveHandler`; the argument is a handler ID (`Sum.inl`) or a
handler, given by the test `same` for having its code pointer (`Sum.inr`). -/
def Tables.RemoveHandler (b : Nat) (triggerType : TriggerType) (target : String)
    (handler : String ⊕ (Handler → Bool)) (h : Tables) : Tables :=
  match mapGet (h.tops b) triggerType.toString with
  | none => h
  | some m =>
    match mapGet (h.mids m) target with
    | none => h
    | some i =>
      match handler with
      | .inl typed => { h with inners := Function.update h.inners i (mapDel (h.inners i) typed) }
      | .inr same =>
        match findSame same (h.inners i) with
        | some id => { h with inners := Function.update h.inners i (mapDel (h.inners i) id) }
        | none => h

/-- The method `BluePrint.RemoveAll`. -/
def Tables.RemoveAll (b : Nat) (triggerType : TriggerType) (target : String) (h : Tables) :
    Tables :=
  match mapGet (h.tops b) triggerType.toString with
  | none => h
  | some m =>
    { h.newInner.2 with
      mids := Function.update h.newInner.2.mids m (mapSet (h.newInner.2.mids m) target h.next) }

/-- The innermost loop of `SnapshotHandlers`: the content of the new `map[string]Handler`. -/
def copyItems (items : List (String × Handler)) : List (String × Handler) :=
  items.foldl (fun acc kv => mapSet acc kv.1 kv.2) []

/-- The middle loop of `SnapshotHandlers` over the targets of one trigger type; `acc` is the
content of the new `Handlers` object so far. -/
def copyTargets : List (String × Nat) → List (String × Nat) → Tables →
    List (String × Nat) × Tables
  | [], acc, h => (acc, h)
  | (target, items) :: rest, acc, h =>
    let (i, h0) := h.newInner
    let h1 := { h0 with inners := Function.update h0.inners i (copyItems (h0.inners items)) }
    copyTargets rest (mapSet acc target i) h1

/-- The outer loop of `SnapshotHandlers` over the trigger types; `acc` is the content of
`result` so far. -/
def copyTypes : List (String × Nat) → List (String × Nat) → Tables →
    List (String × Nat) × Tables
  | [], acc, h => (acc, h)
  | (t, handlers) :: rest, acc, h =>
    let (m, h0) := h.newMid
    let (content, h1) := copyTargets (h0.mids handlers) [] h0
    let h2 := { h1 with mids := Function.update h1.mids m content }
    copyTypes rest (mapSet acc t m) h2

/-- The method `BluePrint.SnapshotHandlers`: the address of the new `AllHandlers` object. -/
def Tables.SnapshotHandlers (b : Nat) (h : Tables) : Nat × Tables :=
  let (e, h1) := h.newMid
  let (f, h2) := h1.newMid
  let (r, h3) := h2.newMid
  let (content, h4) := copyTypes (h3.tops b)
    [(TriggerType.event.toString, e), (TriggerType.flow_data.toString, f),
      (TriggerType.runtime_data.toString, r)] h3
  h4.newTop content

/-- The function `NewBluePrint`, as far as the handler table goes: the address of the
`AllHandlers` object of the new blueprint. -/
def Tables.NewBluePrint (h : Tables) : Nat × Tables :=
  let (e, h1) := h.newMid
  let (f, h2) := h1.newMid
  let (r, h3) := h2.newMid
  h3.newTop [(TriggerType.event.toString, e), (TriggerType.flow_data.toString, f),
    (TriggerType.runtime_data.toString, r)]

/-- The method `BluePrint.Copy`, as far as the handler table goes (`SaveBluePrint` is
`Copy("")`, and `CreateExecution` hands the table of `SnapshotHandlers` to the execution):
the address of the `AllHandlers` object of the copy. -/
def Tables.Copy (b : Nat) (h : Tables) : Nat × Tables :=
  let (_, h1) := h.NewBluePrint
  h1.SnapshotHandlers b

/-- An edit of a blueprint: a call of `AddHandler`, `RemoveHandler` or `RemoveAll`. -/
inductive Edit where
  | add (triggerType : TriggerType) (target : String) (handler : Handler) (id : String)
  | remove (triggerType : TriggerType) (target : String) (handler : String ⊕ (Handler → Bool))
  | removeAll (triggerType : TriggerType) (target : String)

/-- One edit of the blueprint whose table is at `b`. -/
def Tables.edit (b : Nat) (h : Tables) : Edit → Tables
  | .add triggerType target handler id => (h.AddHandler b triggerType target handler id).2
  | .remove triggerType target handler => h.RemoveHandler b triggerType target handler
  | .removeAll triggerType target => h.RemoveAll b triggerType target

/-- Edits of the blueprint whose table is at `b`, one after the other. -/
def Tables.edits (b : Nat) (h : Tables) (es : List Edit) : Tables := es.foldl (Tables.edit b) h

/-- An empty heap. -/
def Tables.empty : Tables :=
  { tops := fun _ => [], mids := fun _ => [], inners := fun _ => [], next := 0, uidCounter := 0 }

/-- An address outside the range `[lo, hi)`. -/
def OutOf (lo hi a : Nat) : Prop := a < lo ∨ hi ≤ a

/-- No object of the table at `top` has its address in the range `[lo, hi)`. -/
def Tables.Outside (h : Tables) (top lo hi : Nat) : Prop :=
  OutOf lo hi top ∧ ∀ t m, (t, m) ∈ h.tops top →
    OutOf lo hi m ∧ ∀ tg i, (tg, i) ∈ h.mids m → OutOf lo hi i

/-- Every object of the table at `top` has its address in the range `[lo, hi)`. -/
def Tables.Inside (h : Tables) (top lo hi : Nat) : Prop :=
  (lo ≤ top ∧ top < hi) ∧ ∀ t m, (t, m) ∈ h.tops top →
    (lo ≤ m ∧ m < hi) ∧ ∀ tg i, (tg, i) ∈ h.mids m → lo ≤ i ∧ i < hi

/-- The objects at the addresses of the range `[lo, hi)` are the same in both heaps. -/
def Tables.SameOn (lo hi : Nat) (h h2 : Tables) : Prop :=
  ∀ a, lo ≤ a → a < hi →
    h2.tops a = h.tops a ∧ h2.mids a = h.mids a ∧ h2.inners a = h.inners a

/-- The table at `top` is made of allocated objects, and its maps have pairwise distinct
keys, as Go maps do. -/
def Tables.WellFormed (h : Tables) (top : Nat) : Prop :=
  h.Inside top 0 h.next ∧ ((h.tops top).map (fun x => x.1)).Nodup ∧
    ∀ t m, (t, m) ∈ h.tops top → ((h.mids m).map (fun x => x.1)).Nodup ∧
      ∀ tg i, (tg, i) ∈ h.mids m → ((h.inners i).map (fun x => x.1)).Nodup

/-! ## The flow of the claim on `Match` in mode `hit_first`

A match of any number of cases, the state the builder reaches for it written in closed
form, and the predicates used to follow one run of it through the dispatcher. -/

/-- The number a list of decimal digits writes. -/
def digitsValue (cs : List Char) : Nat := cs.foldl (fun a c => 10 * a + (c.toNat - 48)) 0

/-- The steps `.Case(c).To(h)` for every pair `(c, h)` of the list in turn. -/
def addCases : List (Val × (Val → Val)) → Process × Sys → Process × Sys
  | [], ps => ps
  | (c, h) :: rest, (p, s) =>
    let (p1, s1) := p.Case (.literal c) s
    addCases rest (p1.To (.handler (pureHandler h)) {} s1)

/-- The steps `.CaseElse().To(h)` when an else handler is given. -/
def addElse (he : Option (Val → Val)) (ps : Process × Sys) : Process × Sys :=
  match he with
  | none => ps
  | some h =>
    let (p1, s1) := ps.1.CaseElse ps.2
    p1.To (.handler (pureHandler h)) {} s1

/-- The flow `flow.When("START", "").Match("hit_first")`, then `.Case(c).To(h)` for every
pair of `cs`, then `.CaseElse().To(h)` when `he` holds a handler, then `.EndMatch()`, on a
new flow. -/
def matchFirstFlow (cs : List (Val × (Val → Val))) (he : Option (Val → Val)) (w : World) : Sys :=
  let s0 := New none "match-first" false w
  let (p0, s1) := s0.flow.startProcess.When (.key "START") "" s0
  let (p1, s2) := p0.Match "hit_first" s1
  let (p2, s3) := addElse he (addCases cs (p1, s2))
  (p2.EndMatch s3).2

/-- The key and the payload of every signal of the trigger log, in order. -/
def signalsOf (w : World) : List (String × Val) :=
  w.trace.map (fun sig => (sig.triggerEvent, sig.value))

/-- The signals of one run of `matchFirstFlow` started with `v`. -/
def matchFirstRun (cs : List (Val × (Val → Val))) (he : Option (Val → Val)) (seeds : Nat → Nat)
    (fuel : Nat) (v : Val) : Run (List (String × Val)) :=
  let s := matchFirstFlow cs he (World.init seeds)
  (s.flow.Start fuel v false none s.world).map (fun r => signalsOf r.1)

/-- The scope of the match of `matchFirstFlow` with the given content. -/
def matchScope (cases : List (String × CaseCond)) (ends : List String) (first hasElse : Bool) :
    BlockData :=
  { Outer := some 1, for_each_id := none, match_id := some "match-2", cases := cases,
    branch_ends := ends, is_first_case := some first, has_else := some hasElse }

/-- The state of `matchFirstFlow` under construction: the handler table, the chunks, the ID
counter, the scope of the match and the number of scopes opened after it. -/
def builtSys (seeds : Nat → Nat) (handlers : AllHandlers) (chunks : List (String × Chunk))
    (uid : Nat) (scope : BlockData) (extra : Nat) : Sys :=
  { flow := { Name := "match-first",
              bluePrint := { Name := "blueprint-1", handlers := handlers, Chunks := chunks },
              skipExceptions := false, startProcess := ⟨"START", .event, 0⟩ },
    world := { World.init seeds with
               uidCounter := uid,
               blocks := [emptyBlock, emptyBlock, scope] ++ List.replicate extra emptyBlock } }

/-- The trigger of the chunk that `To` makes of an unnamed handler when the ID counter is
`k`. -/
def toTrigger (k : Nat) : String :=
  "Chunk[chunk-" ++ toString (k + 1) ++ "]-chunk-" ++ toString (k + 2)

/-- The chunk `To` makes of an unnamed handler when the ID counter is `k`. -/
def toChunk (k : Nat) (h : Handler) : Chunk :=
  { ID := "chunk-" ++ toString (k + 2), Name := "chunk-" ++ toString (k + 1),
    Trigger := toTrigger k, handler := h }

/-- The registration `To` makes on the signal `key` when the ID counter is `k`. -/
def toEntry (k : Nat) (key : String) (h : Handler) : Entry :=
  ⟨.event, key, "handler-" ++ toString (k + 3), (toChunk k h).Call⟩

/-- The chunk of the `Match` call of `matchFirstFlow`. -/
def matchChunk : Chunk :=
  { ID := "chunk-3", Name := "match", Trigger := "Chunk[match]-chunk-3",
    handler := matchCase "hit_first" "match-2" 2 }

/-- The key of the case whose ID is `case-j`, in the match of `matchFirstFlow`. -/
def caseKey (j : Nat) : String := "Match-match-2-Case-case-" ++ toString j

/-- The registrations of the steps `.Case(c).To(h)` made from ID counter `k` on. -/
def caseEntries : Nat → List (Val × (Val → Val)) → AllHandlers
  | _, [] => []
  | k, (_, h) :: rest =>
    toEntry (k + 1) (caseKey (k + 1)) (pureHandler h) :: caseEntries (k + 4) rest

/-- The conditions the steps `.Case(c).To(h)` store, made from ID counter `k` on. -/
def caseConds : Nat → List (Val × (Val → Val)) → List (String × CaseCond)
  | _, [] => []
  | k, (c, _) :: rest => ("case-" ++ toString (k + 1), .literal c) :: caseConds (k + 4) rest

/-- The triggers at which the branches of the steps `.Case(c).To(h)` end. -/
def caseTriggers : Nat → List (Val × (Val → Val)) → List String
  | _, [] => []
  | k, _ :: rest => toTrigger (k + 1) :: caseTriggers (k + 4) rest

/-- The trigger of the chunk `EndMatch` makes for a branch end when the ID counter is `k`. -/
def collectTrigger (k : Nat) : String := "Chunk[match_collect]-chunk-" ++ toString (k + 1)

/-- The chunk `EndMatch` makes for a branch end when the ID counter is `k`. -/
def collectChunk (k : Nat) : Chunk :=
  { ID := "chunk-" ++ toString (k + 1), Name := "match_collect", Trigger := collectTrigger k,
    handler := collectBranchResult "match-2" }

/-- The registrations `EndMatch` makes for the branch ends, from ID counter `k` on. -/
def collectEntries : Nat → List String → AllHandlers
  | _, [] => []
  | k, t :: rest =>
    ⟨.event, t, "handler-" ++ toString (k + 2), (collectChunk k).Call⟩ :: collectEntries (k + 2) rest

/-- Every handler ID of the table was generated when the ID counter was at most `k`. -/
def IdsBelow (k : Nat) (hs : AllHandlers) : Prop :=
  ∀ x ∈ hs, ∃ j, j ≤ k ∧ x.id = "handler-" ++ toString j

/-- The chunks of `matchFirstFlow` are stored under three names. -/
def ChunkNames (chunks : List (String × Chunk)) : Prop :=
  ∀ x ∈ chunks, x.1 = "match" ∨ x.1 = "" ∨ x.1 = "match_collect"

/-- The registration of the steps `.CaseElse().To(h)`, made when the ID counter is `k`. -/
def elseEntries (k : Nat) : Option (Val → Val) → AllHandlers
  | none => []
  | some h => [toEntry k "Match-match-2-Else" (pureHandler h)]

/-- The trigger at which the branch of `.CaseElse().To(h)` ends. -/
def elseTriggers (k : Nat) : Option (Val → Val) → List String
  | none => []
  | some _ => [toTrigger k]

/-- The number of IDs the steps `.CaseElse().To(h)` take. -/
def elseIDs : Option (Val → Val) → Nat
  | none => 0
  | some _ => 3

/-- The branch ends of `matchFirstFlow`. -/
def matchEnds (cs : List (Val × (Val → Val))) (he : Option (Val → Val)) : List String :=
  caseTriggers 4 cs ++ elseTriggers (4 + 4 * cs.length) he

/-- The handler table of `matchFirstFlow`. -/
def matchHandlers (cs : List (Val × (Val → Val))) (he : Option (Val → Val)) : AllHandlers :=
  ⟨.event, "START", "handler-4", matchChunk.Call⟩ :: caseEntries 4 cs
    ++ elseEntries (4 + 4 * cs.length) he
    ++ collectEntries (4 + 4 * cs.length + elseIDs he) (matchEnds cs he)

/-- A state in which the scope of the match holds `scope` and the execution `eid` has no
concurrency limit and no match results stored. -/
def Steady (eid : String) (scope : BlockData) (w : World) : Prop :=
  w.block 2 = scope ∧
    ∃ e, w.execution eid = some e ∧ e.semaphore = 0 ∧
      e.systemRuntimeData = RuntimeData.Set [] "result" .streamStop

/-- From every state in `P` the call `emit(key, value, marks)` returns nil, in a state in `P`,
after the signals `(key, value) :: out` were written to the log. -/
def Emits (P : World → Prop) (emit : Emit) (key : String) (value : Val) (marks : List String)
    (out : List (String × Val)) : Prop :=
  ∀ w, P w → ∃ w2, emit key value marks .event w = .ok (w2, none) ∧ P w2 ∧
    signalsOf w2 = signalsOf w ++ (key, value) :: out

/-- From every state in `P` the handler returns `value` and a nil error, leaving marks that
satisfy `Q` in its event data, in a state in `P`, after the signals `out` were written to the
log. -/
def Returns (P : World → Prop) (h : Handler) (emit : Emit) (data : EventData)
    (out : List (String × Val)) (Q : List String → Prop) (value : Val) : Prop :=
  ∀ w, P w → ∃ r, h emit data w = .ok r ∧ r.err = none ∧ Q r.marks ∧ r.value = value ∧
    P r.world ∧ signalsOf r.world = signalsOf w ++ out

/-- The cases of the test `match_hit_first`: `"A"` gives `"case-a"`, `"B"` gives `"case-b"`. -/
def testCases : List (Val × (Val → Val)) :=
  [(.str "A", fun _ => .str "case-a"), (.str "B", fun _ => .str "case-b")]

/-! ## `execution.go`: waiting for the result -/

/-- The errors `ctx.Err()` returns once a context is done. -/
inductive ContextError where
  | deadlineExceeded
  | canceled
  deriving DecidableEq, Repr

/-- The text `err.Error()` of a context error. -/
def ContextError.Error : ContextError → String
  | .deadlineExceeded => "context deadline exceeded"
  | .canceled => "context canceled"

/-- An error built by `fmt.Errorf` with the verb `%w`: its text, and the error that
`errors.Unwrap` returns for it. -/
structure WrapError where
  text : String
  cause : ContextError
  deriving DecidableEq, Repr

/-- The error `fmt.Errorf("get result timeout/cancelled: %w", ctx.Err())`. -/
def resultTimeoutError (c : ContextError) : WrapError :=
  ⟨"get result timeout/cancelled: " ++ c.Error, c⟩

/-- The method `Execution.GetResultWithContext`, as one `select`: the channel `resultReady`
is closed when `resultSet` holds, `done` is `ctx.Err()` (`none` while the context is not
done), and `pick` is the case `select` takes when both channels are ready. The value `none`
stands for a `select` with no ready case: the call goes on waiting. -/
def Execution.GetResultWithContext (eid : String) (done : Option ContextError) (pick : Bool)
    (w : World) : Option (Val × Option WrapError) :=
  let ready := match w.execution eid with
    | some e => e.resultSet
    | none => false
  let result := match w.execution eid with
    | some e => e.result
    | none => .nil
  match ready, done with
  | true, none => some (result, none)
  | true, some c => if pick then some (result, none) else some (.nil, some (resultTimeoutError c))
  | false, some c => some (.nil, some (resultTimeoutError c))
  | false, none => none

/-- No result has been set on the execution `eid`. -/
def NoResult (eid : String) (w : World) : Prop :=
  ∀ e, w.execution eid = some e → e.resultSet = false

/-- An `EmitWithMarks` that sets no result on the execution `eid`. -/
def EmitSetsNone (eid : String) (emit : Emit) : Prop :=
  ∀ key value marks ty w r, NoResult eid w → emit key value marks ty w = .ok r → NoResult eid r.1

/-- A handler that sets no result on the execution `eid` whenever the `EmitWithMarks` it is
given sets none. -/
def HandlerSetsNone (eid : String) (h : Handler) : Prop :=
  ∀ emit data w out, EmitSetsNone eid emit → NoResult eid w → h emit data w = .ok out →
    NoResult eid out.world

/-- The execution of the test `set_result_override_and_timeout`: one execution of a new flow
without handlers. -/
def timeoutExecution : ExecRef × World :=
  (New none "result-timeout" false (World.init inOrder)).flow.CreateExecution none none
    (New none "result-timeout" false (World.init inOrder)).world

/-! ## `execution.go`: the runtime stream -/

/-- The test `item == RuntimeStreamStop` (pointer comparison against the package sentinel). -/
def Val.isStreamStop : Val → Bool
  | .streamStop => true
  | _ => false

/-- The method `Execution.PutIntoStream`, called by a handler of the `Start` that the
goroutine of `consumeRuntimeStream` runs: the send `e.runtimeQueue <- item` on a channel of
capacity 256, from which that goroutine receives only after `Start` has returned. A send on
the full channel is never taken (`Stuck.deadlock`). -/
def Execution.PutIntoStream (eid : String) (item : Val) (w : World) :
    Run (World × Option GoError) :=
  match w.execution eid with
  | none => .ok (w, none)
  | some e =>
    if e.runtimeQueue.length < 256 then
      .ok (w.updExecution eid (fun e => { e with runtimeQueue := e.runtimeQueue ++ [item] }), none)
    else .error .deadlock

/-- The method `Execution.StopStream`: the send `e.runtimeQueue <- RuntimeStreamStop`. -/
def Execution.StopStream (eid : String) (w : World) : Run (World × Option GoError) :=
  Execution.PutIntoStream eid .streamStop w

/-- The receive loop of `consumeRuntimeStream` on the queue content `q`: the items it sends
on `out`, and the items it leaves in the queue. The loop ends at the stop sentinel or, on the
empty queue, when the timeout or the context ends. -/
def receiveLoop : List Val → List Val × List Val
  | [] => ([], [])
  | item :: q =>
    if item.isStreamStop then ([], q)
    else (item :: (receiveLoop q).1, (receiveLoop q).2)

/-- The goroutine of `Execution.consumeRuntimeStream` with a positive timeout: the items it
sends on `out` before it closes that channel. It starts the execution itself, unless the
execution has started, and receives from the queue when `Start` has returned. -/
def Execution.consumeRuntimeStream (e : ExecRef) (fuel : Nat) (initialValue : Val) (w : World) :
    Run (World × List Val) :=
  let started := match w.execution e.ID with
    | some x => x.started
    | none => false
  let afterStart : Run World :=
    if !started then (Execution.Start e fuel initialValue false w).map (fun r => r.1) else .ok w
  match afterStart with
  | .error s => .error s
  | .ok w1 =>
    let q := match w1.execution e.ID with
      | some x => x.runtimeQueue
      | none => []
    .ok (w1.updExecution e.ID (fun x => { x with runtimeQueue := (receiveLoop q).2 }),
      (receiveLoop q).1)

/-- The source of the channel that `TriggerFlow.GetRuntimeStream` returns: a new execution
and the items its `consumeRuntimeStream` hands to the `GeneratorConsumer` behind that
channel. -/
def TriggerFlow.GetRuntimeStream (f : TriggerFlow) (fuel : Nat) (initialValue : Val)
    (concurrency : Option Int) (w : World) : Run (World × List Val) :=
  let (execution, w1) := f.CreateExecution none concurrency w
  Execution.consumeRuntimeStream execution fuel initialValue w1

/-- Calls `PutIntoStream` on every value of the list, in order. -/
def putAll (eid : String) : List Val → World → Run World
  | [], w => .ok w
  | x :: xs, w =>
    match Execution.PutIntoStream eid x w with
    | .error s => .error s
    | .ok (w1, _) => putAll eid xs w1

/-- A handler that puts the values `xs` into the stream, calls `StopStream`, puts the values
`after` into the stream and returns `"done"`. -/
def streamHandler (xs after : List Val) : Handler := fun _ data w =>
  match putAll data.ExecutionID xs w with
  | .error s => .error s
  | .ok w1 =>
    match Execution.StopStream data.ExecutionID w1 with
    | .error s => .error s
    | .ok (w2, _) =>
      match putAll data.ExecutionID after w2 with
      | .error s => .error s
      | .ok w3 => .ok { world := w3, marks := data.layerMarks, value := .str "done", err := none }

/-- The flow of the test `runtime_stream_put_stop`,
`flow.When("START", "").To(h, false, "stream").End()` on a new flow. -/
def streamFlow (h : Handler) (w : World) : Sys :=
  let s0 := New none "runtime-stream" false w
  let (p0, s1) := s0.flow.startProcess.When (.key "START") "" s0
  let (p1, s2) := p0.To (.handler h) { Name := "stream" } s1
  (p1.End s2).2

/-- What the stream of `streamFlow` with the handler `streamHandler xs after` delivers. -/
def streamRun (xs after : List Val) (seeds : Nat → Nat) (fuel : Nat) : Run (List Val) :=
  ((streamFlow (streamHandler xs after) (World.init seeds)).flow.GetRuntimeStream fuel .nil none
    (streamFlow (streamHandler xs after) (World.init seeds)).world).map (fun r => r.2)

/-! ## Flows of the claims on layer marks, nested matches and unresolved targets -/

/-- A handler that calls `data.LayerIn()` and returns `v`. -/
def layerInHandler (v : Val) : Handler := fun _ data w =>
  let (marks, w1) := LayerIn data.layerMarks w
  .ok { world := w1, marks := marks, value := v, err := none }

/-- What a handler call leaves behind: the trigger log and the returned pair. -/
def outcome (r : Run HandlerOut) : Run (List Signal × Val × Option GoError) :=
  r.map (fun o => (o.world.trace, o.value, o.err))

/-- A chunk named `c` around the handler `h`, in a program that has created nothing else. -/
def soloChunk (h : Handler) : Chunk × World := NewChunk (some h) "c" (World.init inOrder)

/-- The flow `flow.When("START", "").ForEach().ForEach().To(h).EndForEach().EndForEach()
.To(capture)` on a new flow: a for-each inside a for-each. -/
def nestedForEachFlow (h : Val → Val) (w : World) : Sys :=
  let s0 := New none "nested-foreach" false w
  let (p0, s1) := s0.flow.startProcess.When (.key "START") "" s0
  let (p1, s2) := p0.ForEach 0 s1
  let (p2, s3) := p1.ForEach 0 s2
  let (p3, s4) := p2.To (.handler (pureHandler h)) {} s3
  let (p4, s5) := p3.EndForEach s4
  let (p5, s6) := p4.EndForEach s5
  (p5.To (.handler captureHandler) { Name := "nested-result" } s6).2

/-- The keys and mark stacks of the signals of the trigger log whose key is in `keys`. -/
def marksOf (keys : List String) (trace : List Signal) : List (String × List String) :=
  (trace.filter (fun sig => decide (sig.triggerEvent ∈ keys))).map
    (fun sig => (sig.triggerEvent, sig.marks))

/-- An execution of a new flow in which the for-each instance `layer-3` waits for the result
of its one item `layer-4`. -/
def pendingItem : ExecRef × World :=
  let s := New none "pending" false (World.init inOrder)
  let r := s.flow.CreateExecution none none s.world
  (r.1, r.2.setSystemData r.1.ID
    (RuntimeData.Set (r.2.systemData r.1.ID) "for_each_results.layer-3.layer-4" .marker))

/-- The flow `flow.When("START", "").Match(mode).Case("A").To(-> "case-a").Case("B")
.To(-> "case-b").EndMatch().To(capture)` on a new flow: a match without `CaseElse`. -/
def matchNoElseFlow (mode : String) (w : World) : Sys :=
  let s0 := New none "match-no-else" false w
  let (p0, s1) := s0.flow.startProcess.When (.key "START") "" s0
  let (p1, s2) := p0.Match mode s1
  let (p2, s3) := p1.Case (.literal (.str "A")) s2
  let (p3, s4) := p2.To (.handler (pureHandler (fun _ => .str "case-a"))) {} s3
  let (p4, s5) := p3.Case (.literal (.str "B")) s4
  let (p5, s6) := p4.To (.handler (pureHandler (fun _ => .str "case-b"))) {} s5
  let (p6, s7) := p5.EndMatch s6
  (p6.To (.handler captureHandler) { Name := "match-result" } s7).2

/-- The flow `flow.When("START", "").ForEach().Match(mode).Case(1).To(-> "OK").EndMatch()
.EndForEach().To(capture)` on a new flow: a match without `CaseElse` in a for-each body. -/
def matchInForEachFlow (mode : String) (w : World) : Sys :=
  let s0 := New none "match-in-foreach" false w
  let (p0, s1) := s0.flow.startProcess.When (.key "START") "" s0
  let (p1, s2) := p0.ForEach 0 s1
  let (p2, s3) := p1.Match mode s2
  let (p3, s4) := p2.Case (.literal (.int 1)) s3
  let (p4, s5) := p3.To (.handler (pureHandler (fun _ => .str "OK"))) {} s4
  let (p5, s6) := p4.EndMatch s5
  let (p6, s7) := p5.EndForEach s6
  (p6.To (.handler captureHandler) { Name := "foreach-result" } s7).2

/-- The flow `matchNoElseFlow` in mode `hit_first`. -/
def matchFirstDemo : Sys := matchNoElseFlow "hit_first" (World.init inOrder)

/-- The flow `matchInForEachFlow` in mode `hit_first`. -/
def matchInForEachDemo : Sys := matchInForEachFlow "hit_first" (World.init inOrder)

/-- The flow `matchInForEachFlow` in mode `hit_all`. -/
def matchAllInForEachDemo : Sys := matchInForEachFlow "hit_all" (World.init inOrder)

/-- A state with one scope, a match with the literal cases `"A"` and `"B"` and no else. -/
def twoCaseScope : World :=
  { World.init inOrder with
    blocks := [{ emptyBlock with
      match_id := some "match-2"
      cases := [("case-5", .literal (.str "A")), ("case-9", .literal (.str "B"))]
      is_first_case := some false
      has_else := some false }] }

/-- Appends one `To` step per name to the chain, each with a handler that returns its input;
the empty name stands for a handler given without a name. -/
def addSteps : List String → Process × Sys → Process × Sys
  | [], ps => ps
  | name :: rest, ps => addSteps rest (ps.1.To (.handler (pureHandler id)) { Name := name } ps.2)

/-- The flow `flow.When("START", "").Match("").Case("A").To(..) ... .Match("").Case("A")
.To(-> "inner-a").EndMatch().Case("B").To(-> "outer-b").EndMatch().To(capture)` on a new flow:
a match nested in the first branch of a match, after the steps named by `steps`. -/
def nestedMatchFlow (steps : List String) (w : World) : Sys :=
  let s0 := New none "nested-match" false w
  let (p0, s1) := s0.flow.startProcess.When (.key "START") "" s0
  let (p1, s2) := p0.Match "" s1
  let (p2, s3) := p1.Case (.literal (.str "A")) s2
  let (p3, s4) := addSteps steps (p2, s3)
  let (p4, s5) := p3.Match "" s4
  let (p5, s6) := p4.Case (.literal (.str "A")) s5
  let (p6, s7) := p5.To (.handler (pureHandler (fun _ => .str "inner-a"))) {} s6
  let (p7, s8) := p6.EndMatch s7
  let (p8, s9) := p7.Case (.literal (.str "B")) s8
  let (p9, s10) := p8.To (.handler (pureHandler (fun _ => .str "outer-b"))) {} s9
  let (p10, s11) := p9.EndMatch s10
  (p10.To (.handler captureHandler) { Name := "nested-result" } s11).2

/-- The nested match after five steps, the last one named: the inner match is `match-20`. -/
def nestedMatchDemo : Sys := nestedMatchFlow ["", "", "", "", "step5"] (World.init inOrder)

/-- The nested match after one step: the inner match is `match-9`. -/
def nestedMatchControl : Sys := nestedMatchFlow [""] (World.init inOrder)

/-- The keys of the trigger log that start with `Match-`. -/
def matchKeys (trace : List Signal) : List String :=
  (trace.map (fun sig => sig.triggerEvent)).filter (fun key => stringsHasPrefix key "Match-")

/-- Targets that `Batch` resolves to no chunk: a string (`some name`) or a value of an
unsupported type (`none`). -/
def unresolved : List (Option String) → List Target
  | [] => []
  | some name :: rest => .name name :: unresolved rest
  | none :: rest => .other :: unresolved rest

/-- The flow `flow.When("START", "").Batch(targets).To(capture)` on a new flow, with targets
that resolve to no chunk. -/
def emptyBatchFlow (names : List (Option String)) (w : World) : Sys :=
  let s0 := New none "batch-none" false w
  let (p0, s1) := s0.flow.startProcess.When (.key "START") "" s0
  let (p1, s2) := p0.Batch (unresolved names) {} s1
  (p1.To (.handler captureHandler) { Name := "after" } s2).2

/-- The names under which the directory stores the chunks, each with the name of the chunk
stored there. -/
def chunkNames (s : Sys) : List (String × String) :=
  s.flow.bluePrint.Chunks.map (fun kv => (kv.1, kv.2.Name))

/-! ## Flows and readings of the claims on dispatch and on keys that name a chunk -/

/-- The state in which `EmitWithMarks` starts its goroutines: the execution is marked as
started and the signal is written to the trigger log. -/
def World.logged (w : World) (eid : String) (sig : Signal) : World :=
  { (w.updExecution eid (fun e => { e with started := true })) with
    trace := (w.updExecution eid (fun e => { e with started := true })).trace ++ [sig] }

/-- A dispatcher of the execution `e` in which the one listener on the trigger of
`soloChunk h` returns the error `boom`. -/
def failingListener (h : Handler) : Emit :=
  Execution.EmitWithMarks [⟨.event, (soloChunk h).1.Trigger, "listener", failingHandler "boom"⟩]
    "e" 2

/-- The flow `flow.Chunk("work")` followed by `flow.When(spec, mode).To(capture)` on a new
flow, and an execution of it: the directory holds a chunk named `work`. -/
def workJoinFlow (spec : List (TriggerType × List String)) (mode : String) (w : World) :
    ExecRef × World :=
  let s0 := New none "work-join" false w
  let (_, s1) := TriggerFlow.Chunk (.name "work") s0
  let (p0, s2) := s1.flow.startProcess.When (.join spec) mode s1
  let (_, s3) := p0.To (.handler captureHandler) { Name := "capture" } s2
  s3.flow.CreateExecution none none s3.world

/-- The trigger of the process that `When(spec, mode)` returns on a new flow whose directory
holds a chunk named `work`. -/
def workJoinTrigger (spec : List (TriggerType × List String)) (mode : String) :
    String × TriggerType :=
  let s0 := New none "work-join" false (World.init inOrder)
  let (_, s1) := TriggerFlow.Chunk (.name "work") s0
  let p := (s1.flow.startProcess.When (.join spec) mode s1).1
  (p.triggerEvent, p.triggerType)

/-- The signals of the trigger log that are not among the fired keys `keys`, each with its
payload, and what `GetResult` returns, after the events `signals` have been emitted one
after the other on the execution of `workJoinFlow`. -/
def workJoinRun (spec : List (TriggerType × List String)) (mode : String)
    (signals : List (String × Val)) : Run (List (String × Val) × Val × Option GoError) :=
  (emitAll (workJoinFlow spec mode (World.init inOrder)).1 4 signals
      (workJoinFlow spec mode (World.init inOrder)).2).map
    (fun w => ((signalsOf w).filter (fun kv => !(signals.map (fun s => s.1)).contains kv.1),
      Execution.GetResult (workJoinFlow spec mode (World.init inOrder)).1.ID w))

/-! ## Closed runs -/

/-- The flow `flow.When("START", "").To(h1).To(h2)` on a new flow. -/
def twoStepFlow (skipExceptions : Bool) (h1 h2 : Handler) (w : World) : Sys :=
  let s0 := New none "two-step" skipExceptions w
  let (p0, s1) := s0.flow.startProcess.When (.key "START") "" s0
  let (p1, s2) := p0.To (.handler h1) {} s1
  (p1.To (.handler h2) {} s2).2

/-- The flow `flow.When("START", "").To(h)` on a new flow. -/
def oneStepFlow (skipExceptions : Bool) (h : Handler) (w : World) : Sys :=
  let s0 := New none "one-step" skipExceptions w
  let (p0, s1) := s0.flow.startProcess.When (.key "START") "" s0
  (p0.To (.handler h) {} s1).2

/-- A strict flow whose only handler, attached to START, returns `errors.New("boom")`. -/
def directErrDemo : Sys := oneStepFlow false (failingHandler "boom") (World.init inOrder)

/-- A strict flow `To(h1).To(h2)` where `h1` returns its input and `h2` returns
`errors.New("boom")`. -/
def chainErrDemo : Sys :=
  twoStepFlow false (pureHandler id) (failingHandler "boom") (World.init inOrder)

/-- The batch example: targets `a`, `b`, `c`, every map ranged over in insertion order. -/
def batchDemo : Sys := batchFlow ["a", "b", "c"] (World.init inOrder)

/-- The for-each example `ForEach(2).To(double).EndForEach()`. -/
def forEachDemo : Sys := forEachFlow 2 double (World.init inOrder)

/-- The `hit_all` example: conditions `v >= 2` and `v` even, branches returning `"ge2"` and
`"even"`. -/
def matchAllDemo : Sys :=
  matchTwoFlow "hit_all" geTwo isEven (fun _ => .str "ge2") (fun _ => .str "even")
    (World.init inOrder)

/-- The wiring of the test `collect_filled_then_empty`. -/
def collectResetDemo : Sys :=
  collectFlow "group_reset" "filled_then_empty" "b1" "b2" (.str "v1") (.str "v2")
    (World.init inOrder)

/-- The chain `When({runtime_data: ["ready"]}).To(double).To(capture)` and an execution of
it. -/
def typedChainDemo : ExecRef × World :=
  let s := typedChainFlow .runtime_data "ready" (pureHandler double) captureHandler
    (World.init inOrder)
  s.flow.CreateExecution none none s.world

/-- The chain `When("START").To(double).To(capture)`. -/
def eventChainDemo : Sys :=
  twoStepFlow false (pureHandler double) captureHandler (World.init inOrder)

/-- Three executions listening on the flow-data key `shared` with a handler that succeeds. -/
def fanoutDemo : List ExecRef × World := fanoutFlow recordHandler (World.init inOrder)

/-- Three executions listening on the flow-data key `shared` with a handler that fails. -/
def fanoutFailDemo : List ExecRef × World :=
  fanoutFlow (recordThenFail "boom") (World.init inOrder)

/-- The second of the three executions of `fanoutDemo`. -/
def fanoutCaller : ExecRef := (fanoutDemo.1.drop 1).headD ⟨"", []⟩

/-- Two executions `A` and `B` of a flow that listens on the runtime-data key `value`. -/
def isolationDemo : ExecRef × ExecRef × World := isolationFlow (World.init inOrder)

/-- On `isolationDemo`: `A.SetRuntimeData("value", "A", emit)`, then
`B.SetRuntimeData("value", "B", emit)`. -/
def isolationRun : Run (World × Option GoError) :=
  match Execution.SetRuntimeData isolationDemo.1 16 "value" (.str "A") true isolationDemo.2.2 with
  | .error s => .error s
  | .ok (w1, _) => Execution.SetRuntimeData isolationDemo.2.1 16 "value" (.str "B") true w1

/-! ## Equality of values -/

mutual
/-- `Val.beq` decides equality. -/
theorem Val.beq_iff : ∀ a b : Val, Val.beq a b = true ↔ a = b
  | .nil, b => by cases b <;> simp [Val.beq]
  | .bool x, b => by cases b <;> simp [Val.beq]
  | .int x, b => by cases b <;> simp [Val.beq]
  | .str x, b => by cases b <;> simp [Val.beq]
  | .trig x, b => by cases b <;> simp [Val.beq]
  | .marker, b => by cases b <;> simp [Val.beq]
  | .streamStop, b => by cases b <;> simp [Val.beq]
  | .list xs, b => by
    cases b <;> simp [Val.beq]
    exact Val.beqList_iff xs _
  | .map xs, b => by
    cases b <;> simp [Val.beq]
    exact Val.beqMap_iff xs _
  | .joinMap xs, b => by
    cases b <;> simp [Val.beq]
    exact Val.beqJoin_iff xs _
/-- `Val.beqList` decides equality. -/
theorem Val.beqList_iff : ∀ xs ys : List Val, Val.beqList xs ys = true ↔ xs = ys
  | [], ys => by cases ys <;> simp [Val.beqList]
  | x :: xs, ys => by
    cases ys with
    | nil => simp [Val.beqList]
    | cons y ys => simp [Val.beqList, Val.beq_iff x y, Val.beqList_iff xs ys]
/-- `Val.beqMap` decides equality. -/
theorem Val.beqMap_iff : ∀ xs ys : List (String × Val), Val.beqMap xs ys = true ↔ xs = ys
  | [], ys => by cases ys <;> simp [Val.beqMap]
  | (k, x) :: xs, ys => by
    cases ys with
    | nil => simp [Val.beqMap]
    | cons y ys =>
      obtain ⟨l, y⟩ := y
      simp [Val.beqMap, Val.beq_iff x y, Val.beqMap_iff xs ys, and_assoc]
/-- `Val.beqJoin` decides equality. -/
theorem Val.beqJoin_iff : ∀ xs ys : List (TriggerType × List (String × Val)),
    Val.beqJoin xs ys = true ↔ xs = ys
  | [], ys => by cases ys <;> simp [Val.beqJoin]
  | (k, x) :: xs, ys => by
    cases ys with
    | nil => simp [Val.beqJoin]
    | cons y ys =>
      obtain ⟨l, y⟩ := y
      simp [Val.beqJoin, Val.beqMap_iff x y, Val.beqJoin_iff xs ys, and_assoc]
end

/-- A test that decides equality whenever it answers makes `listEqb` do the same. -/
theorem listEqb_sound {α : Type} (f : α → α → Option Bool)
    (hf : ∀ x y r, f x y = some r → (r = true ↔ x = y)) :
    ∀ xs ys r, listEqb f xs ys = some r → (r = true ↔ xs = ys)
  | [], [], r, h => by simp [listEqb] at h; simp [← h]
  | [], _ :: _, r, h => by simp [listEqb] at h; simp [← h]
  | _ :: _, [], r, h => by simp [listEqb] at h; simp [← h]
  | x :: xs, y :: ys, r, h => by
    unfold listEqb at h
    cases hxy : f x y with
    | none => simp [hxy] at h
    | some c =>
      cases c with
      | false =>
        simp [hxy] at h
        have := hf x y false hxy
        simp at this
        simp [← h, this]
      | true =>
        simp [hxy] at h
        have h1 := hf x y true hxy
        have h2 := listEqb_sound f hf xs ys r h
        simp at h1
        simp [h1, h2]

/-- A test that decides equality whenever it answers makes `pairEqb` do the same. -/
theorem pairEqb_sound {κ α : Type} [DecidableEq κ] (f : α → α → Option Bool)
    (hf : ∀ x y r, f x y = some r → (r = true ↔ x = y)) (a b : κ × α) (r : Bool)
    (h : pairEqb f a b = some r) : r = true ↔ a = b := by
  obtain ⟨k, x⟩ := a
  obtain ⟨l, y⟩ := b
  unfold pairEqb at h
  by_cases hk : k = l
  · simp [hk] at h
    have := hf x y r h
    simp [hk, this]
  · simp [hk] at h
    simp [← h, hk]

/-- `Val.eqb` decides equality whenever it answers. -/
theorem Val.eqb_sound : ∀ (n : Nat) (a b : Val) (r : Bool),
    Val.eqb n a b = some r → (r = true ↔ a = b)
  | 0, _, _, _, h => by simp [Val.eqb] at h
  | n + 1, a, b, r, h => by
    have ih := Val.eqb_sound n
    cases a <;> cases b <;> simp [Val.eqb] at h <;> try (simp [← h])
    · exact listEqb_sound _ ih _ _ r h
    · exact listEqb_sound _ (pairEqb_sound _ ih) _ _ r h
    · exact listEqb_sound _
        (pairEqb_sound _ (listEqb_sound _ (pairEqb_sound _ ih))) _ _ r h

instance : DecidableEq Val := fun a b =>
  match h : Val.eqb 64 a b with
  | some true => isTrue ((Val.eqb_sound 64 a b true h).1 rfl)
  | some false => isFalse (fun e => Bool.noConfusion ((Val.eqb_sound 64 a b false h).2 e))
  | none => decidable_of_iff _ (Val.beq_iff a b)

instance : DecidableEq Signal := fun a b =>
  decidable_of_iff (a.triggerType = b.triggerType ∧ a.triggerEvent = b.triggerEvent ∧
    a.value = b.value ∧ a.marks = b.marks) (by cases a; cases b; simp)

instance {α : Type} [DecidableEq α] : DecidableEq (Run α) := fun a b =>
  match a, b with
  | .ok x, .ok y => decidable_of_iff (x = y) (by simp)
  | .error x, .error y => decidable_of_iff (x = y) (by simp)
  | .ok _, .error _ => isFalse (by simp)
  | .error _, .ok _ => isFalse (by simp)

/-! ## C4: an error further down a `To` chain -/

/-- C4 (code defect): with `skipExceptions = false`, a handler attached directly to START that
returns `errors.New("boom")` makes `Start` return that error, but in `To(h1).To(h2)` with `h1`
succeeding and `h2` returning the same error, `Start` returns the result-wait timeout error:
`Chunk.Call` discards the error of the dispatch it starts. -/
theorem C4_chained_error_is_lost :
    returned (directErrDemo.flow.Start 16 .nil true none directErrDemo.world)
        = .ok (.nil, some (.handler "boom")) ∧
      returned (chainErrDemo.flow.Start 16 .nil true none chainErrDemo.world)
        = .ok (.nil, some .resultTimeout) := by
  decide!

/-! ## C5: `Batch` in a later execution -/

/-- C5 (code defect): the first execution of `Batch([a, b, c])` started with `"X"` fires the
batch signal once with `{a: "X-a", b: "X-b", c: "X-c"}`; a second execution of the same flow,
started with `"Y"`, fires it three times, the first time after only `a` has reported and with
the values `b` and `c` returned in the first execution. -/
theorem C5_batch_later_execution :
    (traceOf (batchDemo.flow.Start 16 (.str "X") true none batchDemo.world)).map
        (payloads "batch-2")
      = .ok [.map [("a", .str "X-a"), ("b", .str "X-b"), ("c", .str "X-c")]] ∧
    (traceOf (startTwice batchDemo 16 (.str "X") (.str "Y"))).map (payloads "batch-2")
      = .ok [.map [("a", .str "Y-a"), ("b", .str "X-b"), ("c", .str "X-c")],
             .map [("a", .str "Y-a"), ("b", .str "Y-b"), ("c", .str "X-c")],
             .map [("a", .str "Y-a"), ("b", .str "Y-b"), ("c", .str "Y-c")]] := by
  decide!

/-! ## C6: the for-each end -/

/-- C6 (code defect): `ForEach(2).To(double).EndForEach()` over `[1, 2, 3]` emits at the
for-each end three times, with `[2]`, `[4]` and `[6]`, and never with `[2, 4, 6]`; the result
a handler behind it captures is `[2]`. -/
theorem C6_for_each_emits_per_item :
    (traceOf (forEachDemo.flow.Start 16 (.list [.int 1, .int 2, .int 3]) true none
        forEachDemo.world)).map (payloads "ForEach-foreach-2-End")
      = .ok [.list [.int 2], .list [.int 4], .list [.int 6]] ∧
    returned (forEachDemo.flow.Start 16 (.list [.int 1, .int 2, .int 3]) true none
        forEachDemo.world)
      = .ok (.list [.int 2], none) := by
  decide!

/-! ## C8: `hit_all` -/

/-- C8 (code defect): a `hit_all` match with the conditions `v >= 2` and `v` even, started
with `2`, emits the match result twice, with `["ge2"]` and with `["even"]`, and never one list
holding both. -/
theorem C8_hit_all_emits_per_branch :
    (traceOf (matchAllDemo.flow.Start 16 (.int 2) true none matchAllDemo.world)).map
        (payloads "Match-match-2-Result")
      = .ok [.list [.str "ge2"], .list [.str "even"]] := by
  decide!

/-! ## C10: `Collect` in mode `filled_then_empty`, run twice -/

/-- C10 (code defect): the wiring of the test `collect_filled_then_empty` delivers
`{b1: "v1", b2: "v2"}` in the first run; in the second run it delivers `{b1: "v1"}` and then
`{b2: "v2"}`, each missing a branch, because the first run deleted the slots of the
collection instead of emptying them. -/
theorem C10_collect_second_run_partial :
    (traceOf (collectResetDemo.flow.Start 16 .nil true none collectResetDemo.world)).map
        (payloads "Collect-group_reset")
      = .ok [.map [("b1", .str "v1"), ("b2", .str "v2")]] ∧
    (traceOf (startTwice collectResetDemo 16 .nil .nil)).map (payloads "Collect-group_reset")
      = .ok [.map [("b1", .str "v1")], .map [("b2", .str "v2")]] := by
  decide!

/-! ## C1: a chain of two handlers -/

/-- The decimal strings of the IDs the small flows below use. -/
theorem toString_lits :
    toString (1 : Nat) = "1" ∧ toString (2 : Nat) = "2" ∧ toString (3 : Nat) = "3" ∧
    toString (4 : Nat) = "4" ∧ toString (5 : Nat) = "5" ∧ toString (6 : Nat) = "6" ∧
    toString (7 : Nat) = "7" ∧ toString (8 : Nat) = "8" ∧ toString (9 : Nat) = "9" ∧
    toString (10 : Nat) = "10" ∧ toString (11 : Nat) = "11" ∧ toString (12 : Nat) = "12" := by
  decide

/-- C1: for every start value `v`, all handlers `h1`, `h2` that return `f1 x` and `f2 x`
without error, every iteration order and every fuel of at least 4, starting the flow
`When("START").To(h1).To(h2).End()` with `v` returns the result `f2 (f1 v)` and a nil error. -/
theorem C1_chain_result (seeds : Nat → Nat) (skip : Bool) (f1 f2 : Val → Val) (v : Val)
    (fuel : Nat) :
    returned ((chainFlow skip (pureHandler f1) (pureHandler f2) (World.init seeds)).flow.Start
        (fuel + 4) v true none
        (chainFlow skip (pureHandler f1) (pureHandler f2) (World.init seeds)).world)
      = .ok (f2 (f1 v), none) := by
  simp [chainFlow, New, NewBluePrint, nextID, NewBlockData, World.init, Process.When,
    Process.To, Process.End, Process.clone, TriggerFlow.Chunk, NewChunk, Sys.setChunk,
    BluePrint.AddHandler, insertEntry, mapSet, mapGet, TriggerFlow.Start,
    TriggerFlow.CreateExecution, NewExecution, BluePrint.SnapshotHandlers, Execution.Start,
    Execution.EmitWithMarks, targetHandlers, World.rangeOrder, shuffle, runHandlers, runHandler,
    Execution.acquire, Execution.release, World.execution, World.updExecution, Chunk.Call,
    pureHandler, setDefaultResult, Execution.SetResult, Execution.GetResult, returned,
    toString_lits, RuntimeData.Set, setByDotPath, Except.map, errCh, emptyBlock]

/-! ## C2: the result is written once -/

/-- Reading a key just written. -/
theorem mapGet_mapSet_self {β : Type} (m : List (String × β)) (k : String) (v : β) :
    mapGet (mapSet m k v) k = some v := by
  induction m with
  | nil => simp [mapSet, mapGet]
  | cons x xs ih =>
    obtain ⟨a, b⟩ := x
    by_cases h : a = k
    · simp [mapSet, mapGet, h]
    · simp [mapSet, mapGet, h, ih]

/-- The execution `eid` after an update of it. -/
theorem execution_updExecution (w : World) (eid : String) (e : Execution)
    (f : Execution → Execution) (h : w.execution eid = some e) :
    (w.updExecution eid f).execution eid = some (f e) := by
  unfold World.execution at h
  simp [World.updExecution, World.execution, h, mapGet_mapSet_self]

/-- C2: on an execution that has no result yet, `SetResult(a)` followed by `SetResult(b)`
leaves `GetResult` returning `a`; the same holds when the second write is attempted by the
handler that `End` registers, whatever value it is called with; and a flow `To(h).End()` whose
handler `h` calls `SetResult(a)` and returns `b` has result `a`. -/
theorem C2_first_write_wins (w : World) (eid : String) (e : Execution) (a b v : Val)
    (emit : Emit) (data : EventData) (seeds : Nat → Nat) (skip : Bool) (fuel : Nat)
    (h : w.execution eid = some e) (hfresh : e.resultSet = false)
    (hid : data.ExecutionID = eid) :
    Execution.GetResult eid (Execution.SetResult eid b (Execution.SetResult eid a w)) = (a, none) ∧
    (setDefaultResult emit data (Execution.SetResult eid a w)).map
        (fun out => Execution.GetResult eid out.world) = .ok (a, none) ∧
    returned ((singleFlow skip (setResultHandler a b) (World.init seeds)).flow.Start (fuel + 3) v
        true none (singleFlow skip (setResultHandler a b) (World.init seeds)).world)
      = .ok (a, none) := by
  have h1 : (Execution.SetResult eid a w).execution eid
      = some { e with result := a, resultSet := true } := by
    unfold Execution.SetResult
    rw [execution_updExecution w eid e _ h]
    simp [hfresh]
  refine ⟨?_, ?_, ?_⟩
  · have h2 := execution_updExecution (Execution.SetResult eid a w) eid _
      (fun e => if !e.resultSet then { e with result := b, resultSet := true } else e) h1
    simp [Execution.GetResult, Execution.SetResult] at h2 ⊢
    simp [h2]
  · simp [setDefaultResult, hid, h1, Except.map, Execution.GetResult]
  · simp [singleFlow, New, NewBluePrint, nextID, NewBlockData, World.init, Process.When,
      Process.To, Process.End, Process.clone, TriggerFlow.Chunk, NewChunk, Sys.setChunk,
      BluePrint.AddHandler, insertEntry, mapSet, mapGet, TriggerFlow.Start,
      TriggerFlow.CreateExecution, NewExecution, BluePrint.SnapshotHandlers, Execution.Start,
      Execution.EmitWithMarks, targetHandlers, World.rangeOrder, shuffle, runHandlers,
      runHandler, Execution.acquire, Execution.release, World.execution, World.updExecution,
      Chunk.Call, setResultHandler, setDefaultResult, Execution.SetResult, Execution.GetResult,
      returned, toString_lits, RuntimeData.Set, setByDotPath, Except.map, errCh, emptyBlock]

/-- C2 at a concrete input: the execution of a new flow, first `"manual"`, then `"default"`. -/
theorem C2_first_write_wins_witness :
    Execution.GetResult "execution-2"
        (Execution.SetResult "execution-2" (.str "default")
          (Execution.SetResult "execution-2" (.str "manual")
            ((New none "f" false (World.init inOrder)).flow.CreateExecution none none
              (New none "f" false (World.init inOrder)).world).2))
      = (.str "manual", none) :=
  (C2_first_write_wins
    ((New none "f" false (World.init inOrder)).flow.CreateExecution none none
      (New none "f" false (World.init inOrder)).world).2
    "execution-2"
    { ID := "execution-2", runtimeData := [],
      systemRuntimeData := RuntimeData.Set [] "result" .streamStop, skipExceptions := false,
      semaphore := 0, permits := 0, started := false, runtimeQueue := [], result := .nil,
      resultSet := false }
    (.str "manual") (.str "default") .nil (fun _ _ _ _ w => .ok (w, none))
    { TriggerEvent := "START", TriggerType := .event, Value := .str "default",
      ExecutionID := "execution-2", layerMarks := [] }
    inOrder false 0 rfl rfl rfl).1

/-! ## C3: the error policy of `EmitWithMarks` -/

/-- Inserting an element anywhere gives a permutation of consing it. -/
theorem insertAt_perm {α : Type} (x : α) : ∀ (n : Nat) (xs : List α), (insertAt x n xs).Perm (x :: xs)
  | 0, xs => by simp [insertAt]
  | _ + 1, [] => by simp [insertAt]
  | n + 1, y :: ys => by
    simp only [insertAt]
    exact ((insertAt_perm x n ys).cons y).trans (List.Perm.swap x y ys)

/-- Every order the oracle chooses is a permutation. -/
theorem shuffle_perm {α : Type} : ∀ (seed : Nat) (xs : List α), (shuffle seed xs).Perm xs
  | _, [] => by simp [shuffle]
  | _, [x] => by simp [shuffle]
  | seed, x :: y :: xs => by
    simp only [shuffle]
    exact (insertAt_perm x _ _).trans ((shuffle_perm _ (y :: xs)).cons x)

/-- What a returning `runHandlers` did: one outcome per handler, in order, each the error of
a call of that handler on the event data. -/
theorem runHandlers_spec (emit : Emit) (eid key : String) (value : Val) (marks : List String)
    (ty : TriggerType) :
    ∀ (hs : List Entry) (w w' : World) (outcomes : List (String × Option GoError)),
      runHandlers emit eid key value marks ty hs w = .ok (w', outcomes) →
      List.Forall₂ (fun (h : Entry) (o : String × Option GoError) =>
        ∃ wa out, h.handler emit ⟨key, ty, value, eid, marks⟩ wa = .ok out ∧ o = (h.id, out.err))
        hs outcomes
  | [], w, w', outcomes, h => by
    simp [runHandlers] at h
    simp [← h.2]
  | x :: hs, w, w', outcomes, h => by
    unfold runHandlers at h
    cases h1 : runHandler emit eid key value marks ty x w with
    | error s => simp [h1] at h
    | ok p =>
      obtain ⟨w1, err⟩ := p
      simp only [h1] at h
      cases h2 : runHandlers emit eid key value marks ty hs w1 with
      | error s => simp [h2] at h
      | ok q =>
        obtain ⟨w2, rest⟩ := q
        simp only [h2] at h
        have ih := runHandlers_spec emit eid key value marks ty hs w1 w2 rest h2
        simp at h
        rw [← h.2]
        refine List.Forall₂.cons ?_ ih
        unfold runHandler at h1
        cases ha : Execution.acquire eid w with
        | none => simp [ha] at h1
        | some wa =>
          simp only [ha] at h1
          cases hc : x.handler emit ⟨key, ty, value, eid, marks⟩ wa with
          | error s => simp [hc] at h1
          | ok out =>
            simp [hc] at h1
            exact ⟨wa, out, hc, by simp [h1.2]⟩

/-- Reading a key after an update of the same key. -/
theorem mapGet_mapSet {β : Type} (m : List (String × β)) (k k2 : String) (v : β) :
    mapGet (mapSet m k v) k2 = if k = k2 then some v else mapGet m k2 := by
  induction m with
  | nil => by_cases h : k = k2 <;> simp [mapSet, mapGet, h]
  | cons x xs ih =>
    obtain ⟨a, b⟩ := x
    by_cases h : a = k
    · by_cases h2 : k = k2
      · simp [mapSet, mapGet, h, h2]
      · simp [mapSet, mapGet, h, h2]
    · by_cases h2 : a = k2
      · subst h2
        have h3 : ¬ k = a := fun e => h e.symm
        simp [mapSet, mapGet, h, h3]
      · simp [mapSet, mapGet, h, h2, ih]

/-- An update that keeps the permit capacity keeps an execution unlimited. -/
theorem Unlimited.updExecution {eid : String} {w : World} (hw : Unlimited eid w)
    (f : Execution → Execution) (hf : ∀ e, (f e).semaphore = e.semaphore) :
    Unlimited eid (w.updExecution eid f) := by
  intro e he
  cases h0 : w.execution eid with
  | none =>
    have h1 : mapGet w.executions eid = none := h0
    simp [World.updExecution, World.execution, h1] at he
  | some e0 =>
    rw [execution_updExecution w eid e0 f h0] at he
    simp at he
    rw [← he, hf]
    exact hw e0 h0

/-- Without a limit the permit is granted at once. -/
theorem acquire_unlimited {eid : String} {w : World} (hw : Unlimited eid w) :
    Execution.acquire eid w = some w := by
  unfold Unlimited at hw
  unfold Execution.acquire
  cases h0 : w.execution eid with
  | none => rfl
  | some e => simp [hw e h0]

/-- C9 as stated fails. (1) Branches `left` and `right`: `left` fires with `[1]`, `right`
with `"r"`, `left` again with `[2]`; the second emitted map holds `[1, 2]` for `left`, not the
latest value `[2]`. (2) Branches `x.y` and `z`: `z` fires with `"r"` and the collect signal
is emitted although `x.y` has not fired, with the keys `x` and `z`. -/
theorem C9_counterexample :
    (collectPairTrace "g" "filled_and_update" "left" "right"
        [("L", .list [.int 1]), ("R", .str "r"), ("L", .list [.int 2])]).map (payloads "Collect-g")
      = .ok [.map [("left", .list [.int 1]), ("right", .str "r")],
             .map [("left", .list [.int 1, .int 2]), ("right", .str "r")]] ∧
    (collectPairTrace "g" "filled_and_update" "x.y" "z" [("R", .str "r")]).map
        (payloads "Collect-g")
      = .ok [.map [("x", .map [("y", .marker)]), ("z", .str "r")]] := by
  decide!

/-- A string without a dot is its own single part. -/
theorem splitDotChars_noDot : ∀ cs : List Char, '.' ∉ cs → splitDotChars cs = [cs]
  | [], _ => by simp [splitDotChars]
  | c :: cs, h => by
    have hc : c ≠ '.' := fun e => h (by simp [e])
    have ht : '.' ∉ cs := fun e => h (by simp [e])
    simp [splitDotChars, hc, splitDotChars_noDot cs ht]

/-- Splitting at the first dot. -/
theorem splitDotChars_append : ∀ (a r : List Char), '.' ∉ a →
    splitDotChars (a ++ '.' :: r) = a :: splitDotChars r
  | [], r, _ => by simp [splitDotChars]
  | c :: cs, r, h => by
    have hc : c ≠ '.' := fun e => h (by simp [e])
    have ht : '.' ∉ cs := fun e => h (by simp [e])
    simp [splitDotChars, hc, splitDotChars_append cs r ht]

/-- The parts of the path of a branch slot, for dot-free names. -/
theorem splitDot_branchPath (N b : String) (hN : '.' ∉ N.data) (hb : '.' ∉ b.data) :
    splitDot (branchPath N b) = ["collections", N, b] := by
  have h1 : (branchPath N b).data
      = "collections".data ++ '.' :: (N.data ++ '.' :: b.data) := by
    simp [branchPath, String.data_append]
  unfold splitDot
  rw [h1, splitDotChars_append _ _ (by decide), splitDotChars_append _ _ hN,
    splitDotChars_noDot _ hb]
  rfl

/-- The parts of the path of a collection, for a dot-free name. -/
theorem splitDot_collection (N : String) (hN : '.' ∉ N.data) :
    splitDot ("collections." ++ N) = ["collections", N] := by
  have h1 : ("collections." ++ N).data = "collections".data ++ '.' :: N.data := by
    simp [String.data_append]
  unfold splitDot
  rw [h1, splitDotChars_append _ _ (by decide), splitDotChars_noDot _ hN]
  rfl

/-- The paths under `collections.` are not blank. -/
theorem isBlank_collections (r : String) : isBlank ("collections." ++ r) = false := by
  have h1 : ("collections." ++ r).data = 'c' :: ("ollections.".data ++ r.data) := by
    simp [String.data_append]
  simp [isBlank, h1, isSpace]

/-- `GlobalBlockData` holding exactly the collection `N` with the slots `slots`. -/
theorem set_slot (N b : String) (hN : '.' ∉ N.data) (hb : '.' ∉ b.data) (slots : GoMap)
    (v : Val) :
    RuntimeData.Set [("collections", .map [(N, .map slots)])] (branchPath N b) v
      = [("collections", .map [(N, .map
          (match mapGet slots b with
           | some old => mapSet slots b (mergeValue old v)
           | none => mapSet slots b v))])] := by
  have hbl : isBlank (branchPath N b) = false := by
    unfold branchPath
    rw [String.append_assoc, String.append_assoc]
    exact isBlank_collections _
  simp [RuntimeData.Set, setByDotPath, hbl, splitDot_branchPath N b hN hb, setParts, mapGet,
    mapSet]

/-- The first registration on an empty `GlobalBlockData`. -/
theorem set_first_slot (N b : String) (hN : '.' ∉ N.data) (hb : '.' ∉ b.data) (v : Val) :
    RuntimeData.Set [] (branchPath N b) v = [("collections", .map [(N, .map [(b, v)])])] := by
  have hbl : isBlank (branchPath N b) = false := by
    unfold branchPath
    rw [String.append_assoc, String.append_assoc]
    exact isBlank_collections _
  simp [RuntimeData.Set, setByDotPath, hbl, splitDot_branchPath N b hN hb, setParts, mapGet,
    mapSet]

/-- Reading the collection `N`. -/
theorem get_collection (N : String) (hN : '.' ∉ N.data) (slots : GoMap) (d : Val) :
    RuntimeData.Get [("collections", .map [(N, .map slots)])] ("collections." ++ N) d
      = .map slots := by
  unfold RuntimeData.Get getByDotPath
  rw [isBlank_collections, splitDot_collection N hN]
  simp [getParts, mapGet]

/-- The slot update of one firing: the merging write of `v` into the slot of `b`. -/
theorem fire_slots (B : List String) (hnd : B.Nodup) (f : String → Val) (b : String) (v : Val)
    (hb : b ∈ B) :
    (match mapGet (B.map (fun c => (c, f c))) b with
      | some old => mapSet (B.map (fun c => (c, f c))) b (mergeValue old v)
      | none => mapSet (B.map (fun c => (c, f c))) b v)
      = B.map (fun c => (c, if c = b then mergeValue (f b) v else f c)) := by
  induction B with
  | nil => simp at hb
  | cons c cs ih =>
    by_cases hc : c = b
    · subst hc
      have hnot : c ∉ cs := (List.nodup_cons.1 hnd).1
      simp [mapGet, mapSet]
      intro d hd
      have : d ≠ c := fun e => hnot (e ▸ hd)
      simp [this]
    · have hb2 : b ∈ cs := by
        cases hb with
        | head => exact absurd rfl hc
        | tail _ h => exact h
      have ih2 := ih (List.nodup_cons.1 hnd).2 hb2
      simp only [List.map_cons, mapGet, hc, if_false] at ih2 ⊢
      cases hg : mapGet (cs.map (fun c => (c, f c))) b with
      | none =>
        rw [hg] at ih2
        simp only [mapSet, hc, if_false] at ih2 ⊢
        rw [ih2]
      | some old =>
        rw [hg] at ih2
        simp only [mapSet, hc, if_false] at ih2 ⊢
        rw [ih2]

/-- A key that is not in the map is added at the end. -/
theorem mapSet_fresh (A : List String) (f : String → Val) (b : String) (v : Val) (hb : b ∉ A) :
    mapGet (A.map (fun c => (c, f c))) b = none ∧
    mapSet (A.map (fun c => (c, f c))) b v = A.map (fun c => (c, f c)) ++ [(b, v)] := by
  induction A with
  | nil => simp [mapGet, mapSet]
  | cons a as ih =>
    have ha : a ≠ b := fun e => hb (by simp [e])
    have hb2 : b ∉ as := fun e => hb (by simp [e])
    simp [mapGet, mapSet, ha, ih hb2]

/-- Registering the branches `B` after the branches `A`, all slots of `A` holding the
sentinel. -/
theorem registerBranches_slots (N : String) (hN : '.' ∉ N.data) :
    ∀ (B A : List String) (a : String), (∀ b ∈ B, '.' ∉ b.data) → ((a :: A) ++ B).Nodup →
      registerBranches N B
          [("collections", .map [(N, .map ((a :: A).map (fun c => (c, Val.marker))))])]
        = [("collections", .map [(N, .map (((a :: A) ++ B).map (fun c => (c, Val.marker))))])]
  | [], A, a, _, _ => by simp [registerBranches]
  | b :: B, A, a, hB, hnd => by
    have hb : '.' ∉ b.data := hB b (by simp)
    have hnotin : b ∉ a :: A := by
      intro hmem
      exact (List.nodup_append.1 hnd).2.2 hmem (by simp)
    obtain ⟨hget, hset⟩ := mapSet_fresh (a :: A) (fun _ => Val.marker) b .marker hnotin
    have hstep : RuntimeData.Set
        [("collections", .map [(N, .map ((a :: A).map (fun c => (c, Val.marker))))])]
        (branchPath N b) .marker
        = [("collections", .map [(N, .map ((a :: (A ++ [b])).map (fun c => (c, Val.marker))))])] := by
      rw [set_slot N b hN hb, hget]
      simp only [hset]
      simp
    have hnd2 : ((a :: (A ++ [b])) ++ B).Nodup := by
      simpa using hnd
    have ih := registerBranches_slots N hN B (A ++ [b]) a (fun c hc => hB c (by simp [hc])) hnd2
    unfold registerBranches
    rw [hstep, ih]
    simp

/-- Registering the branches `B` on an empty `GlobalBlockData`. -/
theorem registerBranches_empty (N : String) (hN : '.' ∉ N.data) (b : String) (B : List String)
    (hB : ∀ c ∈ b :: B, '.' ∉ c.data) (hnd : (b :: B).Nodup) :
    registerBranches N (b :: B) []
      = [("collections", .map [(N, .map ((b :: B).map (fun c => (c, Val.marker))))])] := by
  unfold registerBranches
  rw [set_first_slot N b hN (hB b (by simp))]
  have := registerBranches_slots N hN B [] b (fun c hc => hB c (by simp [hc])) (by simpa using hnd)
  simpa using this

/-- What `logEmit` does: it appends the signal to the trigger log, marks the execution as
started and returns nil. -/
theorem logEmit_eq (eid key : String) (value : Val) (marks : List String) (ty : TriggerType)
    (w : World) :
    logEmit eid key value marks ty w
      = .ok ({ (w.updExecution eid (fun e => { e with started := true })) with
                trace := (w.updExecution eid (fun e => { e with started := true })).trace ++
                  [⟨ty, key, value, marks⟩] }, none) := by
  simp [logEmit, Execution.EmitWithMarks, targetHandlers]

/-- Updating an execution changes neither `GlobalBlockData` nor the trigger log. -/
theorem updExecution_frame (w : World) (eid : String) (f : Execution → Execution) :
    (w.updExecution eid f).GlobalBlockData = w.GlobalBlockData ∧
    (w.updExecution eid f).trace = w.trace := by
  unfold World.updExecution
  cases mapGet w.executions eid <;> simp

/-- One firing of branch `b` with payload `v`, on a collection whose slots hold `f`. -/
theorem collectBranches_step (N mode eid b : String) (v : Val) (w : World) (B : List String)
    (f : String → Val) (hN : '.' ∉ N.data) (hb : '.' ∉ b.data) (hmem : b ∈ B) (hnd : B.Nodup)
    (hmode : mode ≠ "filled_then_empty")
    (hg : w.GlobalBlockData = [("collections", .map [(N, .map (B.map (fun c => (c, f c))))])]) :
    ∃ out, collectBranches N b mode ("Collect-" ++ N) (logEmit eid)
        { TriggerEvent := b, TriggerType := .event, Value := v, ExecutionID := eid,
          layerMarks := [] } w = .ok out ∧
      out.world.GlobalBlockData = [("collections", .map [(N, .map
        (B.map (fun c => (c, if c = b then mergeValue (f b) v else f c))))])] ∧
      out.world.trace = w.trace ++
        (if (B.any (fun c => (if c = b then mergeValue (f b) v else f c).isMarker)) = true then []
         else [⟨.event, "Collect-" ++ N,
                .map (B.map (fun c => (c, if c = b then mergeValue (f b) v else f c))), []⟩]) := by
  unfold collectBranches
  simp only [hg, set_slot N b hN hb, fire_slots B hnd f b v hmem, get_collection N hN, Val.asMap]
  have hany : (B.map (fun c => (c, if c = b then mergeValue (f b) v else f c))).any
      (fun kv => kv.2.isMarker)
      = B.any (fun c => (if c = b then mergeValue (f b) v else f c).isMarker) := by
    clear hg hmem hnd
    induction B with
    | nil => rfl
    | cons c cs ih => simp only [List.map_cons, List.any_cons, ih]
  rw [hany]
  by_cases hm : (B.any (fun c => (if c = b then mergeValue (f b) v else f c).isMarker)) = true
  · simp [hm]
  · simp only [hm, logEmit_eq, hmode, if_false]
    refine ⟨_, rfl, ?_, ?_⟩
    · simp [(updExecution_frame _ eid _).1]
    · simp [(updExecution_frame _ eid _).2]

/-- The firings `fs` on a collection whose slots hold `f`. -/
theorem fireAll_spec (N mode eid : String) (B : List String) (hN : '.' ∉ N.data)
    (hB : ∀ c ∈ B, '.' ∉ c.data) (hnd : B.Nodup) (hmode : mode ≠ "filled_then_empty") :
    ∀ (fs : List (String × Val)) (w : World) (f : String → Val),
      w.GlobalBlockData = [("collections", .map [(N, .map (B.map (fun c => (c, f c))))])] →
      (∀ x ∈ fs, x.1 ∈ B) →
      ∃ w1, fireAll N mode eid fs w = .ok w1 ∧
        w1.GlobalBlockData
          = [("collections", .map [(N, .map (B.map (fun c => (c, storedFrom (f c) fs c))))])]
  | [], w, f, hg, _ => ⟨w, rfl, by simpa [storedFrom] using hg⟩
  | (b, v) :: fs, w, f, hg, hfs => by
    have hb : b ∈ B := hfs (b, v) (by simp)
    obtain ⟨out, hrun, hg1, _⟩ :=
      collectBranches_step N mode eid b v w B f hN (hB b hb) hb hnd hmode hg
    obtain ⟨w1, hrest, hg2⟩ := fireAll_spec N mode eid B hN hB hnd hmode fs out.world _ hg1
      (fun x hx => hfs x (by simp [hx]))
    refine ⟨w1, by simp [fireAll, hrun, hrest], ?_⟩
    rw [hg2]
    have hst : ∀ c, storedFrom (if c = b then mergeValue (f b) v else f c) fs c
        = storedFrom (f c) ((b, v) :: fs) c := by
      intro c
      by_cases hc : c = b
      · subst hc
        simp [storedFrom, List.filter_cons]
      · have hc2 : ¬ b = c := fun e => hc e.symm
        simp [storedFrom, List.filter_cons, hc, hc2]
    simp only [hst]

/-- Merging a value that is not the sentinel never gives the sentinel. -/
theorem mergeValue_isMarker (acc v : Val) (hv : v.isMarker = false) :
    (mergeValue acc v).isMarker = false := by
  cases v <;> cases acc <;> simp_all [mergeValue, Val.isMarker]

/-- Merging a value that is no container into a value that is no list gives the value. -/
theorem mergeValue_scalar (acc v : Val) (hv : v.isContainer = false)
    (hacc : ∀ xs, acc ≠ .list xs) : mergeValue acc v = v := by
  cases v <;> cases acc <;> simp_all [mergeValue, Val.isContainer]

/-- The stored value after one more firing. -/
theorem storedFrom_snoc (init : Val) (fs : List (String × Val)) (b c : String) (v : Val) :
    storedFrom init (fs ++ [(b, v)]) c
      = if c = b then mergeValue (storedFrom init fs c) v else storedFrom init fs c := by
  by_cases hc : c = b
  · subst hc
    simp [storedFrom, List.filter_append, List.foldl_append]
  · have hc2 : ¬ b = c := fun e => hc e.symm
    simp [storedFrom, List.filter_append, hc, hc2]

/-- A slot holds the sentinel exactly as long as its branch has not fired. -/
theorem storedFrom_isMarker (fs : List (String × Val)) (c : String)
    (hfs : ∀ x ∈ fs, x.2.isMarker = false) :
    (storedFrom .marker fs c).isMarker = true ↔ ∀ u, (c, u) ∉ fs := by
  induction fs using List.reverseRecOn with
  | nil => simp [storedFrom, Val.isMarker]
  | append_singleton fs x ih =>
    obtain ⟨b, v⟩ := x
    have hv : v.isMarker = false := hfs (b, v) (by simp)
    have ih2 := ih (fun x hx => hfs x (by simp [hx]))
    rw [storedFrom_snoc]
    by_cases hc : c = b
    · subst hc
      simp only [if_true, mergeValue_isMarker _ v hv]
      constructor
      · intro h
        simp at h
      · intro h
        exact absurd (by simp) (h v)
    · simp only [hc, if_false, ih2]
      constructor
      · intro h u hu
        simp at hu
        rcases hu with hu | hu
        · exact h u hu
        · exact hc hu.1
      · intro h u hu
        exact h u (by simp [hu])

/-- While no container is fired at a branch, its slot holds the sentinel or the last value
fired. -/
theorem storedFrom_latest (fs : List (String × Val)) (c : String)
    (hsc : ∀ x ∈ fs, x.1 = c → x.2.isContainer = false) :
    (storedFrom .marker fs c = .marker ∧ lastFired fs c = none) ∨
    (∃ u, lastFired fs c = some u ∧ storedFrom .marker fs c = u ∧ u.isContainer = false) := by
  induction fs using List.reverseRecOn with
  | nil => simp [storedFrom, lastFired]
  | append_singleton fs x ih =>
    obtain ⟨b, v⟩ := x
    have ih2 := ih (fun x hx => hsc x (by simp [hx]))
    by_cases hc : c = b
    · subst hc
      have hv : v.isContainer = false := hsc (c, v) (by simp) rfl
      right
      refine ⟨v, by simp [lastFired, List.filter_append], ?_, hv⟩
      rw [storedFrom_snoc]
      simp only [if_true]
      apply mergeValue_scalar _ _ hv
      intro xs hxs
      rcases ih2 with h | ⟨u, _, h2, h3⟩
      · rw [h.1] at hxs
        cases hxs
      · rw [h2] at hxs
        rw [hxs] at h3
        simp [Val.isContainer] at h3
    · have hc2 : ¬ b = c := fun e => hc e.symm
      have h1 : storedFrom .marker (fs ++ [(b, v)]) c = storedFrom .marker fs c := by
        rw [storedFrom_snoc]
        simp [hc]
      have h2 : lastFired (fs ++ [(b, v)]) c = lastFired fs c := by
        simp [lastFired, List.filter_append, hc2]
      rw [h1, h2]
      exact ih2

/-- What `Process.Collect` does to `GlobalBlockData`: the registration step. -/
theorem Collect_registers (p : Process) (N b mode : String) (s : Sys) (hb : b ≠ "") :
    (p.Collect N b mode s).2.world.GlobalBlockData
      = RuntimeData.Set s.world.GlobalBlockData (branchPath N b) .marker := by
  simp [Process.Collect, hb, Process.To, TriggerFlow.Chunk, NewChunk, nextID, Sys.setChunk,
    BluePrint.AddHandler]

/-- C9, amended: for a collection name `N` and pairwise distinct branch IDs `B`, none of
them containing a dot, registered on an empty `GlobalBlockData`, in a mode other than
`filled_then_empty`: after any firings `fs` of branches of `B`, a firing of branch `b` with
value `v` emits the signal `Collect-N` if every branch of `B` has fired by then, and emits
nothing if some branch has not; the emitted map has exactly the keys `B`, each mapped to the
value the merging `Set` stored for that branch, which is the branch's latest value as long as
no list and no map was fired at it. -/
theorem C9_collect_amended (N mode eid : String) (B : List String) (fs : List (String × Val))
    (b : String) (v : Val) (w : World)
    (hN : '.' ∉ N.data) (hB : ∀ c ∈ B, '.' ∉ c.data) (hnd : B.Nodup)
    (hmode : mode ≠ "filled_then_empty")
    (hreg : w.GlobalBlockData = registerBranches N B [])
    (hfs : ∀ x ∈ fs, x.1 ∈ B ∧ x.2.isMarker = false) (hb : b ∈ B) (hv : v.isMarker = false) :
    ∃ w1 out, fireAll N mode eid fs w = .ok w1 ∧
      collectBranches N b mode ("Collect-" ++ N) (logEmit eid)
        { TriggerEvent := b, TriggerType := .event, Value := v, ExecutionID := eid,
          layerMarks := [] } w1 = .ok out ∧
      ((∀ c ∈ B, ∃ u, (c, u) ∈ fs ++ [(b, v)]) →
        out.world.trace = w1.trace ++ [⟨.event, "Collect-" ++ N,
          .map (B.map (fun c => (c, storedFrom .marker (fs ++ [(b, v)]) c))), []⟩]) ∧
      ((∃ c ∈ B, ∀ u, (c, u) ∉ fs ++ [(b, v)]) → out.world.trace = w1.trace) ∧
      (∀ c u, lastFired (fs ++ [(b, v)]) c = some u →
        (∀ x ∈ fs ++ [(b, v)], x.1 = c → x.2.isContainer = false) →
        storedFrom .marker (fs ++ [(b, v)]) c = u) := by
  obtain ⟨b0, B0, hBeq⟩ : ∃ b0 B0, B = b0 :: B0 := by
    cases B with
    | nil => simp at hb
    | cons b0 B0 => exact ⟨b0, B0, rfl⟩
  have hg : w.GlobalBlockData
      = [("collections", .map [(N, .map (B.map (fun c => (c, Val.marker))))])] := by
    rw [hreg, hBeq]
    exact registerBranches_empty N hN b0 B0 (hBeq ▸ hB) (hBeq ▸ hnd)
  obtain ⟨w1, hrun, hg1⟩ := fireAll_spec N mode eid B hN hB hnd hmode fs w (fun _ => .marker) hg
    (fun x hx => (hfs x hx).1)
  obtain ⟨out, hout, _, htrace⟩ := collectBranches_step N mode eid b v w1 B
    (fun c => storedFrom .marker fs c) hN (hB b hb) hb hnd hmode hg1
  have hsn : ∀ c, (if c = b then mergeValue (storedFrom .marker fs b) v
      else storedFrom .marker fs c) = storedFrom .marker (fs ++ [(b, v)]) c := by
    intro c
    rw [storedFrom_snoc]
    by_cases hc : c = b
    · subst hc
      simp
    · simp [hc]
  simp only [hsn] at htrace
  have hall : ∀ x ∈ fs ++ [(b, v)], x.2.isMarker = false := by
    intro x hx
    simp at hx
    rcases hx with hx | hx
    · exact (hfs x hx).2
    · rw [hx]
      exact hv
  refine ⟨w1, out, hrun, hout, ?_, ?_, ?_⟩
  · intro hf
    have hno : (B.any (fun c => (storedFrom .marker (fs ++ [(b, v)]) c).isMarker)) = false := by
      rw [List.any_eq_false]
      intro c hc hm
      obtain ⟨u, hu⟩ := hf c hc
      exact (storedFrom_isMarker _ c hall).1 hm u hu
    simp [htrace, hno]
  · rintro ⟨c, hc, hnf⟩
    have hyes : (B.any (fun c => (storedFrom .marker (fs ++ [(b, v)]) c).isMarker)) = true := by
      rw [List.any_eq_true]
      exact ⟨c, hc, (storedFrom_isMarker _ c hall).2 hnf⟩
    simp [htrace, hyes]
  · intro c u hl hsc
    rcases storedFrom_latest (fs ++ [(b, v)]) c hsc with h | ⟨u2, h1, h2, _⟩
    · rw [h.2] at hl
      cases hl
    · rw [h1] at hl
      cases hl
      exact h2

/-- C9 amended, at a concrete input: branches `left` and `right` of the collection `group`;
after `left` fired with `"L"`, the firing of `right` with `"R"` emits the map of both. -/
theorem C9_collect_amended_witness :
    ∃ w1 out,
      fireAll "group" "filled_and_update" "e" [("left", .str "L")]
        { World.init inOrder with GlobalBlockData := registerBranches "group" ["left", "right"] [] }
        = .ok w1 ∧
      collectBranches "group" "right" "filled_and_update" ("Collect-" ++ "group") (logEmit "e")
        { TriggerEvent := "right", TriggerType := .event, Value := .str "R", ExecutionID := "e",
          layerMarks := [] } w1 = .ok out ∧
      out.world.trace = w1.trace ++ [⟨.event, "Collect-" ++ "group",
        .map (["left", "right"].map
          (fun c => (c, storedFrom .marker ([("left", .str "L")] ++ [("right", .str "R")]) c))),
        []⟩] := by
  obtain ⟨w1, out, h1, h2, h3, _, _⟩ := C9_collect_amended "group" "filled_and_update" "e"
    ["left", "right"] [("left", .str "L")] "right" (.str "R")
    { World.init inOrder with GlobalBlockData := registerBranches "group" ["left", "right"] [] }
    (by decide) (by decide) (by decide) (by decide) rfl (by simp [Val.isMarker]) (by decide)
    rfl
  exact ⟨w1, out, h1, h2, h3 (by simp)⟩

/-! ## C17: reading back a key just written -/

/-- Merging a map into a list that holds the same map with its keys in another order adds
nothing: `containsAny` compares with `reflect.DeepEqual`. -/
theorem mergeValue_map_order :
    mergeValue (.list [.map [("a", .int 1), ("b", .int 2)]]) (.map [("b", .int 2), ("a", .int 1)])
      = .list [.map [("a", .int 1), ("b", .int 2)]] ∧
    mergeValue (.list [.map [("a", .int 1), ("b", .int 2)]]) (.map [("b", .int 2), ("a", .int 3)])
      = .list [.map [("a", .int 1), ("b", .int 2)], .map [("b", .int 2), ("a", .int 3)]] := by
  decide!

/-! ## C19: `SideBranch` -/

/-- The entry just inserted is in the table. -/
theorem insertEntry_mem (e : Entry) : ∀ hs : AllHandlers, e ∈ insertEntry hs e
  | [] => by simp [insertEntry]
  | h :: rest => by
    unfold insertEntry
    split
    · simp
    · simp [insertEntry_mem e rest]

/-- C19: `SideBranch(target, name)` is `To` with the side-branch option and the name; for a
target that is a chunk, a handler, a named chunk or the name of a chunk in the directory, it
returns the receiver's trigger key, trigger type and scope unchanged and registers the `Call`
of the target's chunk on the receiver's trigger; and in
`When("START").SideBranch(side).To(h).End()` the handler `h` receives the start value, not
the value the side branch returns: the result is `f v`, whatever the side branch returns and
in whichever order the two handlers on START run. -/
theorem C19_side_branch (p : Process) (name : String) (s : Sys) (c : Chunk) (h : Handler)
    (n : String) (seeds : Nat → Nat) (skip : Bool) (g f : Val → Val) (v : Val) (fuel : Nat) :
    (∀ target, p.SideBranch target name s = p.To target { SideBranch := true, Name := name } s) ∧
    ((p.SideBranch (.chunk c) name s).1 = p ∧
      ∃ id, ⟨p.triggerType, p.triggerEvent, id, c.Call⟩
        ∈ (p.SideBranch (.chunk c) name s).2.flow.bluePrint.handlers) ∧
    ((p.SideBranch (.handler h) name s).1 = p ∧
      ∃ id, ⟨p.triggerType, p.triggerEvent, id,
          (TriggerFlow.Chunk (.named name h) s).1.Call⟩
        ∈ (p.SideBranch (.handler h) name s).2.flow.bluePrint.handlers) ∧
    ((p.SideBranch (.named n h) name s).1 = p ∧
      ∃ id, ⟨p.triggerType, p.triggerEvent, id, (TriggerFlow.Chunk (.named n h) s).1.Call⟩
        ∈ (p.SideBranch (.named n h) name s).2.flow.bluePrint.handlers) ∧
    (mapGet s.flow.bluePrint.Chunks n = some c →
      (p.SideBranch (.name n) name s).1 = p ∧
      ∃ id, ⟨p.triggerType, p.triggerEvent, id, c.Call⟩
        ∈ (p.SideBranch (.name n) name s).2.flow.bluePrint.handlers) ∧
    returned ((sideFlow skip (pureHandler g) (pureHandler f) (World.init seeds)).flow.Start
        (fuel + 3) v true none
        (sideFlow skip (pureHandler g) (pureHandler f) (World.init seeds)).world)
      = .ok (f v, none) := by
  refine ⟨fun _ => rfl, ?_, ?_, ?_, ?_, ?_⟩
  · refine ⟨rfl, ?_⟩
    simp only [Process.SideBranch, Process.To, BluePrint.AddHandler]
    exact ⟨_, insertEntry_mem _ _⟩
  · refine ⟨rfl, ?_⟩
    simp only [Process.SideBranch, Process.To, BluePrint.AddHandler]
    exact ⟨_, insertEntry_mem _ _⟩
  · refine ⟨rfl, ?_⟩
    simp only [Process.SideBranch, Process.To, BluePrint.AddHandler]
    exact ⟨_, insertEntry_mem _ _⟩
  · intro hc
    simp only [Process.SideBranch, Process.To, hc, BluePrint.AddHandler, Process.clone]
    exact ⟨rfl, _, insertEntry_mem _ _⟩
  · rcases Nat.mod_two_eq_zero_or_one (seeds 0) with h0 | h0 <;>
    simp [sideFlow, Process.SideBranch, New, NewBluePrint, nextID, NewBlockData, World.init, Process.When,
      Process.To, Process.End, Process.clone, TriggerFlow.Chunk, NewChunk, Sys.setChunk,
      BluePrint.AddHandler, insertEntry, mapSet, mapGet, TriggerFlow.Start,
      TriggerFlow.CreateExecution, NewExecution, BluePrint.SnapshotHandlers, Execution.Start,
      Execution.EmitWithMarks, targetHandlers, World.rangeOrder, shuffle, insertAt, runHandlers,
      runHandler, Execution.acquire, Execution.release, World.execution, World.updExecution,
      Chunk.Call, pureHandler, setDefaultResult, Execution.SetResult, Execution.GetResult,
      returned, toString_lits, RuntimeData.Set, setByDotPath, Except.map, errCh, emptyBlock, h0]

/-- C19 at a concrete input: a side branch to the chunk named `work` of a new flow. -/
theorem C19_side_branch_witness :
    ((TriggerFlow.Chunk (.name "work") (New none "f" false (World.init inOrder))).2.flow.startProcess.SideBranch
        (.name "work") "side"
        (TriggerFlow.Chunk (.name "work") (New none "f" false (World.init inOrder))).2).1
      = (TriggerFlow.Chunk (.name "work") (New none "f" false (World.init inOrder))).2.flow.startProcess :=
  ((C19_side_branch
    (TriggerFlow.Chunk (.name "work") (New none "f" false (World.init inOrder))).2.flow.startProcess
    "side" (TriggerFlow.Chunk (.name "work") (New none "f" false (World.init inOrder))).2
    (TriggerFlow.Chunk (.name "work") (New none "f" false (World.init inOrder))).1
    captureHandler "work" inOrder false id id .nil 0).2.2.2.2.1 rfl).1

/-! ## C20: `To` with a target that resolves to no chunk -/

/-- C20: `To` given a string that names no chunk of the directory, or a value of an
unsupported type, returns the receiver and leaves the flow (handler table and chunk
directory) and the program state as they were; `To` has no error result. -/
theorem C20_unresolved_target (p : Process) (config : ToOptions) (s : Sys) (name : String)
    (hname : mapGet s.flow.bluePrint.Chunks name = none) :
    p.To (.name name) config s = (p, s) ∧ p.To .other config s = (p, s) := by
  simp [Process.To, hname]

/-- C20 at a concrete input: the name `missing` on a new flow. -/
theorem C20_unresolved_target_witness :
    (New none "f" false (World.init inOrder)).flow.startProcess.To (.name "missing") {}
        (New none "f" false (World.init inOrder))
      = ((New none "f" false (World.init inOrder)).flow.startProcess,
          New none "f" false (World.init inOrder)) :=
  (C20_unresolved_target (New none "f" false (World.init inOrder)).flow.startProcess {}
    (New none "f" false (World.init inOrder)) "missing" rfl).1

/-! ## C13: a join spec that lists one signal -/

/-- The inner loop of `When` resolves every entry with `joinKey`. -/
theorem whenCollect_one (chunks : List (String × Chunk)) (t : TriggerType) (k : String)
    (m : GoMap) (count : Nat) (cur : String) :
    whenCollect chunks t [k] (m, count, cur)
      = (mapSet m (joinKey chunks t k) .marker, count + 1, joinKey chunks t k) := by
  by_cases ht : t = .event
  · subst ht
    cases h : mapGet chunks k <;> simp [whenCollect, joinKey, h]
  · simp [whenCollect, joinKey, ht]

/-- Trigger types that list no key leave the count and the current signal alone. -/
theorem whenValues_empties (chunks : List (String × Chunk)) :
    ∀ (spec : List (TriggerType × List String)), (∀ x ∈ spec, x.2 = []) →
      ∀ acc, (whenValues chunks spec acc).2 = acc.2
  | [], _, _ => rfl
  | (t, events) :: rest, h, (values, count, curType, curEvent) => by
    have he : events = [] := h (t, events) (by simp)
    subst he
    have hr : ∀ x ∈ rest, x.2 = [] := fun x hx => h x (by simp [hx])
    simp only [whenValues, whenCollect]
    rw [whenValues_empties chunks rest hr]
    simp

/-- The outer loop of `When` over two parts of a spec. -/
theorem whenValues_append (chunks : List (String × Chunk)) :
    ∀ (a b : List (TriggerType × List String)) acc,
      whenValues chunks (a ++ b) acc = whenValues chunks b (whenValues chunks a acc)
  | [], _, _ => rfl
  | (t, events) :: rest, b, (values, count, curType, curEvent) => by
    simp only [List.cons_append, whenValues]
    exact whenValues_append chunks rest b _

/-- C13, amended: for a join spec whose only listed key is `k`, under the trigger type `t` (other
trigger types may be present with empty lists), `When` in any mode returns a Process whose
trigger type is `t` and whose trigger key is `k` (for an `event` entry that names a chunk of
the directory: that chunk's trigger, as for `When(name)`); it leaves the flow, and so the
handler table and the chunk directory, unchanged and draws no ID; a `To(h)` on the returned
Process registers the chunk of `h` on `(t, key)`; and in the flow
`When({t: ["flag"]}).To(capture)` every firing of `(t, "flag")` with a value `v` runs the
handler with `v`, also when the firing is `SetFlowData("flag", v, emit)` on the flow. -/
theorem C13_single_signal (p : Process) (t : TriggerType) (k mode : String) (s : Sys)
    (pre post : List (TriggerType × List String)) (h : Handler) (config : ToOptions)
    (seeds : Nat → Nat) (v : Val) (fuel : Nat)
    (hpre : ∀ x ∈ pre, x.2 = []) (hpost : ∀ x ∈ post, x.2 = []) :
    (p.When (.join (pre ++ (t, [k]) :: post)) mode s).1
        = ⟨joinKey s.flow.bluePrint.Chunks t k, t, s.world.blocks.length⟩ ∧
    (p.When (.join (pre ++ (t, [k]) :: post)) mode s).2.flow = s.flow ∧
    (p.When (.join (pre ++ (t, [k]) :: post)) mode s).2.world.uidCounter = s.world.uidCounter ∧
    (∃ id, ⟨t, joinKey s.flow.bluePrint.Chunks t k, id,
          (TriggerFlow.Chunk (.named config.Name h)
            (p.When (.join (pre ++ (t, [k]) :: post)) mode s).2).1.Call⟩
        ∈ ((p.When (.join (pre ++ (t, [k]) :: post)) mode s).1.To (.handler h) config
            (p.When (.join (pre ++ (t, [k]) :: post)) mode s).2).2.flow.bluePrint.handlers) ∧
    (Execution.EmitWithMarks (flagListener t (World.init seeds)).1.handlers
        (flagListener t (World.init seeds)).1.ID (fuel + 2) "flag" v [] t
        (flagListener t (World.init seeds)).2).map
      (fun x => Execution.GetResult (flagListener t (World.init seeds)).1.ID x.1)
      = .ok (v, none) ∧
    (TriggerFlow.SetFlowData [(flagListener .flow_data (World.init seeds)).1] (fuel + 2) "flag" v
        true (flagListener .flow_data (World.init seeds)).2).map
      (fun x => Execution.GetResult (flagListener .flow_data (World.init seeds)).1.ID x.1)
      = .ok (v, none) := by
  have hw : (whenValues s.flow.bluePrint.Chunks (pre ++ (t, [k]) :: post) ([], 0, .event, "")).2
      = (1, t, joinKey s.flow.bluePrint.Chunks t k) := by
    rw [whenValues_append]
    have h1 := whenValues_empties s.flow.bluePrint.Chunks pre hpre ([], 0, .event, "")
    generalize whenValues s.flow.bluePrint.Chunks pre ([], 0, .event, "") = r at h1 ⊢
    obtain ⟨vals, c, ct, ce⟩ := r
    simp only [Prod.mk.injEq] at h1
    obtain ⟨hc, hct, hce⟩ := h1
    subst hc hct hce
    simp only [whenValues, whenCollect_one]
    rw [whenValues_empties s.flow.bluePrint.Chunks post hpost]
    simp
  have hv : ∃ vals, whenValues s.flow.bluePrint.Chunks (pre ++ (t, [k]) :: post)
      ([], 0, .event, "") = (vals, 1, t, joinKey s.flow.bluePrint.Chunks t k) :=
    ⟨_, Prod.ext rfl hw⟩
  obtain ⟨vals, hv⟩ := hv
  have hW : p.When (.join (pre ++ (t, [k]) :: post)) mode s
      = (⟨joinKey s.flow.bluePrint.Chunks t k, t, s.world.blocks.length⟩,
          { s with world := (NewBlockData none s.world).2 }) := by
    simp [Process.When, hv, Process.clone, NewBlockData]
  refine ⟨by rw [hW], by rw [hW], by rw [hW]; rfl, ?_, ?_, ?_⟩
  · rw [hW]
    simp only [Process.To, BluePrint.AddHandler]
    split <;> exact ⟨_, insertEntry_mem _ _⟩
  · cases t <;>
    simp [flagListener, New, NewBluePrint, nextID, NewBlockData, World.init, Process.When,
      whenValues, whenCollect, Process.To, Process.clone, TriggerFlow.Chunk, NewChunk,
      Sys.setChunk, BluePrint.AddHandler, insertEntry, mapSet, mapGet,
      TriggerFlow.CreateExecution, NewExecution, BluePrint.SnapshotHandlers,
      Execution.EmitWithMarks, targetHandlers, World.rangeOrder, shuffle, runHandlers,
      runHandler, Execution.acquire, Execution.release, World.execution, World.updExecution,
      Chunk.Call, captureHandler, Execution.SetResult, Execution.GetResult, toString_lits,
      RuntimeData.Set, setByDotPath, Except.map, errCh, emptyBlock]
    rw [if_neg (by decide)]
    simp [mapGet]
  · have hb : isBlank "flag" = false := by decide
    simp [hb, TriggerFlow.SetFlowData, TriggerFlow.changeFlowData, notifyExecutions,
      hasFlowDataTarget, RuntimeData.Get, getByDotPath, getParts,
      flagListener, New, NewBluePrint, nextID, NewBlockData, World.init, Process.When,
      whenValues, whenCollect, Process.To, Process.clone, TriggerFlow.Chunk, NewChunk,
      Sys.setChunk, BluePrint.AddHandler, insertEntry, mapSet, mapGet,
      TriggerFlow.CreateExecution, NewExecution, BluePrint.SnapshotHandlers,
      Execution.EmitWithMarks, targetHandlers, World.rangeOrder, shuffle, runHandlers,
      runHandler, Execution.acquire, Execution.release, World.execution, World.updExecution,
      Chunk.Call, captureHandler, Execution.SetResult, Execution.GetResult, toString_lits,
      RuntimeData.Set, setByDotPath, Except.map, errCh, emptyBlock]

/-- C13 at a concrete input: the spec `{flow_data: ["flag"]}` on a new flow. -/
theorem C13_single_signal_witness :
    ((New none "f" false (World.init inOrder)).flow.startProcess.When
        (.join [(.flow_data, ["flag"])]) "" (New none "f" false (World.init inOrder))).1
      = ⟨"flag", .flow_data, 1⟩ :=
  (C13_single_signal (New none "f" false (World.init inOrder)).flow.startProcess .flow_data
    "flag" "" (New none "f" false (World.init inOrder)) [] [] captureHandler {} inOrder .nil 0
    (by simp) (by simp)).1

/-- C13 as stated fails for an event key that names a chunk of the directory. With a chunk
named `work` in the directory, `When({event: ["work"]}, "")` returns a Process on the chunk's
trigger `Chunk[work]-chunk-2`, not on `work`: the handler attached with `To` does not run on
`Emit("work", 1)` (no result is set) and runs on `Emit("Chunk[work]-chunk-2", 1)`. -/
theorem C13_counterexample :
    workJoinTrigger [(.event, ["work"])] "" = ("Chunk[work]-chunk-2", .event) ∧
    workJoinRun [(.event, ["work"])] "" [("work", .int 1)]
      = .ok ([], .nil, some .resultTimeout) ∧
    workJoinRun [(.event, ["work"])] "" [("Chunk[work]-chunk-2", .int 1)]
      = .ok ([("Chunk[capture]-chunk-3", .int 1)], .int 1, none) := by
  decide!

/-! ## C14: `To` after a trigger that is no event -/

/-- C14 (code defect): in `When("START").To(double).To(capture)` started with `4` the second
handler runs with `8`. In `When({runtime_data: ["ready"]}).To(double).To(capture)`, after
`SetRuntimeData("ready", 4, emit)` the first handler runs and its chunk emits `8` as an
`event` signal, but the second handler never runs and no result is set: `To` registered it
under the type `runtime_data` of the receiver, and no signal of that type has the key of a
chunk. -/
theorem C14_to_keeps_trigger_type :
    returned (eventChainDemo.flow.Start 16 (.int 4) true none eventChainDemo.world)
      = .ok (.int 8, none) ∧
    (Execution.SetRuntimeData typedChainDemo.1 16 "ready" (.int 4) true typedChainDemo.2).map
        (fun x => (x.1.trace, Execution.GetResult typedChainDemo.1.ID x.1))
      = .ok ([⟨.runtime_data, "ready", .int 4, []⟩, ⟨.event, "Chunk[chunk-2]-chunk-3", .int 8, []⟩],
          (.nil, some .resultTimeout)) ∧
    typedChainDemo.1.handlers.map (fun h => (h.triggerType, h.target))
      = [(.runtime_data, "ready"), (.runtime_data, "Chunk[chunk-2]-chunk-3")] := by
  decide!

/-! ## C15: the fan-out of a flow-data change -/

/-- C15 (code defect): three executions listen on the flow-data key `shared`.
`flow.SetFlowData("shared", "fanout", emit)` reaches all three when the listener succeeds, and
`execution.SetFlowData` of the second one reaches the other two. When the listener returns an
error, the loop over the executions returns at the first of them: the other two never see the
new value although it is stored. -/
theorem C15_fanout_stops_at_first_error :
    seenBy (TriggerFlow.SetFlowData fanoutDemo.1 16 "shared" (.str "fanout") true fanoutDemo.2)
      = .ok ([("execution-4", .str "fanout"), ("execution-5", .str "fanout"),
              ("execution-6", .str "fanout")], none) ∧
    seenBy (Execution.SetFlowData fanoutDemo.1 fanoutCaller 16 "shared" (.str "fanout")
        true fanoutDemo.2)
      = .ok ([("execution-4", .str "fanout"), ("execution-5", .nil),
              ("execution-6", .str "fanout")], none) ∧
    seenBy (TriggerFlow.SetFlowData fanoutFailDemo.1 16 "shared" (.str "fanout") true
        fanoutFailDemo.2)
      = .ok ([("execution-4", .str "fanout"), ("execution-5", .nil), ("execution-6", .nil)],
          some (.handler "boom")) ∧
    (TriggerFlow.SetFlowData fanoutFailDemo.1 16 "shared" (.str "fanout") true
        fanoutFailDemo.2).map (fun x => RuntimeData.Get x.1.flowData "shared" .nil)
      = .ok (.str "fanout") := by
  decide!

/-! ## C16: runtime data is private to its execution -/

/-- An update of the execution `a` leaves every other execution as it is. -/
theorem updExecution_other (w : World) (a b : String) (f : Execution → Execution)
    (hab : a ≠ b) : (w.updExecution a f).execution b = w.execution b := by
  unfold World.updExecution World.execution
  cases h : mapGet w.executions a with
  | none => rfl
  | some e => simp [mapGet_mapSet, hab]

/-- Taking a permit of the execution `a` leaves every other execution as it is. -/
theorem acquire_other (w wa : World) (a b : String) (hab : a ≠ b)
    (h : Execution.acquire a w = some wa) : wa.execution b = w.execution b := by
  unfold Execution.acquire at h
  cases he : w.execution a with
  | none =>
    simp [he] at h
    rw [← h]
  | some e =>
    simp only [he] at h
    split at h
    · simp at h
      rw [← h]
    · split at h
      · simp at h
        rw [← h]
        exact updExecution_other w a b _ hab
      · simp at h

/-- The goroutines of a dispatch of `a` leave `b` as it is when the handlers do. -/
theorem runHandlers_keeps (emit : Emit) (a b key : String) (value : Val)
    (marks : List String) (ty : TriggerType) (hab : a ≠ b) (hemit : EmitKeeps b emit) :
    ∀ (hs : List Entry) (w : World) r, (∀ h ∈ hs, HandlerKeeps b h.handler) →
      runHandlers emit a key value marks ty hs w = .ok r → r.1.execution b = w.execution b
  | [], w, r, _, h => by
    simp [runHandlers] at h
    rw [← h]
  | x :: hs, w, r, hk, h => by
    unfold runHandlers at h
    cases h1 : runHandler emit a key value marks ty x w with
    | error s => simp [h1] at h
    | ok p =>
      obtain ⟨w1, err⟩ := p
      simp only [h1] at h
      cases h2 : runHandlers emit a key value marks ty hs w1 with
      | error s => simp [h2] at h
      | ok q =>
        obtain ⟨w2, rest⟩ := q
        simp only [h2] at h
        have ih := runHandlers_keeps emit a b key value marks ty hab hemit hs w1 (w2, rest)
          (fun h hh => hk h (by simp [hh])) h2
        simp at h
        rw [← h]
        simp only at ih ⊢
        rw [ih]
        unfold runHandler at h1
        cases ha : Execution.acquire a w with
        | none => simp [ha] at h1
        | some wa =>
          simp only [ha] at h1
          cases hc : x.handler emit ⟨key, ty, value, a, marks⟩ wa with
          | error s => simp [hc] at h1
          | ok out =>
            simp [hc] at h1
            rw [← h1.1, Execution.release, updExecution_other _ a b _ hab,
              hk x (by simp) emit _ wa out hab hemit hc, acquire_other w wa a b hab ha]

/-- A dispatch of the execution `a` leaves `b` as it is when the handlers of `a` do. -/
theorem EmitWithMarks_keeps (handlers : AllHandlers) (a b : String) (hab : a ≠ b)
    (hk : ∀ h ∈ handlers, HandlerKeeps b h.handler) :
    ∀ fuel, EmitKeeps b (Execution.EmitWithMarks handlers a fuel)
  | 0 => by
    intro key value marks ty w r h
    simp [Execution.EmitWithMarks] at h
  | fuel + 1 => by
    intro key value marks ty w r h
    have ih := EmitWithMarks_keeps handlers a b hab hk fuel
    simp only [Execution.EmitWithMarks] at h
    split at h
    · simp at h
      rw [← h]
      exact updExecution_other w a b _ hab
    · simp only [World.rangeOrder] at h
      split at h
      · simp at h
      · rename_i w4 outcomes h4
        have hsub : ∀ seed, ∀ h ∈ shuffle seed (targetHandlers handlers ty key),
            HandlerKeeps b h.handler := by
          intro seed h hh
          have h1 := (shuffle_perm _ _).mem_iff.mp hh
          exact hk h (List.mem_of_mem_filter h1)
        have h5 := runHandlers_keeps _ a b key value marks ty hab ih _ _ _ (hsub _) h4
        have h6 : w4.execution b = w.execution b :=
          h5.trans (updExecution_other w a b _ hab)
        split at h <;> (try split at h) <;> simp at h <;> rw [← h] <;> exact h6

/-- The handler `recordHandler` writes the runtime data of its own execution only. -/
theorem recordHandler_keeps (b : String) : HandlerKeeps b recordHandler := by
  intro emit data w out hne _ hout
  simp only [recordHandler, Execution.changeRuntimeData] at hout
  simp at hout
  rw [← hout]
  exact updExecution_other w data.ExecutionID b _ hne

/-- C16: for two distinct executions `a` and `b`, `changeRuntimeData` on `a` (the body of
`SetRuntimeData`, `AppendRuntimeData` and `DelRuntimeData`, for the operations `set`, `append`
and `del`) without the emit flag returns nil and leaves `b`, and so what `GetRuntimeData`
returns on `b` for every path, as it was; with the emit flag it dispatches on the handler
table of `a` with the ID of `a`, and when it returns it has left `b` as it was, provided the
handlers of `a` do not themselves change `b`. In a flow listening on the runtime-data key
`value`, `A.SetRuntimeData("value", "A", emit)` runs the listener in `A` only, and after
`B.SetRuntimeData("value", "B", emit)` each execution reads back its own value. -/
theorem C16_runtime_data_is_private (a : ExecRef) (b : String) (fuel : Nat) (op key : String)
    (value : Val) (w : World) (path : String) (d : Val) (emit : Emit) (hab : a.ID ≠ b) :
    (∃ w1, Execution.changeRuntimeData emit a.ID op key value false w = .ok (w1, none) ∧
      w1.execution b = w.execution b ∧
      EventData.GetRuntimeData b path d w1 = EventData.GetRuntimeData b path d w) ∧
    ((∀ h ∈ a.handlers, HandlerKeeps b h.handler) →
      holdsAfter (Execution.changeRuntimeData (Execution.EmitWithMarks a.handlers a.ID fuel) a.ID
          op key value true w)
        (fun r => r.1.execution b = w.execution b ∧
          EventData.GetRuntimeData b path d r.1 = EventData.GetRuntimeData b path d w)) ∧
    (Execution.SetRuntimeData a fuel key value true w
        = Execution.changeRuntimeData (Execution.EmitWithMarks a.handlers a.ID fuel) a.ID "set" key
            value true w ∧
      Execution.AppendRuntimeData a fuel key value true w
        = Execution.changeRuntimeData (Execution.EmitWithMarks a.handlers a.ID fuel) a.ID "append"
            key value true w ∧
      Execution.DelRuntimeData a fuel key true w
        = Execution.changeRuntimeData (Execution.EmitWithMarks a.handlers a.ID fuel) a.ID "del" key
            .nil true w) ∧
    storesOf (Execution.SetRuntimeData isolationDemo.1 16 "value" (.str "A") true
        isolationDemo.2.2)
      = .ok [("execution-4", .str "A", .str "A"), ("execution-5", .nil, .nil)] ∧
    storesOf isolationRun
      = .ok [("execution-4", .str "A", .str "A"), ("execution-5", .str "B", .str "B")] := by
  refine ⟨⟨_, rfl, ?_⟩, ?_, ⟨rfl, rfl, rfl⟩, by decide!, by decide!⟩
  · have h1 := updExecution_other w a.ID b (fun e =>
      if op = "set" then { e with runtimeData := RuntimeData.Set e.runtimeData key value }
      else if op = "append" then
        { e with runtimeData := RuntimeData.Append e.runtimeData key value }
      else if op = "del" then { e with runtimeData := RuntimeData.Delete e.runtimeData key }
      else e) hab
    exact ⟨h1, by simp only [EventData.GetRuntimeData, h1]⟩
  · intro hk
    unfold holdsAfter
    split
    · rename_i r hr
      have h1 := updExecution_other w a.ID b (fun e =>
        if op = "set" then { e with runtimeData := RuntimeData.Set e.runtimeData key value }
        else if op = "append" then
          { e with runtimeData := RuntimeData.Append e.runtimeData key value }
        else if op = "del" then { e with runtimeData := RuntimeData.Delete e.runtimeData key }
        else e) hab
      simp only [Execution.changeRuntimeData, if_true] at hr
      have h2 := EmitWithMarks_keeps a.handlers a.ID b hab hk fuel _ _ _ _ _ r hr
      have h3 : r.1.execution b = w.execution b := h2.trans h1
      exact ⟨h3, by simp only [EventData.GetRuntimeData, h3]⟩
    · trivial

/-- C16 at a concrete input: the two executions of `isolationDemo`, the first with a
listener that records what it receives. -/
theorem C16_runtime_data_is_private_witness :
    holdsAfter (Execution.changeRuntimeData
        (Execution.EmitWithMarks [⟨.runtime_data, "value", "h", recordHandler⟩] "execution-4" 2)
        "execution-4" "set" "value" (.str "A") true isolationDemo.2.2)
      (fun r => r.1.execution "execution-5" = isolationDemo.2.2.execution "execution-5" ∧
        EventData.GetRuntimeData "execution-5" "value" .nil r.1
          = EventData.GetRuntimeData "execution-5" "value" .nil isolationDemo.2.2) :=
  (C16_runtime_data_is_private ⟨"execution-4", [⟨.runtime_data, "value", "h", recordHandler⟩]⟩
    "execution-5" 2 "set" "value" (.str "A") isolationDemo.2.2 "value" .nil
    (logEmit "execution-4") (by decide)).2.1
    (by
      intro h hh
      simp at hh
      subst hh
      exact recordHandler_keeps _)

/-! ## Join specs: what `When` registers -/

/-- A value found under a key is an entry of the map. -/
theorem mapGet_mem {β : Type} (k : String) (v : β) :
    ∀ (l : List (String × β)), mapGet l k = some v → (k, v) ∈ l
  | [], h => by simp [mapGet] at h
  | (a, b) :: rest, h => by
    unfold mapGet at h
    split at h
    · rename_i hak
      simp at h
      simp [hak, h]
    · simp [mapGet_mem k v rest h]

/-- Two entries of a list with pairwise distinct first components that agree on the first
component are the same entry. -/
theorem entry_unique {α β : Type} : ∀ (l : List (α × β)), (l.map (fun x => x.1)).Nodup →
    ∀ x y, x ∈ l → y ∈ l → x.1 = y.1 → x = y
  | [], _, _, _, hx, _, _ => by simp at hx
  | a :: rest, hnd, x, y, hx, hy, hxy => by
    have hnd2 := List.nodup_cons.mp hnd
    rcases List.mem_cons.mp hx with h1 | h1 <;> rcases List.mem_cons.mp hy with h2 | h2
    · rw [h1, h2]
    · subst h1
      exact absurd (List.mem_map.mpr ⟨y, h2, hxy.symm⟩) hnd2.1
    · subst h2
      exact absurd (List.mem_map.mpr ⟨x, h1, hxy⟩) hnd2.1
    · exact entry_unique rest hnd2.2 x y h1 h2 hxy

/-- An entry of the table stays in the table, or is replaced by the inserted entry. -/
theorem insertEntry_keeps (x e : Entry) : ∀ hs : AllHandlers, x ∈ hs →
    x ∈ insertEntry hs e ∨ (x.triggerType = e.triggerType ∧ x.target = e.target ∧ x.id = e.id)
  | [], h => by simp at h
  | y :: rest, h => by
    unfold insertEntry
    split
    · rename_i hy
      rcases List.mem_cons.mp h with h1 | h1
      · subst h1
        exact Or.inr hy
      · exact Or.inl (by simp [h1])
    · rcases List.mem_cons.mp h with h1 | h1
      · exact Or.inl (by simp [h1])
      · rcases insertEntry_keeps x e rest h1 with h2 | h2
        · exact Or.inl (by simp [h2])
        · exact Or.inr h2

/-- The registration loop of `When` keeps a registration of the same closure. -/
theorem whenRegister_keeps (h : Handler) (t : TriggerType) (k : String) :
    ∀ (signals : List (TriggerType × String)) (bp : BluePrint) (w : World),
      (∃ id, (⟨t, k, id, h⟩ : Entry) ∈ bp.handlers) →
      ∃ id, (⟨t, k, id, h⟩ : Entry) ∈ (whenRegister h signals bp w).1.handlers
  | [], _, _, hx => hx
  | (t2, k2) :: rest, bp, w, hx => by
    obtain ⟨id, hid⟩ := hx
    simp only [whenRegister, BluePrint.AddHandler]
    apply whenRegister_keeps h t k rest
    rcases insertEntry_keeps _ ⟨t2, k2, (nextID "handler" w).1, h⟩ bp.handlers hid with h1 | h1
    · exact ⟨id, by simpa using h1⟩
    · simp only at h1
      obtain ⟨ht, hk, _⟩ := h1
      subst ht hk
      exact ⟨_, by simpa using insertEntry_mem _ _⟩

/-- The registration loop of `When` registers the closure on every signal of the list. -/
theorem whenRegister_mem (h : Handler) :
    ∀ (signals : List (TriggerType × String)) (bp : BluePrint) (w : World),
      ∀ sig ∈ signals, ∃ id, (⟨sig.1, sig.2, id, h⟩ : Entry) ∈ (whenRegister h signals bp w).1.handlers
  | [], _, _, sig, hs => by simp at hs
  | (t2, k2) :: rest, bp, w, sig, hs => by
    simp only [whenRegister, BluePrint.AddHandler]
    rcases List.mem_cons.mp hs with h1 | h1
    · subst h1
      apply whenRegister_keeps h t2 k2 rest
      exact ⟨_, by simpa using insertEntry_mem _ _⟩
    · exact whenRegister_mem h rest _ _ sig h1

/-- The registration loop of `When` draws IDs and changes nothing else of the state. -/
theorem whenRegister_joins (h : Handler) :
    ∀ (signals : List (TriggerType × String)) (bp : BluePrint) (w : World),
      (whenRegister h signals bp w).2.joins = w.joins ∧
      (whenRegister h signals bp w).2.blocks = w.blocks
  | [], _, _ => ⟨rfl, rfl⟩
  | (t2, k2) :: rest, bp, w => by
    simp only [whenRegister, BluePrint.AddHandler]
    rw [(whenRegister_joins h rest _ _).1, (whenRegister_joins h rest _ _).2]
    simp [nextID]

/-- The inner loop of `When` over keys that are new to the map and pairwise distinct once
resolved. -/
theorem whenCollect_fresh (chunks : List (String × Chunk)) (t : TriggerType) :
    ∀ (events : List String) (done : List String) (count : Nat) (cur : String),
      (done ++ events.map (joinKey chunks t)).Nodup →
      (whenCollect chunks t events (done.map (fun k => (k, Val.marker)), count, cur)).1
          = (done ++ events.map (joinKey chunks t)).map (fun k => (k, Val.marker)) ∧
      (whenCollect chunks t events (done.map (fun k => (k, Val.marker)), count, cur)).2.1
          = count + events.length
  | [], done, count, cur, _ => by simp [whenCollect]
  | e :: rest, done, count, cur, hnd => by
    have hstep : whenCollect chunks t (e :: rest) (done.map (fun k => (k, Val.marker)), count, cur)
        = whenCollect chunks t rest
            (mapSet (done.map (fun k => (k, Val.marker))) (joinKey chunks t e) .marker,
              count + 1, joinKey chunks t e) := by
      by_cases ht : t = .event
      · subst ht
        cases h : mapGet chunks e <;> simp [whenCollect, joinKey, h]
      · simp [whenCollect, joinKey, ht]
    have hfresh : joinKey chunks t e ∉ done := by
      intro hmem
      have := List.nodup_append.mp hnd
      exact this.2.2 hmem (by simp)
    have hset := (mapSet_fresh done (fun _ => Val.marker) (joinKey chunks t e) .marker hfresh).2
    have hnd2 : ((done ++ [joinKey chunks t e]) ++ rest.map (joinKey chunks t)).Nodup := by
      simpa using hnd
    have ih := whenCollect_fresh chunks t rest (done ++ [joinKey chunks t e]) (count + 1)
      (joinKey chunks t e) hnd2
    rw [hstep, hset]
    have hmap : done.map (fun k => (k, Val.marker)) ++ [(joinKey chunks t e, Val.marker)]
        = (done ++ [joinKey chunks t e]).map (fun k => (k, Val.marker)) := by simp
    rw [hmap]
    constructor
    · rw [ih.1]
      simp
    · rw [ih.2]
      simp
      omega

/-- Before any firing every slot holds the sentinel. -/
theorem lastOf_nil (t : TriggerType) (k : String) (init : Val) : lastOf [] t k init = init := rfl

/-- The outer loop of `When` over a spec with pairwise distinct trigger types that are new
to the map, each listing keys that are pairwise distinct once resolved. -/
theorem whenValues_slots (chunks : List (String × Chunk)) :
    ∀ (spec : List (TriggerType × List String)) (vals : List (TriggerType × GoMap))
      (count : Nat) (ct : TriggerType) (ce : String),
      (vals.map (fun tm => tm.1) ++ spec.map (fun te => te.1)).Nodup →
      (∀ te ∈ spec, (te.2.map (joinKey chunks te.1)).Nodup) →
      (whenValues chunks spec (vals, count, ct, ce)).1
          = vals ++ joinState (joinSignals chunks spec) [] ∧
      (whenValues chunks spec (vals, count, ct, ce)).2.1
          = count + (spec.map (fun te => te.2.length)).sum
  | [], vals, count, ct, ce, _, _ => by simp [whenValues, joinState, joinSignals]
  | (t, events) :: rest, vals, count, ct, ce, hnd, hk => by
    have ht : t ∉ vals.map (fun tm => tm.1) := by
      intro hmem
      have := List.nodup_append.mp hnd
      exact this.2.2 hmem (by simp)
    have hfind : vals.find? (fun tm => decide (tm.1 = t)) = none := by
      rw [List.find?_eq_none]
      intro x hx hxt
      exact ht (List.mem_map.mpr ⟨x, hx, by simpa using hxt⟩)
    have hc := whenCollect_fresh chunks t events [] count ce (by simpa using hk (t, events) (by simp))
    simp only [List.map_nil, List.nil_append] at hc
    have hnd2 : ((vals ++ [(t, (events.map (joinKey chunks t)).map (fun k => (k, Val.marker)))]).map
        (fun tm => tm.1) ++ rest.map (fun te => te.1)).Nodup := by
      simpa using hnd
    have ih := whenValues_slots chunks rest
      (vals ++ [(t, (events.map (joinKey chunks t)).map (fun k => (k, Val.marker)))])
      (count + events.length) (if events.isEmpty then ct else t)
      (whenCollect chunks t events ([], count, ce)).2.2 hnd2
      (fun te hte => hk te (by simp [hte]))
    have hstep : whenValues chunks ((t, events) :: rest) (vals, count, ct, ce)
        = whenValues chunks rest
            (vals ++ [(t, (events.map (joinKey chunks t)).map (fun k => (k, Val.marker)))],
              count + events.length, if events.isEmpty then ct else t,
              (whenCollect chunks t events ([], count, ce)).2.2) := by
      simp only [whenValues, hfind, Option.map_none', Option.getD_none]
      rw [← hc.1, ← hc.2]
    rw [hstep]
    constructor
    · rw [ih.1]
      simp [joinState, joinSignals, lastOf_nil]
    · rw [ih.2]
      simp
      omega

/-- What `When` does with a join spec that lists other than one key, all listed signals
pairwise distinct: it draws the join key, stores the slots under it, registers the closure
`waitTrigger` on every listed signal, and returns a Process on the join key. -/
theorem When_join (p : Process) (spec : List (TriggerType × List String)) (mode : String)
    (s : Sys) (htypes : (spec.map (fun te => te.1)).Nodup)
    (hkeys : ∀ te ∈ spec, (te.2.map (joinKey s.flow.bluePrint.Chunks te.1)).Nodup)
    (hn : (spec.map (fun te => te.2.length)).sum ≠ 1) :
    (p.When (.join spec) mode s).1
        = ⟨(nextID "when" s.world).1, .event, s.world.blocks.length⟩ ∧
    (∀ te ∈ spec, ∀ k ∈ te.2, ∃ id,
      (⟨te.1, joinKey s.flow.bluePrint.Chunks te.1 k, id,
          waitTrigger (if mode = "" then "and" else mode) (nextID "when" s.world).1⟩ : Entry)
        ∈ (p.When (.join spec) mode s).2.flow.bluePrint.handlers) ∧
    mapGet (p.When (.join spec) mode s).2.world.joins (nextID "when" s.world).1
      = some (joinState (joinSignals s.flow.bluePrint.Chunks spec) []) := by
  have hv := whenValues_slots s.flow.bluePrint.Chunks spec [] 0 .event "" (by simpa using htypes)
    hkeys
  generalize hr : whenValues s.flow.bluePrint.Chunks spec ([], 0, .event, "") = r at hv
  obtain ⟨vals, c, ct, ce⟩ := r
  simp only [List.nil_append, Nat.zero_add] at hv
  obtain ⟨hv1, hv2⟩ := hv
  subst hv1
  have hc : ¬ c = 1 := by
    rw [hv2]
    exact hn
  refine ⟨?_, ?_, ?_⟩
  · simp [Process.When, hr, hc, Process.clone, NewBlockData, (whenRegister_joins _ _ _ _).2,
      nextID]
  · intro te hte k hk
    simp only [Process.When, hr, hc, if_false]
    apply whenRegister_mem _ _ _ _ (te.1, joinKey s.flow.bluePrint.Chunks te.1 k)
    refine List.mem_flatMap.mpr
      ⟨(te.1, (te.2.map (joinKey s.flow.bluePrint.Chunks te.1)).map
          (fun k => (k, lastOf [] te.1 k .marker))), ?_, ?_⟩
    · exact List.mem_map.mpr ⟨(te.1, te.2.map (joinKey s.flow.bluePrint.Chunks te.1)),
        List.mem_map.mpr ⟨te, hte, rfl⟩, rfl⟩
    · exact List.mem_map.mpr ⟨(joinKey s.flow.bluePrint.Chunks te.1 k, lastOf [] te.1
          (joinKey s.flow.bluePrint.Chunks te.1 k) .marker),
        List.mem_map.mpr ⟨joinKey s.flow.bluePrint.Chunks te.1 k,
          List.mem_map.mpr ⟨k, hk, rfl⟩, rfl⟩, rfl⟩
  · simp only [Process.When, hr, hc, if_false, NewBlockData]
    rw [(whenRegister_joins _ _ _ _).1]
    exact mapGet_mapSet_self _ _ _

/-! ## C11: join specs in mode `and` -/

/-- The value last fired after one more firing. -/
theorem lastOf_snoc (fs : List (TriggerType × String × Val)) (t t2 : TriggerType) (k k2 : String)
    (v init : Val) :
    lastOf (fs ++ [(t, k, v)]) t2 k2 init
      = if t = t2 ∧ k = k2 then v else lastOf fs t2 k2 init := by
  simp [lastOf, List.foldl_append]

/-- A slot holds a value, not the sentinel, exactly when its signal has fired. -/
theorem lastOf_isMarker (t : TriggerType) (k : String) :
    ∀ (fs : List (TriggerType × String × Val)) (init : Val),
      (∀ f ∈ fs, f.2.2.isMarker = false) →
      ((lastOf fs t k init).isMarker = false ↔
        (init.isMarker = false ∨ ∃ u, (t, k, u) ∈ fs))
  | [], init, _ => by simp [lastOf]
  | (t2, k2, v2) :: fs, init, h => by
    have hv : v2.isMarker = false := h (t2, k2, v2) (by simp)
    have ih := lastOf_isMarker t k fs (if t2 = t ∧ k2 = k then v2 else init)
      (fun f hf => h f (by simp [hf]))
    have hunf : lastOf ((t2, k2, v2) :: fs) t k init
        = lastOf fs t k (if t2 = t ∧ k2 = k then v2 else init) := by
      simp [lastOf]
    rw [hunf, ih]
    by_cases hc : t2 = t ∧ k2 = k
    · obtain ⟨h1, h2⟩ := hc
      subst h1 h2
      simp [hv]
    · simp only [hc, if_false]
      constructor
      · rintro (h1 | ⟨u, hu⟩)
        · exact Or.inl h1
        · exact Or.inr ⟨u, by simp [hu]⟩
      · rintro (h1 | ⟨u, hu⟩)
        · exact Or.inl h1
        · rcases List.mem_cons.mp hu with h2 | h2
          · simp only [Prod.mk.injEq] at h2
            exact absurd ⟨h2.1.symm, h2.2.1.symm⟩ hc
          · exact Or.inr ⟨u, h2⟩

/-- Writing the slot of `k` in a map with pairwise distinct keys, as `waitTrigger` does it:
only when the key is present. -/
theorem slot_update (g : String → Val) (k : String) (v : Val) :
    ∀ (ks : List String), ks.Nodup →
      (match mapGet (ks.map (fun c => (c, g c))) k with
        | some _ => mapSet (ks.map (fun c => (c, g c))) k v
        | none => ks.map (fun c => (c, g c)))
        = ks.map (fun c => (c, if c = k then v else g c))
  | [], _ => by simp [mapGet]
  | a :: rest, hnd => by
    have hnd2 : rest.Nodup := (List.nodup_cons.mp hnd).2
    have ha : a ∉ rest := (List.nodup_cons.mp hnd).1
    by_cases hak : a = k
    · subst hak
      have hrest : rest.map (fun c => (c, g c))
          = rest.map (fun c => (c, if c = a then v else g c)) := by
        apply List.map_congr_left
        intro c hc
        have : c ≠ a := fun e => ha (e ▸ hc)
        simp [this]
      simp [mapGet, mapSet, hrest]
    · have ih := slot_update g k v rest hnd2
      simp only [List.map_cons, mapGet, hak, if_false]
      cases hm : mapGet (rest.map (fun c => (c, g c))) k with
      | none =>
        simp only [hm] at ih
        simp [hak, ← ih]
      | some x =>
        simp only [hm] at ih
        simp [mapSet, hak, ← ih]

/-- The slot update of `waitTrigger` on the map of a join whose listed keys are pairwise
distinct under every trigger type. -/
theorem join_update (signals : List (TriggerType × List String))
    (hnd : ∀ te ∈ signals, te.2.Nodup) (fs : List (TriggerType × String × Val))
    (t : TriggerType) (k : String) (v : Val) :
    (joinState signals fs).map (fun (tm : TriggerType × GoMap) =>
        if tm.1 = t then
          match mapGet tm.2 k with
          | some _ => (tm.1, mapSet tm.2 k v)
          | none => tm
        else tm)
      = joinState signals (fs ++ [(t, k, v)]) := by
  unfold joinState
  rw [List.map_map]
  apply List.map_congr_left
  intro te hte
  simp only [Function.comp]
  by_cases ht : te.1 = t
  · have hs := slot_update (fun c => lastOf fs te.1 c .marker) k v te.2 (hnd te hte)
    have hl : ∀ c, lastOf (fs ++ [(t, k, v)]) te.1 c .marker
        = if c = k then v else lastOf fs te.1 c .marker := by
      intro c
      rw [lastOf_snoc]
      by_cases hc : c = k
      · simp [hc, ht]
      · have hc2 : ¬ k = c := fun e => hc e.symm
        simp [hc, hc2]
    subst ht
    simp only [if_true, hl]
    rw [← hs]
    cases mapGet (te.2.map (fun c => (c, lastOf fs te.1 c .marker))) k <;> rfl
  · have hl : ∀ c, lastOf (fs ++ [(t, k, v)]) te.1 c .marker = lastOf fs te.1 c .marker := by
      intro c
      rw [lastOf_snoc]
      have : ¬ (t = te.1 ∧ k = c) := fun e => ht e.1.symm
      simp [this]
    simp only [ht, if_false, hl]

/-- An update of an execution leaves the joins as they are. -/
theorem updExecution_joins (w : World) (eid : String) (f : Execution → Execution) :
    (w.updExecution eid f).joins = w.joins := by
  unfold World.updExecution
  cases mapGet w.executions eid <;> rfl

/-- One call of `waitTrigger` in mode `and`, on a join whose map holds the values last fired:
the map takes the new value, and the join key is emitted, with the map as payload, exactly
when no slot holds the sentinel any more. -/
theorem waitTrigger_and (key eid : String) (signals : List (TriggerType × List String))
    (hnd : ∀ te ∈ signals, te.2.Nodup) (fs : List (TriggerType × String × Val))
    (t : TriggerType) (k : String) (v : Val) (marks : List String) (w : World)
    (hj : mapGet w.joins key = some (joinState signals fs)) :
    ∃ out, waitTrigger "and" key (logEmit eid) ⟨k, t, v, eid, marks⟩ w = .ok out ∧
      mapGet out.world.joins key = some (joinState signals (fs ++ [(t, k, v)])) ∧
      out.world.trace = w.trace ++
        (if (joinState signals (fs ++ [(t, k, v)])).any
              (fun tm => tm.2.any (fun kv => kv.2.isMarker)) then []
          else [⟨.event, key, .joinMap (joinState signals (fs ++ [(t, k, v)])), marks⟩]) ∧
      out.err = none := by
  have hu := join_update signals hnd fs t k v
  have hmode : ¬ ("and" = "or" ∨ "and" = "simple_or") := by decide
  simp only [waitTrigger, hmode, if_false, hj, Option.getD_some]
  erw [hu]
  by_cases hany : (joinState signals (fs ++ [(t, k, v)])).any
      (fun tm => tm.2.any (fun kv => kv.2.isMarker)) = true
  · simp only [hany, if_true]
    exact ⟨_, rfl, mapGet_mapSet_self _ _ _, by simp, rfl⟩
  · simp only [hany, if_false, logEmit_eq]
    refine ⟨_, rfl, ?_, ?_, rfl⟩
    · simp only [updExecution_joins]
      exact mapGet_mapSet_self _ _ _
    · simp [(updExecution_frame _ _ _).2]

/-- The firings `fs` in mode `and`, from a join map holding the values last fired by `done`:
the run returns, and the map then holds the values last fired by `done ++ fs`. -/
theorem fireJoin_and (key eid : String) (signals : List (TriggerType × List String))
    (hnd : ∀ te ∈ signals, te.2.Nodup) :
    ∀ (fs done : List (TriggerType × String × Val)) (w : World),
      mapGet w.joins key = some (joinState signals done) →
      ∃ w1, fireJoin "and" key eid fs w = .ok w1 ∧
        mapGet w1.joins key = some (joinState signals (done ++ fs))
  | [], done, w, hj => ⟨w, rfl, by simpa using hj⟩
  | (t, k, v) :: fs, done, w, hj => by
    obtain ⟨out, hrun, hj1, _⟩ := waitTrigger_and key eid signals hnd done t k v [] w hj
    obtain ⟨w1, hrest, hj2⟩ := fireJoin_and key eid signals hnd fs (done ++ [(t, k, v)])
      out.world hj1
    exact ⟨w1, by simp [fireJoin, hrun, hrest], by simpa using hj2⟩

/-- No slot of the map holds the sentinel exactly when every listed signal has fired. -/
theorem joinState_filled (signals : List (TriggerType × List String))
    (fs : List (TriggerType × String × Val)) (hfs : ∀ f ∈ fs, f.2.2.isMarker = false) :
    (joinState signals fs).any (fun tm => tm.2.any (fun kv => kv.2.isMarker)) = false ↔
      ∀ te ∈ signals, ∀ k ∈ te.2, ∃ u, (te.1, k, u) ∈ fs := by
  unfold joinState
  constructor
  · intro h te hte k hk
    have h1 := (List.any_eq_false.mp h)
      (te.1, te.2.map (fun k => (k, lastOf fs te.1 k .marker))) (List.mem_map.mpr ⟨te, hte, rfl⟩)
    rw [Bool.not_eq_true] at h1
    have h3 := (List.any_eq_false.mp h1) (k, lastOf fs te.1 k .marker)
      (List.mem_map.mpr ⟨k, hk, rfl⟩)
    rw [Bool.not_eq_true] at h3
    rcases (lastOf_isMarker te.1 k fs .marker hfs).mp h3 with h2 | h2
    · simp [Val.isMarker] at h2
    · exact h2
  · intro h
    apply List.any_eq_false.mpr
    intro tm htm
    obtain ⟨te, hte, rfl⟩ := List.mem_map.mp htm
    rw [Bool.not_eq_true]
    apply List.any_eq_false.mpr
    intro kv hkv
    obtain ⟨k, hk, rfl⟩ := List.mem_map.mp hkv
    rw [Bool.not_eq_true]
    exact (lastOf_isMarker te.1 k fs .marker hfs).mpr (Or.inr (h te hte k hk))

/-- C11, amended: for a join spec listing more than one key, all listed signals pairwise
distinct, where an `event` key that names a chunk of the directory stands for that chunk's
trigger (`joinKey`), in mode `and` (the default): `When` registers the closure `waitTrigger`
on every listed signal
and returns a Process on the join key. Starting from the slots as `When` left them, after any
firings `fs` of whatever signals with values, a further firing `(t, k, v)`: when every listed
signal occurs among `fs` and this firing, it emits the join key once, and the payload maps
every listed signal to the value last fired for it; when a listed signal has not fired, it
emits nothing. In the flow
`When({runtime_data: ["ready"], event: ["TRIGGER_A"]}, "").To(capture)`,
`SetRuntimeData("ready", v1, emit)` alone emits nothing under the join key, and the
`Emit("TRIGGER_A", v2)` after it emits `{runtime_data: {ready: v1}, event: {TRIGGER_A: v2}}`,
which the handler receives. -/
theorem C11_and_join (p : Process) (spec : List (TriggerType × List String)) (mode : String)
    (s : Sys) (eid : String) (fs : List (TriggerType × String × Val)) (t : TriggerType)
    (k : String) (v : Val) (marks : List String) (w : World) (seeds : Nat → Nat) (fuel : Nat)
    (v1 v2 : Val)
    (hmode : mode = "" ∨ mode = "and")
    (htypes : (spec.map (fun te => te.1)).Nodup)
    (hkeys : ∀ te ∈ spec, (te.2.map (joinKey s.flow.bluePrint.Chunks te.1)).Nodup)
    (hn : 1 < (spec.map (fun te => te.2.length)).sum)
    (hw : mapGet w.joins (nextID "when" s.world).1
      = mapGet (p.When (.join spec) mode s).2.world.joins (nextID "when" s.world).1)
    (hfs : ∀ f ∈ fs, f.2.2.isMarker = false) (hv : v.isMarker = false)
    (hv1 : v1.isMarker = false) (hv2 : v2.isMarker = false) :
    (p.When (.join spec) mode s).1
        = ⟨(nextID "when" s.world).1, .event, s.world.blocks.length⟩ ∧
    (∀ te ∈ spec, ∀ k ∈ te.2, ∃ id,
      (⟨te.1, joinKey s.flow.bluePrint.Chunks te.1 k, id,
          waitTrigger "and" (nextID "when" s.world).1⟩ : Entry)
        ∈ (p.When (.join spec) mode s).2.flow.bluePrint.handlers) ∧
    (∃ w1 out, fireJoin "and" (nextID "when" s.world).1 eid fs w = .ok w1 ∧
      waitTrigger "and" (nextID "when" s.world).1 (logEmit eid) ⟨k, t, v, eid, marks⟩ w1
        = .ok out ∧
      out.err = none ∧
      ((∀ te ∈ joinSignals s.flow.bluePrint.Chunks spec, ∀ c ∈ te.2,
          ∃ u, (te.1, c, u) ∈ fs ++ [(t, k, v)]) →
        out.world.trace = w1.trace ++ [⟨.event, (nextID "when" s.world).1,
          .joinMap (joinState (joinSignals s.flow.bluePrint.Chunks spec) (fs ++ [(t, k, v)])),
          marks⟩]) ∧
      ((∃ te ∈ joinSignals s.flow.bluePrint.Chunks spec, ∃ c ∈ te.2,
          ∀ u, (te.1, c, u) ∉ fs ++ [(t, k, v)]) →
        out.world.trace = w1.trace)) ∧
    (Execution.SetRuntimeData (joinFlow "" (World.init seeds)).1 (fuel + 3) "ready" v1 true
        (joinFlow "" (World.init seeds)).2).map (fun x => payloads "when-2" x.1.trace)
      = .ok [] ∧
    (joinRun "" (World.init seeds) (fuel + 3) v1 v2).map
        (fun x => (payloads "when-2" x.1.trace,
          Execution.GetResult (joinFlow "" (World.init seeds)).1.ID x.1))
      = .ok ([.joinMap [(.runtime_data, [("ready", v1)]), (.event, [("TRIGGER_A", v2)])]],
          (.joinMap [(.runtime_data, [("ready", v1)]), (.event, [("TRIGGER_A", v2)])], none)) := by
  have hW := When_join p spec mode s htypes hkeys (by omega)
  have hm : (if mode = "" then "and" else mode) = "and" := by
    rcases hmode with h | h <;> simp [h]
  rw [hm] at hW
  have hnd : ∀ te ∈ joinSignals s.flow.bluePrint.Chunks spec, te.2.Nodup := by
    intro te hte
    obtain ⟨te0, hte0, rfl⟩ := List.mem_map.mp hte
    exact hkeys te0 hte0
  have hall : ∀ f ∈ fs ++ [(t, k, v)], f.2.2.isMarker = false := by
    intro f hf
    rcases List.mem_append.mp hf with h1 | h1
    · exact hfs f h1
    · simp at h1
      rw [h1]
      exact hv
  rw [hW.2.2] at hw
  obtain ⟨w1, hrun, hj1⟩ := fireJoin_and (nextID "when" s.world).1 eid _ hnd fs [] w hw
  obtain ⟨out, hstep, _, htrace, herr⟩ := waitTrigger_and (nextID "when" s.world).1 eid _ hnd
    ([] ++ fs) t k v marks w1 hj1
  simp only [List.nil_append] at htrace hstep
  have hfill := joinState_filled (joinSignals s.flow.bluePrint.Chunks spec) (fs ++ [(t, k, v)])
    hall
  refine ⟨hW.1, hW.2.1, ⟨w1, out, hrun, hstep, herr, ?_, ?_⟩, ?_, ?_⟩
  · intro hcov
    rw [htrace, hfill.mpr hcov]
    simp
  · rintro ⟨te, hte, c, hc, hno⟩
    have hany : (joinState (joinSignals s.flow.bluePrint.Chunks spec) (fs ++ [(t, k, v)])).any
        (fun tm => tm.2.any (fun kv => kv.2.isMarker)) = true := by
      by_contra hcon
      rw [Bool.not_eq_true] at hcon
      obtain ⟨u, hu⟩ := hfill.mp hcon te hte c hc
      exact hno u hu
    rw [htrace, hany]
    simp
  · simp +decide [joinRun, joinFlow, Execution.Emit, Execution.SetRuntimeData,
      Execution.changeRuntimeData, payloads, hv1, hv2, RuntimeData.Get, getByDotPath, getParts,
      setParts, New, NewBluePrint, nextID, NewBlockData, World.init, Process.When,
      whenValues, whenCollect, whenRegister, waitTrigger, Process.To, Process.clone,
      TriggerFlow.Chunk, NewChunk, Sys.setChunk, BluePrint.AddHandler, insertEntry, mapSet,
      mapGet, TriggerFlow.CreateExecution, NewExecution, BluePrint.SnapshotHandlers,
      Execution.EmitWithMarks, targetHandlers, World.rangeOrder, shuffle, runHandlers,
      runHandler, Execution.acquire, Execution.release, World.execution, World.updExecution,
      Chunk.Call, captureHandler, Execution.SetResult, Execution.GetResult, toString_lits,
      RuntimeData.Set, setByDotPath, Except.map, errCh, emptyBlock,
      (rfl : Val.marker.isMarker = true)]
  · simp +decide [joinRun, joinFlow, Execution.Emit, Execution.SetRuntimeData,
      Execution.changeRuntimeData, payloads, hv1, hv2, RuntimeData.Get, getByDotPath, getParts,
      setParts, New, NewBluePrint, nextID, NewBlockData, World.init, Process.When,
      whenValues, whenCollect, whenRegister, waitTrigger, Process.To, Process.clone,
      TriggerFlow.Chunk, NewChunk, Sys.setChunk, BluePrint.AddHandler, insertEntry, mapSet,
      mapGet, TriggerFlow.CreateExecution, NewExecution, BluePrint.SnapshotHandlers,
      Execution.EmitWithMarks, targetHandlers, World.rangeOrder, shuffle, runHandlers,
      runHandler, Execution.acquire, Execution.release, World.execution, World.updExecution,
      Chunk.Call, captureHandler, Execution.SetResult, Execution.GetResult, toString_lits,
      RuntimeData.Set, setByDotPath, Except.map, errCh, emptyBlock,
      (rfl : Val.marker.isMarker = true)]

/-- C11 at a concrete input: the spec `{runtime_data: ["ready"], event: ["TRIGGER_A"]}` on a
new flow, `ready` fired with `"yes"`, then `TRIGGER_A` with `"A"`. -/
theorem C11_and_join_witness :
    ((New none "f" false (World.init inOrder)).flow.startProcess.When
        (.join [(.runtime_data, ["ready"]), (.event, ["TRIGGER_A"])]) ""
        (New none "f" false (World.init inOrder))).1
      = ⟨(nextID "when" (New none "f" false (World.init inOrder)).world).1, .event,
          (New none "f" false (World.init inOrder)).world.blocks.length⟩ :=
  (C11_and_join (New none "f" false (World.init inOrder)).flow.startProcess
    [(.runtime_data, ["ready"]), (.event, ["TRIGGER_A"])] ""
    (New none "f" false (World.init inOrder)) "e" [(.runtime_data, "ready", .str "yes")]
    .event "TRIGGER_A" (.str "A") []
    ((New none "f" false (World.init inOrder)).flow.startProcess.When
        (.join [(.runtime_data, ["ready"]), (.event, ["TRIGGER_A"])]) ""
        (New none "f" false (World.init inOrder))).2.world
    inOrder 0 (.str "yes") (.str "A") (Or.inl rfl) (by decide) (by decide) (by decide) rfl
    (by decide) rfl rfl rfl).1

/-- C11 as stated fails for a spec with an event key that names a chunk of the directory.
With a chunk named `work` in the directory and the spec `{event: ["work", "TRIGGER_B"]}` in
mode `and`: after `Emit("work", 1)` and `Emit("TRIGGER_B", 2)` each listed signal has fired,
and nothing has been emitted under the join key `when-3` (no result is set). The slot stands
under the chunk's trigger: after `Emit("Chunk[work]-chunk-2", 1)` and `Emit("TRIGGER_B", 2)`
the join key is emitted, with a payload whose key is the chunk's trigger, not `work`. -/
theorem C11_counterexample :
    workJoinRun [(.event, ["work", "TRIGGER_B"])] "" [("work", .int 1), ("TRIGGER_B", .int 2)]
      = .ok ([], .nil, some .resultTimeout) ∧
    workJoinRun [(.event, ["work", "TRIGGER_B"])] ""
        [("Chunk[work]-chunk-2", .int 1), ("TRIGGER_B", .int 2)]
      = .ok ([("when-3", .joinMap [(.event, [("Chunk[work]-chunk-2", .int 1),
              ("TRIGGER_B", .int 2)])]),
            ("Chunk[capture]-chunk-6", .joinMap [(.event, [("Chunk[work]-chunk-2", .int 1),
              ("TRIGGER_B", .int 2)])])],
          .joinMap [(.event, [("Chunk[work]-chunk-2", .int 1), ("TRIGGER_B", .int 2)])],
          none) := by
  decide!

/-! ## C12: join specs in mode `or` and `simple_or` -/

/-- The inner loop of `When`, whatever the keys: it counts every listed key, keeps the keys
the map holds, and adds every listed key, resolved. -/
theorem whenCollect_keys (chunks : List (String × Chunk)) (t : TriggerType) :
    ∀ (events : List String) (m : GoMap) (count : Nat) (cur : String),
      (whenCollect chunks t events (m, count, cur)).2.1 = count + events.length ∧
      (∀ k, (mapGet m k).isSome = true →
        (mapGet (whenCollect chunks t events (m, count, cur)).1 k).isSome = true) ∧
      (∀ e ∈ events,
        (mapGet (whenCollect chunks t events (m, count, cur)).1 (joinKey chunks t e)).isSome
          = true)
  | [], m, count, cur => by simp [whenCollect]
  | e :: rest, m, count, cur => by
    have hstep : whenCollect chunks t (e :: rest) (m, count, cur)
        = whenCollect chunks t rest (mapSet m (joinKey chunks t e) .marker, count + 1,
            joinKey chunks t e) := by
      by_cases ht : t = .event
      · subst ht
        cases h : mapGet chunks e <;> simp [whenCollect, joinKey, h]
      · simp [whenCollect, joinKey, ht]
    obtain ⟨ih1, ih2, ih3⟩ := whenCollect_keys chunks t rest
      (mapSet m (joinKey chunks t e) .marker) (count + 1) (joinKey chunks t e)
    rw [hstep]
    refine ⟨?_, ?_, ?_⟩
    · rw [ih1]
      simp
      omega
    · intro k hk
      apply ih2
      rw [mapGet_mapSet]
      split
      · rfl
      · exact hk
    · intro x hx
      rcases List.mem_cons.mp hx with h | h
      · subst h
        apply ih2
        rw [mapGet_mapSet_self]
        rfl
      · exact ih3 x h

/-- The outer loop of `When`, whatever the keys: it counts every listed key, and its map
holds, under every trigger type, every listed key, resolved. -/
theorem whenValues_keys (chunks : List (String × Chunk)) :
    ∀ (spec : List (TriggerType × List String)) (values : List (TriggerType × GoMap))
      (count : Nat) (ct : TriggerType) (ce : String),
      (values.map (fun tm => tm.1)).Nodup →
      (whenValues chunks spec (values, count, ct, ce)).2.1
          = count + (spec.map (fun te => te.2.length)).sum ∧
      (∀ t m k, (t, m) ∈ values → (mapGet m k).isSome = true →
        ∃ m2, (t, m2) ∈ (whenValues chunks spec (values, count, ct, ce)).1 ∧
          (mapGet m2 k).isSome = true) ∧
      (∀ te ∈ spec, ∀ k ∈ te.2,
        ∃ m2, (te.1, m2) ∈ (whenValues chunks spec (values, count, ct, ce)).1 ∧
          (mapGet m2 (joinKey chunks te.1 k)).isSome = true)
  | [], values, count, ct, ce, _ => by
    simp only [whenValues, List.map_nil, List.sum_nil, Nat.add_zero, true_and]
    exact ⟨fun t m k hm hk => ⟨m, hm, hk⟩, fun te hte => by simp at hte⟩
  | (t, events) :: rest, values, count, ct, ce, hnd => by
    cases hf : values.find? (fun tm => decide (tm.1 = t)) with
    | none =>
      have hc := whenCollect_keys chunks t events [] count ce
      have hstep : whenValues chunks ((t, events) :: rest) (values, count, ct, ce)
          = whenValues chunks rest
              (values ++ [(t, (whenCollect chunks t events ([], count, ce)).1)],
                (whenCollect chunks t events ([], count, ce)).2.1,
                if events.isEmpty then ct else t,
                (whenCollect chunks t events ([], count, ce)).2.2) := by
        simp only [whenValues, hf, Option.map_none', Option.getD_none]
      have ht : t ∉ values.map (fun tm => tm.1) := by
        intro hmem
        obtain ⟨x, hx, hxt⟩ := List.mem_map.mp hmem
        have := List.find?_eq_none.mp hf x hx
        simp [hxt] at this
      have hnd2 : ((values ++ [(t, (whenCollect chunks t events ([], count, ce)).1)]).map
          (fun tm => tm.1)).Nodup := by
        rw [List.map_append, List.nodup_append]
        refine ⟨hnd, by simp, ?_⟩
        intro a ha hb
        simp at hb
        rw [hb] at ha
        exact ht ha
      obtain ⟨ih1, ih2, ih3⟩ := whenValues_keys chunks rest _
        (whenCollect chunks t events ([], count, ce)).2.1 (if events.isEmpty then ct else t)
        (whenCollect chunks t events ([], count, ce)).2.2 hnd2
      rw [hstep]
      refine ⟨?_, ?_, ?_⟩
      · rw [ih1, hc.1]
        simp
        omega
      · intro t2 m k hm hk
        exact ih2 t2 m k (by simp [hm]) hk
      · intro te hte k hk
        rcases List.mem_cons.mp hte with h | h
        · subst h
          exact ih2 t _ _ (by simp) (hc.2.2 k hk)
        · exact ih3 te h k hk
    | some tm0 =>
      have hm0 : tm0 ∈ values := List.mem_of_find?_eq_some hf
      have ht0 : tm0.1 = t := by simpa using List.find?_some hf
      have hc := whenCollect_keys chunks t events tm0.2 count ce
      have hstep : whenValues chunks ((t, events) :: rest) (values, count, ct, ce)
          = whenValues chunks rest
              (values.map (fun tm => if tm.1 = t then
                  (t, (whenCollect chunks t events (tm0.2, count, ce)).1) else tm),
                (whenCollect chunks t events (tm0.2, count, ce)).2.1,
                if events.isEmpty then ct else t,
                (whenCollect chunks t events (tm0.2, count, ce)).2.2) := by
        simp only [whenValues, hf, Option.map_some', Option.getD_some]
      have hfst : (values.map (fun tm => if tm.1 = t then
          (t, (whenCollect chunks t events (tm0.2, count, ce)).1) else tm)).map (fun tm => tm.1)
          = values.map (fun tm => tm.1) := by
        rw [List.map_map]
        apply List.map_congr_left
        intro x _
        simp only [Function.comp]
        split
        · rename_i h
          exact h.symm
        · rfl
      obtain ⟨ih1, ih2, ih3⟩ := whenValues_keys chunks rest _
        (whenCollect chunks t events (tm0.2, count, ce)).2.1 (if events.isEmpty then ct else t)
        (whenCollect chunks t events (tm0.2, count, ce)).2.2 (by rw [hfst]; exact hnd)
      have huniq : ∀ m, (t, m) ∈ values → m = tm0.2 := by
        intro m hm
        have h1 := entry_unique values hnd (t, m) tm0 hm hm0 (by simp [ht0])
        rw [← h1]
      rw [hstep]
      refine ⟨?_, ?_, ?_⟩
      · rw [ih1, hc.1]
        simp
        omega
      · intro t2 m k hm hk
        by_cases h2 : t2 = t
        · subst h2
          have := huniq m hm
          subst this
          exact ih2 t2 _ k (List.mem_map.mpr ⟨tm0, hm0, by simp [ht0]⟩) (hc.2.1 k hk)
        · exact ih2 t2 m k (List.mem_map.mpr ⟨(t2, m), hm, by simp [h2]⟩) hk
      · intro te hte k hk
        rcases List.mem_cons.mp hte with h | h
        · subst h
          exact ih2 t _ _ (List.mem_map.mpr ⟨tm0, hm0, by simp [ht0]⟩) (hc.2.2 k hk)
        · exact ih3 te h k hk
/-- What `When` does with a join spec that lists other than one key, whatever the keys: it
draws the join key, registers the closure `waitTrigger` on every listed signal, and returns
a Process on the join key. -/
theorem When_join_any (p : Process) (spec : List (TriggerType × List String)) (mode : String)
    (s : Sys) (hn : (spec.map (fun te => te.2.length)).sum ≠ 1) :
    (p.When (.join spec) mode s).1
        = ⟨(nextID "when" s.world).1, .event, s.world.blocks.length⟩ ∧
    (∀ te ∈ spec, ∀ k ∈ te.2, ∃ id,
      (⟨te.1, joinKey s.flow.bluePrint.Chunks te.1 k, id,
          waitTrigger (if mode = "" then "and" else mode) (nextID "when" s.world).1⟩ : Entry)
        ∈ (p.When (.join spec) mode s).2.flow.bluePrint.handlers) := by
  have hv := whenValues_keys s.flow.bluePrint.Chunks spec [] 0 .event "" (by simp)
  generalize hr : whenValues s.flow.bluePrint.Chunks spec ([], 0, .event, "") = r at hv
  obtain ⟨vals, c, ct, ce⟩ := r
  simp only [Nat.zero_add] at hv
  obtain ⟨hv1, _, hv3⟩ := hv
  have hc : ¬ c = 1 := by
    rw [hv1]
    exact hn
  refine ⟨?_, ?_⟩
  · simp [Process.When, hr, hc, Process.clone, NewBlockData, (whenRegister_joins _ _ _ _).2,
      nextID]
  · intro te hte k hk
    simp only [Process.When, hr, hc, if_false]
    apply whenRegister_mem _ _ _ _ (te.1, joinKey s.flow.bluePrint.Chunks te.1 k)
    obtain ⟨m2, hm2, hk2⟩ := hv3 te hte k hk
    cases hg : mapGet m2 (joinKey s.flow.bluePrint.Chunks te.1 k) with
    | none => simp [hg] at hk2
    | some v =>
      exact List.mem_flatMap.mpr ⟨(te.1, m2), hm2,
        List.mem_map.mpr ⟨(joinKey s.flow.bluePrint.Chunks te.1 k, v), mapGet_mem _ _ _ hg, rfl⟩⟩

/-- C12, amended: for a join spec listing more than one key, where an `event` key that
names a chunk of the directory stands for that chunk's trigger (`joinKey`), in mode `or` or
`simple_or`: `When` registers the closure `waitTrigger` on every listed signal and returns a
Process on the join key; every call of that closure, for a firing of the signal `(t, k)` with
value `v` in whatever state, emits the join key once, with the payload
`{trigger_type: t, trigger_event: k, value: v}` in mode `or` and with `v` in mode
`simple_or`, and returns nil. In the flow
`When({runtime_data: ["ready"], event: ["TRIGGER_A"]}, mode).To(capture)` the handler
receives that payload on a firing of `TRIGGER_A` alone. -/
theorem C12_or_join (p : Process) (spec : List (TriggerType × List String)) (mode : String)
    (s : Sys) (eid : String) (t : TriggerType) (k : String) (v : Val) (marks : List String)
    (w : World) (seeds : Nat → Nat) (fuel : Nat)
    (hmode : mode = "or" ∨ mode = "simple_or")
    (hn : 1 < (spec.map (fun te => te.2.length)).sum) :
    (p.When (.join spec) mode s).1
        = ⟨(nextID "when" s.world).1, .event, s.world.blocks.length⟩ ∧
    (∀ te ∈ spec, ∀ k ∈ te.2, ∃ id,
      (⟨te.1, joinKey s.flow.bluePrint.Chunks te.1 k, id,
          waitTrigger mode (nextID "when" s.world).1⟩ : Entry)
        ∈ (p.When (.join spec) mode s).2.flow.bluePrint.handlers) ∧
    (waitTrigger mode (nextID "when" s.world).1 (logEmit eid) ⟨k, t, v, eid, marks⟩ w).map
        (fun out => (out.world.trace, out.err))
      = .ok (w.trace ++ [⟨.event, (nextID "when" s.world).1,
          if mode = "or" then
            .map [("trigger_type", .trig t), ("trigger_event", .str k), ("value", v)]
          else v, marks⟩], none) ∧
    (Execution.EmitWithMarks (joinFlow "or" (World.init seeds)).1.handlers
        (joinFlow "or" (World.init seeds)).1.ID (fuel + 3) "TRIGGER_A" v [] .event
        (joinFlow "or" (World.init seeds)).2).map
      (fun x => Execution.GetResult (joinFlow "or" (World.init seeds)).1.ID x.1)
      = .ok (.map [("trigger_type", .trig .event), ("trigger_event", .str "TRIGGER_A"),
          ("value", v)], none) ∧
    (Execution.EmitWithMarks (joinFlow "simple_or" (World.init seeds)).1.handlers
        (joinFlow "simple_or" (World.init seeds)).1.ID (fuel + 3) "TRIGGER_A" v [] .event
        (joinFlow "simple_or" (World.init seeds)).2).map
      (fun x => Execution.GetResult (joinFlow "simple_or" (World.init seeds)).1.ID x.1)
      = .ok (v, none) := by
  have hne : mode ≠ "" := by
    rcases hmode with h | h <;> simp [h]
  have hW := When_join_any p spec mode s (by omega)
  simp only [hne, if_false] at hW
  refine ⟨hW.1, hW.2, ?_, ?_, ?_⟩
  · rcases hmode with h | h <;>
    simp [h, waitTrigger, logEmit_eq, Except.map, (updExecution_frame _ _ _).2]
  · simp +decide [joinFlow, New, NewBluePrint, nextID, NewBlockData, World.init, Process.When,
      whenValues, whenCollect, whenRegister, waitTrigger, Process.To, Process.clone,
      TriggerFlow.Chunk, NewChunk, Sys.setChunk, BluePrint.AddHandler, insertEntry, mapSet,
      mapGet, TriggerFlow.CreateExecution, NewExecution, BluePrint.SnapshotHandlers,
      Execution.EmitWithMarks, targetHandlers, World.rangeOrder, shuffle, runHandlers,
      runHandler, Execution.acquire, Execution.release, World.execution, World.updExecution,
      Chunk.Call, captureHandler, Execution.SetResult, Execution.GetResult, toString_lits,
      RuntimeData.Set, setByDotPath, Except.map, errCh, emptyBlock]
  · simp +decide [joinFlow, New, NewBluePrint, nextID, NewBlockData, World.init, Process.When,
      whenValues, whenCollect, whenRegister, waitTrigger, Process.To, Process.clone,
      TriggerFlow.Chunk, NewChunk, Sys.setChunk, BluePrint.AddHandler, insertEntry, mapSet,
      mapGet, TriggerFlow.CreateExecution, NewExecution, BluePrint.SnapshotHandlers,
      Execution.EmitWithMarks, targetHandlers, World.rangeOrder, shuffle, runHandlers,
      runHandler, Execution.acquire, Execution.release, World.execution, World.updExecution,
      Chunk.Call, captureHandler, Execution.SetResult, Execution.GetResult, toString_lits,
      RuntimeData.Set, setByDotPath, Except.map, errCh, emptyBlock]

/-- C12 at a concrete input: the spec `{event: ["TRIGGER_A", "TRIGGER_B"]}` in mode `or` on a
new flow, and a firing of `TRIGGER_B` with 7. -/
theorem C12_or_join_witness :
    ((New none "f" false (World.init inOrder)).flow.startProcess.When
        (.join [(.event, ["TRIGGER_A", "TRIGGER_B"])]) "or"
        (New none "f" false (World.init inOrder))).1
      = ⟨(nextID "when" (New none "f" false (World.init inOrder)).world).1, .event,
          (New none "f" false (World.init inOrder)).world.blocks.length⟩ ∧
    (waitTrigger "or" (nextID "when" (New none "f" false (World.init inOrder)).world).1
        (logEmit "e") ⟨"TRIGGER_B", .event, .int 7, "e", []⟩ (World.init inOrder)).map
        (fun out => (out.world.trace, out.err))
      = .ok ((World.init inOrder).trace
          ++ [⟨.event, (nextID "when" (New none "f" false (World.init inOrder)).world).1,
          if "or" = "or" then
            .map [("trigger_type", .trig .event), ("trigger_event", .str "TRIGGER_B"),
              ("value", .int 7)]
          else .int 7, []⟩], none) :=
  ⟨(C12_or_join (New none "f" false (World.init inOrder)).flow.startProcess
      [(.event, ["TRIGGER_A", "TRIGGER_B"])] "or" (New none "f" false (World.init inOrder)) "e"
      .event "TRIGGER_B" (.int 7) [] (World.init inOrder) inOrder 0 (Or.inl rfl)
      (by decide)).1,
    (C12_or_join (New none "f" false (World.init inOrder)).flow.startProcess
      [(.event, ["TRIGGER_A", "TRIGGER_B"])] "or" (New none "f" false (World.init inOrder)) "e"
      .event "TRIGGER_B" (.int 7) [] (World.init inOrder) inOrder 0 (Or.inl rfl)
      (by decide)).2.2.1⟩

/-- C12 as stated fails for a spec with an event key that names a chunk of the directory.
With a chunk named `work` in the directory and the spec `{event: ["work", "TRIGGER_B"]}`: in
mode `or` and in mode `simple_or`, `Emit("work", 1)` emits nothing under the join key
`when-3`, while `Emit("TRIGGER_B", 1)` does; the closure listens on the chunk's trigger, and
`Emit("Chunk[work]-chunk-2", 1)` re-emits the join key, naming that trigger. -/
theorem C12_counterexample :
    workJoinRun [(.event, ["work", "TRIGGER_B"])] "or" [("work", .int 1)]
      = .ok ([], .nil, some .resultTimeout) ∧
    workJoinRun [(.event, ["work", "TRIGGER_B"])] "simple_or" [("work", .int 1)]
      = .ok ([], .nil, some .resultTimeout) ∧
    (workJoinRun [(.event, ["work", "TRIGGER_B"])] "or" [("TRIGGER_B", .int 1)]).map
        (fun r => r.2)
      = .ok (.map [("trigger_type", .trig .event), ("trigger_event", .str "TRIGGER_B"),
          ("value", .int 1)], none) ∧
    (workJoinRun [(.event, ["work", "TRIGGER_B"])] "or" [("Chunk[work]-chunk-2", .int 1)]).map
        (fun r => r.2)
      = .ok (.map [("trigger_type", .trig .event), ("trigger_event", .str "Chunk[work]-chunk-2"),
          ("value", .int 1)], none) := by
  decide!

/-! ## C18: snapshots of the handler table -/

/-- An entry of a map after an assignment is an old entry or the new one. -/
theorem mem_mapSet {β : Type} (k : String) (v : β) (x : String × β) :
    ∀ (l : List (String × β)), x ∈ mapSet l k v → x ∈ l ∨ x = (k, v)
  | [], h => by
    simp [mapSet] at h
    exact Or.inr h
  | (a, b) :: rest, h => by
    unfold mapSet at h
    split at h
    · rename_i hak
      rcases List.mem_cons.mp h with h1 | h1
      · exact Or.inr (by rw [h1, hak])
      · exact Or.inl (by simp [h1])
    · rcases List.mem_cons.mp h with h1 | h1
      · exact Or.inl (by simp [h1])
      · rcases mem_mapSet k v x rest h1 with h2 | h2
        · exact Or.inl (by simp [h2])
        · exact Or.inr h2

/-- A key that is not in the map is not found. -/
theorem mapGet_none {β : Type} (k : String) :
    ∀ (l : List (String × β)), k ∉ l.map (fun x => x.1) → mapGet l k = none
  | [], _ => rfl
  | (a, b) :: rest, h => by
    have ha : ¬ a = k := fun e => h (by simp [e])
    have hr : k ∉ rest.map (fun x => x.1) := fun e => h (by simp [e])
    simp [mapGet, ha, mapGet_none k rest hr]

/-- In a map with pairwise distinct keys every entry is found under its key. -/
theorem mapGet_of_mem {β : Type} (k : String) (v : β) :
    ∀ (l : List (String × β)), (l.map (fun x => x.1)).Nodup → (k, v) ∈ l → mapGet l k = some v
  | [], _, h => by simp at h
  | (a, b) :: rest, hnd, h => by
    have hnd2 := List.nodup_cons.mp hnd
    rcases List.mem_cons.mp h with h1 | h1
    · simp only [Prod.mk.injEq] at h1
      simp [mapGet, h1.1, h1.2]
    · have hak : ¬ a = k := by
        intro e
        apply hnd2.1
        rw [e]
        exact List.mem_map.mpr ⟨(k, v), h1, rfl⟩
      simp [mapGet, hak, mapGet_of_mem k v rest hnd2.2 h1]

/-- Objects that are the same on a range: reflexivity and transitivity. -/
theorem SameOn_refl (lo hi : Nat) (h : Tables) : Tables.SameOn lo hi h h :=
  fun _ _ _ => ⟨rfl, rfl, rfl⟩

/-- Objects that are the same on a range, in three heaps. -/
theorem SameOn_trans {lo hi : Nat} {h1 h2 h3 : Tables} (a : Tables.SameOn lo hi h1 h2)
    (b : Tables.SameOn lo hi h2 h3) : Tables.SameOn lo hi h1 h3 := by
  intro x hx1 hx2
  obtain ⟨a1, a2, a3⟩ := a x hx1 hx2
  obtain ⟨b1, b2, b3⟩ := b x hx1 hx2
  exact ⟨b1.trans a1, b2.trans a2, b3.trans a3⟩

/-- A lookup in a table all of whose objects lie in a range that two heaps agree on. -/
theorem lookup_frame {lo hi : Nat} {h h2 : Tables} (top : Nat) (hs : Tables.SameOn lo hi h h2)
    (hin : h.Inside top lo hi) (t : TriggerType) (target id : String) :
    h2.lookup top t target id = h.lookup top t target id := by
  unfold Tables.lookup
  rw [(hs top hin.1.1 hin.1.2).1]
  cases hm : mapGet (h.tops top) t.toString with
  | none => rfl
  | some m =>
    have h1 := hin.2 _ m (mapGet_mem _ _ _ hm)
    simp only [Option.bind]
    rw [(hs m h1.1.1 h1.1.2).2.1]
    cases hi2 : mapGet (h.mids m) target with
    | none => rfl
    | some i =>
      have h2 := h1.2 _ i (mapGet_mem _ _ _ hi2)
      simp only
      rw [(hs i h2.1 h2.2).2.2]

/-- Writing a `map[string]Handler` object outside the range. -/
theorem frame_inner (b lo hi i : Nat) (h : Tables) (x : List (String × Handler))
    (hout : h.Outside b lo hi) (hi2 : OutOf lo hi i) :
    Tables.Outside { h with inners := Function.update h.inners i x } b lo hi ∧
      Tables.SameOn lo hi h { h with inners := Function.update h.inners i x } := by
  refine ⟨hout, ?_⟩
  intro a ha1 ha2
  have : a ≠ i := by
    rintro rfl
    rcases hi2 with h1 | h1 <;> omega
  simp [Function.update_apply, this]

/-- Making a new `map[string]Handler` and putting it under `target` in a `Handlers` object
of the table. -/
theorem frame_link_inner (b lo hi m : Nat) (t target : String) (h : Tables)
    (hout : h.Outside b lo hi) (hn : hi ≤ h.next) (hm : (t, m) ∈ h.tops b) :
    Tables.Outside { h.newInner.2 with
        mids := Function.update h.newInner.2.mids m (mapSet (h.newInner.2.mids m) target h.next) }
      b lo hi ∧
    Tables.SameOn lo hi h { h.newInner.2 with
        mids := Function.update h.newInner.2.mids m (mapSet (h.newInner.2.mids m) target h.next) } := by
  have hmo := (hout.2 t m hm).1
  constructor
  · refine ⟨hout.1, ?_⟩
    intro t2 m2 hm2
    have h2 := hout.2 t2 m2 hm2
    refine ⟨h2.1, ?_⟩
    intro tg i hi3
    simp only [Tables.newInner, Function.update_apply] at hi3
    split at hi3
    · rename_i heq
      rcases mem_mapSet _ _ _ _ hi3 with h4 | h4
      · exact (hout.2 t m hm).2 tg i h4
      · simp only [Prod.mk.injEq] at h4
        rw [h4.2]
        exact Or.inr hn
    · exact h2.2 tg i hi3
  · intro a ha1 ha2
    have h1 : a ≠ m := by
      rintro rfl
      rcases hmo with h1 | h1 <;> omega
    have h2 : a ≠ h.next := by omega
    simp [Tables.newInner, Function.update_apply, h1, h2]

/-- Making a new `Handlers` object and putting it under `t` in the `AllHandlers` object of
the table. -/
theorem frame_link_mid (b lo hi : Nat) (t : String) (h : Tables)
    (hout : h.Outside b lo hi) (hn : hi ≤ h.next) :
    Tables.Outside { h.newMid.2 with
        tops := Function.update h.newMid.2.tops b (mapSet (h.newMid.2.tops b) t h.next) }
      b lo hi ∧
    Tables.SameOn lo hi h { h.newMid.2 with
        tops := Function.update h.newMid.2.tops b (mapSet (h.newMid.2.tops b) t h.next) } ∧
    (t, h.next) ∈ ({ h.newMid.2 with
        tops := Function.update h.newMid.2.tops b (mapSet (h.newMid.2.tops b) t h.next) }
      : Tables).tops b := by
  refine ⟨⟨hout.1, ?_⟩, ?_, ?_⟩
  · intro t2 m2 hm2
    simp only [Tables.newMid, Function.update_apply, if_true] at hm2
    have hcase : OutOf lo hi m2 ∧ (m2 = h.next ∨ (t2, m2) ∈ h.tops b) := by
      rcases mem_mapSet _ _ _ _ hm2 with h4 | h4
      · exact ⟨(hout.2 t2 m2 h4).1, Or.inr h4⟩
      · simp only [Prod.mk.injEq] at h4
        exact ⟨by rw [h4.2]; exact Or.inr hn, Or.inl h4.2⟩
    refine ⟨hcase.1, ?_⟩
    intro tg i hi3
    simp only [Tables.newMid, Function.update_apply] at hi3
    split at hi3
    · simp at hi3
    · rcases hcase.2 with h5 | h5
      · rename_i hne
        exact absurd h5 hne
      · exact (hout.2 t2 m2 h5).2 tg i hi3
  · intro a ha1 ha2
    have h1 : a ≠ b := by
      rintro rfl
      rcases hout.1 with h1 | h1 <;> omega
    have h2 : a ≠ h.next := by omega
    simp [Tables.newMid, Function.update_apply, h1, h2]
  · simp only [Tables.newMid, Function.update_apply, if_true]
    have := mapGet_mapSet_self (h.tops b) t h.next
    exact mapGet_mem _ _ _ this

/-- Finding or making the `Handlers` object of a trigger type. -/
theorem handlersOf_frame (b lo hi : Nat) (t : String) (h : Tables)
    (hout : h.Outside b lo hi) (hn : hi ≤ h.next) :
    (h.handlersOf b t).2.Outside b lo hi ∧ hi ≤ (h.handlersOf b t).2.next ∧
      Tables.SameOn lo hi h (h.handlersOf b t).2 ∧
      (t, (h.handlersOf b t).1) ∈ (h.handlersOf b t).2.tops b := by
  unfold Tables.handlersOf
  cases hm : mapGet (h.tops b) t with
  | some m => exact ⟨hout, hn, SameOn_refl _ _ _, mapGet_mem _ _ _ hm⟩
  | none =>
    obtain ⟨h1, h2, h3⟩ := frame_link_mid b lo hi t h hout hn
    exact ⟨h1, by simp [Tables.newMid]; omega, h2, h3⟩

/-- Finding or making the `map[string]Handler` of a target. -/
theorem targetOf_frame (b lo hi m : Nat) (t target : String) (h : Tables)
    (hout : h.Outside b lo hi) (hn : hi ≤ h.next) (hm : (t, m) ∈ h.tops b) :
    (h.targetOf m target).2.Outside b lo hi ∧ hi ≤ (h.targetOf m target).2.next ∧
      Tables.SameOn lo hi h (h.targetOf m target).2 ∧
      OutOf lo hi (h.targetOf m target).1 := by
  unfold Tables.targetOf
  cases hi2 : mapGet (h.mids m) target with
  | some i =>
    exact ⟨hout, hn, SameOn_refl _ _ _, (hout.2 t m hm).2 target i (mapGet_mem _ _ _ hi2)⟩
  | none =>
    obtain ⟨h1, h2⟩ := frame_link_inner b lo hi m t target h hout hn hm
    exact ⟨h1, by simp [Tables.newInner]; omega, h2, Or.inr hn⟩

/-- An edit of the table at `b` changes no object in a range that holds none of its objects
and lies below the next free address, and the table stays outside of the range. -/
theorem edit_frame (b lo hi : Nat) (e : Edit) (h : Tables) (hout : h.Outside b lo hi)
    (hn : hi ≤ h.next) :
    (h.edit b e).Outside b lo hi ∧ hi ≤ (h.edit b e).next ∧ Tables.SameOn lo hi h (h.edit b e) := by
  cases e with
  | add t target handler id =>
    simp only [Tables.edit, Tables.AddHandler]
    have h1 : ∃ h1 : Tables, (if id = "" then h.nextID "handler" else (id, h)).2 = h1 ∧
        h1.tops = h.tops ∧ h1.mids = h.mids ∧ h1.inners = h.inners ∧ h1.next = h.next := by
      by_cases hid : id = "" <;> simp [hid, Tables.nextID]
    obtain ⟨h1, he1, e1, e2, e3, e4⟩ := h1
    rw [he1]
    have hout1 : h1.Outside b lo hi := by
      simpa [Tables.Outside, e1, e2] using hout
    have hs1 : Tables.SameOn lo hi h h1 := fun a _ _ => by simp [e1, e2, e3]
    obtain ⟨o2, n2, s2, m2⟩ := handlersOf_frame b lo hi t.toString h1 hout1 (by omega)
    obtain ⟨o3, n3, s3, i3⟩ := targetOf_frame b lo hi _ t.toString target _ o2 n2 m2
    obtain ⟨o4, s4⟩ := frame_inner b lo hi _ _
      (mapSet (((h1.handlersOf b t.toString).2.targetOf (h1.handlersOf b t.toString).1
          target).2.inners
        ((h1.handlersOf b t.toString).2.targetOf (h1.handlersOf b t.toString).1 target).1)
        (if id = "" then h.nextID "handler" else (id, h)).1 handler) o3 i3
    exact ⟨o4, n3, SameOn_trans (SameOn_trans (SameOn_trans hs1 s2) s3) s4⟩
  | remove t target handler =>
    simp only [Tables.edit, Tables.RemoveHandler]
    cases hm : mapGet (h.tops b) t.toString with
    | none => exact ⟨hout, hn, SameOn_refl _ _ _⟩
    | some m =>
      dsimp only
      cases hi2 : mapGet (h.mids m) target with
      | none => exact ⟨hout, hn, SameOn_refl _ _ _⟩
      | some i =>
        dsimp only
        have hio := (hout.2 _ m (mapGet_mem _ _ _ hm)).2 target i (mapGet_mem _ _ _ hi2)
        cases handler with
        | inl typed =>
          obtain ⟨o, s⟩ := frame_inner b lo hi i h (mapDel (h.inners i) typed) hout hio
          exact ⟨o, hn, s⟩
        | inr same =>
          dsimp only
          cases findSame same (h.inners i) with
          | none => exact ⟨hout, hn, SameOn_refl _ _ _⟩
          | some id =>
            obtain ⟨o, s⟩ := frame_inner b lo hi i h (mapDel (h.inners i) id) hout hio
            exact ⟨o, hn, s⟩
  | removeAll t target =>
    simp only [Tables.edit, Tables.RemoveAll]
    cases hm : mapGet (h.tops b) t.toString with
    | none => exact ⟨hout, hn, SameOn_refl _ _ _⟩
    | some m =>
      dsimp only
      obtain ⟨o, s⟩ := frame_link_inner b lo hi m t.toString target h hout hn
        (mapGet_mem _ _ _ hm)
      exact ⟨o, by simp [Tables.newInner]; omega, s⟩

/-- Edits of the table at `b`, one after the other, change no object in a range that holds
none of its objects. -/
theorem edits_frame (b lo hi : Nat) :
    ∀ (es : List Edit) (h : Tables), h.Outside b lo hi → hi ≤ h.next →
      (h.edits b es).Outside b lo hi ∧ Tables.SameOn lo hi h (h.edits b es)
  | [], h, hout, _ => ⟨hout, SameOn_refl _ _ _⟩
  | e :: es, h, hout, hn => by
    obtain ⟨o1, n1, s1⟩ := edit_frame b lo hi e h hout hn
    obtain ⟨o2, s2⟩ := edits_frame b lo hi es (h.edit b e) o1 n1
    exact ⟨o2, SameOn_trans s1 s2⟩

/-- Assigning to a key that is not in the map appends the entry. -/
theorem mapSet_absent {β : Type} (k : String) (v : β) :
    ∀ (l : List (String × β)), k ∉ l.map (fun x => x.1) → mapSet l k v = l ++ [(k, v)]
  | [], _ => rfl
  | (a, b) :: rest, h => by
    have ha : ¬ a = k := fun e => h (by simp [e])
    have hr : k ∉ rest.map (fun x => x.1) := fun e => h (by simp [e])
    simp [mapSet, ha, mapSet_absent k v rest hr]

/-- Copying entries with pairwise distinct keys, none of them in the map yet. -/
theorem copy_fresh :
    ∀ (items acc : List (String × Handler)),
      (acc.map (fun x => x.1) ++ items.map (fun x => x.1)).Nodup →
      items.foldl (fun acc kv => mapSet acc kv.1 kv.2) acc = acc ++ items
  | [], acc, _ => by simp
  | (k, v) :: rest, acc, hnd => by
    have hk : k ∉ acc.map (fun x => x.1) := by
      intro hmem
      exact (List.nodup_append.mp hnd).2.2 hmem
        (List.mem_map.mpr ⟨(k, v), List.mem_cons_self _ _, rfl⟩)
    have hnd2 : ((acc ++ [(k, v)]).map (fun x => x.1) ++ rest.map (fun x => x.1)).Nodup := by
      simpa using hnd
    simp only [List.foldl_cons, mapSet_absent k v acc hk]
    rw [copy_fresh rest (acc ++ [(k, v)]) hnd2]
    simp

/-- The new `map[string]Handler` of a snapshot holds the entries of the old one. -/
theorem copyItems_nodup (items : List (String × Handler))
    (hnd : (items.map (fun x => x.1)).Nodup) : copyItems items = items := by
  have := copy_fresh items [] (by rw [List.map_nil, List.nil_append]; exact hnd)
  unfold copyItems
  exact this.trans (List.nil_append _)

/-- The middle loop of `SnapshotHandlers`: it writes new `map[string]Handler` objects only,
and the new `Handlers` content maps every target of the source to a new object holding the
entries of the old one. -/
theorem copyTargets_spec (lo : Nat) :
    ∀ (src acc : List (String × Nat)) (h : Tables),
      (src.map (fun x => x.1)).Nodup →
      (∀ tg items, (tg, items) ∈ src → items < lo ∧ ((h.inners items).map (fun x => x.1)).Nodup) →
      lo ≤ h.next →
      (copyTargets src acc h).2.tops = h.tops ∧ (copyTargets src acc h).2.mids = h.mids ∧
      h.next ≤ (copyTargets src acc h).2.next ∧
      (∀ a, a < h.next → (copyTargets src acc h).2.inners a = h.inners a) ∧
      (∀ tg i, (tg, i) ∈ (copyTargets src acc h).1 →
        (tg, i) ∈ acc ∨ (h.next ≤ i ∧ i < (copyTargets src acc h).2.next)) ∧
      (∀ tg items, (tg, items) ∈ src → ∃ i, mapGet (copyTargets src acc h).1 tg = some i ∧
        (copyTargets src acc h).2.inners i = h.inners items) ∧
      (∀ tg, tg ∉ src.map (fun x => x.1) → mapGet (copyTargets src acc h).1 tg = mapGet acc tg)
  | [], acc, h, _, _, _ => by
    refine ⟨rfl, rfl, le_refl _, fun _ _ => rfl, fun _ _ hm => Or.inl hm, ?_, fun _ _ => rfl⟩
    intro tg items hm
    simp at hm
  | (tg0, it0) :: rest, acc, h, hnd, hsrc, hlo => by
    have hnd2 := List.nodup_cons.mp hnd
    have h0 := hsrc tg0 it0 (by simp)
    have hne : it0 ≠ h.next := by omega
    let h1 : Tables := { h.newInner.2 with
      inners := Function.update h.newInner.2.inners h.next (copyItems (h.newInner.2.inners it0)) }
    have hin1 : ∀ a, a ≠ h.next → h1.inners a = h.inners a := by
      intro a ha
      simp [h1, Tables.newInner, Function.update_apply, ha]
    have hnew : h1.inners h.next = h.inners it0 := by
      simp [h1, Tables.newInner, Function.update_apply, hne, copyItems_nodup _ h0.2]
    have hsrc1 : ∀ tg items, (tg, items) ∈ rest →
        items < lo ∧ ((h1.inners items).map (fun x => x.1)).Nodup := by
      intro tg items hmem
      have h2 := hsrc tg items (by simp [hmem])
      rw [hin1 items (by omega)]
      exact h2
    have hnext1 : h1.next = h.next + 1 := by simp [h1, Tables.newInner]
    obtain ⟨a1, a2, a3, a4, a5, a6, a7⟩ :=
      copyTargets_spec lo rest (mapSet acc tg0 h.next) h1 hnd2.2 hsrc1 (by omega)
    have hstep : copyTargets ((tg0, it0) :: rest) acc h
        = copyTargets rest (mapSet acc tg0 h.next) h1 := rfl
    rw [hstep]
    refine ⟨a1, a2, by omega, ?_, ?_, ?_, ?_⟩
    · intro a ha
      rw [a4 a (by omega), hin1 a (by omega)]
    · intro tg i hmem
      rcases a5 tg i hmem with h2 | h2
      · rcases mem_mapSet _ _ _ _ h2 with h3 | h3
        · exact Or.inl h3
        · simp only [Prod.mk.injEq] at h3
          exact Or.inr (by omega)
      · exact Or.inr (by omega)
    · intro tg items hmem
      rcases List.mem_cons.mp hmem with h2 | h2
      · simp only [Prod.mk.injEq] at h2
        obtain ⟨e1, e2⟩ := h2
        subst e1 e2
        refine ⟨h.next, ?_, ?_⟩
        · rw [a7 tg hnd2.1]
          exact mapGet_mapSet_self _ _ _
        · rw [a4 h.next (by omega), hnew]
      · obtain ⟨i, hi1, hi2⟩ := a6 tg items h2
        exact ⟨i, hi1, by rw [hi2, hin1 items (by have := (hsrc tg items hmem).1; omega)]⟩
    · intro tg hmem
      have h2 : tg ∉ rest.map (fun x => x.1) := fun e => hmem (by simp [e])
      have h3 : ¬ tg0 = tg := fun e => hmem (by simp [e])
      rw [a7 tg h2, mapGet_mapSet]
      simp [h3]

/-- A key of the map is found. -/
theorem mapGet_of_key {β : Type} (k : String) :
    ∀ (l : List (String × β)), k ∈ l.map (fun x => x.1) → ∃ v, mapGet l k = some v
  | [], h => by simp at h
  | (a, b) :: rest, h => by
    by_cases hak : a = k
    · exact ⟨b, by simp [mapGet, hak]⟩
    · have hr : k ∈ rest.map (fun x => x.1) := by
        rcases List.mem_map.mp h with ⟨x, hx, hxk⟩
        rcases List.mem_cons.mp hx with h1 | h1
        · rw [h1] at hxk
          exact absurd hxk hak
        · exact List.mem_map.mpr ⟨x, h1, hxk⟩
      obtain ⟨v, hv⟩ := mapGet_of_key k rest hr
      exact ⟨v, by simp [mapGet, hak, hv]⟩

/-- The outer loop of `SnapshotHandlers`: it writes new objects only, and the new
`AllHandlers` content maps every trigger type of the source to a new `Handlers` object in
which every lookup gives what it gives in the old one. -/
theorem copyTypes_spec (lo : Nat) :
    ∀ (src acc : List (String × Nat)) (h : Tables),
      (src.map (fun x => x.1)).Nodup →
      (∀ t m, (t, m) ∈ src → m < lo ∧ ((h.mids m).map (fun x => x.1)).Nodup ∧
        ∀ tg i, (tg, i) ∈ h.mids m → i < lo ∧ ((h.inners i).map (fun x => x.1)).Nodup) →
      lo ≤ h.next →
      (copyTypes src acc h).2.tops = h.tops ∧
      h.next ≤ (copyTypes src acc h).2.next ∧
      (∀ a, a < h.next → (copyTypes src acc h).2.mids a = h.mids a ∧
        (copyTypes src acc h).2.inners a = h.inners a) ∧
      (∀ t m, (t, m) ∈ (copyTypes src acc h).1 → (t, m) ∈ acc ∨
        ((h.next ≤ m ∧ m < (copyTypes src acc h).2.next) ∧
          ∀ tg i, (tg, i) ∈ (copyTypes src acc h).2.mids m →
            h.next ≤ i ∧ i < (copyTypes src acc h).2.next)) ∧
      (∀ t m, (t, m) ∈ src → ∃ m2, mapGet (copyTypes src acc h).1 t = some m2 ∧
        ∀ tg id, (mapGet ((copyTypes src acc h).2.mids m2) tg).bind
            (fun i => mapGet ((copyTypes src acc h).2.inners i) id)
          = (mapGet (h.mids m) tg).bind (fun i => mapGet (h.inners i) id)) ∧
      (∀ t, t ∉ src.map (fun x => x.1) → mapGet (copyTypes src acc h).1 t = mapGet acc t)
  | [], acc, h, _, _, _ => by
    refine ⟨rfl, le_refl _, fun _ _ => ⟨rfl, rfl⟩, fun _ _ hm => Or.inl hm, ?_, fun _ _ => rfl⟩
    intro t m hm
    simp at hm
  | (t0, m0) :: rest, acc, h, hnd, hsrc, hlo => by
    have hnd2 := List.nodup_cons.mp hnd
    obtain ⟨hm0, hmnd, hinner⟩ := hsrc t0 m0 (by simp)
    have hmids0 : h.newMid.2.mids m0 = h.mids m0 := by
      have : m0 ≠ h.next := by omega
      simp [Tables.newMid, Function.update_apply, this]
    have hnext0 : h.newMid.2.next = h.next + 1 := by simp [Tables.newMid]
    obtain ⟨b1, b2, b3, b4, b5, b6, b7⟩ := copyTargets_spec lo (h.newMid.2.mids m0) []
      h.newMid.2 (by rw [hmids0]; exact hmnd)
      (by
        intro tg items hmem
        rw [hmids0] at hmem
        exact hinner tg items hmem)
      (by omega)
    generalize hct : copyTargets (h.newMid.2.mids m0) [] h.newMid.2 = ct at b1 b2 b3 b4 b5 b6 b7
    obtain ⟨content, h1⟩ := ct
    simp only at b1 b2 b3 b4 b5 b6 b7
    let h2 : Tables := { h1 with mids := Function.update h1.mids h.next content }
    have hstep : copyTypes ((t0, m0) :: rest) acc h = copyTypes rest (mapSet acc t0 h.next) h2 := by
      simp only [copyTypes, hct]
      rfl
    have hmids2 : ∀ a, a ≠ h.next → h2.mids a = h.mids a := by
      intro a ha
      simp [h2, Function.update_apply, ha, b2, Tables.newMid]
    have hmidsnew : h2.mids h.next = content := by
      simp [h2, Function.update_apply]
    have hinn2 : ∀ a, a < h.next → h2.inners a = h.inners a := by
      intro a ha
      have : h1.inners a = h.newMid.2.inners a := b4 a (by omega)
      simpa [h2, Tables.newMid] using this
    have hnext2 : h2.next = h1.next := rfl
    have hsrc2 : ∀ t m, (t, m) ∈ rest → m < lo ∧ ((h2.mids m).map (fun x => x.1)).Nodup ∧
        ∀ tg i, (tg, i) ∈ h2.mids m → i < lo ∧ ((h2.inners i).map (fun x => x.1)).Nodup := by
      intro t m hmem
      obtain ⟨c1, c2, c3⟩ := hsrc t m (by simp [hmem])
      rw [hmids2 m (by omega)]
      refine ⟨c1, c2, ?_⟩
      intro tg i hi
      have := c3 tg i hi
      rw [hinn2 i (by omega)]
      exact this
    obtain ⟨a1, a2, a3, a4, a5, a6⟩ :=
      copyTypes_spec lo rest (mapSet acc t0 h.next) h2 hnd2.2 hsrc2 (by omega)
    rw [hstep]
    have hfinal_new : (copyTypes rest (mapSet acc t0 h.next) h2).2.mids h.next = content := by
      rw [(a3 h.next (by omega)).1, hmidsnew]
    refine ⟨?_, by omega, ?_, ?_, ?_, ?_⟩
    · rw [a1]
      simp [h2, b1, Tables.newMid]
    · intro a ha
      rw [(a3 a (by omega)).1, (a3 a (by omega)).2, hmids2 a (by omega), hinn2 a ha]
      exact ⟨rfl, rfl⟩
    · intro t m hmem
      rcases a4 t m hmem with h3 | h3
      · rcases mem_mapSet _ _ _ _ h3 with h4 | h4
        · exact Or.inl h4
        · simp only [Prod.mk.injEq] at h4
          refine Or.inr ⟨by omega, ?_⟩
          intro tg i hi
          rw [h4.2, hfinal_new] at hi
          rcases b5 tg i hi with h5 | h5
          · simp at h5
          · omega
      · refine Or.inr ⟨by omega, ?_⟩
        intro tg i hi
        have := h3.2 tg i hi
        omega
    · intro t m hmem
      rcases List.mem_cons.mp hmem with h3 | h3
      · simp only [Prod.mk.injEq] at h3
        obtain ⟨e1, e2⟩ := h3
        subst e1 e2
        refine ⟨h.next, ?_, ?_⟩
        · rw [a6 t hnd2.1]
          exact mapGet_mapSet_self _ _ _
        · intro tg id
          rw [hfinal_new]
          cases hg : mapGet (h.mids m) tg with
          | none =>
            have hk : tg ∉ (h.newMid.2.mids m).map (fun x => x.1) := by
              intro hk
              rw [hmids0] at hk
              obtain ⟨v, hv⟩ := mapGet_of_key tg _ hk
              rw [hg] at hv
              exact Option.noConfusion hv
            rw [b7 tg hk]
            rfl
          | some i =>
            have hmem2 : (tg, i) ∈ h.newMid.2.mids m := by
              rw [hmids0]
              exact mapGet_mem _ _ _ hg
            obtain ⟨i2, hi1, hi2⟩ := b6 tg i hmem2
            have hi3 : i2 < h1.next := by
              rcases b5 tg i2 (mapGet_mem _ _ _ hi1) with h5 | h5
              · simp at h5
              · exact h5.2
            rw [hi1]
            simp only [Option.bind]
            rw [(a3 i2 (by omega)).2]
            have : h2.inners i2 = h1.inners i2 := rfl
            rw [this, hi2]
            simp [Tables.newMid]
      · obtain ⟨m2, hm1, hm2⟩ := a5 t m h3
        refine ⟨m2, hm1, ?_⟩
        intro tg id
        rw [hm2 tg id]
        obtain ⟨c1, c2, c3⟩ := hsrc t m (by simp [h3])
        rw [hmids2 m (by omega)]
        cases hg : mapGet (h.mids m) tg with
        | none => rfl
        | some i =>
          have := (c3 tg i (mapGet_mem _ _ _ hg)).1
          simp only [Option.bind]
          rw [hinn2 i (by omega)]
    · intro t hmem
      have h3 : t ∉ rest.map (fun x => x.1) := fun e => hmem (by simp [e])
      have h4 : ¬ t0 = t := fun e => hmem (by simp [e])
      rw [a6 t h3, mapGet_mapSet]
      simp [h4]

/-- What `SnapshotHandlers` returns: a table in which every lookup gives what it gives in
the table of the blueprint, made of new objects only, with every old object left as it was. -/
theorem SnapshotHandlers_spec (b : Nat) (h : Tables) (hwf : h.WellFormed b) :
    (∀ t target id, (h.SnapshotHandlers b).2.lookup (h.SnapshotHandlers b).1 t target id
      = h.lookup b t target id) ∧
    (h.SnapshotHandlers b).2.Inside (h.SnapshotHandlers b).1 h.next (h.SnapshotHandlers b).2.next ∧
    Tables.SameOn 0 h.next h (h.SnapshotHandlers b).2 ∧
    h.next ≤ (h.SnapshotHandlers b).2.next := by
  obtain ⟨⟨hb, hin⟩, hnd, hnd2⟩ := hwf
  let h3 : Tables := h.newMid.2.newMid.2.newMid.2
  have h3tops : h3.tops = h.tops := rfl
  have h3inn : h3.inners = h.inners := rfl
  have h3next : h3.next = h.next + 3 := rfl
  have h3mids : ∀ a, a < h.next → h3.mids a = h.mids a := by
    intro a ha
    have e1 : a ≠ h.next := by omega
    have e2 : a ≠ h.next + 1 := by omega
    have e3 : a ≠ h.next + 2 := by omega
    simp [h3, Tables.newMid, Function.update_apply, e1, e2, e3]
  have h3new : h3.mids h.next = [] ∧ h3.mids (h.next + 1) = [] ∧ h3.mids (h.next + 2) = [] := by
    simp [h3, Tables.newMid, Function.update_apply]
  obtain ⟨a1, a2, a3, a4, a5, a6⟩ := copyTypes_spec h.next (h3.tops b)
    [(TriggerType.event.toString, h.next), (TriggerType.flow_data.toString, h.next + 1),
      (TriggerType.runtime_data.toString, h.next + 2)] h3 hnd
    (by
      intro t m hmem
      have c1 := hin t m hmem
      have c2 := hnd2 t m hmem
      rw [h3mids m c1.1.2]
      refine ⟨c1.1.2, c2.1, ?_⟩
      intro tg i hi
      exact ⟨(c1.2 tg i hi).2, c2.2 tg i hi⟩)
    (by omega)
  generalize hct : copyTypes (h3.tops b)
    [(TriggerType.event.toString, h.next), (TriggerType.flow_data.toString, h.next + 1),
      (TriggerType.runtime_data.toString, h.next + 2)] h3 = ct at a1 a2 a3 a4 a5 a6
  obtain ⟨content, h4⟩ := ct
  simp only at a1 a2 a3 a4 a5 a6
  have hsnap : h.SnapshotHandlers b = h4.newTop content := by
    show (copyTypes (h3.tops b) _ h3).2.newTop (copyTypes (h3.tops b) _ h3).1 = _
    rw [hct]
  rw [hsnap]
  have hacc : ∀ s m, (s, m) ∈ [(TriggerType.event.toString, h.next),
      (TriggerType.flow_data.toString, h.next + 1),
      (TriggerType.runtime_data.toString, h.next + 2)] →
      (h.next ≤ m ∧ m < h3.next) ∧ h4.mids m = [] := by
    intro s m hm
    simp only [List.mem_cons, Prod.mk.injEq, List.mem_singleton, List.not_mem_nil, or_false] at hm
    rcases hm with ⟨_, rfl⟩ | ⟨_, rfl⟩ | ⟨_, rfl⟩
    · exact ⟨by omega, by rw [(a3 _ (by omega)).1]; exact h3new.1⟩
    · exact ⟨by omega, by rw [(a3 _ (by omega)).1]; exact h3new.2.1⟩
    · exact ⟨by omega, by rw [(a3 _ (by omega)).1]; exact h3new.2.2⟩
  refine ⟨?_, ?_, ?_, ?_⟩
  · intro t target id
    simp only [Tables.lookup, Tables.newTop, Function.update_apply, if_true]
    cases hg : mapGet (h.tops b) t.toString with
    | some m =>
      obtain ⟨m2, hm1, hm2⟩ := a5 t.toString m (mapGet_mem _ _ _ hg)
      rw [hm1]
      simp only [Option.some_bind]
      rw [hm2 target id, h3mids m (hin _ m (mapGet_mem _ _ _ hg)).1.2, h3inn]
    | none =>
      have hk : t.toString ∉ (h3.tops b).map (fun x => x.1) := by
        intro hk
        obtain ⟨v, hv⟩ := mapGet_of_key _ _ hk
        rw [h3tops, hg] at hv
        exact Option.noConfusion hv
      rw [a6 _ hk]
      cases hacc2 : mapGet [(TriggerType.event.toString, h.next),
          (TriggerType.flow_data.toString, h.next + 1),
          (TriggerType.runtime_data.toString, h.next + 2)] t.toString with
      | none => rfl
      | some m =>
        have := (hacc _ m (mapGet_mem _ _ _ hacc2)).2
        simp only [Option.some_bind, Tables.newTop, this]
        rfl
  · refine ⟨⟨by simp [Tables.newTop]; omega, by simp [Tables.newTop]⟩, ?_⟩
    intro t m hmem
    simp only [Tables.newTop, Function.update_apply, if_true] at hmem
    rcases a4 t m hmem with h5 | h5
    · have := hacc t m h5
      refine ⟨⟨this.1.1, by simp [Tables.newTop]; omega⟩, ?_⟩
      intro tg i hi
      simp only [Tables.newTop] at hi
      rw [this.2] at hi
      simp at hi
    · refine ⟨⟨by omega, by simp [Tables.newTop]; omega⟩, ?_⟩
      intro tg i hi
      have := h5.2 tg i hi
      exact ⟨by omega, by simp [Tables.newTop]; omega⟩
  · intro a _ ha
    have e1 : a ≠ h4.next := by omega
    refine ⟨?_, ?_, ?_⟩
    · simp [Tables.newTop, Function.update_apply, e1, a1, h3tops]
    · simp only [Tables.newTop]
      rw [(a3 a (by omega)).1, h3mids a ha]
    · simp only [Tables.newTop]
      rw [(a3 a (by omega)).2, h3inn]
  · simp [Tables.newTop]
    omega

/-- A table all of whose objects lie in a range stays so in a heap that agrees on the range. -/
theorem Inside_of_SameOn {lo hi : Nat} {h h2 : Tables} (top : Nat)
    (hs : Tables.SameOn lo hi h h2) (hin : h.Inside top lo hi) : h2.Inside top lo hi := by
  refine ⟨hin.1, ?_⟩
  intro t m hm
  rw [(hs top hin.1.1 hin.1.2).1] at hm
  have h1 := hin.2 t m hm
  refine ⟨h1.1, ?_⟩
  intro tg i hi2
  rw [(hs m h1.1.1 h1.1.2).2.1] at hi2
  exact h1.2 tg i hi2

/-- A well-formed table stays well-formed in a heap that has grown and agrees on the old
objects. -/
theorem WellFormed_of_SameOn {h h2 : Tables} (b : Nat) (hs : Tables.SameOn 0 h.next h h2)
    (hn : h.next ≤ h2.next) (hwf : h.WellFormed b) : h2.WellFormed b := by
  obtain ⟨hin, hnd, hnd2⟩ := hwf
  have hin2 := Inside_of_SameOn b hs hin
  refine ⟨⟨⟨hin2.1.1, lt_of_lt_of_le hin2.1.2 hn⟩, ?_⟩, ?_, ?_⟩
  · intro t m hm
    have h1 := hin2.2 t m hm
    refine ⟨⟨h1.1.1, lt_of_lt_of_le h1.1.2 hn⟩, ?_⟩
    intro tg i hi
    have h2 := h1.2 tg i hi
    exact ⟨h2.1, lt_of_lt_of_le h2.2 hn⟩
  · rw [(hs b hin.1.1 hin.1.2).1]
    exact hnd
  · intro t m hm
    rw [(hs b hin.1.1 hin.1.2).1] at hm
    have h1 := hin.2 t m hm
    have h3 := hnd2 t m hm
    rw [(hs m h1.1.1 h1.1.2).2.1]
    refine ⟨h3.1, ?_⟩
    intro tg i hi
    have h4 := h1.2 tg i hi
    rw [(hs i h4.1 h4.2).2.2]
    exact h3.2 tg i hi

/-- A snapshot and its source do not share storage: after `SnapshotHandlers` the snapshot
holds the entries of the blueprint, edits of the blueprint do not change the snapshot, and
edits of the snapshot do not change the blueprint. -/
theorem snapshot_independent (h : Tables) (b : Nat) (hwf : h.WellFormed b) (es : List Edit)
    (t : TriggerType) (target id : String) :
    (h.SnapshotHandlers b).2.lookup (h.SnapshotHandlers b).1 t target id
        = h.lookup b t target id ∧
    (h.SnapshotHandlers b).2.lookup b t target id = h.lookup b t target id ∧
    ((h.SnapshotHandlers b).2.edits b es).lookup (h.SnapshotHandlers b).1 t target id
        = h.lookup b t target id ∧
    ((h.SnapshotHandlers b).2.edits (h.SnapshotHandlers b).1 es).lookup b t target id
        = h.lookup b t target id := by
  obtain ⟨s1, s2, s3, s4⟩ := SnapshotHandlers_spec b h hwf
  have hinb : h.Inside b 0 h.next := hwf.1
  have hinb1 := Inside_of_SameOn b s3 hinb
  have hb1 : (h.SnapshotHandlers b).2.lookup b t target id = h.lookup b t target id :=
    lookup_frame b s3 hinb t target id
  refine ⟨s1 t target id, hb1, ?_, ?_⟩
  · have hout : (h.SnapshotHandlers b).2.Outside b h.next (h.SnapshotHandlers b).2.next := by
      refine ⟨Or.inl hinb1.1.2, ?_⟩
      intro t2 m hm
      have h1 := hinb1.2 t2 m hm
      exact ⟨Or.inl h1.1.2, fun tg i hi => Or.inl (h1.2 tg i hi).2⟩
    obtain ⟨_, f2⟩ := edits_frame b h.next (h.SnapshotHandlers b).2.next es _ hout (le_refl _)
    rw [lookup_frame _ f2 s2 t target id]
    exact s1 t target id
  · have hout : (h.SnapshotHandlers b).2.Outside (h.SnapshotHandlers b).1 0 h.next := by
      refine ⟨Or.inr s2.1.1, ?_⟩
      intro t2 m hm
      have h1 := s2.2 t2 m hm
      exact ⟨Or.inr h1.1.1, fun tg i hi => Or.inr (h1.2 tg i hi).1⟩
    obtain ⟨_, f2⟩ := edits_frame (h.SnapshotHandlers b).1 0 h.next es _ hout s4
    rw [lookup_frame _ f2 hinb1 t target id]
    exact hb1

/-- The function `NewBluePrint` makes new objects and leaves the old ones as they were. -/
theorem NewBluePrint_frame (h : Tables) :
    Tables.SameOn 0 h.next h h.NewBluePrint.2 ∧ h.next ≤ h.NewBluePrint.2.next := by
  constructor
  · intro a _ ha
    have e1 : a ≠ h.next := by omega
    have e2 : a ≠ h.next + 1 := by omega
    have e3 : a ≠ h.next + 2 := by omega
    have e4 : a ≠ h.next + 3 := by omega
    simp [Tables.NewBluePrint, Tables.newMid, Tables.newTop, Function.update_apply, e1, e2, e3, e4]
  · simp only [Tables.NewBluePrint, Tables.newMid, Tables.newTop]
    omega

/-- C18: on a heap of map objects, for a blueprint whose table is made of allocated objects
whose maps have pairwise distinct keys: the table `SnapshotHandlers` returns holds, under
every (trigger type, target, handler ID), the handler the blueprint holds there at that
moment and nothing else; the blueprint itself is unchanged; after any later calls of
`AddHandler`, `RemoveHandler` and `RemoveAll` on the blueprint the returned table still holds
the same; and such calls on the returned table leave the blueprint as it was. The same holds
for the table of the blueprint that `Copy` (and so `SaveBluePrint`) returns, and
`CreateExecution` gives the execution the table of `SnapshotHandlers`. -/
theorem C18_snapshot_is_independent (h : Tables) (b : Nat) (es : List Edit) (t : TriggerType)
    (target id : String) (hwf : h.WellFormed b) :
    ((h.SnapshotHandlers b).2.lookup (h.SnapshotHandlers b).1 t target id
        = h.lookup b t target id ∧
      (h.SnapshotHandlers b).2.lookup b t target id = h.lookup b t target id ∧
      ((h.SnapshotHandlers b).2.edits b es).lookup (h.SnapshotHandlers b).1 t target id
        = h.lookup b t target id ∧
      ((h.SnapshotHandlers b).2.edits (h.SnapshotHandlers b).1 es).lookup b t target id
        = h.lookup b t target id) ∧
    ((h.Copy b).2.lookup (h.Copy b).1 t target id = h.lookup b t target id ∧
      (h.Copy b).2.lookup b t target id = h.lookup b t target id ∧
      ((h.Copy b).2.edits b es).lookup (h.Copy b).1 t target id = h.lookup b t target id ∧
      ((h.Copy b).2.edits (h.Copy b).1 es).lookup b t target id = h.lookup b t target id) := by
  refine ⟨snapshot_independent h b hwf es t target id, ?_⟩
  obtain ⟨f1, f2⟩ := NewBluePrint_frame h
  have hwf2 := WellFormed_of_SameOn b f1 f2 hwf
  have hl : h.NewBluePrint.2.lookup b t target id = h.lookup b t target id :=
    lookup_frame b f1 hwf.1 t target id
  have := snapshot_independent h.NewBluePrint.2 b hwf2 es t target id
  simp only [hl] at this
  exact this

/-- An assignment keeps the keys of a map pairwise distinct. -/
theorem mapSet_nodup {β : Type} (k : String) (v : β) :
    ∀ (l : List (String × β)), (l.map (fun x => x.1)).Nodup →
      ((mapSet l k v).map (fun x => x.1)).Nodup
  | [], _ => by simp [mapSet]
  | (a, b) :: rest, h => by
    have h2 := List.nodup_cons.mp h
    unfold mapSet
    split
    · exact h
    · rename_i hak
      have ih := mapSet_nodup k v rest h2.2
      refine List.nodup_cons.mpr ⟨?_, ih⟩
      intro hmem
      obtain ⟨x, hx, hxa⟩ := List.mem_map.mp hmem
      rcases mem_mapSet k v x rest hx with h3 | h3
      · exact h2.1 (List.mem_map.mpr ⟨x, h3, hxa⟩)
      · rw [h3] at hxa
        exact hak hxa.symm

/-- An entry of a map after a `delete` is an old entry. -/
theorem mem_mapDel {β : Type} (k : String) (x : String × β) :
    ∀ (l : List (String × β)), x ∈ mapDel l k → x ∈ l
  | [], h => by simp [mapDel] at h
  | (a, b) :: rest, h => by
    unfold mapDel at h
    split at h
    · exact List.mem_cons_of_mem _ h
    · rcases List.mem_cons.mp h with h1 | h1
      · simp [h1]
      · exact List.mem_cons_of_mem _ (mem_mapDel k x rest h1)

/-- A `delete` keeps the keys of a map pairwise distinct. -/
theorem mapDel_nodup {β : Type} (k : String) :
    ∀ (l : List (String × β)), (l.map (fun x => x.1)).Nodup →
      ((mapDel l k).map (fun x => x.1)).Nodup
  | [], _ => by simp [mapDel]
  | (a, b) :: rest, h => by
    have h2 := List.nodup_cons.mp h
    unfold mapDel
    split
    · exact h2.2
    · refine List.nodup_cons.mpr ⟨?_, mapDel_nodup k rest h2.2⟩
      intro hmem
      obtain ⟨x, hx, hxa⟩ := List.mem_map.mp hmem
      exact h2.1 (List.mem_map.mpr ⟨x, mem_mapDel k x rest hx, hxa⟩)

/-- Writing a `map[string]Handler` object with pairwise distinct keys keeps a table
well-formed. -/
theorem wf_inner (b i : Nat) (h : Tables) (x : List (String × Handler))
    (hwf : h.WellFormed b) (hx : (x.map (fun y => y.1)).Nodup) :
    Tables.WellFormed { h with inners := Function.update h.inners i x } b := by
  obtain ⟨hin, hnd, hnd2⟩ := hwf
  refine ⟨hin, hnd, ?_⟩
  intro t m hm
  have h1 := hnd2 t m hm
  refine ⟨h1.1, ?_⟩
  intro tg j hj
  simp only [Function.update_apply]
  split
  · exact hx
  · exact h1.2 tg j hj

/-- Making a new `map[string]Handler` and putting it under `target` in a `Handlers` object
of the table keeps the table well-formed. -/
theorem wf_link_inner (b m : Nat) (t target : String) (h : Tables) (hwf : h.WellFormed b)
    (hm : (t, m) ∈ h.tops b) :
    Tables.WellFormed { h.newInner.2 with
        mids := Function.update h.newInner.2.mids m (mapSet (h.newInner.2.mids m) target h.next) }
      b := by
  obtain ⟨hin, hnd, hnd2⟩ := hwf
  have hmids : ∀ m2, (Function.update h.mids m (mapSet (h.mids m) target h.next) m2)
      = if m2 = m then mapSet (h.mids m) target h.next else h.mids m2 := by
    intro m2
    simp [Function.update_apply]
  have hent : ∀ t2 m2 tg i, (t2, m2) ∈ h.tops b →
      (tg, i) ∈ Function.update h.mids m (mapSet (h.mids m) target h.next) m2 →
      (tg, i) ∈ h.mids m2 ∨ i = h.next := by
    intro t2 m2 tg i _ hi
    rw [hmids] at hi
    split at hi
    · rename_i he
      rcases mem_mapSet _ _ _ _ hi with h3 | h3
      · exact Or.inl (he ▸ h3)
      · simp only [Prod.mk.injEq] at h3
        exact Or.inr h3.2
    · exact Or.inl hi
  refine ⟨⟨⟨hin.1.1, ?_⟩, ?_⟩, hnd, ?_⟩
  · simp only [Tables.newInner]
    exact Nat.lt_succ_of_lt hin.1.2
  · intro t2 m2 hm2
    have h1 := hin.2 t2 m2 hm2
    refine ⟨⟨h1.1.1, Nat.lt_succ_of_lt h1.1.2⟩, ?_⟩
    intro tg i hi
    rcases hent t2 m2 tg i hm2 hi with h3 | h3
    · have := h1.2 tg i h3
      exact ⟨this.1, Nat.lt_succ_of_lt this.2⟩
    · rw [h3]
      exact ⟨Nat.zero_le _, Nat.lt_succ_self _⟩
  · intro t2 m2 hm2
    have h1 := hnd2 t2 m2 hm2
    constructor
    · show ((Function.update h.mids m (mapSet (h.mids m) target h.next) m2).map _).Nodup
      rw [hmids]
      split
      · exact mapSet_nodup _ _ _ (hnd2 t m hm).1
      · exact h1.1
    · intro tg i hi
      show ((Function.update h.inners h.next [] i).map _).Nodup
      simp only [Function.update_apply]
      split
      · simp
      · rcases hent t2 m2 tg i hm2 hi with h3 | h3
        · exact h1.2 tg i h3
        · rename_i hne
          exact absurd h3 hne

/-- Making a new `Handlers` object and putting it under a trigger type that has none keeps
the table well-formed. -/
theorem wf_link_mid (b : Nat) (t : String) (h : Tables) (hwf : h.WellFormed b) :
    Tables.WellFormed { h.newMid.2 with
        tops := Function.update h.newMid.2.tops b (mapSet (h.newMid.2.tops b) t h.next) }
      b := by
  obtain ⟨hin, hnd, hnd2⟩ := hwf
  have hent : ∀ t2 m2, (t2, m2) ∈ Function.update h.tops b (mapSet (h.tops b) t h.next) b →
      (t2, m2) ∈ h.tops b ∨ m2 = h.next := by
    intro t2 m2 hi
    simp only [Function.update_apply, if_true] at hi
    rcases mem_mapSet _ _ _ _ hi with h3 | h3
    · exact Or.inl h3
    · simp only [Prod.mk.injEq] at h3
      exact Or.inr h3.2
  refine ⟨⟨⟨hin.1.1, Nat.lt_succ_of_lt hin.1.2⟩, ?_⟩, ?_, ?_⟩
  · intro t2 m2 hm2
    rcases hent t2 m2 hm2 with h3 | h3
    · have h1 := hin.2 t2 m2 h3
      refine ⟨⟨h1.1.1, Nat.lt_succ_of_lt h1.1.2⟩, ?_⟩
      intro tg i hi
      have hne : m2 ≠ h.next := Nat.ne_of_lt h1.1.2
      have hi2 : (tg, i) ∈ h.mids m2 := by
        simpa [Tables.newMid, Function.update_apply, hne] using hi
      have := h1.2 tg i hi2
      exact ⟨this.1, Nat.lt_succ_of_lt this.2⟩
    · subst h3
      refine ⟨⟨Nat.zero_le _, Nat.lt_succ_self _⟩, ?_⟩
      intro tg i hi
      simp [Tables.newMid, Function.update_apply] at hi
  · show ((Function.update h.tops b (mapSet (h.tops b) t h.next) b).map _).Nodup
    simp only [Function.update_apply, if_true]
    exact mapSet_nodup _ _ _ hnd
  · intro t2 m2 hm2
    rcases hent t2 m2 hm2 with h3 | h3
    · have h1 := hin.2 t2 m2 h3
      have hne : m2 ≠ h.next := Nat.ne_of_lt h1.1.2
      have h4 := hnd2 t2 m2 h3
      constructor
      · simpa [Tables.newMid, Function.update_apply, hne] using h4.1
      · intro tg i hi
        have hi2 : (tg, i) ∈ h.mids m2 := by
          simpa [Tables.newMid, Function.update_apply, hne] using hi
        exact h4.2 tg i hi2
    · subst h3
      constructor
      · simp [Tables.newMid, Function.update_apply]
      · intro tg i hi
        simp [Tables.newMid, Function.update_apply] at hi

/-- An edit keeps the table of the blueprint well-formed. -/
theorem edit_wf (b : Nat) (e : Edit) (h : Tables) (hwf : h.WellFormed b) :
    (h.edit b e).WellFormed b := by
  cases e with
  | add t target handler id =>
    simp only [Tables.edit, Tables.AddHandler]
    have h1 : ∃ h1 : Tables, (if id = "" then h.nextID "handler" else (id, h)).2 = h1 ∧
        h1.tops = h.tops ∧ h1.mids = h.mids ∧ h1.inners = h.inners ∧ h1.next = h.next := by
      by_cases hid : id = "" <;> simp [hid, Tables.nextID]
    obtain ⟨h1, he1, e1, e2, e3, e4⟩ := h1
    rw [he1]
    have hwf1 : h1.WellFormed b := by
      simpa [Tables.WellFormed, Tables.Inside, e1, e2, e3, e4] using hwf
    have hA : (h1.handlersOf b t.toString).2.WellFormed b ∧
        (t.toString, (h1.handlersOf b t.toString).1) ∈ (h1.handlersOf b t.toString).2.tops b := by
      unfold Tables.handlersOf
      cases hm : mapGet (h1.tops b) t.toString with
      | some m => exact ⟨hwf1, mapGet_mem _ _ _ hm⟩
      | none =>
        refine ⟨wf_link_mid b t.toString h1 hwf1, ?_⟩
        simp only [Tables.newMid, Function.update_apply, if_true]
        exact mapGet_mem _ _ _ (mapGet_mapSet_self _ _ _)
    generalize h1.handlersOf b t.toString = r at hA
    obtain ⟨m, h2⟩ := r
    obtain ⟨hwf2, hm2⟩ := hA
    simp only at hwf2 hm2 ⊢
    have hB : (h2.targetOf m target).2.WellFormed b ∧
        ∃ t2 m3, (t2, m3) ∈ (h2.targetOf m target).2.tops b ∧
          (target, (h2.targetOf m target).1) ∈ (h2.targetOf m target).2.mids m3 := by
      unfold Tables.targetOf
      cases hi : mapGet (h2.mids m) target with
      | some i => exact ⟨hwf2, _, m, hm2, mapGet_mem _ _ _ hi⟩
      | none =>
        refine ⟨wf_link_inner b m t.toString target h2 hwf2 hm2, _, m, hm2, ?_⟩
        simp only [Tables.newInner, Function.update_apply, if_true]
        exact mapGet_mem _ _ _ (mapGet_mapSet_self _ _ _)
    generalize h2.targetOf m target = r at hB
    obtain ⟨i, h3⟩ := r
    obtain ⟨hwf3, t2, m3, hm3, hi3⟩ := hB
    simp only at hwf3 hm3 hi3 ⊢
    exact wf_inner b i h3 _ hwf3 (mapSet_nodup _ _ _ ((hwf3.2.2 t2 m3 hm3).2 target i hi3))
  | remove t target handler =>
    simp only [Tables.edit, Tables.RemoveHandler]
    cases hm : mapGet (h.tops b) t.toString with
    | none => exact hwf
    | some m =>
      dsimp only
      cases hi2 : mapGet (h.mids m) target with
      | none => exact hwf
      | some i =>
        dsimp only
        have hnd := (hwf.2.2 _ m (mapGet_mem _ _ _ hm)).2 target i (mapGet_mem _ _ _ hi2)
        cases handler with
        | inl typed => exact wf_inner b i h _ hwf (mapDel_nodup _ _ hnd)
        | inr same =>
          dsimp only
          cases findSame same (h.inners i) with
          | none => exact hwf
          | some id => exact wf_inner b i h _ hwf (mapDel_nodup _ _ hnd)
  | removeAll t target =>
    simp only [Tables.edit, Tables.RemoveAll]
    cases hm : mapGet (h.tops b) t.toString with
    | none => exact hwf
    | some m =>
      dsimp only
      exact wf_link_inner b m t.toString target h hwf (mapGet_mem _ _ _ hm)

/-- Edits keep the table of the blueprint well-formed. -/
theorem edits_wf (b : Nat) : ∀ (es : List Edit) (h : Tables), h.WellFormed b →
    (h.edits b es).WellFormed b
  | [], _, hwf => hwf
  | e :: es, h, hwf => edits_wf b es (h.edit b e) (edit_wf b e h hwf)

/-- The table of a new blueprint is well-formed. -/
theorem NewBluePrint_wf (h : Tables) : h.NewBluePrint.2.WellFormed h.NewBluePrint.1 := by
  have hm : ∀ a, a = h.next ∨ a = h.next + 1 ∨ a = h.next + 2 → h.NewBluePrint.2.mids a = [] := by
    intro a ha
    rcases ha with rfl | rfl | rfl <;>
      simp [Tables.NewBluePrint, Tables.newMid, Tables.newTop, Function.update_apply]
  have ht : h.NewBluePrint.2.tops h.NewBluePrint.1
      = [(TriggerType.event.toString, h.next), (TriggerType.flow_data.toString, h.next + 1),
          (TriggerType.runtime_data.toString, h.next + 2)] := by
    simp [Tables.NewBluePrint, Tables.newMid, Tables.newTop, Function.update_apply]
  have hn : h.NewBluePrint.2.next = h.next + 4 := rfl
  have hb : h.NewBluePrint.1 = h.next + 3 := rfl
  have hmem : ∀ t m, (t, m) ∈ h.NewBluePrint.2.tops h.NewBluePrint.1 →
      m = h.next ∨ m = h.next + 1 ∨ m = h.next + 2 := by
    intro t m hmm
    rw [ht] at hmm
    simp only [List.mem_cons, Prod.mk.injEq, List.mem_singleton, List.not_mem_nil,
      or_false] at hmm
    rcases hmm with ⟨_, h1⟩ | ⟨_, h1⟩ | ⟨_, h1⟩
    · exact Or.inl h1
    · exact Or.inr (Or.inl h1)
    · exact Or.inr (Or.inr h1)
  refine ⟨⟨⟨Nat.zero_le _, by rw [hn, hb]; omega⟩, ?_⟩, ?_, ?_⟩
  · intro t m hmm
    have h1 := hmem t m hmm
    refine ⟨⟨Nat.zero_le _, by rw [hn]; omega⟩, ?_⟩
    intro tg i hi
    rw [hm m h1] at hi
    simp at hi
  · rw [ht]
    simp only [List.map_cons, List.map_nil]
    decide
  · intro t m hmm
    have h1 := hmem t m hmm
    rw [hm m h1]
    refine ⟨by simp, ?_⟩
    intro tg i hi
    simp at hi

/-- C18 at a concrete input: the table of a new blueprint with a handler `boot` on START,
then `AddHandler` and `RemoveAll` on the blueprint after the snapshot. -/
theorem C18_snapshot_is_independent_witness :
    (((Tables.empty.NewBluePrint.2.edits Tables.empty.NewBluePrint.1
          [.add .event "START" captureHandler "boot"]).SnapshotHandlers
        Tables.empty.NewBluePrint.1).2.edits Tables.empty.NewBluePrint.1
        [.add .event "START" setDefaultResult "late", .removeAll .event "START"]).lookup
      ((Tables.empty.NewBluePrint.2.edits Tables.empty.NewBluePrint.1
          [.add .event "START" captureHandler "boot"]).SnapshotHandlers
        Tables.empty.NewBluePrint.1).1 .event "START" "boot"
      = (Tables.empty.NewBluePrint.2.edits Tables.empty.NewBluePrint.1
          [.add .event "START" captureHandler "boot"]).lookup Tables.empty.NewBluePrint.1
          .event "START" "boot" :=
  (C18_snapshot_is_independent
    (Tables.empty.NewBluePrint.2.edits Tables.empty.NewBluePrint.1
      [.add .event "START" captureHandler "boot"])
    Tables.empty.NewBluePrint.1
    [.add .event "START" setDefaultResult "late", .removeAll .event "START"] .event "START"
    "boot"
    (edits_wf _ _ _ (NewBluePrint_wf Tables.empty))).1.2.2.1

/-! ## C7: `Match` in mode `hit_first` -/

/-- The value of a decimal digit character. -/
theorem digitChar_value (k : Nat) (h : k < 10) : (Nat.digitChar k).toNat - 48 = k := by
  interval_cases k <;> rfl

/-- A decimal digit character is no character that is not a digit. -/
theorem digitChar_ne (k : Nat) (h : k < 10) (c : Char) (hc : c.isDigit = false) :
    Nat.digitChar k ≠ c := by
  intro e
  subst e
  interval_cases k <;> exact absurd hc (by decide)

/-- The digits are put in front of the accumulator. -/
theorem toDigitsCore_acc : ∀ (fuel n : Nat) (ds : List Char), n < fuel →
    Nat.toDigitsCore 10 fuel n ds = Nat.toDigitsCore 10 fuel n [] ++ ds := by
  intro fuel
  induction fuel with
  | zero => intro n ds h; omega
  | succ f ih =>
    intro n ds h
    simp only [Nat.toDigitsCore]
    by_cases h0 : n / 10 = 0
    · simp [h0]
    · simp only [h0, if_false]
      rw [ih (n / 10) (Nat.digitChar (n % 10) :: ds) (by omega),
        ih (n / 10) [Nat.digitChar (n % 10)] (by omega)]
      simp

/-- The number written with one more digit. -/
theorem digitsValue_append (xs : List Char) (c : Char) :
    digitsValue (xs ++ [c]) = 10 * digitsValue xs + (c.toNat - 48) := by
  simp [digitsValue, List.foldl_append]

/-- Reading the decimal digits of a number gives the number. -/
theorem digitsValue_toDigitsCore : ∀ (fuel n : Nat), n < fuel →
    digitsValue (Nat.toDigitsCore 10 fuel n []) = n := by
  intro fuel
  induction fuel with
  | zero => intro n h; omega
  | succ f ih =>
    intro n h
    simp only [Nat.toDigitsCore]
    by_cases h0 : n / 10 = 0
    · simp only [h0, if_true]
      have : n < 10 := by omega
      simp [digitsValue, digitChar_value (n % 10) (Nat.mod_lt _ (by decide))]
      omega
    · simp only [h0, if_false]
      rw [toDigitsCore_acc f (n / 10) _ (by omega), digitsValue_append, ih (n / 10) (by omega),
        digitChar_value (n % 10) (Nat.mod_lt _ (by decide))]
      omega

/-- The characters of the decimal string of a number. -/
theorem toString_data (n : Nat) : (toString n).data = Nat.toDigits 10 n := rfl

/-- Decimal strings of different numbers differ. -/
theorem toString_inj {a b : Nat} (h : toString a = toString b) : a = b := by
  have h1 : digitsValue (toString a).data = digitsValue (toString b).data := by rw [h]
  rw [toString_data, toString_data] at h1
  unfold Nat.toDigits at h1
  rwa [digitsValue_toDigitsCore _ _ (by omega), digitsValue_toDigitsCore _ _ (by omega)] at h1

/-- The decimal digits of a number hold no character that is not a digit. -/
theorem toDigitsCore_digits (c : Char) (hc : c.isDigit = false) : ∀ (fuel n : Nat) (ds : List Char),
    c ∉ ds → c ∉ Nat.toDigitsCore 10 fuel n ds := by
  intro fuel
  induction fuel with
  | zero => intro n ds h; simpa [Nat.toDigitsCore] using h
  | succ f ih =>
    intro n ds h
    have hd : c ∉ Nat.digitChar (n % 10) :: ds := by
      intro hm
      rcases List.mem_cons.1 hm with e | e
      · exact digitChar_ne (n % 10) (Nat.mod_lt _ (by decide)) c hc e.symm
      · exact h e
    simp only [Nat.toDigitsCore]
    by_cases h0 : n / 10 = 0
    · simpa [h0] using hd
    · simp only [h0, if_false]
      exact ih _ _ hd

/-- A decimal string holds digits only. -/
theorem toString_digits (n : Nat) (c : Char) (hc : c.isDigit = false) : c ∉ (toString n).data := by
  rw [toString_data]
  exact toDigitsCore_digits c hc _ _ _ (by simp)

/-- A list is split at the first occurrence of a character in one way only. -/
theorem split_unique (c : Char) : ∀ (x y r s : List Char), c ∉ x → c ∉ y →
    x ++ c :: r = y ++ c :: s → x = y ∧ r = s
  | [], [], r, s, _, _, h => by simpa using h
  | [], b :: y, r, s, _, hy, h => by
    simp at h
    exact absurd (by simp [h.1]) hy
  | a :: x, [], r, s, hx, _, h => by
    simp at h
    exact absurd (by simp [h.1]) hx
  | a :: x, b :: y, r, s, hx, hy, h => by
    simp at h
    obtain ⟨h1, h2⟩ := split_unique c x y r s (fun m => hx (by simp [m])) (fun m => hy (by simp [m])) h.2
    exact ⟨by rw [h.1, h1], h2⟩

/-- Strings that differ at one position differ. -/
theorem ne_of_char (i : Nat) (s t : String) (h : s.data.get? i ≠ t.data.get? i) : s ≠ t :=
  fun e => h (by rw [e])

/-- The characters of a string that starts with `p`, inside `p`. -/
theorem char_of_lit (p x : String) (i : Nat) (h : i < p.data.length) :
    (p ++ x).data.get? i = p.data.get? i := by
  rw [String.data_append]
  simp only [List.get?_eq_getElem?]
  exact List.getElem?_append_left h

/-- Appending to the same string is injective. -/
theorem lit_append_inj (p a b : String) (h : p ++ a = p ++ b) : a = b := by
  have h1 := congrArg String.data h
  simp only [String.data_append, List.append_cancel_left_eq] at h1
  exact String.ext h1

/-- IDs with the same prefix and different numbers differ. -/
theorem id_ne (p : String) {a b : Nat} (h : a ≠ b) : p ++ toString a ≠ p ++ toString b :=
  fun e => h (toString_inj (lit_append_inj p _ _ e))

/-- The trigger of the chunk that `To` makes when the ID counter is `k`. -/
theorem toTrigger_ne {a b : Nat} (h : a ≠ b) : toTrigger a ≠ toTrigger b := by
  intro e
  unfold toTrigger at e
  have h1 := congrArg String.data e
  simp only [String.data_append, List.append_assoc] at h1
  have h2 := List.append_cancel_left h1
  simp only [List.cons_append] at h2
  have h4 := (split_unique ']' _ _ _ _ (toString_digits _ _ (by decide))
    (toString_digits _ _ (by decide)) h2).1
  have h5 := toString_inj (String.ext h4)
  omega

/-- A registration under a new ID goes to the end of the table. -/
theorem insertEntry_fresh (e : Entry) : ∀ (hs : AllHandlers), (∀ x ∈ hs, x.id ≠ e.id) →
    insertEntry hs e = hs ++ [e]
  | [], _ => rfl
  | x :: hs, h => by
    have hx : x.id ≠ e.id := h x (List.mem_cons_self _ _)
    simp only [insertEntry, hx, and_false, if_false, List.cons_append]
    rw [insertEntry_fresh e hs (fun y hy => h y (List.mem_cons_of_mem _ hy))]

/-- A handler ID generated later is new. -/
theorem IdsBelow.fresh {k : Nat} {hs : AllHandlers} (h : IdsBelow k hs) {j : Nat} (hj : k < j) :
    ∀ x ∈ hs, x.id ≠ "handler-" ++ toString j := by
  intro x hx e
  obtain ⟨i, hi, hid⟩ := h x hx
  rw [hid] at e
  exact id_ne "handler-" (by omega) e

/-- The table after one more registration. -/
theorem IdsBelow.snoc {k : Nat} {hs : AllHandlers} (h : IdsBelow k hs) {j : Nat} (hj : k ≤ j)
    (e : Entry) (i : Nat) (hi : i ≤ j) (he : e.id = "handler-" ++ toString i) :
    IdsBelow j (hs ++ [e]) := by
  intro x hx
  rcases List.mem_append.1 hx with h1 | h1
  · obtain ⟨a, ha, hid⟩ := h x h1
    exact ⟨a, by omega, hid⟩
  · simp only [List.mem_singleton] at h1
    subst h1
    exact ⟨i, hi, he⟩

/-- The trigger of a chunk with a generated name, written with one literal per gap. -/
theorem trigger_assoc (a b : String) :
    "Chunk[" ++ ("chunk-" ++ a) ++ "]-" ++ ("chunk-" ++ b) = "Chunk[chunk-" ++ a ++ "]-chunk-" ++ b := by
  apply String.ext
  simp [String.data_append]

/-- The step `.To(h)` with an unnamed handler. -/
theorem To_step (seeds : Nat → Nat) (H : AllHandlers) (chunks : List (String × Chunk)) (k : Nat)
    (scope : BlockData) (extra : Nat) (key : String) (b : Nat) (h : Handler)
    (hk : k + 3 < 2 ^ 64) (hfresh : ∀ x ∈ H, x.id ≠ "handler-" ++ toString (k + 3)) :
    Process.To ⟨key, .event, b⟩ (.handler h) {} (builtSys seeds H chunks k scope extra)
      = (⟨toTrigger k, .event, b⟩,
          builtSys seeds (H ++ [toEntry k key h]) (mapSet chunks "" (toChunk k h)) (k + 3) scope
            extra) := by
  have e1 : (k + 1) % 18446744073709551616 = k + 1 := Nat.mod_eq_of_lt (by omega)
  have e2 : (k + 2) % 18446744073709551616 = k + 2 := Nat.mod_eq_of_lt (by omega)
  have e3 : (k + 3) % 18446744073709551616 = k + 3 := Nat.mod_eq_of_lt (by omega)
  have hf := insertEntry_fresh (toEntry k key h) H hfresh
  simp only [toEntry, toChunk, toTrigger] at hf
  simp +decide [builtSys, Process.To, Process.clone, TriggerFlow.Chunk, NewChunk, nextID,
    Sys.setChunk, BluePrint.AddHandler, World.init, e1, e2, e3, toChunk, toEntry, toTrigger,
    trigger_assoc, hf]

/-- The key of a case, written with one literal. -/
theorem caseKey_assoc (a : String) :
    "Match-match-2-Case-" ++ ("case-" ++ a) = "Match-match-2-Case-case-" ++ a := by
  apply String.ext
  simp [String.data_append]

/-- The first step `.Case(c)` of a match. -/
theorem Case_first (seeds : Nat → Nat) (H : AllHandlers) (chunks : List (String × Chunk)) (k : Nat)
    (c : Val) (hk : k + 1 < 2 ^ 64) :
    Process.Case ⟨"START", .event, 2⟩ (.literal c)
        (builtSys seeds H chunks k (matchScope [] [] true false) 0)
      = (⟨caseKey (k + 1), .event, 2⟩,
          builtSys seeds H chunks (k + 1)
            (matchScope [("case-" ++ toString (k + 1), .literal c)] [] false false) 0) := by
  have e1 : (k + 1) % 18446744073709551616 = k + 1 := Nat.mod_eq_of_lt (by omega)
  simp +decide [builtSys, matchScope, Process.Case, Process.clone, nextID, World.init, e1,
    World.block, World.updBlock, mapSet, caseKey_assoc, List.modify, caseKey]

/-- A later step `.Case(c)` of a match, after a branch that ends at the trigger `t`. -/
theorem Case_next (seeds : Nat → Nat) (H : AllHandlers) (chunks : List (String × Chunk)) (k : Nat)
    (c : Val) (cases : List (String × CaseCond)) (ends : List String) (t : String)
    (hk : k + 1 < 2 ^ 64) (ht : stringsHasPrefix t "Match-match-2" = false)
    (hfresh : ("case-" ++ toString (k + 1)) ∉ cases.map (fun x => x.1)) :
    Process.Case ⟨t, .event, 2⟩ (.literal c)
        (builtSys seeds H chunks k (matchScope cases ends false false) 0)
      = (⟨caseKey (k + 1), .event, 2⟩,
          builtSys seeds H chunks (k + 1)
            (matchScope (cases ++ [("case-" ++ toString (k + 1), .literal c)]) (ends ++ [t])
              false false) 0) := by
  have e1 : (k + 1) % 18446744073709551616 = k + 1 := Nat.mod_eq_of_lt (by omega)
  have hf := mapSet_absent ("case-" ++ toString (k + 1)) (CaseCond.literal c) cases hfresh
  simp +decide [builtSys, matchScope, Process.Case, Process.clone, nextID, World.init, e1,
    World.block, World.updBlock, caseKey_assoc, List.modify, hf, ht, caseKey]

/-- The step `.CaseElse()` after a branch that ends at the trigger `t`. -/
theorem CaseElse_step (seeds : Nat → Nat) (H : AllHandlers) (chunks : List (String × Chunk))
    (k : Nat) (cases : List (String × CaseCond)) (ends : List String) (t : String)
    (ht : stringsHasPrefix t "Match-match-2" = false) :
    Process.CaseElse ⟨t, .event, 2⟩ (builtSys seeds H chunks k (matchScope cases ends false false) 0)
      = (⟨"Match-match-2-Else", .event, 2⟩,
          builtSys seeds H chunks k (matchScope cases (ends ++ [t]) false true) 0) := by
  simp +decide [builtSys, matchScope, Process.CaseElse, Process.clone, World.init,
    World.block, World.updBlock, List.modify, ht]

/-- No trigger of a `To` chunk starts like a key of the match. -/
theorem toTrigger_noMatch (k : Nat) : stringsHasPrefix (toTrigger k) "Match-match-2" = false := by
  unfold stringsHasPrefix toTrigger
  simp only [String.data_append, List.append_assoc]
  rfl

/-- The table after one more registration made by `To`. -/
theorem IdsBelow.to {k : Nat} {hs : AllHandlers} (h : IdsBelow k hs) (key : String)
    (f : Handler) : IdsBelow (k + 3) (hs ++ [toEntry k key f]) :=
  h.snoc (by omega) _ (k + 3) (le_refl _) rfl

/-- Storing a chunk under the empty name keeps the names of the chunks. -/
theorem ChunkNames.set {chunks : List (String × Chunk)} (h : ChunkNames chunks) (name : String)
    (c : Chunk) (hn : name = "match" ∨ name = "" ∨ name = "match_collect") :
    ChunkNames (mapSet chunks name c) := by
  intro x hx
  rcases mem_mapSet name c x chunks hx with h1 | h1
  · exact h x h1
  · rw [h1]
    exact hn

/-- The steps `.Case(c).To(h)` after the first: the registrations, the conditions and the
branch ends they add. -/
theorem addCases_spec (seeds : Nat → Nat) : ∀ (cs : List (Val × (Val → Val))) (H : AllHandlers)
    (chunks : List (String × Chunk)) (k : Nat) (cases : List (String × CaseCond))
    (ends : List String) (t : String),
    k + 4 * cs.length < 2 ^ 64 → stringsHasPrefix t "Match-match-2" = false → IdsBelow k H →
    ChunkNames chunks → (∀ x ∈ cases, ∃ j, j ≤ k ∧ x.1 = "case-" ++ toString j) →
    ∃ chunks2 t2, ChunkNames chunks2 ∧ stringsHasPrefix t2 "Match-match-2" = false ∧
      IdsBelow (k + 4 * cs.length) (H ++ caseEntries k cs) ∧
      ((ends ++ [t]) ++ caseTriggers k cs).getLast? = some t2 ∧
      addCases cs (⟨t, .event, 2⟩, builtSys seeds H chunks k (matchScope cases ends false false) 0)
        = (⟨t2, .event, 2⟩,
            builtSys seeds (H ++ caseEntries k cs) chunks2 (k + 4 * cs.length)
              (matchScope (cases ++ caseConds k cs)
                ((ends ++ [t]) ++ caseTriggers k cs).dropLast false false) 0)
  | [], H, chunks, k, cases, ends, t, _, ht, hid, hch, _ => by
    refine ⟨chunks, t, hch, ht, ?_, ?_, ?_⟩
    · simpa [caseEntries] using hid
    · simp [caseTriggers]
    · simp [addCases, caseEntries, caseConds, caseTriggers]
  | (c, h) :: rest, H, chunks, k, cases, ends, t, hk, ht, hid, hch, hcs => by
    simp only [List.length_cons] at hk
    have hfc : ("case-" ++ toString (k + 1)) ∉ cases.map (fun x => x.1) := by
      intro hm
      obtain ⟨x, hx, hx1⟩ := List.mem_map.1 hm
      obtain ⟨j, hj, hxj⟩ := hcs x hx
      rw [hxj] at hx1
      exact id_ne "case-" (by omega) hx1
    have hcs2 : ∀ x ∈ cases ++ [("case-" ++ toString (k + 1), CaseCond.literal c)],
        ∃ j, j ≤ k + 4 ∧ x.1 = "case-" ++ toString j := by
      intro x hx
      rcases List.mem_append.1 hx with h1 | h1
      · obtain ⟨j, hj, hxj⟩ := hcs x h1
        exact ⟨j, by omega, hxj⟩
      · simp only [List.mem_singleton] at h1
        exact ⟨k + 1, by omega, by rw [h1]⟩
    have hid1 : IdsBelow (k + 1) H := fun x hx => by
      obtain ⟨j, hj, hxj⟩ := hid x hx
      exact ⟨j, by omega, hxj⟩
    obtain ⟨chunks2, t2, h1, h2, h3, h4, h5⟩ := addCases_spec seeds rest
      (H ++ [toEntry (k + 1) (caseKey (k + 1)) (pureHandler h)])
      (mapSet chunks "" (toChunk (k + 1) (pureHandler h))) (k + 4)
      (cases ++ [("case-" ++ toString (k + 1), .literal c)]) (ends ++ [t]) (toTrigger (k + 1))
      (by omega) (toTrigger_noMatch _) (hid1.to _ _) (hch.set _ _ (Or.inr (Or.inl rfl))) hcs2
    have ha : k + 4 + 4 * rest.length = k + 4 * (rest.length + 1) := by omega
    refine ⟨chunks2, t2, h1, h2, ?_, ?_, ?_⟩
    · simpa [caseEntries, ha] using h3
    · simpa [caseTriggers] using h4
    · simp only [addCases]
      rw [Case_next seeds H chunks k c cases ends t (by omega) ht hfc]
      simp only []
      rw [To_step seeds H chunks (k + 1) _ 0 _ 2 _ (by omega) (hid1.fresh (by omega))]
      rw [h5, ha]
      simp [caseEntries, caseConds, caseTriggers]

/-- The trigger of a collecting chunk, written with one literal. -/
theorem collect_assoc (a : String) :
    "Chunk[match_collect]-" ++ ("chunk-" ++ a) = "Chunk[match_collect]-chunk-" ++ a := by
  apply String.ext
  simp [String.data_append]

/-- One round of the loop of `EndMatch`: `When(t).To(collectBranchResult)`. -/
theorem collect_step (seeds : Nat → Nat) (H : AllHandlers) (chunks : List (String × Chunk))
    (k : Nat) (scope : BlockData) (extra : Nat) (t : String) (p : Process)
    (hk : k + 2 < 2 ^ 64) (hfresh : ∀ x ∈ H, x.id ≠ "handler-" ++ toString (k + 2))
    (hnone : mapGet chunks t = none) :
    ((p.When (.key t) "" (builtSys seeds H chunks k scope extra)).1.To
        (.handler (collectBranchResult "match-2")) { Name := "match_collect" }
        (p.When (.key t) "" (builtSys seeds H chunks k scope extra)).2).2
      = builtSys seeds (H ++ [⟨.event, t, "handler-" ++ toString (k + 2), (collectChunk k).Call⟩])
          (mapSet chunks "match_collect" (collectChunk k)) (k + 2) scope (extra + 1) := by
  have e1 : (k + 1) % 18446744073709551616 = k + 1 := Nat.mod_eq_of_lt (by omega)
  have e2 : (k + 2) % 18446744073709551616 = k + 2 := Nat.mod_eq_of_lt (by omega)
  have hf := insertEntry_fresh
    ⟨.event, t, "handler-" ++ toString (k + 2), (collectChunk k).Call⟩ H hfresh
  simp only [collectChunk, collectTrigger] at hf
  simp +decide [builtSys, Process.When, Process.To, Process.clone, TriggerFlow.Chunk, NewChunk,
    nextID, Sys.setChunk, BluePrint.AddHandler, World.init, NewBlockData, e1, e2, collectChunk,
    collectTrigger, collect_assoc, hf, hnone, List.replicate_succ', emptyBlock]

/-- The loop of `EndMatch` over the branch ends. -/
theorem endMatchRegister_spec (seeds : Nat → Nat) (scope : BlockData) (p : Process) :
    ∀ (ends : List String) (H : AllHandlers) (chunks : List (String × Chunk)) (k extra : Nat),
    k + 2 * ends.length < 2 ^ 64 → IdsBelow k H → ChunkNames chunks →
    (∀ t ∈ ends, t ≠ "match" ∧ t ≠ "" ∧ t ≠ "match_collect") →
    ∃ chunks2,
      endMatchRegister p "match-2" ends (builtSys seeds H chunks k scope extra)
        = builtSys seeds (H ++ collectEntries k ends) chunks2 (k + 2 * ends.length) scope
            (extra + ends.length)
  | [], H, chunks, k, extra, _, _, _, _ => ⟨chunks, by simp [endMatchRegister, collectEntries]⟩
  | t :: rest, H, chunks, k, extra, hk, hid, hch, hts => by
    simp only [List.length_cons] at hk
    have hnone : mapGet chunks t = none := by
      apply mapGet_none
      intro hm
      obtain ⟨x, hx, hx1⟩ := List.mem_map.1 hm
      have h3 := hts t (List.mem_cons_self _ _)
      rcases hch x hx with h1 | h1 | h1
      · exact h3.1 (by rw [← hx1, h1])
      · exact h3.2.1 (by rw [← hx1, h1])
      · exact h3.2.2 (by rw [← hx1, h1])
    obtain ⟨chunks2, h5⟩ := endMatchRegister_spec seeds scope p rest
      (H ++ [⟨.event, t, "handler-" ++ toString (k + 2), (collectChunk k).Call⟩])
      (mapSet chunks "match_collect" (collectChunk k)) (k + 2) (extra + 1) (by omega)
      (hid.snoc (by omega) _ (k + 2) (le_refl _) rfl) (hch.set _ _ (Or.inr (Or.inr rfl)))
      (fun t2 h2 => hts t2 (List.mem_cons_of_mem _ h2))
    refine ⟨chunks2, ?_⟩
    have ha : k + 2 + 2 * rest.length = k + 2 * (rest.length + 1) := by omega
    have hb : extra + 1 + rest.length = extra + (rest.length + 1) := by omega
    unfold endMatchRegister
    simp only []
    rw [collect_step seeds H chunks k scope extra t p (by omega) (hid.fresh (by omega)) hnone, h5,
      ha, hb]
    simp [collectEntries]

/-- The step `.EndMatch()` after a branch that ends at the trigger `t`. -/
theorem EndMatch_spec (seeds : Nat → Nat) (H : AllHandlers) (chunks : List (String × Chunk))
    (k : Nat) (cases : List (String × CaseCond)) (ends : List String) (hasElse : Bool) (t : String)
    (hk : k + 2 * (ends.length + 1) < 2 ^ 64) (ht : stringsHasPrefix t "Match-match-2" = false)
    (hid : IdsBelow k H) (hch : ChunkNames chunks)
    (hts : ∀ t2 ∈ ends ++ [t], t2 ≠ "match" ∧ t2 ≠ "" ∧ t2 ≠ "match_collect") :
    ∃ chunks2,
      (Process.EndMatch ⟨t, .event, 2⟩
          (builtSys seeds H chunks k (matchScope cases ends false hasElse) 0)).2
        = builtSys seeds (H ++ collectEntries k (ends ++ [t])) chunks2
            (k + 2 * (ends.length + 1)) (matchScope cases (ends ++ [t]) false hasElse)
            (ends.length + 1) := by
  obtain ⟨chunks2, h⟩ := endMatchRegister_spec seeds (matchScope cases (ends ++ [t]) false hasElse)
    ⟨t, .event, 2⟩ (ends ++ [t]) H chunks k 0 (by simpa using hk) hid hch hts
  refine ⟨chunks2, ?_⟩
  have hs : Sys.mk (builtSys seeds H chunks k (matchScope cases ends false hasElse) 0).flow
      ((builtSys seeds H chunks k (matchScope cases ends false hasElse) 0).world.updBlock 2
        (fun b => { b with branch_ends := b.branch_ends ++ [t] }))
      = builtSys seeds H chunks k (matchScope cases (ends ++ [t]) false hasElse) 0 := by
    simp [builtSys, matchScope, World.updBlock, List.modify]
  have hm : ((builtSys seeds H chunks k (matchScope cases ends false hasElse) 0).world.block 2).match_id
      = some "match-2" := by
    simp [builtSys, matchScope, World.block]
  have hb : (((builtSys seeds H chunks k (matchScope cases ends false hasElse) 0).world.updBlock 2
      (fun b => { b with branch_ends := b.branch_ends ++ [t] })).block 2).branch_ends
      = ends ++ [t] := by
    simp [builtSys, matchScope, World.block, World.updBlock, List.modify]
  have ht2 : stringsHasPrefix t ("Match-" ++ "match-2") = false := ht
  unfold Process.EndMatch
  simp only [hm, Option.getD_some, ht2, Bool.not_false, if_true]
  rw [if_neg (by decide)]
  simp only []
  rw [hs, hb, h]
  simp [outerBlock, builtSys, World.block, matchScope]

/-- The state after `flow.When("START", "").Match("hit_first")` on a new flow. -/
theorem Match_spec (seeds : Nat → Nat) :
    (((New none "match-first" false (World.init seeds)).flow.startProcess.When (.key "START") ""
        (New none "match-first" false (World.init seeds))).1.Match "hit_first"
      ((New none "match-first" false (World.init seeds)).flow.startProcess.When (.key "START") ""
        (New none "match-first" false (World.init seeds))).2)
    = (⟨"START", .event, 2⟩,
        builtSys seeds [⟨.event, "START", "handler-4", matchChunk.Call⟩] [("match", matchChunk)] 4
          (matchScope [] [] true false) 0) := by
  simp +decide [builtSys, matchScope, matchChunk, New, NewBluePrint, nextID, NewBlockData, World.init,
    Process.When, Process.Match, Process.To, Process.clone, TriggerFlow.Chunk, NewChunk,
    Sys.setChunk, BluePrint.AddHandler, insertEntry, mapSet, mapGet, toString_lits, emptyBlock,
    World.updBlock, World.block]

/-- The trigger of a `To` chunk is none of the names chunks are stored under. -/
theorem toTrigger_names (j : Nat) :
    toTrigger j ≠ "match" ∧ toTrigger j ≠ "" ∧ toTrigger j ≠ "match_collect" := by
  have h : (toTrigger j).data.get? 0 = some 'C' := by
    unfold toTrigger
    simp only [String.append_assoc]
    rw [char_of_lit _ _ 0 (by decide)]
    rfl
  refine ⟨?_, ?_, ?_⟩ <;> exact ne_of_char 0 _ _ (by rw [h]; decide)

/-- The branch ends of the case steps are triggers of `To` chunks. -/
theorem mem_caseTriggers (t : String) : ∀ (cs : List (Val × (Val → Val))) (k : Nat),
    t ∈ caseTriggers k cs → ∃ j, k < j ∧ j + 3 ≤ k + 4 * cs.length ∧ t = toTrigger j
  | [], _, h => by simp [caseTriggers] at h
  | _ :: rest, k, h => by
    simp only [caseTriggers, List.mem_cons] at h
    rcases h with h | h
    · exact ⟨k + 1, by omega, by simp only [List.length_cons]; omega, h⟩
    · obtain ⟨j, h1, h2, h3⟩ := mem_caseTriggers t rest (k + 4) h
      exact ⟨j, by omega, by simp only [List.length_cons]; omega, h3⟩

/-- One branch end per case step. -/
theorem caseTriggers_length : ∀ (cs : List (Val × (Val → Val))) (k : Nat),
    (caseTriggers k cs).length = cs.length
  | [], _ => rfl
  | _ :: rest, k => by simp [caseTriggers, caseTriggers_length rest (k + 4)]

/-- The state `matchFirstFlow` builds. -/
theorem matchFirstFlow_spec (seeds : Nat → Nat) (cs : List (Val × (Val → Val)))
    (he : Option (Val → Val)) (hne : cs ≠ []) (hb : 6 * cs.length + 9 < 2 ^ 64) :
    ∃ chunks uid extra,
      matchFirstFlow cs he (World.init seeds)
        = builtSys seeds (matchHandlers cs he) chunks uid
            (matchScope (caseConds 4 cs) (matchEnds cs he) false he.isSome) extra := by
  obtain ⟨⟨c0, h0⟩, rest, rfl⟩ := List.exists_cons_of_ne_nil hne
  simp only [List.length_cons] at hb
  have hid0 : IdsBelow 4 [⟨.event, "START", "handler-4", matchChunk.Call⟩] := by
    intro x hx
    simp only [List.mem_singleton] at hx
    exact ⟨4, le_refl _, by rw [hx]; decide⟩
  have hid5 : IdsBelow 5 [⟨.event, "START", "handler-4", matchChunk.Call⟩] := fun x hx => by
    obtain ⟨j, hj, hxj⟩ := hid0 x hx
    exact ⟨j, by omega, hxj⟩
  have hch0 : ChunkNames [("match", matchChunk)] := by
    intro x hx
    simp only [List.mem_singleton] at hx
    exact Or.inl (by rw [hx])
  obtain ⟨chunks2, t2, h1, h2, h3, h4, h5⟩ := addCases_spec seeds rest
    ([⟨.event, "START", "handler-4", matchChunk.Call⟩] ++
      [toEntry 5 (caseKey 5) (pureHandler h0)])
    (mapSet [("match", matchChunk)] "" (toChunk 5 (pureHandler h0))) 8
    [("case-" ++ toString 5, .literal c0)] [] (toTrigger 5)
    (by omega) (toTrigger_noMatch _) (hid5.to _ _) (hch0.set _ _ (Or.inr (Or.inl rfl)))
    (fun x hx => ⟨5, by omega, by simp only [List.mem_singleton] at hx; rw [hx]⟩)
  have hstart : addCases ((c0, h0) :: rest) (⟨"START", .event, 2⟩,
      builtSys seeds [⟨.event, "START", "handler-4", matchChunk.Call⟩] [("match", matchChunk)] 4
        (matchScope [] [] true false) 0)
      = (⟨t2, .event, 2⟩,
          builtSys seeds (⟨.event, "START", "handler-4", matchChunk.Call⟩ ::
              caseEntries 4 ((c0, h0) :: rest)) chunks2 (8 + 4 * rest.length)
            (matchScope (caseConds 4 ((c0, h0) :: rest))
              (caseTriggers 4 ((c0, h0) :: rest)).dropLast false false) 0) := by
    simp only [addCases]
    rw [Case_first seeds _ _ 4 c0 (by omega)]
    simp only []
    rw [To_step seeds _ _ 5 _ 0 _ 2 _ (by omega) (hid5.fresh (by omega))]
    rw [h5]
    simp [caseEntries, caseConds, caseTriggers]
  have hlast : (caseTriggers 4 ((c0, h0) :: rest)).getLast? = some t2 := by
    simpa [caseTriggers] using h4
  have hsplit : (caseTriggers 4 ((c0, h0) :: rest)).dropLast ++ [t2]
      = caseTriggers 4 ((c0, h0) :: rest) :=
    List.dropLast_append_getLast? t2 hlast
  have hshape : ∀ t ∈ caseTriggers 4 ((c0, h0) :: rest),
      t ≠ "match" ∧ t ≠ "" ∧ t ≠ "match_collect" := by
    intro t ht
    obtain ⟨j, _, _, hj⟩ := mem_caseTriggers t _ _ ht
    rw [hj]
    exact toTrigger_names j
  have hlen : (caseTriggers 4 ((c0, h0) :: rest)).dropLast.length = rest.length := by
    simp [caseTriggers_length]
  cases he with
  | none =>
    obtain ⟨chunks3, h6⟩ := EndMatch_spec seeds
      (⟨.event, "START", "handler-4", matchChunk.Call⟩ :: caseEntries 4 ((c0, h0) :: rest))
      chunks2 (8 + 4 * rest.length)
      (caseConds 4 ((c0, h0) :: rest)) (caseTriggers 4 ((c0, h0) :: rest)).dropLast false t2
      (by rw [hlen]; omega) h2
      (by simpa [caseEntries] using h3) h1 (by rw [hsplit]; exact hshape)
    refine ⟨chunks3,
      8 + 4 * rest.length + 2 * ((caseTriggers 4 ((c0, h0) :: rest)).dropLast.length + 1),
      (caseTriggers 4 ((c0, h0) :: rest)).dropLast.length + 1, ?_⟩
    unfold matchFirstFlow
    simp only []
    rw [Match_spec, hstart]
    simp only [addElse]
    rw [h6, hsplit]
    have ha : 8 + 4 * rest.length = 4 + 4 * (rest.length + 1) := by omega
    simp [matchHandlers, matchEnds, elseEntries, elseTriggers, elseIDs, ha]
  | some h =>
    have hidH : IdsBelow (8 + 4 * rest.length)
        (⟨.event, "START", "handler-4", matchChunk.Call⟩ :: caseEntries 4 ((c0, h0) :: rest)) := by
      simpa [caseEntries] using h3
    have hlen2 : (caseTriggers 4 ((c0, h0) :: rest)).length = rest.length + 1 := by
      simp [caseTriggers_length]
    obtain ⟨chunks3, h6⟩ := EndMatch_spec seeds
      ((⟨.event, "START", "handler-4", matchChunk.Call⟩ :: caseEntries 4 ((c0, h0) :: rest))
        ++ [toEntry (8 + 4 * rest.length) "Match-match-2-Else" (pureHandler h)])
      (mapSet chunks2 "" (toChunk (8 + 4 * rest.length) (pureHandler h)))
      (8 + 4 * rest.length + 3)
      (caseConds 4 ((c0, h0) :: rest)) (caseTriggers 4 ((c0, h0) :: rest)) true
      (toTrigger (8 + 4 * rest.length))
      (by rw [hlen2]; omega) (toTrigger_noMatch _) (hidH.to _ _)
      (h1.set _ _ (Or.inr (Or.inl rfl)))
      (by
        intro t ht
        rcases List.mem_append.1 ht with h7 | h7
        · exact hshape t h7
        · simp only [List.mem_singleton] at h7
          rw [h7]
          exact toTrigger_names _)
    refine ⟨chunks3,
      8 + 4 * rest.length + 3 + 2 * ((caseTriggers 4 ((c0, h0) :: rest)).length + 1),
      (caseTriggers 4 ((c0, h0) :: rest)).length + 1, ?_⟩
    unfold matchFirstFlow
    simp only []
    rw [Match_spec, hstart]
    simp only [addElse]
    rw [CaseElse_step seeds _ _ _ _ _ t2 h2, hsplit]
    simp only []
    rw [To_step seeds _ _ (8 + 4 * rest.length) _ 0 _ 2 _ (by omega) (hidH.fresh (by omega))]
    rw [h6]
    have ha : 8 + 4 * rest.length = 4 + 4 * (rest.length + 1) := by omega
    simp [matchHandlers, matchEnds, elseEntries, elseTriggers, elseIDs, ha]

/-- Updating an execution leaves the scopes as they are. -/
theorem updExecution_blocks (w : World) (eid : String) (f : Execution → Execution) :
    (w.updExecution eid f).blocks = w.blocks := by
  unfold World.updExecution
  cases mapGet w.executions eid <;> rfl

/-- An update of the execution that keeps the permit capacity and the system data keeps the
state steady. -/
theorem Steady.update {eid : String} {scope : BlockData} {w : World}
    (hw : Steady eid scope w) (f : Execution → Execution)
    (hf : ∀ e, (f e).semaphore = e.semaphore ∧ (f e).systemRuntimeData = e.systemRuntimeData) :
    Steady eid scope (w.updExecution eid f) := by
  obtain ⟨hb, e, he, hs, hd⟩ := hw
  refine ⟨?_, f e, execution_updExecution w eid e f he, ?_, ?_⟩
  · unfold World.block at hb ⊢
    rw [updExecution_blocks]
    exact hb
  · rw [(hf e).1, hs]
  · rw [(hf e).2, hd]

/-- A steady execution has no concurrency limit. -/
theorem Steady.unlimited {eid : String} {scope : BlockData} {w : World}
    (hw : Steady eid scope w) : Unlimited eid w := by
  obtain ⟨_, e, he, hs, _⟩ := hw
  intro e2 he2
  rw [he] at he2
  simp only [Option.some.injEq] at he2
  rw [← he2, hs]

/-- Updating an execution leaves the log as it is. -/
theorem signalsOf_updExecution (w : World) (eid : String) (f : Execution → Execution) :
    signalsOf (w.updExecution eid f) = signalsOf w := by
  unfold signalsOf
  rw [(updExecution_frame w eid f).2]

/-- A signal nobody listens to is written to the log. -/
theorem emit_none (H : AllHandlers) (eid : String) (scope : BlockData) (fuel : Nat)
    (key : String) (value : Val) (marks : List String)
    (h0 : targetHandlers H .event key = []) :
    Emits (Steady eid scope) (Execution.EmitWithMarks H eid (fuel + 1)) key value marks [] := by
  intro w hw
  have hw1 := hw.update (fun e => { e with started := true }) (fun _ => ⟨rfl, rfl⟩)
  have h1 := signalsOf_updExecution w eid (fun e => { e with started := true })
  refine ⟨{ (w.updExecution eid (fun e => { e with started := true })) with
      trace := (w.updExecution eid (fun e => { e with started := true })).trace ++
        [⟨.event, key, value, marks⟩] }, ?_, hw1, ?_⟩
  · simp only [Execution.EmitWithMarks, h0, List.isEmpty_nil, if_true]
  · unfold signalsOf at h1 ⊢
    simp only [List.map_append, h1, List.map_cons, List.map_nil]

/-- A signal one handler listens to: the signal is written to the log and the handler is
called. -/
theorem emit_one (H : AllHandlers) (eid : String) (scope : BlockData) (fuel : Nat)
    (key : String) (value : Val) (marks : List String) (e : Entry) (out : List (String × Val))
    (Q : List String → Prop) (x : Val)
    (h1 : targetHandlers H .event key = [e])
    (hh : Returns (Steady eid scope) e.handler (Execution.EmitWithMarks H eid fuel)
      ⟨key, .event, value, eid, marks⟩ out Q x) :
    Emits (Steady eid scope) (Execution.EmitWithMarks H eid (fuel + 1)) key value marks out := by
  intro w hw
  have hw1 := hw.update (fun e => { e with started := true }) (fun _ => ⟨rfl, rfl⟩)
  have hs1 := signalsOf_updExecution w eid (fun e => { e with started := true })
  have hw2 : Steady eid scope
      { (w.updExecution eid (fun e => { e with started := true })) with
        trace := (w.updExecution eid (fun e => { e with started := true })).trace ++
          [⟨.event, key, value, marks⟩],
        tick := (w.updExecution eid (fun e => { e with started := true })).tick + 1 } := hw1
  obtain ⟨r, hr, herr, _, _, hP, hsig⟩ := hh _ hw2
  have hrel : Steady eid scope (Execution.release eid r.world) :=
    hP.update _ (by intro e; by_cases h : e.semaphore = 0 <;> simp [h])
  refine ⟨Execution.release eid r.world, ?_, hrel, ?_⟩
  · simp only [Execution.EmitWithMarks, h1, List.isEmpty_cons, Bool.false_eq_true, if_false,
      World.rangeOrder, shuffle, runHandlers, runHandler, acquire_unlimited hw2.unlimited, hr, herr,
      errCh, List.filterMap_cons, List.filterMap_nil, List.head?_nil, ite_self]
    split <;> rfl
  · unfold Execution.release
    rw [signalsOf_updExecution, hsig]
    unfold signalsOf at hs1 ⊢
    simp [hs1]

/-- A chunk whose handler returns without error emits its trigger with the returned value. -/
theorem call_spec (P : World → Prop) (c : Chunk) (emit : Emit) (data : EventData)
    (out1 out2 : List (String × Val)) (Q : List String → Prop) (x : Val)
    (hh : Returns P c.handler emit data out1 Q x)
    (he : ∀ ms, Q ms → Emits P emit c.Trigger x ms out2) :
    Returns P c.Call emit data (out1 ++ (c.Trigger, x) :: out2) Q x := by
  intro w hw
  obtain ⟨r, hr, herr, hm, hv, hP, hsig⟩ := hh w hw
  obtain ⟨w2, he2, hP2, hsig2⟩ := he r.marks hm r.world hP
  refine ⟨⟨w2, r.marks, x, none⟩, ?_, rfl, hm, rfl, hP2, ?_⟩
  · simp only [Chunk.Call, hr, herr, hv, he2]
  · rw [hsig2, hsig, List.append_assoc]

/-- A handler that only computes. -/
theorem pure_returns (P : World → Prop) (f : Val → Val) (emit : Emit) (data : EventData) :
    Returns P (pureHandler f) emit data [] (fun ms => ms = data.layerMarks) (f data.Value) := by
  intro w hw
  exact ⟨_, rfl, rfl, rfl, rfl, hw, by simp⟩

/-- The closure of `EndMatch` in an execution without stored match results: it forwards the
value of the branch under the result key of the match, with the mark of the match removed. -/
theorem collect_returns (eid : String) (scope : BlockData) (emit : Emit) (key m : String)
    (x : Val) (out : List (String × Val))
    (he : Emits (Steady eid scope) emit "Match-match-2-Result" x [] out) :
    Returns (Steady eid scope) (collectBranchResult "match-2") emit ⟨key, .event, x, eid, [m]⟩
      (("Match-match-2-Result", x) :: out) (fun _ => True) .nil := by
  intro w hw
  obtain ⟨w2, he2, hP2, hsig2⟩ := he w hw
  obtain ⟨_, e, hwe, _, hd⟩ := hw
  have hsys : w.systemData eid = RuntimeData.Set [] "result" .streamStop := by
    simp only [World.systemData, hwe, hd]
  have hg : (RuntimeData.Get (RuntimeData.Set [] "result" Val.streamStop) "match_results."
      (Val.map [])).asMap.length = 0 := by decide
  have hu : UpperLayerMark [m] = "" := rfl
  have hk : "Match-" ++ "match-2" ++ "-Result" = "Match-match-2-Result" := by decide
  have hp : "match_results." ++ "" = "match_results." := by decide
  have hl : LayerOut [m] = [] := rfl
  refine ⟨⟨w2, [], .nil, none⟩, ?_, rfl, trivial, rfl, hP2, hsig2⟩
  simp only [collectBranchResult, hu, hp, hsys, hg, gt_iff_lt, lt_self_iff_false, if_false, hk, hl,
    he2]

/-- The loop of `matchCase` in mode `hit_first` when the case `cid` alone holds: the loop
emits the key of that case and stops. -/
theorem matchLoop_hit (emit : Emit) (mid : String) (data : EventData) (marks : List String)
    (cid : String) (w1 : World) (err : Option GoError) :
    ∀ (l : List (String × CaseCond)) (n : Nat) (w : World),
    (∀ x ∈ l, judgement x.2 { data with layerMarks := marks } = some (decide (x.1 = cid))) →
    (∃ x ∈ l, x.1 = cid) →
    emit ("Match-" ++ mid ++ "-Case-" ++ cid) data.Value marks .event w = .ok (w1, err) →
    matchLoop emit "hit_first" mid data marks l n w = .ok (w1, n, some err)
  | [], _, _, _, hex, _ => by
    obtain ⟨x, hx, _⟩ := hex
    simp at hx
  | (a, cond) :: rest, n, w, hall, hex, he => by
    have ha := hall (a, cond) (List.mem_cons_self _ _)
    by_cases hc : a = cid
    · subst hc
      simp only [decide_True] at ha
      simp only [matchLoop, ha, if_true, he]
    · simp only [hc, decide_False] at ha
      simp only [matchLoop, ha]
      refine matchLoop_hit emit mid data marks cid w1 err rest n w
        (fun x hx => hall x (List.mem_cons_of_mem _ hx)) ?_ he
      obtain ⟨x, hx, hx1⟩ := hex
      rcases List.mem_cons.1 hx with h1 | h1
      · rw [h1] at hx1
        exact absurd hx1 hc
      · exact ⟨x, h1, hx1⟩

/-- The loop of `matchCase` when no case holds. -/
theorem matchLoop_miss (emit : Emit) (mode mid : String) (data : EventData) (marks : List String) :
    ∀ (l : List (String × CaseCond)) (n : Nat) (w : World),
    (∀ x ∈ l, judgement x.2 { data with layerMarks := marks } = some false) →
    matchLoop emit mode mid data marks l n w = .ok (w, n, none)
  | [], _, _, _ => rfl
  | (a, cond) :: rest, n, w, hall => by
    have ha := hall (a, cond) (List.mem_cons_self _ _)
    simp only [matchLoop, ha]
    exact matchLoop_miss emit mode mid data marks rest n w
      (fun x hx => hall x (List.mem_cons_of_mem _ hx))

/-- The closure of `Match` in mode `hit_first` when the case `cid` alone holds. -/
theorem matchCase_hit (eid : String) (scope : BlockData) (emit : Emit) (key : String) (v : Val)
    (cid : String) (out : List (String × Val))
    (hall : ∀ x ∈ scope.cases, ∀ d : EventData, d.Value = v →
      judgement x.2 d = some (decide (x.1 = cid)))
    (hex : ∃ x ∈ scope.cases, x.1 = cid)
    (he : ∀ m, Emits (Steady eid scope) emit ("Match-" ++ "match-2" ++ "-Case-" ++ cid) v [m] out) :
    Returns (Steady eid scope) (matchCase "hit_first" "match-2" 2) emit ⟨key, .event, v, eid, []⟩
      (("Match-" ++ "match-2" ++ "-Case-" ++ cid, v) :: out) (fun ms => ∃ m, ms = [m]) .nil := by
  intro w hw
  have hw2 : Steady eid scope
      { (nextID "layer" w).2 with tick := (nextID "layer" w).2.tick + 1 } := hw
  have hb : (nextID "layer" w).2.block 2 = scope := hw.1
  obtain ⟨w3, he3, hP3, hsig3⟩ := he (nextID "layer" w).1 _ hw2
  have hloop := matchLoop_hit emit "match-2" ⟨key, .event, v, eid, []⟩ [(nextID "layer" w).1] cid
    w3 none (shuffle ((nextID "layer" w).2.seeds (nextID "layer" w).2.tick) scope.cases) 0 _
    (fun x hx => hall x ((shuffle_perm _ _).mem_iff.1 hx) _ rfl)
    (by
      obtain ⟨x, hx, hx1⟩ := hex
      exact ⟨x, (shuffle_perm _ _).mem_iff.2 hx, hx1⟩)
    he3
  refine ⟨⟨w3, [(nextID "layer" w).1], .nil, none⟩, ?_, rfl, ⟨_, rfl⟩, rfl, hP3, hsig3⟩
  simp only [matchCase, LayerIn, List.nil_append, World.rangeOrder, hb, hloop]

/-- The closure of `Match` when no case holds and `CaseElse` was declared. -/
theorem matchCase_else (eid : String) (scope : BlockData) (emit : Emit) (key : String) (v : Val)
    (out : List (String × Val))
    (hall : ∀ x ∈ scope.cases, ∀ d : EventData, d.Value = v → judgement x.2 d = some false)
    (helse : scope.has_else = some true)
    (he : ∀ m, Emits (Steady eid scope) emit "Match-match-2-Else" v [m] out) :
    Returns (Steady eid scope) (matchCase "hit_first" "match-2" 2) emit ⟨key, .event, v, eid, []⟩
      (("Match-match-2-Else", v) :: out) (fun ms => ∃ m, ms = [m]) .nil := by
  intro w hw
  have hw2 : Steady eid scope
      { (nextID "layer" w).2 with tick := (nextID "layer" w).2.tick + 1 } := hw
  have hb : (nextID "layer" w).2.block 2 = scope := hw.1
  have hb2 : ({ (nextID "layer" w).2 with tick := (nextID "layer" w).2.tick + 1 } : World).block 2
      = scope := hw.1
  obtain ⟨w3, he3, hP3, hsig3⟩ := he (nextID "layer" w).1 _ hw2
  have hloop := matchLoop_miss emit "hit_first" "match-2" ⟨key, .event, v, eid, []⟩
    [(nextID "layer" w).1]
    (shuffle ((nextID "layer" w).2.seeds (nextID "layer" w).2.tick) scope.cases) 0
    { (nextID "layer" w).2 with tick := (nextID "layer" w).2.tick + 1 }
    (fun x hx => hall x ((shuffle_perm _ _).mem_iff.1 hx) _ rfl)
  have hk : "Match-" ++ "match-2" ++ "-Else" = "Match-match-2-Else" := by decide
  refine ⟨⟨w3, [(nextID "layer" w).1], .nil, none⟩, ?_, rfl, ⟨_, rfl⟩, rfl, hP3, hsig3⟩
  simp only [matchCase, LayerIn, List.nil_append, World.rangeOrder, hb, hloop, hb2, helse, if_true,
    hk, he3]

/-- A key no registration is made on has no handlers. -/
theorem lookup_nil (H : AllHandlers) (ty : TriggerType) (key : String)
    (h : ∀ x ∈ H, x.target ≠ key) : targetHandlers H ty key = [] := by
  unfold targetHandlers
  rw [List.filter_eq_nil_iff]
  intro x hx
  simp [h x hx]

/-- A key one registration is made on has one handler. -/
theorem lookup_split (A B : AllHandlers) (e : Entry) (ty : TriggerType) (key : String)
    (h1 : e.triggerType = ty) (h2 : e.target = key) (hA : ∀ x ∈ A, x.target ≠ key)
    (hB : ∀ x ∈ B, x.target ≠ key) : targetHandlers (A ++ e :: B) ty key = [e] := by
  have hA2 := lookup_nil A ty key hA
  have hB2 := lookup_nil B ty key hB
  unfold targetHandlers at hA2 hB2 ⊢
  rw [List.filter_append, List.filter_cons, hA2, hB2]
  simp [h1, h2]

/-- The case steps of two lists, one after the other. -/
theorem caseEntries_append : ∀ (a b : List (Val × (Val → Val))) (k : Nat),
    caseEntries k (a ++ b) = caseEntries k a ++ caseEntries (k + 4 * a.length) b
  | [], b, k => by simp [caseEntries]
  | (_, _) :: a, b, k => by
    have h : k + 4 + 4 * a.length = k + 4 * (a.length + 1) := by omega
    simp [caseEntries, caseEntries_append a b (k + 4), h]

/-- The conditions of two lists of case steps, one after the other. -/
theorem caseConds_append : ∀ (a b : List (Val × (Val → Val))) (k : Nat),
    caseConds k (a ++ b) = caseConds k a ++ caseConds (k + 4 * a.length) b
  | [], b, k => by simp [caseConds]
  | (_, _) :: a, b, k => by
    have h : k + 4 + 4 * a.length = k + 4 * (a.length + 1) := by omega
    simp [caseConds, caseConds_append a b (k + 4), h]

/-- The branch ends of two lists of case steps, one after the other. -/
theorem caseTriggers_append : ∀ (a b : List (Val × (Val → Val))) (k : Nat),
    caseTriggers k (a ++ b) = caseTriggers k a ++ caseTriggers (k + 4 * a.length) b
  | [], b, k => by simp [caseTriggers]
  | _ :: a, b, k => by
    have h : k + 4 + 4 * a.length = k + 4 * (a.length + 1) := by omega
    simp [caseTriggers, caseTriggers_append a b (k + 4), h]

/-- The registrations of `EndMatch` for two lists of branch ends, one after the other. -/
theorem collectEntries_append : ∀ (a b : List String) (k : Nat),
    collectEntries k (a ++ b) = collectEntries k a ++ collectEntries (k + 2 * a.length) b
  | [], b, k => by simp [collectEntries]
  | _ :: a, b, k => by
    have h : k + 2 + 2 * a.length = k + 2 * (a.length + 1) := by omega
    simp [collectEntries, collectEntries_append a b (k + 2), h]

/-- The registrations of the case steps are made on case keys. -/
theorem mem_caseEntries (x : Entry) : ∀ (cs : List (Val × (Val → Val))) (k : Nat),
    x ∈ caseEntries k cs → ∃ j, k < j ∧ j + 3 ≤ k + 4 * cs.length ∧ x.target = caseKey j
  | [], _, h => by simp [caseEntries] at h
  | (_, _) :: rest, k, h => by
    simp only [caseEntries, List.mem_cons] at h
    rcases h with h | h
    · exact ⟨k + 1, by omega, by simp only [List.length_cons]; omega, by rw [h]; rfl⟩
    · obtain ⟨j, h1, h2, h3⟩ := mem_caseEntries x rest (k + 4) h
      exact ⟨j, by omega, by simp only [List.length_cons]; omega, h3⟩

/-- The conditions of the case steps. -/
theorem mem_caseConds (x : String × CaseCond) : ∀ (cs : List (Val × (Val → Val))) (k : Nat),
    x ∈ caseConds k cs → ∃ j c, k < j ∧ j + 3 ≤ k + 4 * cs.length ∧ c ∈ cs ∧
      x = ("case-" ++ toString j, .literal c.1)
  | [], _, h => by simp [caseConds] at h
  | (c, f) :: rest, k, h => by
    simp only [caseConds, List.mem_cons] at h
    rcases h with h | h
    · exact ⟨k + 1, (c, f), by omega, by simp only [List.length_cons]; omega,
        List.mem_cons_self _ _, h⟩
    · obtain ⟨j, c2, h1, h2, h3, h4⟩ := mem_caseConds x rest (k + 4) h
      exact ⟨j, c2, by omega, by simp only [List.length_cons]; omega,
        List.mem_cons_of_mem _ h3, h4⟩

/-- The registrations of `EndMatch` are made on the branch ends. -/
theorem mem_collectEntries (x : Entry) : ∀ (ends : List String) (k : Nat),
    x ∈ collectEntries k ends → x.target ∈ ends
  | [], _, h => by simp [collectEntries] at h
  | t :: rest, k, h => by
    simp only [collectEntries, List.mem_cons] at h
    rcases h with h | h
    · rw [h]
      exact List.mem_cons_self _ _
    · exact List.mem_cons_of_mem _ (mem_collectEntries x rest (k + 2) h)

/-- Two characters of a case key. -/
theorem caseKey_chars (j : Nat) :
    (caseKey j).data.get? 0 = some 'M' ∧ (caseKey j).data.get? 14 = some 'C' := by
  unfold caseKey
  rw [char_of_lit _ _ 0 (by decide), char_of_lit _ _ 14 (by decide)]
  exact ⟨rfl, rfl⟩

/-- Two characters of the trigger of a `To` chunk. -/
theorem toTrigger_chars (j : Nat) :
    (toTrigger j).data.get? 0 = some 'C' ∧ (toTrigger j).data.get? 6 = some 'c' := by
  unfold toTrigger
  simp only [String.append_assoc]
  rw [char_of_lit _ _ 0 (by decide), char_of_lit _ _ 6 (by decide)]
  exact ⟨rfl, rfl⟩

/-- Two characters of the trigger of a collecting chunk. -/
theorem collectTrigger_chars (j : Nat) :
    (collectTrigger j).data.get? 0 = some 'C' ∧ (collectTrigger j).data.get? 6 = some 'm' := by
  unfold collectTrigger
  rw [char_of_lit _ _ 0 (by decide), char_of_lit _ _ 6 (by decide)]
  exact ⟨rfl, rfl⟩

/-- The branch ends of `matchFirstFlow` are triggers of `To` chunks. -/
theorem mem_matchEnds (cs : List (Val × (Val → Val))) (he : Option (Val → Val)) (t : String)
    (h : t ∈ matchEnds cs he) : ∃ j, t = toTrigger j := by
  unfold matchEnds at h
  rcases List.mem_append.1 h with h1 | h1
  · obtain ⟨j, _, _, h4⟩ := mem_caseTriggers t cs 4 h1
    exact ⟨j, h4⟩
  · cases he with
    | none => simp [elseTriggers] at h1
    | some f =>
      simp only [elseTriggers, List.mem_singleton] at h1
      exact ⟨_, h1⟩

/-- The keys `matchFirstFlow` registers handlers on. -/
theorem target_shape (cs : List (Val × (Val → Val))) (he : Option (Val → Val)) (x : Entry)
    (h : x ∈ matchHandlers cs he) :
    x.target = "START" ∨ (∃ j, x.target = caseKey j) ∨ x.target = "Match-match-2-Else" ∨
      (∃ j, x.target = toTrigger j) := by
  unfold matchHandlers at h
  simp only [List.cons_append, List.mem_cons, List.mem_append] at h
  rcases h with h | (h | h) | h
  · exact Or.inl (by rw [h])
  · obtain ⟨j, _, _, h3⟩ := mem_caseEntries x cs 4 h
    exact Or.inr (Or.inl ⟨j, h3⟩)
  · cases he with
    | none => simp [elseEntries] at h
    | some f =>
      simp only [elseEntries, List.mem_singleton] at h
      exact Or.inr (Or.inr (Or.inl (by rw [h]; rfl)))
  · exact Or.inr (Or.inr (Or.inr (mem_matchEnds cs he _ (mem_collectEntries x _ _ h))))

/-- The keys nobody listens to: the result key of the match and the triggers of the chunks
that `Match` and `EndMatch` make. -/
theorem lookup_unheard (cs : List (Val × (Val → Val))) (he : Option (Val → Val)) (k : Nat) :
    targetHandlers (matchHandlers cs he) .event "Match-match-2-Result" = [] ∧
    targetHandlers (matchHandlers cs he) .event (collectTrigger k) = [] ∧
    targetHandlers (matchHandlers cs he) .event "Chunk[match]-chunk-3" = [] := by
  refine ⟨lookup_nil _ _ _ ?_, lookup_nil _ _ _ ?_, lookup_nil _ _ _ ?_⟩
  · intro x hx
    rcases target_shape cs he x hx with h | ⟨j, h⟩ | h | ⟨j, h⟩
    · rw [h]; decide
    · rw [h]
      exact ne_of_char 14 _ _ (by rw [(caseKey_chars j).2]; decide)
    · rw [h]; decide
    · rw [h]
      exact ne_of_char 0 _ _ (by rw [(toTrigger_chars j).1]; decide)
  · intro x hx
    rcases target_shape cs he x hx with h | ⟨j, h⟩ | h | ⟨j, h⟩
    · rw [h]
      exact ne_of_char 0 _ _ (by rw [(collectTrigger_chars k).1]; decide)
    · rw [h]
      exact ne_of_char 0 _ _ (by rw [(collectTrigger_chars k).1, (caseKey_chars j).1]; decide)
    · rw [h]
      exact ne_of_char 0 _ _ (by rw [(collectTrigger_chars k).1]; decide)
    · rw [h]
      exact ne_of_char 6 _ _ (by rw [(collectTrigger_chars k).2, (toTrigger_chars j).2]; decide)
  · intro x hx
    rcases target_shape cs he x hx with h | ⟨j, h⟩ | h | ⟨j, h⟩
    · rw [h]; decide
    · rw [h]
      exact ne_of_char 0 _ _ (by rw [(caseKey_chars j).1]; decide)
    · rw [h]; decide
    · rw [h]
      exact ne_of_char 6 _ _ (by rw [(toTrigger_chars j).2]; decide)

/-- The handler of the signal `START`: the chunk of `Match`. -/
theorem lookup_start (cs : List (Val × (Val → Val))) (he : Option (Val → Val)) :
    targetHandlers (matchHandlers cs he) .event "START"
      = [⟨.event, "START", "handler-4", matchChunk.Call⟩] := by
  have hH : matchHandlers cs he = [] ++ ⟨.event, "START", "handler-4", matchChunk.Call⟩ ::
      (caseEntries 4 cs ++ (elseEntries (4 + 4 * cs.length) he ++
        collectEntries (4 + 4 * cs.length + elseIDs he) (matchEnds cs he))) := by
    simp [matchHandlers]
  rw [hH]
  refine lookup_split _ _ _ _ _ rfl rfl (by simp) ?_
  intro x hx
  have hx2 : x ∈ matchHandlers cs he := by
    rw [hH]
    exact List.mem_append_right _ (List.mem_cons_of_mem _ hx)
  simp only [List.mem_append] at hx
  rcases hx with h | h | h
  · obtain ⟨j, _, _, h3⟩ := mem_caseEntries x cs 4 h
    rw [h3]
    exact ne_of_char 0 _ _ (by rw [(caseKey_chars j).1]; decide)
  · cases he with
    | none => simp [elseEntries] at h
    | some f =>
      simp only [elseEntries, List.mem_singleton] at h
      rw [h]
      exact (by decide : "Match-match-2-Else" ≠ "START")
  · obtain ⟨j, hj⟩ := mem_matchEnds cs he _ (mem_collectEntries x _ _ h)
    rw [hj]
    exact ne_of_char 0 _ _ (by rw [(toTrigger_chars j).1]; decide)

/-- The handler of the key of a case: the chunk of the `To` that follows the `Case`. -/
theorem lookup_case (pre post : List (Val × (Val → Val))) (c : Val) (f : Val → Val)
    (he : Option (Val → Val)) :
    targetHandlers (matchHandlers (pre ++ (c, f) :: post) he) .event (caseKey (4 * pre.length + 5))
      = [toEntry (4 * pre.length + 5) (caseKey (4 * pre.length + 5)) (pureHandler f)] := by
  have hJ : 4 + 4 * pre.length + 1 = 4 * pre.length + 5 := by omega
  have hH : matchHandlers (pre ++ (c, f) :: post) he
      = (⟨.event, "START", "handler-4", matchChunk.Call⟩ :: caseEntries 4 pre) ++
        toEntry (4 * pre.length + 5) (caseKey (4 * pre.length + 5)) (pureHandler f) ::
        (caseEntries (4 + 4 * pre.length + 4) post ++
          (elseEntries (4 + 4 * (pre ++ (c, f) :: post).length) he ++
            collectEntries (4 + 4 * (pre ++ (c, f) :: post).length + elseIDs he)
              (matchEnds (pre ++ (c, f) :: post) he))) := by
    simp [matchHandlers, caseEntries_append, caseEntries, hJ]
  rw [hH]
  refine lookup_split _ _ _ _ _ rfl rfl ?_ ?_
  · intro x hx
    rcases List.mem_cons.1 hx with h | h
    · rw [h]
      show "START" ≠ caseKey _
      exact ne_of_char 0 _ _ (by rw [(caseKey_chars _).1]; decide)
    · obtain ⟨j, _, h2, h3⟩ := mem_caseEntries x pre 4 h
      rw [h3]
      exact id_ne "Match-match-2-Case-case-" (by omega)
  · intro x hx
    simp only [List.mem_append] at hx
    rcases hx with h | h | h
    · obtain ⟨j, h1, _, h3⟩ := mem_caseEntries x post _ h
      rw [h3]
      exact id_ne "Match-match-2-Case-case-" (by omega)
    · cases he with
      | none => simp [elseEntries] at h
      | some g =>
        simp only [elseEntries, List.mem_singleton] at h
        rw [h]
        show "Match-match-2-Else" ≠ caseKey _
        exact ne_of_char 14 _ _ (by rw [(caseKey_chars _).2]; decide)
    · obtain ⟨j, hj⟩ := mem_matchEnds _ he _ (mem_collectEntries x _ _ h)
      rw [hj]
      exact ne_of_char 0 _ _ (by rw [(caseKey_chars _).1, (toTrigger_chars j).1]; decide)

/-- The handler of the trigger at which the branch of a case ends: a collecting chunk. -/
theorem lookup_end (pre post : List (Val × (Val → Val))) (c : Val) (f : Val → Val)
    (he : Option (Val → Val)) :
    targetHandlers (matchHandlers (pre ++ (c, f) :: post) he) .event (toTrigger (4 * pre.length + 5))
      = [⟨.event, toTrigger (4 * pre.length + 5),
          "handler-" ++ toString
            (4 + 4 * (pre ++ (c, f) :: post).length + elseIDs he + 2 * pre.length + 2),
          (collectChunk
            (4 + 4 * (pre ++ (c, f) :: post).length + elseIDs he + 2 * pre.length)).Call⟩] := by
  have hJ : 4 + 4 * pre.length + 1 = 4 * pre.length + 5 := by omega
  have hE : matchEnds (pre ++ (c, f) :: post) he
      = caseTriggers 4 pre ++ toTrigger (4 * pre.length + 5) ::
          (caseTriggers (4 + 4 * pre.length + 4) post
            ++ elseTriggers (4 + 4 * (pre ++ (c, f) :: post).length) he) := by
    simp [matchEnds, caseTriggers_append, caseTriggers, hJ]
  have hH : matchHandlers (pre ++ (c, f) :: post) he
      = (⟨.event, "START", "handler-4", matchChunk.Call⟩ :: caseEntries 4 (pre ++ (c, f) :: post)
          ++ elseEntries (4 + 4 * (pre ++ (c, f) :: post).length) he
          ++ collectEntries (4 + 4 * (pre ++ (c, f) :: post).length + elseIDs he)
              (caseTriggers 4 pre)) ++
        ⟨.event, toTrigger (4 * pre.length + 5),
          "handler-" ++ toString
            (4 + 4 * (pre ++ (c, f) :: post).length + elseIDs he + 2 * pre.length + 2),
          (collectChunk
            (4 + 4 * (pre ++ (c, f) :: post).length + elseIDs he + 2 * pre.length)).Call⟩ ::
        collectEntries (4 + 4 * (pre ++ (c, f) :: post).length + elseIDs he + 2 * pre.length + 2)
          (caseTriggers (4 + 4 * pre.length + 4) post
            ++ elseTriggers (4 + 4 * (pre ++ (c, f) :: post).length) he) := by
    unfold matchHandlers
    rw [hE, collectEntries_append, caseTriggers_length]
    simp [collectEntries]
  rw [hH]
  refine lookup_split _ _ _ _ _ rfl rfl ?_ ?_
  · intro x hx
    simp only [List.cons_append, List.mem_cons, List.mem_append] at hx
    rcases hx with h | (h | h) | h
    · rw [h]
      show "START" ≠ toTrigger _
      exact ne_of_char 0 _ _ (by rw [(toTrigger_chars _).1]; decide)
    · obtain ⟨j, _, _, h3⟩ := mem_caseEntries x _ 4 h
      rw [h3]
      exact ne_of_char 0 _ _ (by rw [(caseKey_chars j).1, (toTrigger_chars _).1]; decide)
    · cases he with
      | none => simp [elseEntries] at h
      | some g =>
        simp only [elseEntries, List.mem_singleton] at h
        rw [h]
        show "Match-match-2-Else" ≠ toTrigger _
        exact ne_of_char 0 _ _ (by rw [(toTrigger_chars _).1]; decide)
    · obtain ⟨j, _, h2, h3⟩ := mem_caseTriggers _ pre 4 (mem_collectEntries x _ _ h)
      rw [h3]
      exact toTrigger_ne (by omega)
  · intro x hx
    rcases List.mem_append.1 (mem_collectEntries x _ _ hx) with h | h
    · obtain ⟨j, h1, _, h3⟩ := mem_caseTriggers _ post _ h
      rw [h3]
      exact toTrigger_ne (by omega)
    · cases he with
      | none => simp [elseTriggers] at h
      | some g =>
        simp only [elseTriggers, List.mem_singleton] at h
        rw [h]
        refine toTrigger_ne ?_
        simp only [List.length_append, List.length_cons]
        omega

/-- The handler of the else key: the chunk of the `To` that follows `CaseElse`. -/
theorem lookup_else (cs : List (Val × (Val → Val))) (f : Val → Val) :
    targetHandlers (matchHandlers cs (some f)) .event "Match-match-2-Else"
      = [toEntry (4 + 4 * cs.length) "Match-match-2-Else" (pureHandler f)] := by
  have hH : matchHandlers cs (some f)
      = (⟨.event, "START", "handler-4", matchChunk.Call⟩ :: caseEntries 4 cs) ++
        toEntry (4 + 4 * cs.length) "Match-match-2-Else" (pureHandler f) ::
        collectEntries (4 + 4 * cs.length + elseIDs (some f)) (matchEnds cs (some f)) := by
    simp [matchHandlers, elseEntries]
  rw [hH]
  refine lookup_split _ _ _ _ _ rfl rfl ?_ ?_
  · intro x hx
    rcases List.mem_cons.1 hx with h | h
    · rw [h]
      exact (by decide : "START" ≠ "Match-match-2-Else")
    · obtain ⟨j, _, _, h3⟩ := mem_caseEntries x cs 4 h
      rw [h3]
      exact ne_of_char 14 _ _ (by rw [(caseKey_chars j).2]; decide)
  · intro x hx
    obtain ⟨j, hj⟩ := mem_matchEnds cs _ _ (mem_collectEntries x _ _ hx)
    rw [hj]
    exact ne_of_char 0 _ _ (by rw [(toTrigger_chars j).1]; decide)

/-- The handler of the trigger at which the else branch ends: a collecting chunk. -/
theorem lookup_else_end (cs : List (Val × (Val → Val))) (f : Val → Val) :
    targetHandlers (matchHandlers cs (some f)) .event (toTrigger (4 + 4 * cs.length))
      = [⟨.event, toTrigger (4 + 4 * cs.length),
          "handler-" ++ toString (4 + 4 * cs.length + 3 + 2 * cs.length + 2),
          (collectChunk (4 + 4 * cs.length + 3 + 2 * cs.length)).Call⟩] := by
  have hH : matchHandlers cs (some f)
      = (⟨.event, "START", "handler-4", matchChunk.Call⟩ :: caseEntries 4 cs
          ++ elseEntries (4 + 4 * cs.length) (some f)
          ++ collectEntries (4 + 4 * cs.length + 3) (caseTriggers 4 cs)) ++
        ⟨.event, toTrigger (4 + 4 * cs.length),
          "handler-" ++ toString (4 + 4 * cs.length + 3 + 2 * cs.length + 2),
          (collectChunk (4 + 4 * cs.length + 3 + 2 * cs.length)).Call⟩ :: [] := by
    unfold matchHandlers matchEnds
    rw [collectEntries_append, caseTriggers_length]
    simp [collectEntries, elseTriggers, elseIDs]
  rw [hH]
  refine lookup_split _ _ _ _ _ rfl rfl ?_ (by simp)
  intro x hx
  simp only [List.cons_append, List.mem_cons, List.mem_append] at hx
  rcases hx with h | (h | h) | h
  · rw [h]
    show "START" ≠ toTrigger _
    exact ne_of_char 0 _ _ (by rw [(toTrigger_chars _).1]; decide)
  · obtain ⟨j, _, _, h3⟩ := mem_caseEntries x _ 4 h
    rw [h3]
    exact ne_of_char 0 _ _ (by rw [(caseKey_chars j).1, (toTrigger_chars _).1]; decide)
  · simp only [elseEntries, List.mem_singleton] at h
    rw [h]
    show "Match-match-2-Else" ≠ toTrigger _
    exact ne_of_char 0 _ _ (by rw [(toTrigger_chars _).1]; decide)
  · obtain ⟨j, _, h2, h3⟩ := mem_caseTriggers _ cs 4 (mem_collectEntries x _ _ h)
    rw [h3]
    exact toTrigger_ne (by omega)

/-- Go `==` holds between equal values only. -/
theorem goEq_true {c v : Val} (h : goEq c v = some true) : v = c := by
  cases c <;> cases v <;> simp_all [goEq]

/-- Go `==` is symmetric. -/
theorem goEq_comm (a b : Val) : goEq a b = goEq b a := by
  cases a <;> cases b <;> simp [goEq, eq_comm]

/-- A generated execution ID is not the empty string. -/
theorem execution_id_ne (x : String) : ¬ ("execution-" ++ x = "") :=
  ne_of_char 0 _ _ (by rw [char_of_lit _ _ 0 (by decide)]; decide)

/-- Starting the flow built by `matchFirstFlow`: a new execution is steady, and the log of
the run is the log of the dispatch of `START`. -/
theorem start_spec (seeds : Nat → Nat) (H : AllHandlers) (chunks : List (String × Chunk))
    (uid : Nat) (scope : BlockData) (extra : Nat) (fuel : Nat) (v : Val)
    (out : List (String × Val))
    (he : ∀ eid, Emits (Steady eid scope) (Execution.EmitWithMarks H eid fuel) "START" v [] out) :
    ((builtSys seeds H chunks uid scope extra).flow.Start fuel v false none
        (builtSys seeds H chunks uid scope extra).world).map (fun r => signalsOf r.1)
      = .ok (("START", v) :: out) := by
  have hw : Steady (nextID "execution" (builtSys seeds H chunks uid scope extra).world).1 scope
      (((builtSys seeds H chunks uid scope extra).flow.CreateExecution none none
        (builtSys seeds H chunks uid scope extra).world).2) := by
    refine ⟨?_, ?_⟩
    · simp [TriggerFlow.CreateExecution, NewExecution, World.block, builtSys, nextID,
        execution_id_ne]
    · refine ⟨_, mapGet_mapSet_self _ _ _, ?_, ?_⟩
      · simp [NewExecution]
      · simp [NewExecution]
  have hs : signalsOf (((builtSys seeds H chunks uid scope extra).flow.CreateExecution none none
      (builtSys seeds H chunks uid scope extra).world).2) = [] := by
    simp [signalsOf, TriggerFlow.CreateExecution, NewExecution, builtSys, nextID, World.init,
      execution_id_ne]
  obtain ⟨w2, h2, _, hsig⟩ := he _ _ hw
  have hH : ((builtSys seeds H chunks uid scope extra).flow.CreateExecution none none
      (builtSys seeds H chunks uid scope extra).world).1
      = ⟨(nextID "execution" (builtSys seeds H chunks uid scope extra).world).1, H⟩ := by
    simp [TriggerFlow.CreateExecution, NewExecution, builtSys, BluePrint.SnapshotHandlers]
  simp only [TriggerFlow.Start, Execution.Start, hH, h2, Except.map, hsig, hs, List.nil_append,
    Bool.false_eq_true, if_false]

/-- The key `matchCase` emits for the case `case-j`. -/
theorem caseKey_eq (j : Nat) :
    "Match-" ++ "match-2" ++ "-Case-" ++ ("case-" ++ toString j) = caseKey j := by
  unfold caseKey
  apply String.ext
  simp [String.data_append]

/-- The dispatch of the signal at which a branch ends: the collecting chunk forwards the value
under the result key and emits its own trigger. -/
theorem end_emits (cs : List (Val × (Val → Val))) (he : Option (Val → Val)) (eid : String)
    (scope : BlockData) (fuel : Nat) (key m : String) (x : Val) (k i : Nat)
    (hl : targetHandlers (matchHandlers cs he) .event key
      = [⟨.event, key, "handler-" ++ toString i, (collectChunk k).Call⟩]) :
    Emits (Steady eid scope) (Execution.EmitWithMarks (matchHandlers cs he) eid (fuel + 2)) key x [m]
      [("Match-match-2-Result", x), (collectTrigger k, .nil)] :=
  emit_one _ eid scope (fuel + 1) key x [m] _ _ (fun _ => True) .nil hl
    (call_spec _ (collectChunk k) _ _ _ [] _ _
      (collect_returns eid scope _ key m x []
        (emit_none _ eid scope fuel _ x [] (lookup_unheard cs he 0).1))
      (fun ms _ => emit_none _ eid scope fuel _ .nil ms (lookup_unheard cs he k).2.1))

/-- The dispatch of the key of a branch: the handler of the branch runs, and the signal at
which the branch ends is dispatched with the value it returned. -/
theorem branch_emits (cs : List (Val × (Val → Val))) (he : Option (Val → Val)) (eid : String)
    (scope : BlockData) (fuel : Nat) (key m : String) (v : Val) (f : Val → Val) (j k i : Nat)
    (hl : targetHandlers (matchHandlers cs he) .event key = [toEntry j key (pureHandler f)])
    (hl2 : targetHandlers (matchHandlers cs he) .event (toTrigger j)
      = [⟨.event, toTrigger j, "handler-" ++ toString i, (collectChunk k).Call⟩]) :
    Emits (Steady eid scope) (Execution.EmitWithMarks (matchHandlers cs he) eid (fuel + 3)) key v [m]
      [(toTrigger j, f v), ("Match-match-2-Result", f v), (collectTrigger k, .nil)] :=
  emit_one _ eid scope (fuel + 2) key v [m] _ _ (fun ms => ms = [m]) (f v) hl
    (call_spec _ (toChunk j (pureHandler f)) _ _ [] _ _ _
      (pure_returns _ f _ ⟨key, .event, v, eid, [m]⟩)
      (fun ms hms => by
        rw [hms]
        exact end_emits cs he eid scope fuel (toTrigger j) m (f v) k i hl2))

/-- The conditions of `matchFirstFlow` on an input equal to the literal of one case, the
literals being pairwise different: the condition of that case holds and no other. -/
theorem judge_hit (pre post : List (Val × (Val → Val))) (c : Val) (f : Val → Val) (v : Val)
    (hdis : (pre ++ (c, f) :: post).Pairwise (fun a b => goEq a.1 b.1 = some false))
    (hv : goEq c v = some true) :
    ∀ x ∈ caseConds 4 (pre ++ (c, f) :: post), ∀ d : EventData, d.Value = v →
      judgement x.2 d = some (decide (x.1 = "case-" ++ toString (4 * pre.length + 5))) := by
  have hvc := goEq_true hv
  rw [List.pairwise_append] at hdis
  obtain ⟨_, h2, h3⟩ := hdis
  rw [List.pairwise_cons] at h2
  intro x hx d hd
  rw [caseConds_append] at hx
  simp only [caseConds, List.mem_append, List.mem_cons] at hx
  rcases hx with h | h | h
  · obtain ⟨j, c2, _, hj, hc2, hxe⟩ := mem_caseConds x pre 4 h
    have hne : ¬ ("case-" ++ toString j = "case-" ++ toString (4 * pre.length + 5)) :=
      id_ne "case-" (by omega)
    rw [hxe]
    simp only [judgement, hd, hne, decide_False]
    rw [hvc]
    exact h3 c2 hc2 (c, f) (List.mem_cons_self _ _)
  · have hJ : 4 + 4 * pre.length + 1 = 4 * pre.length + 5 := by omega
    rw [h, hJ]
    simp only [judgement, hd, decide_True]
    exact hv
  · obtain ⟨j, c2, hj, _, hc2, hxe⟩ := mem_caseConds x post _ h
    have hne : ¬ ("case-" ++ toString j = "case-" ++ toString (4 * pre.length + 5)) :=
      id_ne "case-" (by omega)
    rw [hxe]
    simp only [judgement, hd, hne, decide_False]
    rw [hvc, goEq_comm]
    exact h2.1 c2 hc2

/-- The conditions of `matchFirstFlow` on an input equal to no literal. -/
theorem judge_miss (cs : List (Val × (Val → Val))) (v : Val)
    (hv : ∀ c ∈ cs, goEq c.1 v = some false) :
    ∀ x ∈ caseConds 4 cs, ∀ d : EventData, d.Value = v → judgement x.2 d = some false := by
  intro x hx d hd
  obtain ⟨j, c2, _, _, hc2, hxe⟩ := mem_caseConds x cs 4 hx
  rw [hxe]
  simp only [judgement, hd]
  exact hv c2 hc2

/-- C7: on a new flow, take `When("START").Match("hit_first")` with at least one case, whose
cases are literals that Go compares as pairwise different, each followed by `To(h)` with a
handler that returns `f data.Value`, with or without `CaseElse().To(he)`, closed by `EndMatch`
(few enough cases for the 64-bit ID counter). Start the flow with `v`, with any iteration order
of the cases and fuel of at least 4.
(1) If `v` equals the literal of the case at position `i` (`pre.length`), the run returns and
its log holds, in this order: `START`; the key of case `i` with `v`; the trigger of the chunk
of `f_i` with `f_i v`; the result key of the match with `f_i v`; the triggers of the chunks
that `EndMatch` and `Match` made. So the handler of case `i` ran, no other case handler and
not the else handler, and the one value emitted under the result key is `f_i v`.
(2) If every comparison of a literal with `v` is false and `CaseElse().To(he)` was declared,
the log holds the else key with `v`, the trigger of the chunk of `he` with `he v` and the
result key with `he v`: the else handler alone ran. -/
theorem C7_hit_first (cs : List (Val × (Val → Val))) (he : Option (Val → Val))
    (seeds : Nat → Nat) (v : Val) (fuel : Nat) (hne : cs ≠ [])
    (hdis : cs.Pairwise (fun a b => goEq a.1 b.1 = some false))
    (hb : 6 * cs.length + 9 < 2 ^ 64) :
    (∀ pre c f post, cs = pre ++ (c, f) :: post → goEq c v = some true →
      matchFirstRun cs he seeds (fuel + 4) v
        = .ok [("START", v), (caseKey (4 * pre.length + 5), v),
            (toTrigger (4 * pre.length + 5), f v), ("Match-match-2-Result", f v),
            (collectTrigger (4 + 4 * cs.length + elseIDs he + 2 * pre.length), .nil),
            ("Chunk[match]-chunk-3", .nil)]) ∧
    (∀ f, he = some f → (∀ c ∈ cs, goEq c.1 v = some false) →
      matchFirstRun cs he seeds (fuel + 4) v
        = .ok [("START", v), ("Match-match-2-Else", v), (toTrigger (4 + 4 * cs.length), f v),
            ("Match-match-2-Result", f v),
            (collectTrigger (4 + 4 * cs.length + 3 + 2 * cs.length), .nil),
            ("Chunk[match]-chunk-3", .nil)]) := by
  obtain ⟨chunks, uid, extra, hflow⟩ := matchFirstFlow_spec seeds cs he hne hb
  constructor
  · intro pre c f post hcs hv
    subst hcs
    unfold matchFirstRun
    simp only []
    rw [hflow]
    refine start_spec seeds _ chunks uid _ extra (fuel + 4) v _ (fun eid => ?_)
    have hcase := fun m => branch_emits (pre ++ (c, f) :: post) he eid
      (matchScope (caseConds 4 (pre ++ (c, f) :: post)) (matchEnds (pre ++ (c, f) :: post) he)
        false he.isSome) fuel (caseKey (4 * pre.length + 5)) m v f (4 * pre.length + 5) _ _
      (lookup_case pre post c f he) (lookup_end pre post c f he)
    have hm := matchCase_hit eid
      (matchScope (caseConds 4 (pre ++ (c, f) :: post)) (matchEnds (pre ++ (c, f) :: post) he)
        false he.isSome)
      (Execution.EmitWithMarks (matchHandlers (pre ++ (c, f) :: post) he) eid (fuel + 3)) "START" v
      ("case-" ++ toString (4 * pre.length + 5)) _
      (judge_hit pre post c f v hdis hv)
      ⟨("case-" ++ toString (4 * pre.length + 5), .literal c), by
        have hJ : 4 + 4 * pre.length + 1 = 4 * pre.length + 5 := by omega
        show _ ∈ caseConds 4 (pre ++ (c, f) :: post)
        rw [caseConds_append]
        simp [caseConds, hJ], rfl⟩
      (by
        intro m
        rw [caseKey_eq]
        exact hcase m)
    rw [caseKey_eq] at hm
    exact emit_one _ eid _ (fuel + 3) "START" v [] _ _ _ .nil (lookup_start _ _)
      (call_spec _ matchChunk _ _ _ [] _ _ hm
        (fun ms _ => emit_none _ eid _ (fuel + 2) _ .nil ms (lookup_unheard _ he 0).2.2))
  · intro f hf hv
    subst hf
    unfold matchFirstRun
    simp only []
    rw [hflow]
    refine start_spec seeds _ chunks uid _ extra (fuel + 4) v _ (fun eid => ?_)
    have helse := fun m => branch_emits cs (some f) eid
      (matchScope (caseConds 4 cs) (matchEnds cs (some f)) false (some f).isSome) fuel
      "Match-match-2-Else" m v f (4 + 4 * cs.length) _ _
      (lookup_else cs f) (lookup_else_end cs f)
    have hm := matchCase_else eid
      (matchScope (caseConds 4 cs) (matchEnds cs (some f)) false (some f).isSome)
      (Execution.EmitWithMarks (matchHandlers cs (some f)) eid (fuel + 3)) "START" v _
      (judge_miss cs v hv) rfl helse
    exact emit_one _ eid _ (fuel + 3) "START" v [] _ _ _ .nil (lookup_start _ _)
      (call_spec _ matchChunk _ _ _ [] _ _ hm
        (fun ms _ => emit_none _ eid _ (fuel + 2) _ .nil ms (lookup_unheard _ _ 0).2.2))

/-- C7 at the input of the test `match_hit_first`: cases `"A"` and `"B"` and an else branch;
the input `"B"` gives `"case-b"` under the result key, and the input `"C"` gives
`"case-else"`. -/
theorem C7_hit_first_witness :
    matchFirstRun testCases (some (fun _ => .str "case-else")) inOrder 4 (.str "B")
      = .ok [("START", .str "B"), ("Match-match-2-Case-case-9", .str "B"),
          ("Chunk[chunk-10]-chunk-11", .str "case-b"), ("Match-match-2-Result", .str "case-b"),
          ("Chunk[match_collect]-chunk-18", .nil), ("Chunk[match]-chunk-3", .nil)] ∧
    matchFirstRun testCases (some (fun _ => .str "case-else")) inOrder 4 (.str "C")
      = .ok [("START", .str "C"), ("Match-match-2-Else", .str "C"),
          ("Chunk[chunk-13]-chunk-14", .str "case-else"),
          ("Match-match-2-Result", .str "case-else"),
          ("Chunk[match_collect]-chunk-20", .nil), ("Chunk[match]-chunk-3", .nil)] :=
  ⟨(C7_hit_first testCases (some (fun _ => .str "case-else")) inOrder (.str "B") 0
      (List.cons_ne_nil _ _) (by simp [testCases, goEq]) (by decide)).1
      [(.str "A", fun _ => .str "case-a")] (.str "B") (fun _ => .str "case-b") [] rfl
      (by decide),
    (C7_hit_first testCases (some (fun _ => .str "case-else")) inOrder (.str "C") 0
      (List.cons_ne_nil _ _) (by simp [testCases, goEq]) (by decide)).2
      (fun _ => .str "case-else") rfl (by simp [testCases, goEq])⟩

/-! ## C21: `GetResult` -/

/-- An update of an execution that keeps the result flag keeps `NoResult`. -/
theorem noResult_update {eid : String} {w : World} (hw : NoResult eid w) (a : String)
    (f : Execution → Execution) (hf : ∀ e, (f e).resultSet = e.resultSet) :
    NoResult eid (w.updExecution a f) := by
  intro e he
  by_cases hab : a = eid
  · subst hab
    cases h0 : w.execution a with
    | none =>
      have h1 : mapGet w.executions a = none := h0
      simp [World.updExecution, World.execution, h1] at he
    | some e0 =>
      rw [execution_updExecution w a e0 f h0] at he
      cases he
      rw [hf]
      exact hw e0 h0
  · rw [updExecution_other w a eid f hab] at he
    exact hw e he

/-- Taking a permit sets no result. -/
theorem noResult_acquire {eid : String} {w wa : World} (hw : NoResult eid w) (a : String)
    (h : Execution.acquire a w = some wa) : NoResult eid wa := by
  unfold Execution.acquire at h
  cases he : w.execution a with
  | none =>
    simp [he] at h
    rw [← h]
    exact hw
  | some e =>
    simp only [he] at h
    split at h
    · simp at h
      rw [← h]
      exact hw
    · split at h
      · simp at h
        rw [← h]
        exact noResult_update hw a _ (fun _ => rfl)
      · simp at h

/-- A change of the trigger log or of the oracle sets no result. -/
theorem noResult_frame {eid : String} {w w1 : World} (hw : NoResult eid w)
    (h : w1.executions = w.executions) : NoResult eid w1 := by
  intro e he
  apply hw e
  unfold World.execution at he ⊢
  rw [← h]
  exact he

/-- The goroutines of a dispatch set no result when the handlers set none. -/
theorem runHandlers_sets_none (emit : Emit) (a eid key : String) (value : Val)
    (marks : List String) (ty : TriggerType) (hemit : EmitSetsNone eid emit) :
    ∀ (hs : List Entry) (w : World) r, (∀ h ∈ hs, HandlerSetsNone eid h.handler) →
      NoResult eid w → runHandlers emit a key value marks ty hs w = .ok r → NoResult eid r.1
  | [], w, r, _, hw, h => by
    simp [runHandlers] at h
    rw [← h]
    exact hw
  | x :: hs, w, r, hk, hw, h => by
    unfold runHandlers at h
    cases h1 : runHandler emit a key value marks ty x w with
    | error s => simp [h1] at h
    | ok p =>
      obtain ⟨w1, err⟩ := p
      simp only [h1] at h
      cases h2 : runHandlers emit a key value marks ty hs w1 with
      | error s => simp [h2] at h
      | ok q =>
        obtain ⟨w2, rest⟩ := q
        simp only [h2] at h
        have hw1 : NoResult eid w1 := by
          unfold runHandler at h1
          cases ha : Execution.acquire a w with
          | none => simp [ha] at h1
          | some wa =>
            simp only [ha] at h1
            cases hc : x.handler emit ⟨key, ty, value, a, marks⟩ wa with
            | error s => simp [hc] at h1
            | ok out =>
              simp [hc] at h1
              rw [← h1.1]
              exact noResult_update (hk x (by simp) emit _ wa out hemit (noResult_acquire hw a ha) hc)
                a _ (fun e => by split <;> rfl)
        have ih := runHandlers_sets_none emit a eid key value marks ty hemit hs w1 (w2, rest)
          (fun h hh => hk h (by simp [hh])) hw1 h2
        simp at h
        rw [← h]
        exact ih

/-- A dispatch sets no result when the handlers of the table set none. -/
theorem EmitWithMarks_sets_none (handlers : AllHandlers) (a eid : String)
    (hk : ∀ h ∈ handlers, HandlerSetsNone eid h.handler) :
    ∀ fuel, EmitSetsNone eid (Execution.EmitWithMarks handlers a fuel)
  | 0 => by
    intro key value marks ty w r _ h
    simp [Execution.EmitWithMarks] at h
  | fuel + 1 => by
    intro key value marks ty w r hw h
    have ih := EmitWithMarks_sets_none handlers a eid hk fuel
    have hw1 : NoResult eid (w.updExecution a (fun e => { e with started := true })) :=
      noResult_update hw a _ (fun _ => rfl)
    simp only [Execution.EmitWithMarks] at h
    split at h
    · simp at h
      rw [← h]
      exact noResult_frame hw1 rfl
    · simp only [World.rangeOrder] at h
      split at h
      · simp at h
      · rename_i w4 outcomes h4
        have hsub : ∀ seed, ∀ h ∈ shuffle seed (targetHandlers handlers ty key),
            HandlerSetsNone eid h.handler := by
          intro seed h hh
          have h1 := (shuffle_perm _ _).mem_iff.mp hh
          exact hk h (List.mem_of_mem_filter h1)
        have h5 : NoResult eid w4 := by
          refine runHandlers_sets_none _ a eid key value marks ty ih _ _ (w4, outcomes) (hsub _)
            ?_ h4
          exact noResult_frame hw1 rfl
        split at h <;> (try split at h) <;> simp at h <;> rw [← h] <;> exact h5

/-- `GetResultWithContext` on an execution without a result, with a context that is done. -/
theorem GetResultWithContext_none (eid : String) (c : ContextError) (pick : Bool) (w : World)
    (hw : NoResult eid w) :
    Execution.GetResultWithContext eid (some c) pick w
      = some (.nil, some ⟨"get result timeout/cancelled: " ++ c.Error, c⟩) := by
  cases h0 : w.execution eid with
  | none => simp [Execution.GetResultWithContext, h0, resultTimeoutError]
  | some e => simp [Execution.GetResultWithContext, h0, hw e h0, resultTimeoutError]

/-- C21: `GetResultWithContext` returns a value with a nil error only on an execution whose
flag `resultSet` is up (the flag is false in a new execution, and `SetResult` is the one
method that raises it), and the value is then the stored result. On an execution without a
result, a call whose context is done with `ctx.Err() = c` returns nil with a non-nil error
whose text starts with `get result timeout/cancelled: ` and which unwraps to `c`, never
`(nil, nil)`; while the context is not done the call goes on waiting. A new execution has no
result, and a `Start` that does not wait leaves it without one when no handler of the
execution sets one, so that a later call whose deadline elapses returns the error. -/
theorem C21_get_result (e : ExecRef) (done : Option ContextError) (pick : Bool) (w : World) :
    (∀ v, Execution.GetResultWithContext e.ID done pick w = some (v, none) →
      ∃ x, w.execution e.ID = some x ∧ x.resultSet = true ∧ x.result = v) ∧
    (∀ c, NoResult e.ID w →
      Execution.GetResultWithContext e.ID (some c) pick w
        = some (.nil, some ⟨"get result timeout/cancelled: " ++ c.Error, c⟩)) ∧
    (NoResult e.ID w → Execution.GetResultWithContext e.ID none pick w = none) ∧
    (∀ (f : TriggerFlow) skip cc w0,
      NoResult (f.CreateExecution skip cc w0).1.ID (f.CreateExecution skip cc w0).2) ∧
    (∀ fuel v c, NoResult e.ID w → (∀ h ∈ e.handlers, HandlerSetsNone e.ID h.handler) →
      holdsAfter (Execution.Start e fuel v false w) (fun r =>
        Execution.GetResultWithContext e.ID (some c) pick r.1
          = some (.nil, some ⟨"get result timeout/cancelled: " ++ c.Error, c⟩))) := by
  refine ⟨?_, ?_, ?_, ?_, ?_⟩
  · intro v h
    cases h0 : w.execution e.ID with
    | none => cases done <;> simp [Execution.GetResultWithContext, h0] at h
    | some x =>
      cases hr : x.resultSet with
      | false => cases done <;> simp [Execution.GetResultWithContext, h0, hr] at h
      | true =>
        refine ⟨x, rfl, hr, ?_⟩
        cases done with
        | none =>
          simp [Execution.GetResultWithContext, h0, hr] at h
          exact h
        | some c =>
          cases pick <;> simp [Execution.GetResultWithContext, h0, hr] at h
          exact h
  · intro c hw
    exact GetResultWithContext_none e.ID c pick w hw
  · intro hw
    cases h0 : w.execution e.ID with
    | none => simp [Execution.GetResultWithContext, h0]
    | some x => simp [Execution.GetResultWithContext, h0, hw x h0]
  · intro f skip cc w0 x hx
    simp [TriggerFlow.CreateExecution, NewExecution, World.execution, mapGet_mapSet_self] at hx
    rw [← hx]
  · intro fuel v c hw hk
    have hE := EmitWithMarks_sets_none e.handlers e.ID e.ID hk fuel "START" v [] .event w
    unfold holdsAfter
    split
    · rename_i r hr
      unfold Execution.Start at hr
      cases h1 : Execution.EmitWithMarks e.handlers e.ID fuel "START" v [] .event w with
      | error s => simp [h1] at hr
      | ok p =>
        obtain ⟨w1, err⟩ := p
        have h2 := hE (w1, err) hw h1
        cases err with
        | some x =>
          simp [h1] at hr
          rw [← hr]
          exact GetResultWithContext_none e.ID c pick w1 h2
        | none =>
          simp [h1] at hr
          rw [← hr]
          exact GetResultWithContext_none e.ID c pick w1 h2
    · trivial

/-- C21 at the input of the test `set_result_override_and_timeout`: an execution of a flow
without handlers, started with nil without waiting, and a context whose deadline elapses. -/
theorem C21_get_result_witness :
    returned (Execution.Start timeoutExecution.1 4 .nil false timeoutExecution.2)
      = .ok (.nil, none) ∧
    holdsAfter (Execution.Start timeoutExecution.1 4 .nil false timeoutExecution.2) (fun r =>
      Execution.GetResultWithContext timeoutExecution.1.ID (some .deadlineExceeded) true r.1
        = some (.nil, some ⟨"get result timeout/cancelled: "
            ++ ContextError.Error .deadlineExceeded, .deadlineExceeded⟩)) :=
  ⟨by decide!,
    (C21_get_result timeoutExecution.1 none true timeoutExecution.2).2.2.2.2 4 .nil
      .deadlineExceeded
      ((C21_get_result timeoutExecution.1 none true timeoutExecution.2).2.2.2.1 _ none none _)
      (by
        intro h hh
        have e : timeoutExecution.1.handlers = [] := rfl
        rw [e] at hh
        cases hh)⟩

/-! ## C22: the runtime stream -/

/-- Writing back the value a key holds changes nothing. -/
theorem mapSet_same {β : Type} (m : List (String × β)) (k : String) (v : β)
    (h : mapGet m k = some v) : mapSet m k v = m := by
  induction m with
  | nil => simp [mapGet] at h
  | cons x xs ih =>
    obtain ⟨a, b⟩ := x
    by_cases hk : a = k
    · simp [mapGet, hk] at h
      simp [mapSet, hk, h]
    · simp [mapGet, hk] at h
      simp [mapSet, hk, ih h]

/-- The second of two writes of a key wins. -/
theorem mapSet_mapSet {β : Type} (m : List (String × β)) (k : String) (a b : β) :
    mapSet (mapSet m k a) k b = mapSet m k b := by
  induction m with
  | nil => simp [mapSet]
  | cons x xs ih =>
    obtain ⟨c, d⟩ := x
    by_cases hk : c = k
    · simp [mapSet, hk]
    · simp [mapSet, hk, ih]

/-- What a handler that puts the values `xs` into the stream does to the queue: it appends
them when they fit into the 256 slots, and blocks for ever otherwise. -/
theorem putAll_spec (eid : String) : ∀ (xs : List Val) (w : World),
    putAll eid xs w = match mapGet w.executions eid with
      | none => .ok w
      | some e =>
        if e.runtimeQueue.length + xs.length ≤ 256 ∨ xs = [] then
          .ok (w.updExecution eid (fun e => { e with runtimeQueue := e.runtimeQueue ++ xs }))
        else .error .deadlock
  | [], w => by
    cases h : mapGet w.executions eid with
    | none => simp [putAll]
    | some e => simp [putAll, World.updExecution, h, mapSet_same _ _ _ h]
  | x :: xs, w => by
    cases h : mapGet w.executions eid with
    | none => simp [putAll, Execution.PutIntoStream, World.execution, h, putAll_spec eid xs w]
    | some e =>
      by_cases hl : e.runtimeQueue.length < 256
      · simp [putAll, Execution.PutIntoStream, World.execution, World.updExecution, h, hl,
          putAll_spec eid xs, mapGet_mapSet_self, mapSet_mapSet]
        by_cases h2 : e.runtimeQueue.length + 1 + xs.length ≤ 256
        · have h3 : e.runtimeQueue.length + (xs.length + 1) ≤ 256 := by omega
          simp [h2, h3]
        · have h3 : ¬ (e.runtimeQueue.length + (xs.length + 1) ≤ 256) := by omega
          have h4 : xs = [] → False := by
            intro h5
            subst h5
            simp at h2
            omega
          simp [h2, h3]
          intro h5
          exact absurd h5 h4
      · have h3 : ¬ (e.runtimeQueue.length + (xs.length + 1) ≤ 256) := by omega
        simp [putAll, Execution.PutIntoStream, World.execution, h, hl, h3]

/-- Putting two lists one after the other. -/
theorem putAll_append (eid : String) : ∀ (xs ys : List Val) (w : World),
    putAll eid (xs ++ ys) w = match putAll eid xs w with
      | .error s => .error s
      | .ok w1 => putAll eid ys w1
  | [], ys, w => by simp [putAll]
  | x :: xs, ys, w => by
    simp only [List.cons_append, putAll]
    cases h : Execution.PutIntoStream eid x w with
    | error s => rfl
    | ok p => simp [putAll_append eid xs ys]

/-- The handler `streamHandler` makes its sends in one sequence. -/
theorem streamHandler_eq (xs after : List Val) (emit : Emit) (data : EventData) (w : World) :
    streamHandler xs after emit data w
      = match putAll data.ExecutionID (xs ++ .streamStop :: after) w with
        | .error s => .error s
        | .ok w3 => .ok { world := w3, marks := data.layerMarks, value := .str "done",
                          err := none } := by
  rw [putAll_append]
  simp only [streamHandler, Execution.StopStream, putAll]
  cases h1 : putAll data.ExecutionID xs w with
  | error s => rfl
  | ok w1 =>
    simp only
    cases h2 : Execution.PutIntoStream data.ExecutionID .streamStop w1 with
    | error s => rfl
    | ok p => rfl

/-- The receive loop stops at the first stop sentinel. -/
theorem receiveLoop_stop (after : List Val) : ∀ xs : List Val,
    (receiveLoop (xs ++ .streamStop :: after)).1 = xs.takeWhile (fun x => !x.isStreamStop)
  | [] => by simp [receiveLoop, Val.isStreamStop]
  | x :: xs => by
    by_cases h : x.isStreamStop = true
    · simp [receiveLoop, h]
    · simp [receiveLoop, h, receiveLoop_stop after xs]

/-- The stream of `streamFlow` with the handler `streamHandler xs after`, for every iteration
order and every fuel of at least 3. -/
theorem streamRun_spec (xs after : List Val) (seeds : Nat → Nat) (fuel : Nat) :
    streamRun xs after seeds (fuel + 3)
      = if xs.length + 1 + after.length ≤ 256 then
          .ok (xs.takeWhile (fun x => !x.isStreamStop))
        else .error .deadlock := by
  by_cases hl : xs.length + 1 + after.length ≤ 256
  · have h3 : xs.length + (after.length + 1) ≤ 256 := by omega
    simp [streamRun, streamFlow, TriggerFlow.GetRuntimeStream, Execution.consumeRuntimeStream,
      New, NewBluePrint, nextID, NewBlockData, World.init, Process.When,
      Process.To, Process.End, Process.clone, TriggerFlow.Chunk, NewChunk, Sys.setChunk,
      BluePrint.AddHandler, insertEntry, mapSet, mapGet,
      TriggerFlow.CreateExecution, NewExecution, BluePrint.SnapshotHandlers, Execution.Start,
      Execution.EmitWithMarks, targetHandlers, World.rangeOrder, shuffle, runHandlers, runHandler,
      Execution.acquire, Execution.release, World.execution, World.updExecution, Chunk.Call,
      streamHandler_eq, putAll_spec, setDefaultResult, Execution.SetResult,
      toString_lits, RuntimeData.Set, setByDotPath, Except.map, errCh, emptyBlock, hl, h3,
      receiveLoop_stop]
  · have h3 : ¬ (xs.length + (after.length + 1) ≤ 256) := by omega
    simp [streamRun, streamFlow, TriggerFlow.GetRuntimeStream, Execution.consumeRuntimeStream,
      New, NewBluePrint, nextID, NewBlockData, World.init, Process.When,
      Process.To, Process.End, Process.clone, TriggerFlow.Chunk, NewChunk, Sys.setChunk,
      BluePrint.AddHandler, insertEntry, mapSet, mapGet,
      TriggerFlow.CreateExecution, NewExecution, BluePrint.SnapshotHandlers, Execution.Start,
      Execution.EmitWithMarks, targetHandlers, World.rangeOrder, shuffle, runHandlers, runHandler,
      Execution.acquire, Execution.release, World.execution, World.updExecution, Chunk.Call,
      streamHandler_eq, putAll_spec, setDefaultResult, Execution.SetResult,
      toString_lits, RuntimeData.Set, setByDotPath, Except.map, errCh, emptyBlock, hl, h3]

/-- C22 (code defect): in the flow of the test `runtime_stream_put_stop`, with a START
handler that puts the values `xs` into the stream, calls `StopStream` and then puts the
values `after`, for every iteration order and every fuel of at least 3: when the handler
makes at most 256 sends, the goroutine of `consumeRuntimeStream` hands on the values of `xs`
in order (up to a stop sentinel among them) and nothing of `after`, and closes its channel;
when the handler makes more than 256 sends, it blocks for ever in a send on the full queue,
which is read only after `Start` has returned: `Start` never returns and nothing is
delivered. So `"one"`, `"two"`, stop gives `["one", "two"]`, and 256 values before the stop
give nothing. -/
theorem C22_runtime_stream (xs after : List Val) (seeds : Nat → Nat) (fuel : Nat) :
    streamRun xs after seeds (fuel + 3)
      = (if xs.length + 1 + after.length ≤ 256 then
          .ok (xs.takeWhile (fun x => !x.isStreamStop))
        else .error .deadlock) ∧
    streamRun [.str "one", .str "two"] [.str "late"] seeds (fuel + 3)
      = .ok [.str "one", .str "two"] ∧
    streamRun (List.replicate 256 (.str "x")) [] seeds (fuel + 3) = .error .deadlock := by
  refine ⟨streamRun_spec xs after seeds fuel, ?_, ?_⟩
  · rw [streamRun_spec]
    simp [Val.isStreamStop]
  · rw [streamRun_spec, if_neg]
    simp only [List.length_replicate, List.length_nil]
    omega

/-! ## C23: generated IDs and chunk triggers -/

/-- What follows the last hyphen of a string is read off in one way only. -/
theorem last_hyphen (x y da db : List Char) (ha : '-' ∉ da) (hb : '-' ∉ db)
    (h : x ++ '-' :: da = y ++ '-' :: db) : da = db := by
  have h1 := congrArg List.reverse h
  simp only [List.reverse_append, List.reverse_cons, List.append_assoc, List.singleton_append]
    at h1
  have h2 := (split_unique '-' da.reverse db.reverse x.reverse y.reverse
    (by simpa using ha) (by simpa using hb) h1).1
  simpa using congrArg List.reverse h2

/-- Strings that end in a hyphen and the decimal strings of different numbers differ. -/
theorem numbered_ne (x y : String) {a b : Nat} (h : a ≠ b) :
    x ++ "-" ++ toString a ≠ y ++ "-" ++ toString b := by
  intro e
  have h1 := congrArg String.data e
  simp only [String.data_append, List.append_assoc] at h1
  simp only [List.singleton_append] at h1
  exact h (toString_inj (String.ext (last_hyphen _ _ _ _ (toString_digits _ _ (by decide))
    (toString_digits _ _ (by decide)) h1)))

/-- The ID and the trigger of a chunk made by `NewChunk` end in the number the ID counter has
reached, which is higher than before the call. -/
theorem NewChunk_shape (h : Option Handler) (n : String) (w : World) :
    ∃ name k, (NewChunk h n w).1.ID = "chunk" ++ "-" ++ toString k ∧
      (NewChunk h n w).1.Trigger = ("Chunk[" ++ name ++ "]-" ++ "chunk") ++ "-" ++ toString k ∧
      (NewChunk h n w).2.uidCounter = k ∧ (w.uidCounter + 2 < 2 ^ 64 → w.uidCounter < k) := by
  have hc : ¬ ("chunk" = "") := by decide
  by_cases hn : n = ""
  · refine ⟨"chunk" ++ "-" ++ toString ((w.uidCounter + 1) % 2 ^ 64),
      ((w.uidCounter + 1) % 2 ^ 64 + 1) % 2 ^ 64, ?_, ?_, ?_, ?_⟩
    · simp only [NewChunk, nextID, hn, if_true, hc, if_false]
    · simp only [NewChunk, nextID, hn, if_true, hc, if_false, String.append_assoc]
    · simp only [NewChunk, nextID, hn, if_true, hc, if_false]
    · intro hb
      rw [Nat.mod_eq_of_lt (by omega : w.uidCounter + 1 < 2 ^ 64),
        Nat.mod_eq_of_lt (by omega : w.uidCounter + 1 + 1 < 2 ^ 64)]
      omega
  · refine ⟨n, (w.uidCounter + 1) % 2 ^ 64, ?_, ?_, ?_, ?_⟩
    · simp only [NewChunk, nextID, hn, if_false, hc]
    · simp only [NewChunk, nextID, hn, if_false, hc, String.append_assoc]
    · simp only [NewChunk, nextID, hn, if_false, hc]
    · intro hb
      rw [Nat.mod_eq_of_lt (by omega : w.uidCounter + 1 < 2 ^ 64)]
      omega

/-- C23: (1) a call of `nextID` made after another call of `nextID`, in any later state of
the counter and with any two strings as prefixes, returns a different string, as long as the
64-bit counter does not wrap. (2) A chunk that `NewChunk` creates after another chunk, with
any two names (equal, empty, or holding pieces of a trigger key), has a different ID and a
different `Trigger` key. -/
theorem C23_ids_are_unique (p q n1 n2 : String) (h1 h2 : Option Handler) (w1 w2 : World) :
    ((nextID p w1).2.uidCounter ≤ w2.uidCounter → w2.uidCounter + 1 < 2 ^ 64 →
      (nextID p w1).1 ≠ (nextID q w2).1) ∧
    ((NewChunk h1 n1 w1).2.uidCounter ≤ w2.uidCounter → w2.uidCounter + 2 < 2 ^ 64 →
      (NewChunk h1 n1 w1).1.ID ≠ (NewChunk h2 n2 w2).1.ID ∧
      (NewChunk h1 n1 w1).1.Trigger ≠ (NewChunk h2 n2 w2).1.Trigger) := by
  constructor
  · intro hle hb
    have e2 : (w2.uidCounter + 1) % 2 ^ 64 = w2.uidCounter + 1 := Nat.mod_eq_of_lt hb
    simp only [nextID] at hle ⊢
    rw [e2]
    exact numbered_ne _ _ (by omega)
  · intro hle hb
    obtain ⟨name1, k1, hi1, ht1, hc1, _⟩ := NewChunk_shape h1 n1 w1
    obtain ⟨name2, k2, hi2, ht2, _, hk2⟩ := NewChunk_shape h2 n2 w2
    have hk := hk2 hb
    rw [hc1] at hle
    rw [hi1, hi2, ht1, ht2]
    exact ⟨numbered_ne _ _ (by omega), numbered_ne _ _ (by omega)⟩

/-- C23 at a concrete input: two chunks with the same name, the first made on a new program
state and the second right after it, and two IDs with different prefixes. -/
theorem C23_ids_are_unique_witness :
    (nextID "a-1" (World.init inOrder)).1 ≠ (nextID "a" (nextID "a-1" (World.init inOrder)).2).1 ∧
    (NewChunk none "x]-chunk-2" (World.init inOrder)).1.Trigger
      ≠ (NewChunk none "x]-chunk-2" (NewChunk none "x]-chunk-2" (World.init inOrder)).2).1.Trigger :=
  ⟨(C23_ids_are_unique "a-1" "a" "" "" none none (World.init inOrder)
      (nextID "a-1" (World.init inOrder)).2).1 (le_refl _) (by decide),
    ((C23_ids_are_unique "" "" "x]-chunk-2" "x]-chunk-2" none none (World.init inOrder)
      (NewChunk none "x]-chunk-2" (World.init inOrder)).2).2 (le_refl _) (by decide)).2⟩

/-! ## C24: `Chunk.Call` -/

/-- A dispatch on a key nobody listens to marks the execution as started, writes the signal
to the trigger log and returns nil. -/
theorem emit_unheard_eq (handlers : AllHandlers) (eid : String) (fuel : Nat) (key : String)
    (value : Val) (marks : List String) (ty : TriggerType) (w : World)
    (h : targetHandlers handlers ty key = []) :
    Execution.EmitWithMarks handlers eid (fuel + 1) key value marks ty w
      = .ok ({ (w.updExecution eid (fun e => { e with started := true })) with
          trace := (w.updExecution eid (fun e => { e with started := true })).trace
            ++ [⟨ty, key, value, marks⟩] }, none) := by
  simp only [Execution.EmitWithMarks, h, List.isEmpty_nil, if_true]

/-- A dispatch on a key nobody listens to adds one signal to the trigger log. -/
theorem emit_unheard (handlers : AllHandlers) (eid : String) (fuel : Nat) (key : String)
    (value : Val) (marks : List String) (ty : TriggerType) (w : World)
    (h : targetHandlers handlers ty key = []) :
    ∃ w1, Execution.EmitWithMarks handlers eid (fuel + 1) key value marks ty w = .ok (w1, none) ∧
      w1.trace = w.trace ++ [⟨ty, key, value, marks⟩] :=
  ⟨_, emit_unheard_eq handlers eid fuel key value marks ty w h,
    by simp [(updExecution_frame w eid _).2]⟩

/-- C24 counterexample: a chunk whose handler calls `data.LayerIn()`, called on an
`EventData` with the mark stack `["m"]`, emits its signal with the stack `["m", "layer-2"]`
that the handler left, not with the stack of the invocation. -/
theorem C24_counterexample :
    outcome ((soloChunk (layerInHandler (.str "r"))).1.Call (logEmit "e")
        ⟨"START", .event, .nil, "e", ["m"]⟩ (soloChunk (layerInHandler (.str "r"))).2)
      = .ok ([⟨.event, "Chunk[c]-chunk-1", .str "r", ["m", "layer-2"]⟩], .str "r", none) := by
  decide!

/-- C24, amended: `Chunk.Call` is one call of the wrapped handler on the `EventData` and
state it was given, followed, when the handler returned a nil error, by one call of
`EmitWithMarks`; this holds for every dispatcher `emit`, whatever listens on the chunk's
trigger. When the handler does not return, neither does `Call`. When the handler returns an
error, `Call` returns nil with that error and leaves the state, trigger log included, as the
handler left it: no signal is emitted. When the handler returns `r` with a nil error, `Call`
dispatches one signal of type `event` under `c.Trigger` carrying `r` and the mark stack the
`EventData` holds when the handler returns (the stack of the invocation for a handler that
leaves the marks alone), and when that dispatch returns, with or without an error of a
listener, `Call` returns `r` with a nil error. With the dispatcher of an execution, for
every handler table: the dispatch writes exactly one signal to the trigger log, right after
what the handler wrote, and then calls the listeners on `c.Trigger`, if there are any, in the
state with that one new log entry. -/
theorem C24_call_emits_once (c : Chunk) (emit : Emit) (handlers : AllHandlers) (eid : String)
    (fuel : Nat) (data : EventData) (w : World) :
    (∀ s, c.handler emit data w = .error s → c.Call emit data w = .error s) ∧
    (∀ out err, c.handler emit data w = .ok out → out.err = some err →
      c.Call emit data w
        = .ok { world := out.world, marks := out.marks, value := .nil, err := some err }) ∧
    (∀ out, c.handler emit data w = .ok out → out.err = none →
      c.Call emit data w
        = (emit c.Trigger out.value out.marks .event out.world).map
            (fun r => { world := r.1, marks := out.marks, value := out.value, err := none })) ∧
    (∀ out w2 r, c.handler emit data w = .ok out → out.err = none →
      emit c.Trigger out.value out.marks .event out.world = .ok (w2, r) →
      c.Call emit data w
        = .ok { world := w2, marks := out.marks, value := out.value, err := none }) ∧
    (∀ out, c.handler (Execution.EmitWithMarks handlers eid (fuel + 1)) data w = .ok out →
      out.err = none →
      (out.world.logged eid ⟨.event, c.Trigger, out.value, out.marks⟩).trace
        = out.world.trace ++ [⟨.event, c.Trigger, out.value, out.marks⟩] ∧
      (out.marks = data.layerMarks →
        (out.world.logged eid ⟨.event, c.Trigger, out.value, out.marks⟩).trace
          = out.world.trace ++ [⟨.event, c.Trigger, out.value, data.layerMarks⟩]) ∧
      c.Call (Execution.EmitWithMarks handlers eid (fuel + 1)) data w
        = if (targetHandlers handlers .event c.Trigger).isEmpty then
            .ok { world := out.world.logged eid ⟨.event, c.Trigger, out.value, out.marks⟩,
                  marks := out.marks, value := out.value, err := none }
          else
            (runHandlers (Execution.EmitWithMarks handlers eid fuel) eid c.Trigger out.value
                out.marks .event
                (shuffle ((out.world.logged eid ⟨.event, c.Trigger, out.value, out.marks⟩).seeds
                    (out.world.logged eid ⟨.event, c.Trigger, out.value, out.marks⟩).tick)
                  (targetHandlers handlers .event c.Trigger))
                { out.world.logged eid ⟨.event, c.Trigger, out.value, out.marks⟩ with
                  tick := (out.world.logged eid
                    ⟨.event, c.Trigger, out.value, out.marks⟩).tick + 1 }).map
              (fun r => { world := r.1, marks := out.marks, value := out.value,
                          err := none })) := by
  have h3 : ∀ (em : Emit) out, c.handler em data w = .ok out → out.err = none →
      c.Call em data w
        = (em c.Trigger out.value out.marks .event out.world).map
            (fun r => { world := r.1, marks := out.marks, value := out.value, err := none }) := by
    intro em out h he
    simp only [Chunk.Call, h, he]
    cases em c.Trigger out.value out.marks .event out.world with
    | error s => rfl
    | ok p => rfl
  refine ⟨?_, ?_, h3 emit, ?_, ?_⟩
  · intro s h
    simp only [Chunk.Call, h]
  · intro out err h he
    simp only [Chunk.Call, h, he]
  · intro out w2 r h he hr
    rw [h3 emit out h he, hr]
    rfl
  · intro out h he
    refine ⟨?_, ?_, ?_⟩
    · simp [World.logged, (updExecution_frame _ eid _).2]
    · intro hm
      simp [World.logged, (updExecution_frame _ eid _).2, hm]
    · rw [h3 _ out h he]
      simp only [Execution.EmitWithMarks, World.rangeOrder, World.logged]
      split
      · rfl
      · cases runHandlers (Execution.EmitWithMarks handlers eid fuel) eid c.Trigger out.value
          out.marks .event _ _ with
        | error s => rfl
        | ok p =>
          obtain ⟨w4, outcomes⟩ := p
          cases hx : w4.execution eid with
          | none => simp [Except.map, hx]
          | some e => cases hs : e.skipExceptions <;> simp [Except.map, hx, hs]

/-- C24 at a concrete input: a chunk whose handler doubles its input, called on the value 2
with the mark stack `["m"]`, in an execution in which the one listener on the chunk's
trigger returns the error `boom`: the dispatch returns `boom`, `Call` returns 4 with a nil
error, and the log holds the one signal. -/
theorem C24_call_emits_once_witness :
    (soloChunk (pureHandler double)).1.Call (failingListener (pureHandler double))
        ⟨"START", .event, .int 2, "e", ["m"]⟩ (soloChunk (pureHandler double)).2
      = ((failingListener (pureHandler double)) (soloChunk (pureHandler double)).1.Trigger
          (.int 4) ["m"] .event (soloChunk (pureHandler double)).2).map
          (fun r => { world := r.1, marks := ["m"], value := .int 4, err := none }) ∧
    ((failingListener (pureHandler double)) (soloChunk (pureHandler double)).1.Trigger
        (.int 4) ["m"] .event (soloChunk (pureHandler double)).2).map (fun r => r.2)
      = .ok (some (.handler "boom")) ∧
    outcome ((soloChunk (pureHandler double)).1.Call (failingListener (pureHandler double))
        ⟨"START", .event, .int 2, "e", ["m"]⟩ (soloChunk (pureHandler double)).2)
      = .ok ([⟨.event, "Chunk[c]-chunk-1", .int 4, ["m"]⟩], .int 4, none) :=
  ⟨(C24_call_emits_once (soloChunk (pureHandler double)).1
      (failingListener (pureHandler double)) [] "e" 0 ⟨"START", .event, .int 2, "e", ["m"]⟩
      (soloChunk (pureHandler double)).2).2.2.1
      { world := (soloChunk (pureHandler double)).2, marks := ["m"], value := .int 4,
        err := none } rfl rfl,
    by decide!, by decide!⟩

/-! ## C25: the mark stack at the for-each end -/

/-- One round of `sendItems`, in an execution in which nobody listens on the send key: it
blocks on the permit, or it returns nil and has written one signal to the trigger log, the
item with one mark pushed on the stack it was given. -/
theorem sendItem_marks (handlers : AllHandlers) (eid : String) (fuel : Nat)
    (fid key : String) (c : Int) (marks : List String) (item : Val) (w : World)
    (hq : targetHandlers handlers .event key = []) :
    sendItem (Execution.EmitWithMarks handlers eid (fuel + 1)) eid fid key c marks item w
        = .error .deadlock ∨
    ∃ w1, sendItem (Execution.EmitWithMarks handlers eid (fuel + 1)) eid fid key c marks item w
        = .ok (w1, none) ∧
      w1.trace = w.trace ++ [⟨.event, key, item, marks ++ [(nextID "layer" w).1]⟩] := by
  simp only [sendItem, LayerIn]
  by_cases hc : c > 0
  · simp only [hc, if_true]
    cases ha : acquire fid c.toNat (World.setSystemData { w with uidCounter := (nextID "layer" w).2.uidCounter } eid
        (RuntimeData.Set (World.systemData { w with uidCounter := (nextID "layer" w).2.uidCounter } eid)
          ("for_each_results." ++ LayerMark marks ++ "." ++ LayerMark (marks ++ [(nextID "layer" w).1]))
          .marker)) with
    | none =>
      left
      simp only [nextID] at ha ⊢
      simp only [ha]
    | some w3 =>
      right
      obtain ⟨w4, h4, h5⟩ := emit_unheard handlers eid fuel key item
        (marks ++ [(nextID "layer" w).1]) .event w3 hq
      refine ⟨release fid w4, ?_, ?_⟩
      · simp only [nextID] at ha h4 ⊢
        simp only [ha, h4]
      · simp only [acquire] at ha
        split at ha
        · simp at ha
          simp only [release, h5, ← ha, World.setSystemData, (updExecution_frame _ eid _).2]
        · simp at ha
  · right
    simp only [hc, if_false]
    obtain ⟨w4, h4, h5⟩ := emit_unheard handlers eid fuel key item
      (marks ++ [(nextID "layer" w).1]) .event
      (World.setSystemData { w with uidCounter := (nextID "layer" w).2.uidCounter } eid
        (RuntimeData.Set (World.systemData { w with uidCounter := (nextID "layer" w).2.uidCounter } eid)
          ("for_each_results." ++ LayerMark marks ++ "." ++ LayerMark (marks ++ [(nextID "layer" w).1]))
          .marker)) hq
    refine ⟨w4, ?_, ?_⟩
    · simp only [nextID] at h4 ⊢
      exact h4
    · rw [h5]
      simp only [World.setSystemData, (updExecution_frame _ eid _).2]

/-- The loop of `sendItems`, in an execution in which nobody listens on the send key: it
blocks on a permit, or it returns nil and has written one signal per item to the trigger
log, in order, each with one mark pushed on the stack the loop was given. -/
theorem sendList_marks (handlers : AllHandlers) (eid : String) (fuel : Nat)
    (fid key : String) (c : Int) (marks : List String)
    (hq : targetHandlers handlers .event key = []) : ∀ (items : List Val) (w : World),
    sendList (Execution.EmitWithMarks handlers eid (fuel + 1)) eid fid key c marks items w
        = .error .deadlock ∨
    ∃ w1 added, sendList (Execution.EmitWithMarks handlers eid (fuel + 1)) eid fid key c marks
          items w = .ok (w1, none) ∧
      w1.trace = w.trace ++ added ∧
      added.map (fun sig => (sig.triggerType, sig.triggerEvent, sig.value))
        = items.map (fun item => (TriggerType.event, key, item)) ∧
      ∀ sig ∈ added, ∃ itemID, sig.marks = marks ++ [itemID]
  | [], w => by
    right
    exact ⟨w, [], rfl, by simp, by simp, by simp⟩
  | item :: rest, w => by
    simp only [sendList]
    rcases sendItem_marks handlers eid fuel fid key c marks item w hq with h | ⟨w1, h1, h2⟩
    · left
      simp only [h]
    · simp only [h1]
      rcases sendList_marks handlers eid fuel fid key c marks hq rest w1 with h | ⟨w2, added, h3, h4, h5, h6⟩
      · left
        exact h
      · right
        refine ⟨w2, ⟨.event, key, item, marks ++ [(nextID "layer" w).1]⟩ :: added, h3, ?_, ?_, ?_⟩
        · rw [h4, h2]
          simp
        · simp [h5]
        · intro sig hs
          rcases List.mem_cons.mp hs with h | h
          · exact ⟨_, by rw [h]⟩
          · exact h6 sig h

/-- C25: the handlers that `ForEach` and `EndForEach` register, on any mark stack `ms`, so at
any nesting depth. Called on a signal with the stack `ms` and a list payload, `sendItems`
(when it is not blocked on a permit) emits the items in order under the send key, each with
the stack `ms` followed by the loop mark and one item mark. Called on a signal that still
has that shape, `ms` followed by two marks, `collectResults` returns, and the one signal it
may emit under the end key carries exactly `ms`: both marks pushed by `ForEach` are removed
and no mark of `ms` is. (The dispatch is that of an execution in which nobody listens on the
key, so that the log shows the signals of the handler alone.) In a for-each inside a
for-each, started with `[[1, 2], [3]]`, the signals entering the inner for-each carry an
outer loop mark and item mark, and so does every signal at the inner for-each end; the
signals at the outer for-each end carry the empty stack of `START`. -/
theorem C25_for_each_marks (handlers : AllHandlers) (eid : String) (fuel : Nat)
    (fid sendKey endKey : String) (c : Int) (ms : List String) (w : World) :
    (∀ items ev ty, targetHandlers handlers .event sendKey = [] →
      sendItems fid sendKey c (Execution.EmitWithMarks handlers eid (fuel + 1))
          ⟨ev, ty, .list items, eid, ms⟩ w = .error .deadlock ∨
      ∃ out added, sendItems fid sendKey c (Execution.EmitWithMarks handlers eid (fuel + 1))
            ⟨ev, ty, .list items, eid, ms⟩ w = .ok out ∧
        out.err = none ∧ out.world.trace = w.trace ++ added ∧
        added.map (fun sig => (sig.triggerType, sig.triggerEvent, sig.value))
          = items.map (fun item => (TriggerType.event, sendKey, item)) ∧
        ∀ sig ∈ added, ∃ itemID, sig.marks = ms ++ [(nextID "layer" w).1, itemID]) ∧
    (∀ ev ty v loopID itemID, targetHandlers handlers .event endKey = [] →
      ∃ out, collectResults endKey (Execution.EmitWithMarks handlers eid (fuel + 1))
            ⟨ev, ty, v, eid, ms ++ [loopID, itemID]⟩ w = .ok out ∧
        (out.world.trace = w.trace ∨
          ∃ vs, out.world.trace = w.trace ++ [⟨.event, endKey, .list vs, ms⟩])) ∧
    (traceOf ((nestedForEachFlow double (World.init inOrder)).flow.Start 7
          (.list [.list [.int 1, .int 2], .list [.int 3]]) true none
          (nestedForEachFlow double (World.init inOrder)).world)).map
        (marksOf ["START", "ForEach-foreach-2-Send", "ForEach-foreach-5-End",
          "ForEach-foreach-2-End"])
      = .ok [("START", []),
          ("ForEach-foreach-2-Send", ["layer-18", "layer-19"]),
          ("ForEach-foreach-5-End", ["layer-18", "layer-19"]),
          ("ForEach-foreach-2-End", []),
          ("ForEach-foreach-5-End", ["layer-18", "layer-19"]),
          ("ForEach-foreach-2-Send", ["layer-18", "layer-23"]),
          ("ForEach-foreach-5-End", ["layer-18", "layer-23"]),
          ("ForEach-foreach-2-End", [])] := by
  refine ⟨?_, ?_, by decide!⟩
  · intro items ev ty hq
    simp only [sendItems, LayerIn]
    rcases sendList_marks handlers eid fuel fid sendKey c (ms ++ [(nextID "layer" w).1]) hq
      items
      (nextID "layer" w).2 with h | ⟨w1, added, h1, h2, h3, h4⟩
    · left
      simp only [nextID] at h ⊢
      simp only [h]
    · right
      refine ⟨⟨w1, ms ++ [(nextID "layer" w).1], .nil, none⟩, added, ?_, rfl, ?_, h3, ?_⟩
      · simp only [nextID] at h1 ⊢
        simp only [h1]
      · rw [h2]
        rfl
      · intro sig hs
        obtain ⟨i, hi⟩ := h4 sig hs
        exact ⟨i, by rw [hi]; simp⟩
  · intro ev ty v loopID itemID hq
    have hm : LayerOut (LayerOut (ms ++ [loopID, itemID])) = ms := by
      simp [LayerOut, List.dropLast_concat, ← List.append_assoc]
    simp only [collectResults, hm]
    split
    · exact ⟨_, rfl, Or.inl rfl⟩
    · split
      · exact ⟨_, rfl, Or.inl rfl⟩
      · split
        · refine ⟨_, rfl, Or.inl ?_⟩
          simp only [World.setSystemData, (updExecution_frame _ eid _).2]
        · simp only [World.rangeOrder, emit_unheard_eq _ _ _ _ _ _ _ _ hq]
          refine ⟨_, rfl, Or.inr ?_⟩
          simp only [World.setSystemData, (updExecution_frame _ eid _).2]
          exact ⟨_, rfl⟩

/-- C25 at a concrete input: `sendItems` on the list `[1, 2]` with the stack `["m"]`, and
`collectResults` on the result 7 of the one item `layer-4` of the for-each instance
`layer-3`, entered with the stack `["m"]`. -/
theorem C25_for_each_marks_witness :
    (sendItems "foreach-2" "ForEach-foreach-2-Send" 0 (Execution.EmitWithMarks [] "execution-2" 1)
          ⟨"START", .event, .list [.int 1, .int 2], "execution-2", ["m"]⟩ pendingItem.2
        = .error .deadlock ∨
      ∃ out added, sendItems "foreach-2" "ForEach-foreach-2-Send" 0
            (Execution.EmitWithMarks [] "execution-2" 1)
            ⟨"START", .event, .list [.int 1, .int 2], "execution-2", ["m"]⟩ pendingItem.2 = .ok out ∧
        out.err = none ∧ out.world.trace = pendingItem.2.trace ++ added ∧
        added.map (fun sig => (sig.triggerType, sig.triggerEvent, sig.value))
          = [Val.int 1, Val.int 2].map (fun item => (TriggerType.event, "ForEach-foreach-2-Send", item)) ∧
        ∀ sig ∈ added, ∃ itemID, sig.marks = ["m"] ++ [(nextID "layer" pendingItem.2).1, itemID]) ∧
    (∃ out, collectResults "ForEach-foreach-2-End" (Execution.EmitWithMarks [] "execution-2" 1)
          ⟨"k", .event, .int 7, "execution-2", ["m"] ++ ["layer-3", "layer-4"]⟩ pendingItem.2
          = .ok out ∧
        (out.world.trace = pendingItem.2.trace ∨
          ∃ vs, out.world.trace = pendingItem.2.trace
            ++ [⟨.event, "ForEach-foreach-2-End", .list vs, ["m"]⟩])) ∧
    outcome (collectResults "ForEach-foreach-2-End" (logEmit "execution-2")
        ⟨"k", .event, .int 7, "execution-2", ["m", "layer-3", "layer-4"]⟩ pendingItem.2)
      = .ok ([⟨.event, "ForEach-foreach-2-End", .list [.int 7], ["m"]⟩], .nil, none) :=
  ⟨(C25_for_each_marks [] "execution-2" 0 "foreach-2" "ForEach-foreach-2-Send"
      "ForEach-foreach-2-End" 0 ["m"] pendingItem.2).1 [.int 1, .int 2] "START" .event rfl,
    (C25_for_each_marks [] "execution-2" 0 "foreach-2" "ForEach-foreach-2-Send"
      "ForEach-foreach-2-End" 0 ["m"] pendingItem.2).2.1 "k" .event (.int 7) "layer-3" "layer-4"
      rfl,
    by decide!⟩

/-! ## C26: the mark stack of the match result -/

/-- The loop of `matchCase` when no case matches. -/
theorem matchLoop_no_hit (emit : Emit) (mode matchID : String) (data : EventData)
    (marks : List String) : ∀ (cases : List (String × CaseCond)) (n : Nat) (w : World),
    (∀ c ∈ cases, judgement c.2 { data with layerMarks := marks } = some false) →
    matchLoop emit mode matchID data marks cases n w = .ok (w, n, none)
  | [], n, w, _ => rfl
  | (caseID, cond) :: rest, n, w, h => by
    have h1 := h (caseID, cond) (by simp)
    simp only at h1
    simp only [matchLoop, h1]
    exact matchLoop_no_hit emit mode matchID data marks rest n w
      (fun c hc => h c (by simp [hc]))

/-- C26 (code defect): the match result does not always carry the stack of the signal that
entered `Match`. For every stack `ms`: when no case matches and no `CaseElse` is declared,
`matchCase` emits the result under `Match-<id>-Result` with `ms` followed by the mark it has
pushed itself; and `collectBranchResult`, called at the end of a `hit_all` branch (where the
stack is `ms` followed by the match mark and the branch mark), emits the result, when it
emits, with `ms` followed by the match mark. (The dispatch is that of an execution in which
nobody listens on the result key.) In the flows: in mode `hit_first` the input `"A"` that
matches a case gives a result with the empty stack of `START`, the input `"C"` that matches
nothing a result with the stack `["layer-20"]`; in mode `hit_all` the results carry
`["layer-20"]`; and in a for-each body, an item that matches nothing (or any item in mode
`hit_all`) reaches `EndForEach` with three marks, the for-each end is never emitted and the
result is never set. -/
theorem C26_match_result_marks (handlers : AllHandlers) (eid : String) (fuel : Nat)
    (mode matchID : String) (matchBlock : Nat) (ms : List String) (w : World) :
    (∀ ev ty v, targetHandlers handlers .event ("Match-" ++ matchID ++ "-Result") = [] →
      (∀ c ∈ (w.block matchBlock).cases, ∀ marks,
        judgement c.2 ⟨ev, ty, v, eid, marks⟩ = some false) →
      (w.block matchBlock).has_else ≠ some true →
      ∃ out, matchCase mode matchID matchBlock (Execution.EmitWithMarks handlers eid (fuel + 1))
            ⟨ev, ty, v, eid, ms⟩ w = .ok out ∧
        out.err = none ∧
        out.world.trace = w.trace
          ++ [⟨.event, "Match-" ++ matchID ++ "-Result", v, ms ++ [(nextID "layer" w).1]⟩]) ∧
    (∀ ev ty v matchMark branchMark,
      targetHandlers handlers .event ("Match-" ++ matchID ++ "-Result") = [] →
      ∃ out, collectBranchResult matchID (Execution.EmitWithMarks handlers eid (fuel + 1))
            ⟨ev, ty, v, eid, ms ++ [matchMark, branchMark]⟩ w = .ok out ∧
        (out.world.trace = w.trace ∨
          ∃ r, out.world.trace = w.trace
            ++ [⟨.event, "Match-" ++ matchID ++ "-Result", r, ms ++ [matchMark]⟩])) ∧
    (traceOf (matchFirstDemo.flow.Start 8 (.str "A") true none matchFirstDemo.world)).map
        (marksOf ["START", "Match-match-2-Result"])
      = .ok [("START", []), ("Match-match-2-Result", [])] ∧
    (traceOf (matchFirstDemo.flow.Start 8 (.str "C") true none matchFirstDemo.world)).map
        (marksOf ["START", "Match-match-2-Result"])
      = .ok [("START", []), ("Match-match-2-Result", ["layer-20"])] ∧
    (traceOf (matchAllDemo.flow.Start 8 (.int 2) true none matchAllDemo.world)).map
        (marksOf ["START", "Match-match-2-Result"])
      = .ok [("START", []), ("Match-match-2-Result", ["layer-20"]),
          ("Match-match-2-Result", ["layer-20"])] ∧
    (traceOf (matchInForEachDemo.flow.Start 8 (.list [.int 1]) true none
          matchInForEachDemo.world)).map
        (marksOf ["ForEach-foreach-2-Send", "Match-match-5-Result", "ForEach-foreach-2-End"])
      = .ok [("ForEach-foreach-2-Send", ["layer-19", "layer-20"]),
          ("Match-match-5-Result", ["layer-19", "layer-20"]), ("ForEach-foreach-2-End", [])] ∧
    (traceOf (matchInForEachDemo.flow.Start 8 (.list [.int 2]) true none
          matchInForEachDemo.world)).map
        (marksOf ["ForEach-foreach-2-Send", "Match-match-5-Result", "ForEach-foreach-2-End"])
      = .ok [("ForEach-foreach-2-Send", ["layer-19", "layer-20"]),
          ("Match-match-5-Result", ["layer-19", "layer-20", "layer-21"])] ∧
    returned (matchInForEachDemo.flow.Start 8 (.list [.int 2]) true none
        matchInForEachDemo.world) = .ok (.nil, some .resultTimeout) ∧
    (traceOf (matchAllInForEachDemo.flow.Start 8 (.list [.int 1]) true none
          matchAllInForEachDemo.world)).map
        (marksOf ["ForEach-foreach-2-Send", "Match-match-5-Result", "ForEach-foreach-2-End"])
      = .ok [("ForEach-foreach-2-Send", ["layer-19", "layer-20"]),
          ("Match-match-5-Result", ["layer-19", "layer-20", "layer-21"])] ∧
    returned (matchAllInForEachDemo.flow.Start 8 (.list [.int 1]) true none
        matchAllInForEachDemo.world) = .ok (.nil, some .resultTimeout) := by
  refine ⟨?_, ?_, by decide!, by decide!, by decide!, by decide!, by decide!, by decide!,
    by decide!, by decide!⟩
  · intro ev ty v hq hc he
    have hl : matchLoop (Execution.EmitWithMarks handlers eid (fuel + 1)) mode matchID
        ⟨ev, ty, v, eid, ms⟩ (ms ++ [(nextID "layer" w).1])
        (shuffle (w.seeds w.tick) (w.block matchBlock).cases) 0
        { w with uidCounter := (nextID "layer" w).2.uidCounter, tick := w.tick + 1 }
        = .ok ({ w with uidCounter := (nextID "layer" w).2.uidCounter, tick := w.tick + 1 }, 0, none) :=
      matchLoop_no_hit _ mode matchID _ _ _ 0 _ (fun c hcm =>
        hc c ((shuffle_perm _ _).mem_iff.mp hcm) _)
    have he2 : ((if (w.block matchBlock).has_else = some true then "Match-" ++ matchID ++ "-Else"
        else "Match-" ++ matchID ++ "-Result") = "Match-" ++ matchID ++ "-Result") := by
      simp [he]
    simp only [nextID] at hl
    simp only [matchCase, LayerIn, World.rangeOrder, nextID, World.block] at he2 ⊢
    simp only [World.block] at hl
    simp only [hl, he2, if_true, emit_unheard_eq _ _ _ _ _ _ _ _ hq]
    refine ⟨_, rfl, rfl, ?_⟩
    simp only [(updExecution_frame _ eid _).2]
  · intro ev ty v matchMark branchMark hq
    have hm : LayerOut (ms ++ [matchMark, branchMark]) = ms ++ [matchMark] := by
      simp [LayerOut, List.dropLast_concat, ← List.append_assoc]
    simp only [collectBranchResult, hm]
    split
    · split
      · refine ⟨_, rfl, Or.inl ?_⟩
        simp only [World.setSystemData, (updExecution_frame _ eid _).2]
      · simp only [World.rangeOrder, emit_unheard_eq _ _ _ _ _ _ _ _ hq]
        refine ⟨_, rfl, Or.inr ?_⟩
        simp only [World.setSystemData, (updExecution_frame _ eid _).2]
        exact ⟨_, rfl⟩
    · simp only [emit_unheard_eq _ _ _ _ _ _ _ _ hq]
      refine ⟨_, rfl, Or.inr ?_⟩
      simp only [(updExecution_frame _ eid _).2]
      exact ⟨_, rfl⟩

/-- C26 at a concrete input: a match with the literal cases `"A"` and `"B"` and no else,
entered with the value `"C"` and the stack `["m"]`; and the end of a `hit_all` branch with
the stack `["m", "layer-1", "layer-2"]`. -/
theorem C26_match_result_marks_witness :
    (∃ out, matchCase "hit_first" "match-2" 0 (Execution.EmitWithMarks [] "e" 1)
          ⟨"START", .event, .str "C", "e", ["m"]⟩ twoCaseScope = .ok out ∧
        out.err = none ∧
        out.world.trace = twoCaseScope.trace
          ++ [⟨.event, "Match-" ++ "match-2" ++ "-Result", .str "C",
              ["m"] ++ [(nextID "layer" twoCaseScope).1]⟩]) ∧
    (∃ out, collectBranchResult "match-2" (Execution.EmitWithMarks [] "e" 1)
          ⟨"k", .event, .str "r", "e", ["m"] ++ ["layer-1", "layer-2"]⟩ twoCaseScope = .ok out ∧
        (out.world.trace = twoCaseScope.trace ∨
          ∃ r, out.world.trace = twoCaseScope.trace
            ++ [⟨.event, "Match-" ++ "match-2" ++ "-Result", r, ["m"] ++ ["layer-1"]⟩])) :=
  ⟨(C26_match_result_marks [] "e" 0 "hit_first" "match-2" 0 ["m"] twoCaseScope).1
      "START" .event (.str "C") rfl
      (by
        intro c hc marks
        have e : (twoCaseScope.block 0).cases
            = [("case-5", .literal (.str "A")), ("case-9", .literal (.str "B"))] := rfl
        rw [e] at hc
        simp only [List.mem_cons, List.mem_singleton, List.not_mem_nil, or_false] at hc
        rcases hc with h | h <;> rw [h] <;> rfl)
      (by decide),
    (C26_match_result_marks [] "e" 0 "hit_first" "match-2" 0 ["m"] twoCaseScope).2.1
      "k" .event (.str "r") "layer-1" "layer-2" rfl⟩

/-! ## C27: the concurrency limit of an execution -/

set_option maxHeartbeats 1600000 in
/-- The chain of two handlers in an execution with `m` permits (`0` for no limit). -/
theorem chain_with_permits (seeds : Nat → Nat) (f1 f2 : Val → Val) (v : Val) (fuel : Nat)
    (c : Int) (m : Nat) (hm : (if c > 0 then c.toNat else 0) = m) :
    returned ((chainFlow false (pureHandler f1) (pureHandler f2) (World.init seeds)).flow.Start
        (fuel + 4) v true (some c)
        (chainFlow false (pureHandler f1) (pureHandler f2) (World.init seeds)).world)
      = if m = 1 ∨ m = 2 then .error .deadlock else .ok (f2 (f1 v), none) := by
  simp only [TriggerFlow.Start, TriggerFlow.CreateExecution, NewExecution, Option.getD, hm]
  clear hm
  rcases m with _ | _ | _ | m
  · simp [chainFlow, New, NewBluePrint, nextID, NewBlockData, World.init, Process.When,
      Process.To, Process.End, Process.clone, TriggerFlow.Chunk, NewChunk, Sys.setChunk,
      BluePrint.AddHandler, insertEntry, mapSet, mapGet,
      BluePrint.SnapshotHandlers, Execution.Start,
      Execution.EmitWithMarks, targetHandlers, World.rangeOrder, shuffle, runHandlers, runHandler,
      Execution.acquire, Execution.release, World.execution, World.updExecution, Chunk.Call,
      pureHandler, setDefaultResult, Execution.SetResult, Execution.GetResult, returned,
      toString_lits, RuntimeData.Set, setByDotPath, Except.map, errCh, emptyBlock]
  · simp [chainFlow, New, NewBluePrint, nextID, NewBlockData, World.init, Process.When,
      Process.To, Process.End, Process.clone, TriggerFlow.Chunk, NewChunk, Sys.setChunk,
      BluePrint.AddHandler, insertEntry, mapSet, mapGet,
      BluePrint.SnapshotHandlers, Execution.Start,
      Execution.EmitWithMarks, targetHandlers, World.rangeOrder, shuffle, runHandlers, runHandler,
      Execution.acquire, Execution.release, World.execution, World.updExecution, Chunk.Call,
      pureHandler, setDefaultResult, Execution.SetResult, Execution.GetResult, returned,
      toString_lits, RuntimeData.Set, setByDotPath, Except.map, errCh, emptyBlock]
  · simp [chainFlow, New, NewBluePrint, nextID, NewBlockData, World.init, Process.When,
      Process.To, Process.End, Process.clone, TriggerFlow.Chunk, NewChunk, Sys.setChunk,
      BluePrint.AddHandler, insertEntry, mapSet, mapGet,
      BluePrint.SnapshotHandlers, Execution.Start,
      Execution.EmitWithMarks, targetHandlers, World.rangeOrder, shuffle, runHandlers, runHandler,
      Execution.acquire, Execution.release, World.execution, World.updExecution, Chunk.Call,
      pureHandler, setDefaultResult, Execution.SetResult, Execution.GetResult, returned,
      toString_lits, RuntimeData.Set, setByDotPath, Except.map, errCh, emptyBlock]
  · generalize hs : m + 1 + 1 + 1 = s
    have h0 : ¬ (s = 0) := by omega
    have h1 : 0 < s := by omega
    have h2 : 1 < s := by omega
    have h3 : 2 < s := by omega
    have h4 : ¬ (s = 1) := by omega
    have h5 : ¬ (s = 2) := by omega
    simp [chainFlow, New, NewBluePrint, nextID, NewBlockData, World.init, Process.When,
      Process.To, Process.End, Process.clone, TriggerFlow.Chunk, NewChunk, Sys.setChunk,
      BluePrint.AddHandler, insertEntry, mapSet, mapGet,
      BluePrint.SnapshotHandlers, Execution.Start,
      Execution.EmitWithMarks, targetHandlers, World.rangeOrder, shuffle, runHandlers, runHandler,
      Execution.acquire, Execution.release, World.execution, World.updExecution, Chunk.Call,
      pureHandler, setDefaultResult, Execution.SetResult, Execution.GetResult, returned,
      toString_lits, RuntimeData.Set, setByDotPath, Except.map, errCh, emptyBlock,
      h0, h1, h2, h3, h4, h5]

/-- C27 (code defect): the flow `When("START").To(h1).To(h2).End()` with handlers that
return `f1 x` and `f2 x`, started with any value `v`, any iteration order, any fuel of at
least 4 and the concurrency limit `c` (the option `WithRunConcurrency(c)`, which `Start`
hands to `CreateExecution`). The goroutine of a handler keeps its permit while the dispatch
it starts runs, so the chain needs three permits at once: with the limit 1 or 2 the goroutine
of a later handler waits for ever for a permit and `Start` never returns; with a limit of at
least 3, or without a limit (`c <= 0`), `Start` returns `f2 (f1 v)`. -/
theorem C27_permit_held_across_dispatch (seeds : Nat → Nat) (f1 f2 : Val → Val) (v : Val)
    (fuel : Nat) (c : Int) :
    returned ((chainFlow false (pureHandler f1) (pureHandler f2) (World.init seeds)).flow.Start
        (fuel + 4) v true (some c)
        (chainFlow false (pureHandler f1) (pureHandler f2) (World.init seeds)).world)
      = if c = 1 ∨ c = 2 then .error .deadlock else .ok (f2 (f1 v), none) := by
  have key : ((if c > 0 then c.toNat else 0) = 1 ∨ (if c > 0 then c.toNat else 0) = 2)
      ↔ (c = 1 ∨ c = 2) := by
    split <;> omega
  rw [chain_with_permits seeds f1 f2 v fuel c _ rfl]
  simp only [key]

/-! ## C28: a match nested in a branch of a match -/

/-- A list without the character `c` that is a prefix of `y ++ c :: r` is a prefix of `y`. -/
theorem prefix_before (c : Char) : ∀ (x y r : List Char), c ∉ x → x <+: y ++ c :: r → x <+: y
  | [], y, _, _, _ => List.nil_prefix
  | a :: x, [], r, hx, h => by
    simp only [List.nil_append, List.cons_prefix_cons] at h
    exact absurd (by simp [h.1]) hx
  | a :: x, b :: y, r, hx, h => by
    simp only [List.cons_append, List.cons_prefix_cons] at h ⊢
    exact ⟨h.1, prefix_before c x y r (fun hm => hx (by simp [hm])) h.2⟩

/-- The prefix test of `Case`, `CaseElse` and `EndMatch`, for the match whose ID was made
when the counter was at `w1`, on the result key of the match whose ID was made when the
counter was at `w2`: the test succeeds exactly when the decimal number of the first ID is a
prefix of the decimal number of the second. -/
theorem own_key_iff (w1 w2 : World) :
    stringsHasPrefix ("Match-" ++ (nextID "match" w2).1 ++ "-Result")
        ("Match-" ++ (nextID "match" w1).1) = true
      ↔ (toString ((w1.uidCounter + 1) % 2 ^ 64)).data
          <+: (toString ((w2.uidCounter + 1) % 2 ^ 64)).data := by
  have hc : ¬ ("match" = "") := by decide
  simp only [stringsHasPrefix, nextID, hc, if_false, List.isPrefixOf_iff_prefix,
    String.data_append, List.append_assoc, List.prefix_append_right_inj]
  constructor
  · intro h
    exact prefix_before '-' _ _ _ (toString_digits _ _ (by decide)) h
  · intro h
    exact h.trans (List.prefix_append _ _)

/-- C28 (code defect): the prefix test `stringsHasPrefix(key, "Match-" + id)` takes the
result key of the match `b` for a key of the match `a` whenever the decimal number of `a` is
a prefix of that of `b`, as for `match-2` and `match-20`. In the flow with a match nested in
the first branch of the match `match-2` after five steps, the inner match is `match-20`; the
outer `Case` that follows the inner `EndMatch` does not record `Match-match-20-Result` in
`branch_ends`, so with the input `"A"` the inner result is emitted and nothing listens to it:
the outer result is never emitted and the result of the flow is never set. In the same flow
with one step before the inner match, that match is `match-9`, its result key is recorded,
and the result is `"inner-a"`. -/
theorem C28_nested_match_prefix (w1 w2 : World) :
    (stringsHasPrefix ("Match-" ++ (nextID "match" w2).1 ++ "-Result")
        ("Match-" ++ (nextID "match" w1).1) = true
      ↔ (toString ((w1.uidCounter + 1) % 2 ^ 64)).data
          <+: (toString ((w2.uidCounter + 1) % 2 ^ 64)).data) ∧
    stringsHasPrefix "Match-match-20-Result" ("Match-" ++ "match-2") = true ∧
    nestedMatchDemo.world.blocks.map (fun b => (b.match_id, b.branch_ends))
      = [(none, []), (none, []), (some "match-2", ["Chunk[chunk-30]-chunk-31"]),
          (some "match-20", ["Chunk[chunk-24]-chunk-25"]), (none, []), (none, [])] ∧
    (traceOf (nestedMatchDemo.flow.Start 16 (.str "A") true none nestedMatchDemo.world)).map
        matchKeys
      = .ok ["Match-match-2-Case-case-5", "Match-match-20-Case-case-23",
          "Match-match-20-Result"] ∧
    returned (nestedMatchDemo.flow.Start 16 (.str "A") true none nestedMatchDemo.world)
      = .ok (.nil, some .resultTimeout) ∧
    nestedMatchControl.world.blocks.map (fun b => (b.match_id, b.branch_ends))
      = [(none, []), (none, []),
          (some "match-2", ["Match-match-9-Result", "Chunk[chunk-19]-chunk-20"]),
          (some "match-9", ["Chunk[chunk-13]-chunk-14"]), (none, []), (none, []), (none, [])] ∧
    (traceOf (nestedMatchControl.flow.Start 16 (.str "A") true none
        nestedMatchControl.world)).map matchKeys
      = .ok ["Match-match-2-Case-case-5", "Match-match-9-Case-case-12", "Match-match-9-Result",
          "Match-match-2-Result"] ∧
    returned (nestedMatchControl.flow.Start 16 (.str "A") true none nestedMatchControl.world)
      = .ok (.str "inner-a", none) :=
  ⟨own_key_iff w1 w2, by decide, by decide!, by decide!, by decide!, by decide!, by decide!,
    by decide!⟩

/-! ## C29: the key of a chunk in the directory -/

/-- A string that starts with a non-empty string is not empty. -/
theorem append_ne_empty (p x : String) (h : p ≠ "") : ¬ (p ++ x = "") := by
  intro e
  have h1 := congrArg String.data e
  rw [String.data_append] at h1
  exact h (String.ext (List.append_eq_nil.1 h1).1)

/-- C29 (code defect): `TriggerFlow.Chunk` stores a chunk made from a bare handler, or from a
value of an unsupported type, under the chunk's own generated name; a chunk made from the
pair `NamedChunk{Name: "", Handler: h}` (the pair `To` builds for a handler given without a
name) or from the empty string gets a generated name too, but is stored under the key `""`:
the entry under its own name is whatever the directory held before. In
`When("START").To(h1).To(h2).End()` the directory therefore holds one entry for the two
unnamed chunks, under `""`, for the chunk named `chunk-5`. -/
theorem C29_anonymous_chunk_key (s : Sys) (h : Handler) :
    (mapGet (TriggerFlow.Chunk (.handler h) s).2.flow.bluePrint.Chunks
        (TriggerFlow.Chunk (.handler h) s).1.Name = some (TriggerFlow.Chunk (.handler h) s).1 ∧
      mapGet (TriggerFlow.Chunk .other s).2.flow.bluePrint.Chunks
        (TriggerFlow.Chunk .other s).1.Name = some (TriggerFlow.Chunk .other s).1) ∧
    ((TriggerFlow.Chunk (.named "" h) s).1.Name ≠ "" ∧
      mapGet (TriggerFlow.Chunk (.named "" h) s).2.flow.bluePrint.Chunks ""
        = some (TriggerFlow.Chunk (.named "" h) s).1 ∧
      mapGet (TriggerFlow.Chunk (.named "" h) s).2.flow.bluePrint.Chunks
          (TriggerFlow.Chunk (.named "" h) s).1.Name
        = mapGet s.flow.bluePrint.Chunks (TriggerFlow.Chunk (.named "" h) s).1.Name) ∧
    ((TriggerFlow.Chunk (.name "") s).1.Name ≠ "" ∧
      mapGet (TriggerFlow.Chunk (.name "") s).2.flow.bluePrint.Chunks ""
        = some (TriggerFlow.Chunk (.name "") s).1) ∧
    chunkNames (chainFlow false (pureHandler double) (pureHandler double) (World.init inOrder))
      = [("", "chunk-5"), ("end", "end")] := by
  have hne : ∀ x : String, ¬ ("chunk-" ++ x = "") := fun x => append_ne_empty _ x (by decide)
  have hnh : ∀ x : String, ¬ ("chunk_handler-" ++ x = "") := fun x =>
    append_ne_empty _ x (by decide)
  have hne2 : ∀ x : String, ¬ ("" = "chunk-" ++ x) := fun x e => hne x e.symm
  refine ⟨⟨?_, ?_⟩, ⟨?_, ?_, ?_⟩, ⟨?_, ?_⟩, ?_⟩
  · simp +decide [TriggerFlow.Chunk, NewChunk, nextID, Sys.setChunk, mapGet_mapSet_self, hnh]
  · simp +decide [TriggerFlow.Chunk, NewChunk, nextID, Sys.setChunk, mapGet_mapSet_self, hne]
  · simp +decide [TriggerFlow.Chunk, NewChunk, nextID, hne]
  · simp +decide [TriggerFlow.Chunk, NewChunk, nextID, Sys.setChunk, mapGet_mapSet_self]
  · simp +decide [TriggerFlow.Chunk, NewChunk, nextID, Sys.setChunk, mapGet_mapSet, hne2]
  · simp +decide [TriggerFlow.Chunk, NewChunk, nextID, hne]
  · simp +decide [TriggerFlow.Chunk, NewChunk, nextID, Sys.setChunk, mapGet_mapSet_self]
  · decide

/-! ## C30: `Batch` without a target that resolves to a chunk -/

/-- The loop of `Batch` over targets that resolve to no chunk changes nothing. -/
theorem batchRegister_unresolved (p : Process) (key : String) (c : Int) (s : Sys) :
    ∀ names : List (Option String), batchRegister p key c (unresolved names) s = s
  | [] => rfl
  | some _ :: rest => by
    simp only [unresolved, batchRegister]
    exact batchRegister_unresolved p key c s rest
  | none :: rest => by
    simp only [unresolved, batchRegister]
    exact batchRegister_unresolved p key c s rest

/-- C30 (code defect): `Batch` with targets of which none resolves to a chunk (strings, values
of unsupported types, or no target at all) registers no handler, but it still takes an ID and
returns a process that waits for the batch signal `batch-<id>` of type `event`, not the
receiver's signal (it returns the receiver's signal only with the option `SideBranch`). No
handler ever emits that batch signal: in `When("START").Batch([]).To(capture)`, started with
`"x"`, `capture` never runs and no result is set. -/
theorem C30_batch_without_targets (p : Process) (names : List (Option String)) (s : Sys) :
    (p.Batch (unresolved names) {} s).2.flow = s.flow ∧
    (p.Batch (unresolved names) {} s).1
      = ⟨(nextID "batch" s.world).1, .event, p.blockData⟩ ∧
    (p.Batch (unresolved names) { SideBranch := true } s).1
      = ⟨p.triggerEvent, p.triggerType, p.blockData⟩ ∧
    (traceOf ((emptyBatchFlow [] (World.init inOrder)).flow.Start 8 (.str "x") true none
        (emptyBatchFlow [] (World.init inOrder)).world)).map
          (fun t => t.map (fun sig => sig.triggerEvent)) = .ok ["START"] ∧
    returned ((emptyBatchFlow [some "a", none] (World.init inOrder)).flow.Start 8 (.str "x") true
        none (emptyBatchFlow [some "a", none] (World.init inOrder)).world)
      = .ok (.nil, some .resultTimeout) := by
  refine ⟨?_, ?_, ?_, ?_, ?_⟩
  · simp [Process.Batch, batchRegister_unresolved]
  · simp [Process.Batch, batchRegister_unresolved, Process.clone]
  · simp [Process.Batch, batchRegister_unresolved, Process.clone]
  · decide!
  · decide!

end TriggerFlow
